import Mathlib

/-!
# Direct task submitter (ray/core_worker/transport/direct_task_transport.cc)

A shallow embedding of `CoreWorkerDirectTaskSubmitter`.  The C++ member maps become
association lists, every member function becomes a function on `Submitter`, a failed
`RAY_CHECK` is `none`, and the continuations handed to the RPC layer are recorded as
contexts (the captured variables of the lambda) that a later reply event consumes.
-/

namespace Ray

/-! ## Association lists standing for `absl::flat_hash_map` -/

namespace Assoc

variable {α : Type} {β : Type} [DecidableEq α]

/-- Value stored under `k`, as `map.find(k)`. -/
def lookup (k : α) : List (α × β) → Option β
  | [] => none
  | (k', v) :: rest => if k' = k then some v else lookup k rest

/-- Store `v` under `k`, replacing the value of an existing key. -/
def update (k : α) (v : β) : List (α × β) → List (α × β)
  | [] => [(k, v)]
  | (k', v') :: rest => if k' = k then (k, v) :: rest else (k', v') :: update k v rest

/-- Store `v` under `k` unless the key is present, as `map.emplace(k, v)`; with the default
value for `v` it is the insertion `map[k]` performs. -/
def emplace (k : α) (v : β) (m : List (α × β)) : List (α × β) :=
  match lookup k m with
  | some _ => m
  | none => update k v m

/-- Remove the key `k`, as `map.erase(k)`. -/
def remove (k : α) : List (α × β) → List (α × β)
  | [] => []
  | (k', v') :: rest => if k' = k then remove k rest else (k', v') :: remove k rest

end Assoc

/-! ## Identifiers and messages -/

abbrev TaskID := Nat
abbrev ObjectID := Nat
abbrev NodeID := Nat
abbrev WorkerID := Nat
abbrev ActorID := Nat
abbrev SchedulingClass := Nat
abbrev Resources := List (Nat × Nat)

/-- The nil actor id, `ActorID::Nil()`. -/
def ActorID.Nil : ActorID := 0

/-- A worker address (`rpc::WorkerAddress`, and its protobuf form `rpc::Address`).
The binary `raylet_id` string is a number and `0` is the empty string. -/
structure WorkerAddress where
  ip_address : Nat
  port : Nat
  worker_id : WorkerID
  raylet_id : NodeID
deriving DecidableEq

/-- The default-constructed `rpc::Address`. -/
def WorkerAddress.empty : WorkerAddress := ⟨0, 0, 0, 0⟩

/-- The fields of a `TaskSpecification` that the submitter reads. -/
structure TaskSpecification where
  task_id : TaskID
  scheduling_class : SchedulingClass
  dependency_ids : List ObjectID
  is_actor_creation_task : Bool
  actor_creation_id : ActorID
  runtime_env_hash : Nat
  is_actor_task : Bool
  retry_exceptions : Bool
deriving DecidableEq

/-- The default-constructed `TaskSpecification()`. -/
def TaskSpecification.empty : TaskSpecification := ⟨0, 0, [], false, 0, 0, false, false⟩

/-- The scheduling key tuple (scheduling class, dependency ids, actor creation id,
runtime env hash). -/
structure SchedulingKey where
  scheduling_class : SchedulingClass
  dependency_ids : List ObjectID
  actor_creation_id : ActorID
  runtime_env_hash : Nat
deriving DecidableEq

/-- The key built at lines 72-76 and 758-761. -/
def TaskSpecification.schedulingKey (t : TaskSpecification) : SchedulingKey :=
  ⟨t.scheduling_class, t.dependency_ids,
    if t.is_actor_creation_task then t.actor_creation_id else ActorID.Nil,
    t.runtime_env_hash⟩

/-- A lease client handle: the local raylet's client or the cached client of a remote
raylet.  Equality is the pointer equality of the `shared_ptr`s. -/
inductive LeaseClient where
  | local_client
  | remote_client (raylet_id : NodeID)
deriving DecidableEq

inductive WorkerType where
  | WORKER
  | DRIVER
deriving DecidableEq

inductive ErrorType where
  | DEPENDENCY_RESOLUTION_FAILED
  | ACTOR_CREATION_FAILED
  | TASK_CANCELLED
  | RUNTIME_ENV_SETUP_FAILED
  | ACTOR_PLACEMENT_GROUP_REMOVED
  | TASK_PLACEMENT_GROUP_REMOVED
  | LOCAL_RAYLET_DIED
  | ACTOR_DIED
  | WORKER_DIED
deriving DecidableEq

inductive SchedulingFailureType where
  | OTHER
  | SCHEDULING_CANCELLED_RUNTIME_ENV_SETUP_FAILED
  | SCHEDULING_CANCELLED_PLACEMENT_GROUP_REMOVED
deriving DecidableEq

/-- The status of an RPC or of a public call. -/
inductive Status where
  | OK
  | GrpcUnavailable
  | IOError
  | Invalid
deriving DecidableEq

def Status.ok (st : Status) : Bool := decide (st = Status.OK)

def Status.IsGrpcUnavailable (st : Status) : Bool := decide (st = Status.GrpcUnavailable)

structure RequestWorkerLeaseReply where
  canceled : Bool
  failure_type : SchedulingFailureType
  rejected : Bool
  worker_address : WorkerAddress
  retry_at_raylet_address : WorkerAddress
  resource_mapping : Resources
deriving DecidableEq

structure PushTaskReply where
  worker_exiting : Bool
  task_stolen : Bool
  is_application_level_error : Bool
deriving DecidableEq

/-! ## Lease entries and scheduling key entries -/

/-- Modelled from the spec: `LeaseEntry` is declared in direct_task_transport.h, which is
not among the sources.  Its fields are those of the spec's data model; a default
constructed entry (what `operator[]` inserts) has a null lease client, no tasks in flight
and is not stealing. -/
structure LeaseEntry where
  lease_client : Option LeaseClient
  lease_expiration_time : Nat
  assigned_resources : Resources
  scheduling_key : SchedulingKey
  tasks_in_flight : Nat
  is_stealing : Bool
deriving DecidableEq

def LeaseEntry.empty : LeaseEntry := ⟨none, 0, [], ⟨0, [], 0, 0⟩, 0, false⟩

/-- Modelled from the spec: the pipeline is not full while
`tasks_in_flight < max_tasks_in_flight_per_worker` (the header is missing). -/
def LeaseEntry.PipelineToWorkerFull (l : LeaseEntry) (max_tasks_in_flight_per_worker : Nat) :
    Bool :=
  !decide (l.tasks_in_flight < max_tasks_in_flight_per_worker)

/-- Modelled from the spec: the `is_stealing` flag (the header is missing). -/
def LeaseEntry.WorkerIsStealing (l : LeaseEntry) : Bool := l.is_stealing

/-- Modelled from the spec: `SchedulingKeyEntry` is declared in direct_task_transport.h,
which is not among the sources.  Its fields are those of the spec's data model. -/
structure SchedulingKeyEntry where
  pending_lease_requests : List (TaskID × WorkerAddress)
  resource_spec : TaskSpecification
  task_queue : List TaskSpecification
  active_workers : List WorkerAddress
  total_tasks_in_flight : Nat
  last_reported_backlog_size : Nat
deriving DecidableEq

def SchedulingKeyEntry.empty : SchedulingKeyEntry :=
  ⟨[], TaskSpecification.empty, [], [], 0, 0⟩

/-- Modelled from the spec: an entry may be removed iff its task queue, its active
workers and its pending lease requests are all empty (the header is missing). -/
def SchedulingKeyEntry.CanDelete (e : SchedulingKeyEntry) : Bool :=
  e.task_queue.isEmpty && e.active_workers.isEmpty && e.pending_lease_requests.isEmpty

/-- Modelled from the spec: the entry holds only the aggregate in-flight counter, so all
pipelines to its workers are full when that counter is the number of active workers times
the per-worker cap (the header is missing). -/
def SchedulingKeyEntry.AllPipelinesToWorkersFull (e : SchedulingKeyEntry)
    (max_tasks_in_flight_per_worker : Nat) : Bool :=
  decide (e.total_tasks_in_flight = e.active_workers.length * max_tasks_in_flight_per_worker)

/-- Modelled from the spec: the stealable condition of a key, "at least one worker has
two or more tasks in flight and can surrender half", in the counting form the spec gives
for it, `total_tasks_in_flight ≥ 2 × active_workers.size()`.  A key without active
workers has no worker to steal from (the spec's single-task scenario and the comments of
lines 494-500 of the source treat such a key as not stealable), so the condition is false
there; for a key with an active worker it is the counting formula (the header is
missing). -/
def SchedulingKeyEntry.StealableTasks (e : SchedulingKeyEntry) : Bool :=
  decide (0 < e.active_workers.length ∧
    e.total_tasks_in_flight ≥ 2 * e.active_workers.length)

/-- Modelled from the spec: the backlog size is `task_queue.size()` minus the pending
lease count, floored at 0 (the header is missing). -/
def SchedulingKeyEntry.BacklogSize (e : SchedulingKeyEntry) : Nat :=
  e.task_queue.length - e.pending_lease_requests.length

/-- The entry after `active_workers.emplace(addr)` of a worker that is not in the set. -/
def SchedulingKeyEntry.withWorker (e : SchedulingKeyEntry) (addr : WorkerAddress) :
    SchedulingKeyEntry :=
  { e with active_workers := e.active_workers ++ [addr] }

/-- The entry after `active_workers.erase(addr)`. -/
def SchedulingKeyEntry.withoutWorker (e : SchedulingKeyEntry) (addr : WorkerAddress) :
    SchedulingKeyEntry :=
  { e with active_workers := e.active_workers.filter (fun a => decide (a ≠ addr)) }

/-! ## Configuration, outgoing calls and captured continuations -/

/-- The constructor arguments of the submitter and the two collaborators that answer
synchronously (the lease policy and the presence of the cancel retry timer). -/
structure Config where
  max_tasks_in_flight_per_worker : Nat
  max_pending_lease_requests_per_scheduling_category : Nat
  lease_timeout_ms : Nat
  worker_type : WorkerType
  local_raylet_id : NodeID
  rpc_address : WorkerAddress
  has_cancel_retry_timer : Bool
  GetBestNodeForTask : TaskSpecification → WorkerAddress

/-- Every call the submitter makes on a collaborator, in the order it makes them. -/
inductive Call where
  | ResolveDependencies (task_spec : TaskSpecification)
  | AsyncCreateActor (task_spec : TaskSpecification)
  | FailOrRetryPendingTask (task_id : TaskID) (error : ErrorType)
  | FailPendingTask (task_id : TaskID) (error : ErrorType)
  | CompletePendingTask (task_id : TaskID)
  | RetryTaskIfPossible (task_id : TaskID)
  | RequestWorkerLease (client : LeaseClient) (resource_spec : TaskSpecification)
      (grant_or_reject : Bool) (backlog_size : Nat)
  | CancelWorkerLease (client : LeaseClient) (task_id : TaskID)
  | ReturnWorker (client : LeaseClient) (port : Nat) (worker_id : WorkerID) (was_error : Bool)
  | ReportWorkerBacklog (worker_id : WorkerID) (reports : List (TaskSpecification × Nat))
  | PushNormalTask (addr : WorkerAddress) (scheduling_key : SchedulingKey)
      (task_spec : TaskSpecification) (assigned_resources : Resources)
  | StealTasks (victim_addr : WorkerAddress) (thief_addr : WorkerAddress)
  | CancelTask (worker_addr : WorkerAddress) (task_id : TaskID) (force_kill : Bool)
      (recursive : Bool)
  | RemoteCancelTask (worker_addr : WorkerAddress) (object_id : ObjectID) (force_kill : Bool)
      (recursive : Bool)
  | MarkTaskCanceled (task_id : TaskID)
  | ScheduleCancelRetry (task_id : TaskID)
  | QuickExit
deriving DecidableEq

/-- Captured variables of the lease reply lambda (line 539). -/
structure LeaseContext where
  scheduling_key : SchedulingKey
  task_id : TaskID
  is_spillback : Bool
  raylet_address : WorkerAddress
deriving DecidableEq

/-- Captured variables of the push reply lambda (line 691). -/
structure PushContext where
  task_spec : TaskSpecification
  task_id : TaskID
  is_actor : Bool
  is_actor_creation : Bool
  scheduling_key : SchedulingKey
  addr : WorkerAddress
  assigned_resources : Resources
deriving DecidableEq

/-- Captured variables of the steal reply lambda (line 275). -/
structure StealContext where
  scheduling_key : SchedulingKey
  victim_wid : WorkerID
  victim_addr : WorkerAddress
  thief_addr : WorkerAddress
deriving DecidableEq

/-- Captured variables of the cancel reply lambda (line 821). -/
structure CancelContext where
  task_spec : TaskSpecification
  scheduling_key : SchedulingKey
  force_kill : Bool
  recursive : Bool
deriving DecidableEq

/-- The submitter: its member maps, then the continuations it has handed out and that
have not run yet, then two histories (the calls made, the tasks enqueued at line 78). -/
structure Submitter where
  scheduling_key_entries : List (SchedulingKey × SchedulingKeyEntry)
  worker_to_lease_entry : List (WorkerAddress × LeaseEntry)
  cancelled_tasks : List TaskID
  executing_tasks : List (TaskID × WorkerAddress)
  client_cache : List WorkerAddress
  remote_lease_clients : List NodeID
  num_tasks_submitted : Nat
  num_leases_requested : Nat
  random_counter : Nat
  exited : Bool
  resolving : List TaskSpecification
  creating_actors : List (ActorID × TaskID)
  lease_requests : List LeaseContext
  pushes : List PushContext
  steals : List StealContext
  lease_cancels : List SchedulingKey
  task_cancels : List CancelContext
  cancel_timers : List CancelContext
  calls : List Call
  enqueued : List (SchedulingKey × TaskSpecification)
deriving DecidableEq

/-- The submitter right after construction. -/
def Submitter.init : Submitter :=
  { scheduling_key_entries := [], worker_to_lease_entry := [], cancelled_tasks := [],
    executing_tasks := [], client_cache := [], remote_lease_clients := [],
    num_tasks_submitted := 0, num_leases_requested := 0, random_counter := 0,
    exited := false, resolving := [], creating_actors := [], lease_requests := [],
    pushes := [], steals := [], lease_cancels := [], task_cancels := [],
    cancel_timers := [], calls := [], enqueued := [] }

/-- A failed `RAY_CHECK` aborts the process. -/
def RAY_CHECK (c : Bool) : Option Unit := if c then some () else none

namespace Submitter

/-- The entry a reference obtained by `scheduling_key_entries_[key]` denotes. -/
def entry (s : Submitter) (key : SchedulingKey) : SchedulingKeyEntry :=
  (Assoc.lookup key s.scheduling_key_entries).getD SchedulingKeyEntry.empty

/-- The insertion `scheduling_key_entries_[key]` performs when the key is absent. -/
def touchEntry (s : Submitter) (key : SchedulingKey) : Submitter :=
  { s with scheduling_key_entries :=
      Assoc.emplace key SchedulingKeyEntry.empty s.scheduling_key_entries }

/-- A write through a reference to the entry of `key`. -/
def setEntry (s : Submitter) (key : SchedulingKey) (e : SchedulingKeyEntry) : Submitter :=
  { s with scheduling_key_entries := Assoc.update key e s.scheduling_key_entries }

def eraseEntry (s : Submitter) (key : SchedulingKey) : Submitter :=
  { s with scheduling_key_entries := Assoc.remove key s.scheduling_key_entries }

/-- The guarded erase that follows every `CanDelete()` test. -/
def eraseEntryIfCanDelete (s : Submitter) (key : SchedulingKey) : Submitter :=
  { s with scheduling_key_entries :=
      if (s.entry key).CanDelete then Assoc.remove key s.scheduling_key_entries
      else s.scheduling_key_entries }

/-- The entry a reference obtained by `worker_to_lease_entry_[addr]` denotes. -/
def lease (s : Submitter) (addr : WorkerAddress) : LeaseEntry :=
  (Assoc.lookup addr s.worker_to_lease_entry).getD LeaseEntry.empty

/-- The insertion `worker_to_lease_entry_[addr]` performs when the address is absent. -/
def touchLease (s : Submitter) (addr : WorkerAddress) : Submitter :=
  { s with worker_to_lease_entry :=
      Assoc.emplace addr LeaseEntry.empty s.worker_to_lease_entry }

/-- The insertion `worker_to_lease_entry_.emplace(addr, l)`. -/
def emplaceLease (s : Submitter) (addr : WorkerAddress) (l : LeaseEntry) : Submitter :=
  { s with worker_to_lease_entry := Assoc.emplace addr l s.worker_to_lease_entry }

/-- A write through a reference to the lease entry of `addr`. -/
def setLease (s : Submitter) (addr : WorkerAddress) (l : LeaseEntry) : Submitter :=
  { s with worker_to_lease_entry := Assoc.update addr l s.worker_to_lease_entry }

def eraseLease (s : Submitter) (addr : WorkerAddress) : Submitter :=
  { s with worker_to_lease_entry := Assoc.remove addr s.worker_to_lease_entry }

/-- Replace the lease map. -/
def withLeases (s : Submitter) (leases : List (WorkerAddress × LeaseEntry)) : Submitter :=
  { s with worker_to_lease_entry := leases }

/-- Replace the map of executing tasks. -/
def withExecuting (s : Submitter) (executing : List (TaskID × WorkerAddress)) : Submitter :=
  { s with executing_tasks := executing }

/-- Replace the set of cancelled tasks. -/
def withCancelled (s : Submitter) (cancelled : List TaskID) : Submitter :=
  { s with cancelled_tasks := cancelled }

/-- Note in the history that `task_spec` was appended to the queue of `key`. -/
def recordEnqueued (s : Submitter) (key : SchedulingKey) (task_spec : TaskSpecification) :
    Submitter :=
  { s with enqueued := s.enqueued ++ [(key, task_spec)] }

/-- Hand the steal reply lambda to the victim's client. -/
def addSteal (s : Submitter) (ctx : StealContext) : Submitter :=
  { s with steals := s.steals ++ [ctx] }

/-- Hand the push reply lambda to the worker's client. -/
def addPush (s : Submitter) (ctx : PushContext) : Submitter :=
  { s with pushes := s.pushes ++ [ctx] }

/-- Record a call on a collaborator. -/
def call (s : Submitter) (c : Call) : Submitter :=
  { s with calls := s.calls ++ [c] }

/-- The stub caching of `client_cache_->GetOrConnect(addr)`. -/
def cacheConnect (s : Submitter) (addr : WorkerAddress) : Submitter :=
  { s with client_cache :=
      if addr ∈ s.client_cache then s.client_cache else s.client_cache ++ [addr] }

/-- The lookup `client_cache_->GetByID(worker_id)`. -/
def cacheGetByID (s : Submitter) (worker_id : WorkerID) : Option WorkerAddress :=
  s.client_cache.find? (fun a => decide (a.worker_id = worker_id))

end Submitter

/-! ## Member functions -/

/-- Lines 116-129.  The expiration of line 121 is an `int64_t` sum in the source; the model
adds natural numbers, which is the same value as long as the sum does not overflow. -/
def AddWorkerLeaseClient (cfg : Config) (now : Nat) (addr : WorkerAddress)
    (lease_client : LeaseClient) (assigned_resources : Resources)
    (scheduling_key : SchedulingKey) (s : Submitter) : Option Submitter :=
  let s1 := s.cacheConnect addr
  let expiration := now + cfg.lease_timeout_ms
  let new_lease_entry : LeaseEntry :=
    ⟨some lease_client, expiration, assigned_resources, scheduling_key, 0, false⟩
  let s2 := s1.emplaceLease addr new_lease_entry
  let s3 := s2.touchEntry scheduling_key
  let e := s3.entry scheduling_key
  if addr ∈ e.active_workers then none
  else some (s3.setEntry scheduling_key (e.withWorker addr))

/-- Lines 131-158. -/
def ReturnWorker (addr : WorkerAddress) (was_error : Bool) (scheduling_key : SchedulingKey)
    (s : Submitter) : Option Submitter :=
  let s1 := s.touchEntry scheduling_key
  let e := s1.entry scheduling_key
  if e.active_workers.length < 1 then none
  else
    let s2 := s1.touchLease addr
    let lease_entry := s2.lease addr
    match lease_entry.lease_client with
    | none => none
    | some client =>
      if lease_entry.tasks_in_flight ≠ 0 then none
      else if lease_entry.WorkerIsStealing then none
      else
        let s3 := s2.setEntry scheduling_key (e.withoutWorker addr)
        let s4 := s3.eraseEntryIfCanDelete scheduling_key
        let s5 := s4.call (Call.ReturnWorker client addr.port addr.worker_id was_error)
        some (s5.eraseLease addr)

/-- The loop of lines 181-200: `victim` is the address `*victim_raw_addr` holds. -/
def FindOptimalVictimForStealing.scan (thief_addr : WorkerAddress) :
    List WorkerAddress → WorkerAddress → Submitter → Option (Submitter × WorkerAddress)
  | [], victim, s => some (s, victim)
  | candidate_addr :: rest, victim, s =>
    let s1 := s.touchLease candidate_addr
    let candidate_entry := s1.lease candidate_addr
    match Assoc.lookup victim s1.worker_to_lease_entry with
    | none => none
    | some victim_entry =>
      if victim.worker_id = thief_addr.worker_id ∨
          (candidate_entry.tasks_in_flight > victim_entry.tasks_in_flight ∧
            candidate_addr.worker_id ≠ thief_addr.worker_id) then
        FindOptimalVictimForStealing.scan thief_addr rest candidate_addr s1
      else
        FindOptimalVictimForStealing.scan thief_addr rest victim s1

/-- Lines 160-228.  The result carries the boolean and the value left in
`*victim_raw_addr` (`victim_raw_addr` is its value on entry). -/
def FindOptimalVictimForStealing (scheduling_key : SchedulingKey) (thief_addr : WorkerAddress)
    (victim_raw_addr : WorkerAddress) (s : Submitter) :
    Option (Submitter × Bool × WorkerAddress) :=
  let s1 := s.touchEntry scheduling_key
  let e := s1.entry scheduling_key
  if e.active_workers.length ≤ 1 ∨ e.StealableTasks = false then
    some (s1, false, victim_raw_addr)
  else
    match e.active_workers with
    | [] => some (s1, false, victim_raw_addr)
    | first :: _ =>
      match FindOptimalVictimForStealing.scan thief_addr e.active_workers first s1 with
      | none => none
      | some (s2, victim_addr) =>
        if victim_addr = thief_addr ∨ victim_addr.worker_id = thief_addr.worker_id then
          some (s2, false, victim_addr)
        else
          let s3 := s2.touchLease victim_addr
          let victim_entry := s3.lease victim_addr
          if victim_entry.scheduling_key ≠ scheduling_key then none
          else if (s3.entry scheduling_key).total_tasks_in_flight < victim_entry.tasks_in_flight
          then none
          else if victim_entry.tasks_in_flight / 2 < 1 then some (s3, false, victim_addr)
          else some (s3, true, victim_addr)

/-- Lines 403-425. -/
def GetOrConnectLeaseClient (cfg : Config) (raylet_address : WorkerAddress) (s : Submitter) :
    Submitter × LeaseClient :=
  ({ s with remote_lease_clients :=
      if raylet_address.raylet_id ≠ cfg.local_raylet_id ∧
          raylet_address.raylet_id ∉ s.remote_lease_clients then
        s.remote_lease_clients ++ [raylet_address.raylet_id]
      else s.remote_lease_clients },
    if raylet_address.raylet_id ≠ cfg.local_raylet_id then
      LeaseClient.remote_client raylet_address.raylet_id
    else LeaseClient.local_client)

/-- The loop of lines 379-400 over the pending lease requests. -/
def CancelWorkerLeaseIfNeeded.cancelAll (cfg : Config) (scheduling_key : SchedulingKey) :
    List (TaskID × WorkerAddress) → Submitter → Submitter
  | [], s => s
  | (task_id, raylet_address) :: rest, s =>
    let s1 := (GetOrConnectLeaseClient cfg raylet_address s).1
    let lease_client := (GetOrConnectLeaseClient cfg raylet_address s).2
    let s2 := s1.call (Call.CancelWorkerLease lease_client task_id)
    let s3 := { s2 with lease_cancels := s2.lease_cancels ++ [scheduling_key] }
    CancelWorkerLeaseIfNeeded.cancelAll cfg scheduling_key rest s3

/-- Lines 366-401. -/
def CancelWorkerLeaseIfNeeded (cfg : Config) (scheduling_key : SchedulingKey)
    (s : Submitter) : Submitter :=
  let s1 := s.touchEntry scheduling_key
  let e := s1.entry scheduling_key
  if !e.task_queue.isEmpty || e.StealableTasks then s1
  else CancelWorkerLeaseIfNeeded.cancelAll cfg scheduling_key e.pending_lease_requests s1

/-- The write of lines 444-445: the entry remembers the backlog size it reported. -/
def SchedulingKeyEntry.reported (e : SchedulingKeyEntry) : SchedulingKeyEntry :=
  { e with last_reported_backlog_size := e.BacklogSize }

/-- The map `backlogs` built by the loop of lines 434-446. -/
def ReportWorkerBacklogInternal.backlogs :
    List (SchedulingKey × SchedulingKeyEntry) →
    List (SchedulingClass × (TaskSpecification × Nat)) →
    List (SchedulingClass × (TaskSpecification × Nat))
  | [], acc => acc
  | (key, e) :: rest, acc =>
    let scheduling_class := key.scheduling_class
    let acc1 := match Assoc.lookup scheduling_class acc with
      | some _ => acc
      | none => Assoc.update scheduling_class (e.resource_spec, 0) acc
    let cur := (Assoc.lookup scheduling_class acc1).getD (TaskSpecification.empty, 0)
    ReportWorkerBacklogInternal.backlogs rest
      (Assoc.update scheduling_class (cur.1, cur.2 + e.BacklogSize) acc1)

/-- Lines 432-457. -/
def ReportWorkerBacklogInternal (cfg : Config) (s : Submitter) : Submitter :=
  let backlogs := ReportWorkerBacklogInternal.backlogs s.scheduling_key_entries []
  let reported := s.scheduling_key_entries.map (fun ke => (ke.1, ke.2.reported))
  let s1 := { s with scheduling_key_entries := reported }
  s1.call (Call.ReportWorkerBacklog cfg.rpc_address.worker_id (backlogs.map (fun b => b.2)))

/-- Lines 459-467. -/
def ReportWorkerBacklogIfNeeded (cfg : Config) (scheduling_key : SchedulingKey)
    (s : Submitter) : Submitter :=
  let s1 := s.touchEntry scheduling_key
  let e := s1.entry scheduling_key
  if e.last_reported_backlog_size ≠ e.BacklogSize then ReportWorkerBacklogInternal cfg s1
  else s1

/-- Lines 469-538 and 667-670: everything `RequestNewWorkerIfNeeded` does before its reply
arrives.  `TaskID::FromRandom` draws the next value of `random_counter`. -/
def RequestNewWorkerIfNeeded (cfg : Config) (scheduling_key : SchedulingKey)
    (raylet_address : Option WorkerAddress) (s : Submitter) : Option Submitter :=
  let s1 := s.touchEntry scheduling_key
  let e := s1.entry scheduling_key
  if e.pending_lease_requests.length = cfg.max_pending_lease_requests_per_scheduling_category
  then some s1
  else if ¬ (e.pending_lease_requests.length <
      cfg.max_pending_lease_requests_per_scheduling_category) then none
  else if !e.AllPipelinesToWorkersFull cfg.max_tasks_in_flight_per_worker &&
      decide (cfg.max_tasks_in_flight_per_worker = 1) then some s1
  else if e.task_queue.isEmpty && !e.StealableTasks then
    some (s1.eraseEntryIfCanDelete scheduling_key)
  else if !e.task_queue.isEmpty &&
      decide (e.task_queue.length ≤ e.pending_lease_requests.length) then some s1
  else
    let s2 := { s1 with num_leases_requested := s1.num_leases_requested + 1,
                        random_counter := s1.random_counter + 1 }
    let task_id : TaskID := s1.random_counter
    let resource_spec : TaskSpecification := { e.resource_spec with task_id := task_id }
    let is_spillback := raylet_address.isSome
    let target := match raylet_address with
      | some a => a
      | none => cfg.GetBestNodeForTask resource_spec
    let s3 := (GetOrConnectLeaseClient cfg target s2).1
    let lease_client := (GetOrConnectLeaseClient cfg target s2).2
    let s4 := s3.call
      (Call.RequestWorkerLease lease_client resource_spec is_spillback e.task_queue.length)
    let ctx := LeaseContext.mk scheduling_key task_id is_spillback target
    let s5 := { s4 with lease_requests := s4.lease_requests ++ [ctx] }
    let e5 := s5.entry scheduling_key
    let s6 := s5.setEntry scheduling_key
      { e5 with pending_lease_requests :=
          Assoc.emplace task_id target e5.pending_lease_requests }
    some (ReportWorkerBacklogIfNeeded cfg scheduling_key s6)

/-- Lines 672-691: build the request, send it and hand the reply lambda to the client. -/
def PushNormalTask (addr : WorkerAddress) (scheduling_key : SchedulingKey)
    (task_spec : TaskSpecification) (assigned_resources : Resources) (s : Submitter) :
    Submitter :=
  let s1 := s.call (Call.PushNormalTask addr scheduling_key task_spec assigned_resources)
  s1.addPush (PushContext.mk task_spec task_spec.task_id task_spec.is_actor_task
    task_spec.is_actor_creation_task scheduling_key addr assigned_resources)

/-- Lines 230-276: everything `StealTasksOrReturnWorker` does before the steal reply. -/
def StealTasksOrReturnWorker (cfg : Config) (now : Nat) (thief_addr : WorkerAddress)
    (was_error : Bool) (scheduling_key : SchedulingKey) (s : Submitter) : Option Submitter :=
  let s1 := s.touchLease thief_addr
  let thief_entry := s1.lease thief_addr
  if thief_entry.lease_client.isNone then none
  else if thief_entry.tasks_in_flight ≠ 0 then none
  else if thief_entry.WorkerIsStealing then none
  else if was_error || decide (now > thief_entry.lease_expiration_time) then
    ReturnWorker thief_addr was_error scheduling_key s1
  else
    match FindOptimalVictimForStealing scheduling_key thief_addr WorkerAddress.empty s1 with
    | none => none
    | some (s2, false, _) =>
      let s3 := if cfg.max_tasks_in_flight_per_worker > 1
        then CancelWorkerLeaseIfNeeded cfg scheduling_key s2 else s2
      ReturnWorker thief_addr was_error scheduling_key s3
    | some (s2, true, victim_addr) =>
      if ¬ (cfg.max_tasks_in_flight_per_worker > 1) then none
      else if (Assoc.lookup victim_addr s2.worker_to_lease_entry).isNone then none
      else
        let s3 := s2.setLease thief_addr { s2.lease thief_addr with is_stealing := true }
        let s4 := s3.cacheConnect victim_addr
        let s5 := s4.call (Call.StealTasks victim_addr thief_addr)
        some (s5.addSteal
          (StealContext.mk scheduling_key victim_addr.worker_id victim_addr thief_addr))

/-- The body of the loop of lines 342-357 after its check: count the task at the front
of the queue as in flight, record it as executing, push it and pop it. -/
def OnWorkerIdle.pushFront (addr : WorkerAddress) (scheduling_key : SchedulingKey)
    (assigned_resources : Resources) (task_spec : TaskSpecification) (s : Submitter) :
    Submitter :=
  let lease_entry := s.lease addr
  let e := s.entry scheduling_key
  let s1 := s.setLease addr
    { lease_entry with tasks_in_flight := lease_entry.tasks_in_flight + 1 }
  let s2 := s1.setEntry scheduling_key
    { e with total_tasks_in_flight := e.total_tasks_in_flight + 1 }
  let s3 := s2.withExecuting (Assoc.emplace task_spec.task_id addr s2.executing_tasks)
  let s4 := PushNormalTask addr scheduling_key task_spec assigned_resources s3
  let e4 := s4.entry scheduling_key
  s4.setEntry scheduling_key { e4 with task_queue := e4.task_queue.tail }

/-- The loop of lines 342-357; `fuel` bounds the iterations and is the queue length. -/
def OnWorkerIdle.pipeline (cfg : Config) (addr : WorkerAddress)
    (scheduling_key : SchedulingKey) (assigned_resources : Resources) :
    Nat → Submitter → Option Submitter
  | 0, s => some s
  | fuel + 1, s =>
    match (s.entry scheduling_key).task_queue with
    | [] => some s
    | task_spec :: _ =>
      if (s.lease addr).PipelineToWorkerFull cfg.max_tasks_in_flight_per_worker then some s
      else if (s.entry scheduling_key).active_workers.length < 1 then none
      else
        OnWorkerIdle.pipeline cfg addr scheduling_key assigned_resources fuel
          (OnWorkerIdle.pushFront addr scheduling_key assigned_resources task_spec s)

/-- Lines 318-364. -/
def OnWorkerIdle (cfg : Config) (now : Nat) (addr : WorkerAddress)
    (scheduling_key : SchedulingKey) (was_error : Bool) (assigned_resources : Resources)
    (s : Submitter) : Option Submitter :=
  let s1 := s.touchLease addr
  let lease_entry := s1.lease addr
  if lease_entry.lease_client.isNone then some s1
  else
    let s2 := s1.touchEntry scheduling_key
    let e := s2.entry scheduling_key
    if (was_error || decide (now > lease_entry.lease_expiration_time)) ||
        (e.task_queue.isEmpty && !lease_entry.WorkerIsStealing) then
      if e.active_workers.length < 1 then none
      else
        (if lease_entry.tasks_in_flight = 0 then
          StealTasksOrReturnWorker cfg now addr was_error scheduling_key s2
        else some s2).bind
          (RequestNewWorkerIfNeeded cfg scheduling_key none)
    else
      (OnWorkerIdle.pipeline cfg addr scheduling_key assigned_resources e.task_queue.length
        (s2.cacheConnect addr)).bind fun s3 =>
      RequestNewWorkerIfNeeded cfg scheduling_key none
        (if cfg.max_tasks_in_flight_per_worker = 1
          then CancelWorkerLeaseIfNeeded cfg scheduling_key s3 else s3)

/-! ## Public operations and reply continuations -/

/-- Lines 22-26 and 113: count the submission and hand the task to the resolver. -/
def SubmitTask (task_spec : TaskSpecification) (s : Submitter) : Submitter × Status :=
  let s1 := { s with num_tasks_submitted := s.num_tasks_submitted + 1 }
  let s2 := s1.call (Call.ResolveDependencies task_spec)
  ({ s2 with resolving := s2.resolving ++ [task_spec] }, Status.OK)

/-- The loop of lines 89-103 over the active workers of the key. -/
def SubmitTask.findWorker (cfg : Config) (now : Nat) (scheduling_key : SchedulingKey) :
    List WorkerAddress → Submitter → Option Submitter
  | [], s => some s
  | active_worker_addr :: rest, s =>
    match Assoc.lookup active_worker_addr s.worker_to_lease_entry with
    | none => none
    | some lease_entry =>
      if !lease_entry.PipelineToWorkerFull cfg.max_tasks_in_flight_per_worker then
        OnWorkerIdle cfg now active_worker_addr scheduling_key false
          lease_entry.assigned_resources s
      else SubmitTask.findWorker cfg now scheduling_key rest s

/-- Lines 72-79: append the task to the queue of its key and make it the key's resource
spec (the history of enqueued tasks grows with it). -/
def SubmitTask.enqueue (task_spec : TaskSpecification) (s : Submitter) : Submitter :=
  let scheduling_key := task_spec.schedulingKey
  let s1 := s.touchEntry scheduling_key
  let e := s1.entry scheduling_key
  let s2 := s1.setEntry scheduling_key
    { e with task_queue := e.task_queue ++ [task_spec], resource_spec := task_spec }
  s2.recordEnqueued scheduling_key task_spec

/-- Lines 26-112: the continuation run when dependency resolution finishes; `task_spec`
is the task as the resolver left it.  `AsyncCreateActor` is taken to return OK. -/
def SubmitTask.resolved (cfg : Config) (now : Nat) (task_spec : TaskSpecification)
    (status : Status) (s : Submitter) : Option Submitter :=
  if !status.ok then
    some (s.call (Call.FailOrRetryPendingTask task_spec.task_id
      ErrorType.DEPENDENCY_RESOLUTION_FAILED))
  else if task_spec.is_actor_creation_task then
    let s1 := s.call (Call.AsyncCreateActor task_spec)
    some { s1 with creating_actors :=
      s1.creating_actors ++ [(task_spec.actor_creation_id, task_spec.task_id)] }
  else if task_spec.task_id ∈ s.cancelled_tasks then
    let s1 := s.withCancelled
      (s.cancelled_tasks.filter (fun t => decide (t ≠ task_spec.task_id)))
    some (s1.call (Call.FailOrRetryPendingTask task_spec.task_id ErrorType.TASK_CANCELLED))
  else
    let scheduling_key := task_spec.schedulingKey
    let s3 := SubmitTask.enqueue task_spec s
    let e := s3.entry scheduling_key
    (if !e.AllPipelinesToWorkersFull cfg.max_tasks_in_flight_per_worker then
      SubmitTask.findWorker cfg now scheduling_key e.active_workers s3
    else some s3).bind
      (RequestNewWorkerIfNeeded cfg scheduling_key none)

/-- Lines 44-58: the reply of the actor creator. -/
def SubmitTask.actorCreated (task_id : TaskID) (status : Status) (s : Submitter) : Submitter :=
  if status.ok then s.call (Call.CompletePendingTask task_id)
  else s.call (Call.FailOrRetryPendingTask task_id ErrorType.ACTOR_CREATION_FAILED)

/-- The loops of lines 567-586 and 648-653: fail the queued tasks front to back. -/
def RequestNewWorkerIfNeeded.failQueued (error : TaskSpecification → ErrorType) :
    List TaskSpecification → Submitter → Submitter
  | [], s => s
  | task_spec :: rest, s =>
    RequestNewWorkerIfNeeded.failQueued error rest
      (s.call (Call.FailPendingTask task_spec.task_id (error task_spec)))

/-- The queue drain of lines 566-589 and 647-656, with the erase that follows it. -/
def RequestNewWorkerIfNeeded.drain (error : TaskSpecification → ErrorType)
    (scheduling_key : SchedulingKey) (s : Submitter) : Submitter :=
  let s1 := RequestNewWorkerIfNeeded.failQueued error (s.entry scheduling_key).task_queue s
  let s2 := s1.setEntry scheduling_key { s1.entry scheduling_key with task_queue := [] }
  s2.eraseEntryIfCanDelete scheduling_key

/-- Lines 543-545: connect the lease client of the raylet the request went to and erase
the pending lease request. -/
def RequestNewWorkerIfNeeded.received (cfg : Config) (ctx : LeaseContext) (s : Submitter) :
    Submitter :=
  let s1 := s.touchEntry ctx.scheduling_key
  let s2 := (GetOrConnectLeaseClient cfg ctx.raylet_address s1).1
  let e := s2.entry ctx.scheduling_key
  s2.setEntry ctx.scheduling_key
    { e with pending_lease_requests := Assoc.remove ctx.task_id e.pending_lease_requests }

/-- Lines 539-666: the lease reply continuation. -/
def RequestNewWorkerIfNeeded.reply (cfg : Config) (now : Nat) (ctx : LeaseContext)
    (status : Status) (reply : RequestWorkerLeaseReply) (s : Submitter) : Option Submitter :=
  let scheduling_key := ctx.scheduling_key
  let lease_client := (GetOrConnectLeaseClient cfg ctx.raylet_address s).2
  let s3 := RequestNewWorkerIfNeeded.received cfg ctx s
  if status.ok then
    if reply.canceled then
      if reply.failure_type = SchedulingFailureType.SCHEDULING_CANCELLED_RUNTIME_ENV_SETUP_FAILED
          ∨ reply.failure_type =
            SchedulingFailureType.SCHEDULING_CANCELLED_PLACEMENT_GROUP_REMOVED then
        some (RequestNewWorkerIfNeeded.drain
          (fun task_spec =>
            if reply.failure_type =
                SchedulingFailureType.SCHEDULING_CANCELLED_RUNTIME_ENV_SETUP_FAILED then
              ErrorType.RUNTIME_ENV_SETUP_FAILED
            else if task_spec.is_actor_creation_task then
              ErrorType.ACTOR_PLACEMENT_GROUP_REMOVED
            else ErrorType.TASK_PLACEMENT_GROUP_REMOVED)
          scheduling_key s3)
      else RequestNewWorkerIfNeeded cfg scheduling_key none s3
    else if reply.rejected then
      if !ctx.is_spillback then none
      else RequestNewWorkerIfNeeded cfg scheduling_key none s3
    else if reply.worker_address.raylet_id ≠ 0 then
      (AddWorkerLeaseClient cfg now reply.worker_address lease_client reply.resource_mapping
        scheduling_key s3).bind fun s4 =>
      if (s4.entry scheduling_key).active_workers.length < 1 then none
      else OnWorkerIdle cfg now reply.worker_address scheduling_key false
        reply.resource_mapping s4
    else
      if ctx.is_spillback then none
      else RequestNewWorkerIfNeeded cfg scheduling_key (some reply.retry_at_raylet_address) s3
  else if lease_client ≠ LeaseClient.local_client then
    RequestNewWorkerIfNeeded cfg scheduling_key none s3
  else if status.IsGrpcUnavailable then
    if cfg.worker_type = WorkerType.WORKER then
      some { s3.call Call.QuickExit with exited := true }
    else
      some (RequestNewWorkerIfNeeded.drain (fun _ => ErrorType.LOCAL_RAYLET_DIED)
        scheduling_key s3)
  else RequestNewWorkerIfNeeded cfg scheduling_key none s3

/-- Lines 735-750: what the finisher is told about a push reply. -/
def PushNormalTask.finish (ctx : PushContext) (status : Status) (reply : PushTaskReply)
    (retry_possible : Bool) (s : Submitter) : Submitter :=
  if !status.ok then
    s.call (Call.FailOrRetryPendingTask ctx.task_id
      (if ctx.is_actor then ErrorType.ACTOR_DIED else ErrorType.WORKER_DIED))
  else if !ctx.task_spec.retry_exceptions || !reply.is_application_level_error then
    s.call (Call.CompletePendingTask ctx.task_id)
  else
    let s1 := s.call (Call.RetryTaskIfPossible ctx.task_id)
    if !retry_possible then s1.call (Call.CompletePendingTask ctx.task_id) else s1

/-- Lines 697-709 without their checks: forget the task as executing and count it out of
the worker's and the key's tasks in flight. -/
def PushNormalTask.settle (ctx : PushContext) (s : Submitter) : Submitter :=
  let s1 := s.withExecuting (Assoc.remove ctx.task_id s.executing_tasks)
  let s2 := s1.touchLease ctx.addr
  let lease_entry := s2.lease ctx.addr
  let s3 := s2.setLease ctx.addr
    { lease_entry with tasks_in_flight := lease_entry.tasks_in_flight - 1 }
  let s4 := s3.touchEntry ctx.scheduling_key
  let e := s4.entry ctx.scheduling_key
  s4.setEntry ctx.scheduling_key { e with total_tasks_in_flight := e.total_tasks_in_flight - 1 }

/-- Lines 716-723: drop the lease entry of a worker that is exiting, without returning
the worker to its raylet. -/
def PushNormalTask.workerExiting (ctx : PushContext) (s : Submitter) : Submitter :=
  let s6 := s.eraseLease ctx.addr
  let s7 := s6.touchEntry ctx.scheduling_key
  let e7 := s7.entry ctx.scheduling_key
  let s8 := s7.setEntry ctx.scheduling_key (e7.withoutWorker ctx.addr)
  s8.eraseEntryIfCanDelete ctx.scheduling_key

/-- Lines 692-751: the push reply continuation; `retry_possible` is what
`RetryTaskIfPossible` answers when it is asked.  The three checks of lines 701-708 read
values that the writes before them leave as they were, so they are taken first. -/
def PushNormalTask.reply (cfg : Config) (now : Nat) (ctx : PushContext) (status : Status)
    (reply : PushTaskReply) (retry_possible : Bool) (s : Submitter) : Option Submitter :=
  if ¬ ((s.lease ctx.addr).tasks_in_flight > 0) then none
  else if (s.entry ctx.scheduling_key).active_workers.length < 1 then none
  else if (s.entry ctx.scheduling_key).total_tasks_in_flight < 1 then none
  else
    let s5 := PushNormalTask.settle ctx s
    if reply.worker_exiting then
      some (PushNormalTask.finish ctx status reply retry_possible
        (PushNormalTask.workerExiting ctx s5))
    else if reply.task_stolen then some s5
    else if !status.ok || !ctx.is_actor_creation then
      (OnWorkerIdle cfg now ctx.addr ctx.scheduling_key (!status.ok) ctx.assigned_resources
        s5).map (PushNormalTask.finish ctx status reply retry_possible)
    else some (PushNormalTask.finish ctx status reply retry_possible s5)

/-- The loop of lines 294-311: `stolen` pairs each stolen task id of the reply with what
`GetTaskSpec` answers for it. -/
def StealTasksOrReturnWorker.requeue (scheduling_key : SchedulingKey) :
    List (TaskID × Option TaskSpecification) → Submitter → Option Submitter
  | [], s => some s
  | (_, none) :: _, _ => none
  | (stolen_task_id, some stolen_task_spec) :: rest, s =>
    let s1 := s.withExecuting (Assoc.remove stolen_task_id s.executing_tasks)
    let s2 := s1.touchEntry scheduling_key
    let e := s2.entry scheduling_key
    StealTasksOrReturnWorker.requeue scheduling_key rest
      (s2.setEntry scheduling_key { e with task_queue := stolen_task_spec :: e.task_queue })

/-- Lines 275-315: the steal reply continuation. -/
def StealTasksOrReturnWorker.reply (cfg : Config) (now : Nat) (ctx : StealContext)
    (status : Status) (stolen : List (TaskID × Option TaskSpecification)) (s : Submitter) :
    Option Submitter :=
  match Assoc.lookup ctx.thief_addr s.worker_to_lease_entry with
  | none => none
  | some thief_entry =>
    if !thief_entry.WorkerIsStealing then none
    else
      let s1 := s.setLease ctx.thief_addr { thief_entry with is_stealing := false }
      (StealTasksOrReturnWorker.requeue ctx.scheduling_key stolen s1).bind fun s2 =>
      OnWorkerIdle cfg now ctx.thief_addr ctx.scheduling_key (!status.ok)
        thief_entry.assigned_resources s2

/-- Lines 385-399: the reply to a lease cancellation. -/
def CancelWorkerLeaseIfNeeded.reply (cfg : Config) (scheduling_key : SchedulingKey)
    (status : Status) (success : Bool) (s : Submitter) : Submitter :=
  if status.ok && !success then CancelWorkerLeaseIfNeeded cfg scheduling_key s else s

/-- Lines 754-842: `mark_task_canceled` is what `MarkTaskCanceled` answers when asked. -/
def CancelTask (cfg : Config) (task_spec : TaskSpecification) (force_kill : Bool)
    (recursive : Bool) (mark_task_canceled : Bool) (s : Submitter) : Submitter × Status :=
  let scheduling_key := task_spec.schedulingKey
  if task_spec.task_id ∈ s.cancelled_tasks then (s, Status.OK)
  else
    let s0 := s.call (Call.MarkTaskCanceled task_spec.task_id)
    if !mark_task_canceled then (s0, Status.OK)
    else
      let s1 := s0.touchEntry scheduling_key
      let e := s1.entry scheduling_key
      if e.task_queue.any (fun spec => decide (spec.task_id = task_spec.task_id)) then
        let queue := e.task_queue.eraseP (fun spec => decide (spec.task_id = task_spec.task_id))
        let s2 := s1.setEntry scheduling_key { e with task_queue := queue }
        let s3 := if queue.isEmpty then CancelWorkerLeaseIfNeeded cfg scheduling_key s2 else s2
        (s3.call (Call.FailOrRetryPendingTask task_spec.task_id ErrorType.TASK_CANCELLED),
          Status.OK)
      else
        let s2 := s1.withCancelled (s1.cancelled_tasks ++ [task_spec.task_id])
        match Assoc.lookup task_spec.task_id s2.executing_tasks with
        | none => (s2.eraseEntryIfCanDelete scheduling_key, Status.OK)
        | some rpc_client =>
          match s2.cacheGetByID rpc_client.worker_id with
          | none => (s2, Status.OK)
          | some client =>
            let s3 := s2.call (Call.CancelTask client task_spec.task_id force_kill recursive)
            let ctx := CancelContext.mk task_spec scheduling_key force_kill recursive
            ({ s3 with task_cancels := s3.task_cancels ++ [ctx] }, Status.OK)

/-- Lines 821-840: the reply to a task cancellation. -/
def CancelTask.reply (cfg : Config) (ctx : CancelContext) (status : Status)
    (attempt_succeeded : Bool) (s : Submitter) : Submitter :=
  let s1 := s.withCancelled
    (s.cancelled_tasks.filter (fun t => decide (t ≠ ctx.task_spec.task_id)))
  if status.ok && !attempt_succeeded && cfg.has_cancel_retry_timer then
    let s2 := s1.call (Call.ScheduleCancelRetry ctx.task_spec.task_id)
    { s2 with cancel_timers := s2.cancel_timers ++ [ctx] }
  else s1

/-- Lines 844-859. -/
def CancelRemoteTask (object_id : ObjectID) (worker_addr : WorkerAddress) (force_kill : Bool)
    (recursive : Bool) (s : Submitter) : Submitter × Status :=
  match s.cacheGetByID worker_addr.worker_id with
  | none => (s, Status.Invalid)
  | some client =>
    (s.call (Call.RemoteCancelTask client object_id force_kill recursive), Status.OK)

/-- Lines 427-430. -/
def ReportWorkerBacklog (cfg : Config) (s : Submitter) : Submitter :=
  ReportWorkerBacklogInternal cfg s

/-! ## Events: public calls and replies delivered by the RPC layer -/

/-- One activation of the submitter.  A reply event names, by its position `i`, the
outstanding continuation it runs and carries the status and reply message. -/
inductive Event where
  | SubmitTask (task_spec : TaskSpecification)
  | DependenciesResolved (i : Nat) (status : Status) (plasma_dependency_ids : List ObjectID)
  | ActorCreated (i : Nat) (status : Status)
  | LeaseReply (i : Nat) (status : Status) (reply : RequestWorkerLeaseReply)
  | PushReply (i : Nat) (status : Status) (reply : PushTaskReply) (retry_possible : Bool)
  | StealReply (i : Nat) (status : Status) (stolen : List (TaskID × Option TaskSpecification))
  | CancelLeaseReply (i : Nat) (status : Status) (success : Bool)
  | CancelTask (task_spec : TaskSpecification) (force_kill : Bool) (recursive : Bool)
      (mark_task_canceled : Bool)
  | CancelReply (i : Nat) (status : Status) (attempt_succeeded : Bool)
  | CancelRetry (i : Nat) (mark_task_canceled : Bool)
  | ReportWorkerBacklog
  | CancelRemoteTask (object_id : ObjectID) (worker_addr : WorkerAddress) (force_kill : Bool)
      (recursive : Bool)

/-- A raylet leases out a worker only when this submitter holds no lease on it and has no
push or steal continuation outstanding for it. -/
def Submitter.idleForLease (s : Submitter) (addr : WorkerAddress) : Bool :=
  (Assoc.lookup addr s.worker_to_lease_entry).isNone &&
    s.pushes.all (fun c => decide (c.addr ≠ addr)) &&
    s.steals.all (fun c => decide (c.thief_addr ≠ addr))

/-- The lease reply takes the branch of line 601 (a worker is granted). -/
def RequestWorkerLeaseReply.grants (status : Status) (reply : RequestWorkerLeaseReply) : Bool :=
  status.ok && !reply.canceled && !reply.rejected &&
    decide (reply.worker_address.raylet_id ≠ 0)

/-- What the environment can deliver: a reply only to a continuation that is outstanding,
a granted worker only when it is idle for this submitter, nothing after the process exit. -/
def Event.enabled (s : Submitter) : Event → Bool
  | Event.SubmitTask _ => !s.exited
  | Event.DependenciesResolved i _ _ => !s.exited && decide (i < s.resolving.length)
  | Event.ActorCreated i _ => !s.exited && decide (i < s.creating_actors.length)
  | Event.LeaseReply i status reply =>
    !s.exited && decide (i < s.lease_requests.length) &&
      (!reply.grants status || s.idleForLease reply.worker_address)
  | Event.PushReply i _ _ _ => !s.exited && decide (i < s.pushes.length)
  | Event.StealReply i _ _ => !s.exited && decide (i < s.steals.length)
  | Event.CancelLeaseReply i _ _ => !s.exited && decide (i < s.lease_cancels.length)
  | Event.CancelTask _ _ _ _ => !s.exited
  | Event.CancelReply i _ _ => !s.exited && decide (i < s.task_cancels.length)
  | Event.CancelRetry i _ => !s.exited && decide (i < s.cancel_timers.length)
  | Event.ReportWorkerBacklog => !s.exited
  | Event.CancelRemoteTask _ _ _ _ => !s.exited

/-- Run the code an event activates at time `now`; `none` is a failed `RAY_CHECK`. -/
def step (cfg : Config) (now : Nat) (ev : Event) (s : Submitter) : Option Submitter :=
  match ev with
  | Event.SubmitTask task_spec => some (SubmitTask task_spec s).1
  | Event.DependenciesResolved i status plasma_dependency_ids =>
    match s.resolving.get? i with
    | none => none
    | some task_spec =>
      SubmitTask.resolved cfg now
        (if status.ok then { task_spec with dependency_ids := plasma_dependency_ids }
          else task_spec)
        status { s with resolving := s.resolving.eraseIdx i }
  | Event.ActorCreated i status =>
    match s.creating_actors.get? i with
    | none => none
    | some ctx =>
      some (SubmitTask.actorCreated ctx.2 status
        { s with creating_actors := s.creating_actors.eraseIdx i })
  | Event.LeaseReply i status reply =>
    match s.lease_requests.get? i with
    | none => none
    | some ctx =>
      RequestNewWorkerIfNeeded.reply cfg now ctx status reply
        { s with lease_requests := s.lease_requests.eraseIdx i }
  | Event.PushReply i status reply retry_possible =>
    match s.pushes.get? i with
    | none => none
    | some ctx =>
      PushNormalTask.reply cfg now ctx status reply retry_possible
        { s with pushes := s.pushes.eraseIdx i }
  | Event.StealReply i status stolen =>
    match s.steals.get? i with
    | none => none
    | some ctx =>
      StealTasksOrReturnWorker.reply cfg now ctx status stolen
        { s with steals := s.steals.eraseIdx i }
  | Event.CancelLeaseReply i status success =>
    match s.lease_cancels.get? i with
    | none => none
    | some scheduling_key =>
      some (CancelWorkerLeaseIfNeeded.reply cfg scheduling_key status success
        { s with lease_cancels := s.lease_cancels.eraseIdx i })
  | Event.CancelTask task_spec force_kill recursive mark_task_canceled =>
    some (CancelTask cfg task_spec force_kill recursive mark_task_canceled s).1
  | Event.CancelReply i status attempt_succeeded =>
    match s.task_cancels.get? i with
    | none => none
    | some ctx =>
      some (CancelTask.reply cfg ctx status attempt_succeeded
        { s with task_cancels := s.task_cancels.eraseIdx i })
  | Event.CancelRetry i mark_task_canceled =>
    match s.cancel_timers.get? i with
    | none => none
    | some ctx =>
      some (CancelTask cfg ctx.task_spec ctx.force_kill ctx.recursive mark_task_canceled
        { s with cancel_timers := s.cancel_timers.eraseIdx i }).1
  | Event.ReportWorkerBacklog => some (ReportWorkerBacklog cfg s)
  | Event.CancelRemoteTask object_id worker_addr force_kill recursive =>
    some (CancelRemoteTask object_id worker_addr force_kill recursive s).1

/-- The states the submitter can be in: the initial one, and every state an enabled event
leads to without a failed check. -/
inductive Reachable (cfg : Config) : Submitter → Prop where
  | init : Reachable cfg Submitter.init
  | step (now : Nat) (ev : Event) (s s' : Submitter) :
      Reachable cfg s → ev.enabled s = true → step cfg now ev s = some s' → Reachable cfg s'

/-- Deliver a sequence of timed events in order; `none` when one of them is not enabled or
fails a check. -/
def run (cfg : Config) : List (Nat × Event) → Submitter → Option Submitter
  | [], s => some s
  | (now, ev) :: rest, s =>
    if ev.enabled s then (step cfg now ev s).bind (run cfg rest) else none

/-! ## Properties of states -/

/-- The map `m'` is `m` with the default value `d` stored under some keys that were absent:
the trace `operator[]` leaves. -/
def Assoc.Touched {α : Type} {β : Type} [DecidableEq α] (d : β) (m m' : List (α × β)) : Prop :=
  ∀ k, Assoc.lookup k m' = Assoc.lookup k m ∨
    (Assoc.lookup k m = none ∧ Assoc.lookup k m' = some d)

/-- A call of the scheduling machinery, towards a raylet or a worker: not a call on the
task finisher and not a task cancellation. -/
def Call.isScheduling : Call → Bool
  | Call.RequestWorkerLease _ _ _ _ => true
  | Call.CancelWorkerLease _ _ => true
  | Call.ReturnWorker _ _ _ _ => true
  | Call.ReportWorkerBacklog _ _ => true
  | Call.PushNormalTask _ _ _ _ => true
  | Call.StealTasks _ _ => true
  | _ => false

/-- A call that tells the task finisher the outcome of a task, or asks it to retry one. -/
def Call.isFinisher : Call → Bool
  | Call.FailOrRetryPendingTask _ _ => true
  | Call.FailPendingTask _ _ => true
  | Call.CompletePendingTask _ => true
  | Call.RetryTaskIfPossible _ => true
  | _ => false

/-- A `RequestWorkerLease` sent to a raylet. -/
def Call.isRequestWorkerLease : Call → Bool
  | Call.RequestWorkerLease _ _ _ _ => true
  | _ => false

/-- Lines 519-521: the resource spec of the next lease request of `key`, with the task id
drawn from `random_counter`. -/
def RequestNewWorkerIfNeeded.resourceSpec (key : SchedulingKey) (s : Submitter) :
    TaskSpecification :=
  { (s.entry key).resource_spec with task_id := s.random_counter }

/-- Lines 522-528: the raylet the next lease request of `key` goes to. -/
def RequestNewWorkerIfNeeded.target (cfg : Config) (key : SchedulingKey)
    (raylet_address : Option WorkerAddress) (s : Submitter) : WorkerAddress :=
  match raylet_address with
  | some a => a
  | none => cfg.GetBestNodeForTask (RequestNewWorkerIfNeeded.resourceSpec key s)

/-- C19, the condition under which the spec says a lease is requested: the pending lease
count is below the cap; it is not the case that stealing is disabled while the pipelines
are not all full; and the queue is empty with stealable tasks, or non-empty and longer
than the pending lease count. -/
def RequestNewWorkerIfNeeded.needed (cfg : Config) (e : SchedulingKeyEntry) : Bool :=
  decide (e.pending_lease_requests.length
      < cfg.max_pending_lease_requests_per_scheduling_category) &&
    !(decide (cfg.max_tasks_in_flight_per_worker = 1) &&
      !e.AllPipelinesToWorkersFull cfg.max_tasks_in_flight_per_worker) &&
    ((e.task_queue.isEmpty && e.StealableTasks) ||
      (!e.task_queue.isEmpty &&
        decide (e.pending_lease_requests.length < e.task_queue.length)))

/-- C16: the error a queued task is failed with when its lease request is canceled for
`failure_type`. -/
def RequestNewWorkerIfNeeded.cancelError (failure_type : SchedulingFailureType)
    (task_spec : TaskSpecification) : ErrorType :=
  if failure_type = SchedulingFailureType.SCHEDULING_CANCELLED_RUNTIME_ENV_SETUP_FAILED then
    ErrorType.RUNTIME_ENV_SETUP_FAILED
  else if task_spec.is_actor_creation_task then ErrorType.ACTOR_PLACEMENT_GROUP_REMOVED
  else ErrorType.TASK_PLACEMENT_GROUP_REMOVED

/-- C15, the outcome the spec prescribes for a push reply: on an error status
`FailOrRetryPendingTask` with `ACTOR_DIED` for an actor task and `WORKER_DIED` otherwise;
on OK `CompletePendingTask`, unless the task allows `retry_exceptions`, the reply is an
application-level error and `RetryTaskIfPossible` (which is then asked) answers true. -/
def PushNormalTask.outcome (ctx : PushContext) (status : Status) (reply : PushTaskReply)
    (retry_possible : Bool) : List Call :=
  if !status.ok then
    [Call.FailOrRetryPendingTask ctx.task_id
      (if ctx.is_actor then ErrorType.ACTOR_DIED else ErrorType.WORKER_DIED)]
  else if ctx.task_spec.retry_exceptions && reply.is_application_level_error then
    if retry_possible then [Call.RetryTaskIfPossible ctx.task_id]
    else [Call.RetryTaskIfPossible ctx.task_id, Call.CompletePendingTask ctx.task_id]
  else [Call.CompletePendingTask ctx.task_id]

namespace Submitter

/-- Between `s` and `s'` calls were only added, and every added call satisfies `p`. -/
def CallsOnly (p : Call → Bool) (s s' : Submitter) : Prop :=
  ∃ cs, s'.calls = s.calls ++ cs ∧ ∀ c ∈ cs, p c = true

/-- How often the finisher was told that the task `id` is cancelled. -/
def cancelNotices (s : Submitter) (id : TaskID) : Nat :=
  s.calls.count (Call.FailOrRetryPendingTask id ErrorType.TASK_CANCELLED)

/-- The `CancelTask` RPCs sent to workers so far. -/
def cancelRpcs (s : Submitter) : List Call :=
  s.calls.filter (fun c =>
    match c with
    | Call.CancelTask _ _ _ _ => true
    | _ => false)


/-- The sum of `tasks_in_flight` over the lease entries of the active workers of `e`. -/
def inFlightOfWorkers (s : Submitter) (e : SchedulingKeyEntry) : Nat :=
  (e.active_workers.map (fun a => (s.lease a).tasks_in_flight)).sum

/-- I2: every key entry's aggregate counter is the sum over its active workers. -/
def InFlightSum (s : Submitter) : Prop :=
  ∀ key e, Assoc.lookup key s.scheduling_key_entries = some e →
    e.total_tasks_in_flight = s.inFlightOfWorkers e

/-- The state after the calls `cs` were made, one after the other. -/
def callAll (s : Submitter) (cs : List Call) : Submitter :=
  { s with calls := s.calls ++ cs }

/-- The history of pushes: key and task of every `PushNormalTask` call, in order. -/
def pushed (s : Submitter) : List (SchedulingKey × TaskSpecification) :=
  s.calls.filterMap (fun c =>
    match c with
    | Call.PushNormalTask _ key task_spec _ => some (key, task_spec)
    | _ => none)

/-- The tasks pushed for `key`, in the order of their `PushNormalTask` calls. -/
def pushedFor (s : Submitter) (key : SchedulingKey) : List TaskSpecification :=
  (s.pushed.filter (fun p => decide (p.1 = key))).map (fun p => p.2)

/-- The tasks enqueued for `key` at line 78, in the order they were enqueued. -/
def enqueuedFor (s : Submitter) (key : SchedulingKey) : List TaskSpecification :=
  (s.enqueued.filter (fun p => decide (p.1 = key))).map (fun p => p.2)

/-- What the lease-request bookkeeping never writes: the lease entries, the executing and
cancelled tasks, the outstanding push and steal continuations and the two histories. -/
def work (s : Submitter) :=
  (s.worker_to_lease_entry, s.executing_tasks, s.cancelled_tasks, s.pushes, s.steals,
    s.enqueued, s.pushed)

/-- The state `s'` differs from `s` at most in lease-request bookkeeping: `work` is the
same and every key has the same task queue and the same active workers. -/
structure Quiet (s s' : Submitter) : Prop where
  work : s'.work = s.work
  queue : ∀ key, (s'.entry key).task_queue = (s.entry key).task_queue
  active : ∀ key, (s'.entry key).active_workers = (s.entry key).active_workers

/-- I3: no lease entry has more tasks in flight than the per-worker cap. -/
def InFlightBounded (cfg : Config) (s : Submitter) : Prop :=
  ∀ a l, Assoc.lookup a s.worker_to_lease_entry = some l →
    l.tasks_in_flight ≤ cfg.max_tasks_in_flight_per_worker

/-- I4: no key entry has more pending lease requests than the cap. -/
def PendingBounded (cfg : Config) (s : Submitter) : Prop :=
  ∀ key e, Assoc.lookup key s.scheduling_key_entries = some e →
    e.pending_lease_requests.length ≤ cfg.max_pending_lease_requests_per_scheduling_category

/-- A step under which no key's pending lease requests grow beyond the cap: for every
key they did not grow, or they are within the cap. -/
def PendingStep (cfg : Config) (s s' : Submitter) : Prop :=
  ∀ key, (s'.entry key).pending_lease_requests.length
      ≤ (s.entry key).pending_lease_requests.length ∨
    (s'.entry key).pending_lease_requests.length
      ≤ cfg.max_pending_lease_requests_per_scheduling_category

/-- A step under which no lease entry's tasks in flight grow beyond the cap: every lease
entry afterwards is within the cap, or it existed before with at least as many. -/
def InFlightStep (cfg : Config) (s s' : Submitter) : Prop :=
  ∀ a l', Assoc.lookup a s'.worker_to_lease_entry = some l' →
    l'.tasks_in_flight ≤ cfg.max_tasks_in_flight_per_worker ∨
    ∃ l, Assoc.lookup a s.worker_to_lease_entry = some l ∧
      l'.tasks_in_flight ≤ l.tasks_in_flight

/-- No lease entry gets its `is_stealing` flag set: an entry flagged in `s'` was already
flagged in `s`. -/
def NoNewStealing (s s' : Submitter) : Prop :=
  ∀ a l', Assoc.lookup a s'.worker_to_lease_entry = some l' → l'.is_stealing = true →
    ∃ l, Assoc.lookup a s.worker_to_lease_entry = some l ∧ l.is_stealing = true

/-- A lease entry that is flagged `is_stealing` in `s'` was already flagged in `s`, or it
has no task in flight. -/
def StealFresh (s s' : Submitter) : Prop :=
  ∀ a l', Assoc.lookup a s'.worker_to_lease_entry = some l' → l'.is_stealing = true →
    (∃ l, Assoc.lookup a s.worker_to_lease_entry = some l ∧ l.is_stealing = true) ∨
      l'.tasks_in_flight = 0

/-- Between `s` and `s'` no task was pushed and none was enqueued, and the task queue of
every key in `s'` is what is left of its queue in `s` after some tasks were dropped. -/
structure Shrinks (s s' : Submitter) : Prop where
  pushed : s'.pushed = s.pushed
  enqueued : s'.enqueued = s.enqueued
  queue : ∀ key, ((s'.entry key).task_queue).Sublist (s.entry key).task_queue

/-- P2 as a property of a state: for every key, the tasks pushed so far followed by the
tasks still queued are, in this order, among the tasks enqueued so far, in the order they
were enqueued. -/
def Flow (s : Submitter) : Prop :=
  ∀ key, (s.pushedFor key ++ (s.entry key).task_queue).Sublist (s.enqueuedFor key)

/-- P3: the ids of the tasks queued for `key`, followed by the ids recorded in
`executing_tasks` (the map is not split by key; a steal reply for `key` writes no other
key's queue). -/
def workIds (s : Submitter) (key : SchedulingKey) : List TaskID :=
  (s.entry key).task_queue.map (fun t => t.task_id) ++ s.executing_tasks.map (fun p => p.1)

/-- The states `s` and `s'` record the same executing tasks and have the same task queue
under every key. -/
structure SameTasks (s s' : Submitter) : Prop where
  executing : s'.executing_tasks = s.executing_tasks
  queue : ∀ key, (s'.entry key).task_queue = (s.entry key).task_queue

/-- I1 together with what keeps it: every lease entry has a lease client and its worker is
active for the entry's key; every active worker of a key has a lease entry bound to that
key; and the key captured by an outstanding push or steal continuation is the key of the
lease entry of its worker, when there is one. -/
structure CrossMap (s : Submitter) : Prop where
  leased_active : ∀ a l, Assoc.lookup a s.worker_to_lease_entry = some l →
    l.lease_client.isSome = true ∧ a ∈ (s.entry l.scheduling_key).active_workers
  active_leased : ∀ key a, a ∈ (s.entry key).active_workers →
    ∃ l, Assoc.lookup a s.worker_to_lease_entry = some l ∧ l.scheduling_key = key
  push_key : ∀ c ∈ s.pushes, ∀ l, Assoc.lookup c.addr s.worker_to_lease_entry = some l →
    l.scheduling_key = c.scheduling_key
  steal_key : ∀ c ∈ s.steals, ∀ l, Assoc.lookup c.thief_addr s.worker_to_lease_entry = some l →
    l.scheduling_key = c.scheduling_key

/-- The state `s'` has the same lease bindings (key and presence of a lease client, per
worker) and the same active workers per key as `s`, and no new outstanding push or steal
continuation. -/
structure SameCross (s s' : Submitter) : Prop where
  binding : ∀ a, (Assoc.lookup a s'.worker_to_lease_entry).map
      (fun l => (l.scheduling_key, l.lease_client.isSome))
    = (Assoc.lookup a s.worker_to_lease_entry).map
      (fun l => (l.scheduling_key, l.lease_client.isSome))
  active : ∀ key, (s'.entry key).active_workers = (s.entry key).active_workers
  pushes : ∀ c ∈ s'.pushes, c ∈ s.pushes
  steals : ∀ c ∈ s'.steals, c ∈ s.steals

end Submitter

/-- An event that steals no task and cancels none: a steal reply counts when it names no
stolen task. -/
def Event.plain : Event → Bool
  | Event.StealReply _ _ stolen => stolen.isEmpty
  | Event.CancelTask _ _ _ _ => false
  | Event.CancelReply _ _ _ => false
  | Event.CancelRetry _ _ => false
  | Event.CancelRemoteTask _ _ _ _ => false
  | _ => true

/-! ## Scenarios -/

namespace Scenario

/-- A driver whose lease policy always answers the local raylet (node 1). -/
def config (max_tasks_in_flight_per_worker max_pending : Nat) : Config :=
  { max_tasks_in_flight_per_worker := max_tasks_in_flight_per_worker,
    max_pending_lease_requests_per_scheduling_category := max_pending,
    lease_timeout_ms := 1000, worker_type := WorkerType.DRIVER, local_raylet_id := 1,
    rpc_address := ⟨0, 0, 100, 1⟩, has_cancel_retry_timer := false,
    GetBestNodeForTask := fun _ => ⟨0, 0, 0, 1⟩ }

/-- A normal task of scheduling class 7 without dependencies. -/
def task (n : TaskID) : TaskSpecification := ⟨n, 7, [], false, 0, 0, false, false⟩

/-- The scheduling key of every `task n`. -/
def key : SchedulingKey := ⟨7, [], 0, 0⟩

/-- A worker of the local raylet. -/
def worker (n : WorkerID) : WorkerAddress := ⟨10, 5000 + n, n, 1⟩

/-- A lease reply granting worker `w`. -/
def grant (w : WorkerAddress) : RequestWorkerLeaseReply :=
  ⟨false, SchedulingFailureType.OTHER, false, w, WorkerAddress.empty, []⟩

/-- A lease reply canceled because the placement group was removed. -/
def placementGroupRemoved : RequestWorkerLeaseReply :=
  ⟨true, SchedulingFailureType.SCHEDULING_CANCELLED_PLACEMENT_GROUP_REMOVED, false,
    WorkerAddress.empty, WorkerAddress.empty, []⟩

def okReply : PushTaskReply := ⟨false, false, false⟩

def exitingReply : PushTaskReply := ⟨true, false, false⟩

def stolenReply : PushTaskReply := ⟨false, true, false⟩

/-- Submit `task n` and let its dependency resolution succeed. -/
def submit (n : TaskID) : List (Nat × Event) :=
  [(0, Event.SubmitTask (task n)), (0, Event.DependenciesResolved 0 Status.OK [])]

/-- Two tasks are pipelined to worker 11 (cap 2); the reply to the first one says the
worker is exiting while the second one is still in flight. -/
def exitingTrace : List (Nat × Event) :=
  submit 1 ++ submit 2 ++
    [(0, Event.LeaseReply 0 Status.OK (grant (worker 11))),
     (0, Event.PushReply 0 Status.OK exitingReply false)]

/-- Four tasks are pipelined to worker 11 (cap 4), then worker 12 is granted and starts
stealing from worker 11. -/
def stealingTrace : List (Nat × Event) :=
  submit 1 ++ submit 2 ++ submit 3 ++ submit 4 ++
    [(0, Event.LeaseReply 0 Status.OK (grant (worker 11))),
     (0, Event.LeaseReply 0 Status.OK (grant (worker 12)))]

/-- After `stealingTrace`, two of worker 11's tasks finish: it keeps two in flight while
worker 12, still waiting for its steal reply, has none. -/
def unevenTrace : List (Nat × Event) :=
  stealingTrace ++
    [(0, Event.PushReply 0 Status.OK okReply false),
     (0, Event.PushReply 0 Status.OK okReply false)]

/-- Worker 11 (cap 1) runs two tasks one after the other and is returned, while the
request for a second lease is being cancelled; the raylet then answers that lease request
as canceled, which erases the key entry. -/
def leaseCanceledTrace : List (Nat × Event) :=
  submit 1 ++ submit 2 ++
    [(0, Event.LeaseReply 0 Status.OK (grant (worker 11))),
     (0, Event.PushReply 0 Status.OK okReply false),
     (0, Event.PushReply 0 Status.OK okReply false),
     (0, Event.LeaseReply 0 Status.OK placementGroupRemoved)]

/-- After `leaseCanceledTrace`, the reply to the lease cancellation arrives: the raylet
had nothing left to cancel. -/
def cancelReplyTrace : List (Nat × Event) :=
  leaseCanceledTrace ++ [(0, Event.CancelLeaseReply 0 Status.OK false)]

/-- After `stealingTrace`, the steal reply names task 4, which is pushed to the thief
(worker 12) while the reply to its first push, to worker 11, is still on its way. -/
def stolenTrace : List (Nat × Event) :=
  stealingTrace ++ [(0, Event.StealReply 0 Status.OK [(4, some (task 4))])]

/-- After `stealingTrace`, a fifth task is submitted while worker 12 waits for its steal
reply. -/
def pushedWhileStealingTrace : List (Nat × Event) :=
  stealingTrace ++ submit 5

/-- The state after four tasks were pipelined to worker 11 (cap 4). -/
def fourPipelined : Submitter :=
  (run (config 4 1)
    (submit 1 ++ submit 2 ++ submit 3 ++ submit 4 ++
      [(0, Event.LeaseReply 0 Status.OK (grant (worker 11)))])
    Submitter.init).getD Submitter.init

/-- The state after worker 12 is granted in `fourPipelined` and starts stealing. -/
def stealing : Submitter :=
  (step (config 4 1) 0 (Event.LeaseReply 0 Status.OK (grant (worker 12))) fourPipelined).getD
    Submitter.init

/-- After `stealingTrace`, the reply to the push of task 4 to worker 11 says the task was
stolen; the steal reply that names task 4 has not arrived yet. -/
def victimRepliedTrace : List (Nat × Event) :=
  stealingTrace ++ [(0, Event.PushReply 3 Status.OK stolenReply false)]

/-- The context of the steal that worker 12 started in `stealing`. -/
def stealContext : StealContext := StealContext.mk key 11 (worker 11) (worker 12)

/-- The state after the steal reply naming task 4 is processed in `stealing`. -/
def stolen : Submitter :=
  (StealTasksOrReturnWorker.reply (config 4 1) 0 stealContext Status.OK [(4, some (task 4))]
    stealing).getD Submitter.init

/-- A state with one worker holding two tasks in flight. -/
def oneBusyWorker : Submitter :=
  { Submitter.init with
    worker_to_lease_entry :=
      [(worker 11, ⟨some LeaseClient.local_client, 1000, [], key, 2, false⟩)] }

/-- The entry of `key` in `oneBusyWorker`. -/
def oneBusyEntry : SchedulingKeyEntry :=
  { SchedulingKeyEntry.empty with active_workers := [worker 11], total_tasks_in_flight := 2 }

/-- The state after `task 1` was submitted and resolved (cap 2, one pending lease). -/
def afterSubmit : Submitter :=
  (run (config 2 1) (submit 1) Submitter.init).getD Submitter.init

/-- The state after two tasks were pipelined to worker 11 (cap 2). -/
def pipelined : Submitter :=
  (run (config 2 1)
    (submit 1 ++ submit 2 ++ [(0, Event.LeaseReply 0 Status.OK (grant (worker 11)))])
    Submitter.init).getD Submitter.init

/-- The captured variables of the push of `task 1` to worker 11 in `pipelined`. -/
def pushOfTask1 : PushContext :=
  PushContext.mk (task 1) 1 false false key (worker 11) []

/-- The state after the reply to the push of `task 1` (status OK, no application-level
error) is processed in `pipelined`. -/
def completed : Submitter :=
  (PushNormalTask.reply (config 2 1) 0 pushOfTask1 Status.OK okReply false pipelined).getD
    Submitter.init

end Scenario

namespace Scenario

/-- A driver whose lease policy always answers the raylet of node 2, a remote one. -/
def remotePolicy : Config :=
  { config 2 1 with GetBestNodeForTask := fun _ => ⟨0, 0, 0, 2⟩ }

/-- One task is submitted under `remotePolicy`; its lease request, which went to node 2,
fails with an IO error. -/
def remoteFailureTrace : List (Nat × Event) :=
  submit 1 ++ [(0, Event.LeaseReply 0 Status.IOError (grant (worker 11)))]

/-- The state after `task 1` was submitted and resolved under `remotePolicy`. -/
def afterRemoteSubmit : Submitter :=
  (run remotePolicy (submit 1) Submitter.init).getD Submitter.init

/-- The captured variables of the lease request issued in `afterRemoteSubmit`. -/
def remoteLease : LeaseContext := LeaseContext.mk key 0 false ⟨0, 0, 0, 2⟩

/-- The single-task scenario: one task is submitted, its lease is granted, the task is
pushed and its reply arrives with status OK, upon which the worker is returned. -/
def singleTaskTrace : List (Nat × Event) :=
  submit 1 ++
    [(0, Event.LeaseReply 0 Status.OK (grant (worker 11))),
     (0, Event.PushReply 0 Status.OK okReply false)]

/-- The state with `task 1` queued and nothing else. -/
def queuedOne : Submitter := SubmitTask.enqueue (task 1) Submitter.init

/-- The state of the single-task scenario after the task was pushed to worker 11. -/
def singlePushed : Submitter :=
  (run (config 2 1) (submit 1 ++ [(0, Event.LeaseReply 0 Status.OK (grant (worker 11)))])
    Submitter.init).getD Submitter.init

end Scenario

namespace Scenario

/-- After `stealingTrace`, a fifth task is submitted at a time when the lease of worker 12,
granted at time 0 for 1000 ms, has expired; worker 12 still waits for its steal reply. -/
def expiredWhileStealingTrace : List (Nat × Event) :=
  stealingTrace ++ [(2000, Event.SubmitTask (task 5))]

/-- The state after `expiredWhileStealingTrace`. -/
def expiredWhileStealing : Submitter :=
  (run (config 4 1) expiredWhileStealingTrace Submitter.init).getD Submitter.init

/-- The state after `expiredWhileStealing` in which the continuation of `task 5` has
enqueued the task and reaches the loop over the active workers (line 89). -/
def fifthEnqueued : Submitter :=
  SubmitTask.enqueue (task 5) { expiredWhileStealing with resolving := [] }

end Scenario

/-- A call that belongs to the lease traffic with a raylet: a lease request, a lease
cancellation or a backlog report. -/
def Call.isLeaseTraffic : Call → Bool
  | Call.RequestWorkerLease _ _ _ _ => true
  | Call.CancelWorkerLease _ _ => true
  | Call.ReportWorkerBacklog _ _ => true
  | _ => false

/-- C25: the sum of `BacklogSize()` over the key entries of scheduling class `c`. -/
def ReportWorkerBacklogInternal.backlogOf (c : SchedulingClass)
    (entries : List (SchedulingKey × SchedulingKeyEntry)) : Nat :=
  ((entries.filter (fun ke => decide (ke.1.scheduling_class = c))).map
    (fun ke => ke.2.BacklogSize)).sum

namespace Scenario

/-- The state inside the lease reply that grants worker 12 in `fourPipelined`, after
`AddWorkerLeaseClient` (line 610): worker 12 has a lease and no task in flight. -/
def secondGranted : Submitter :=
  (AddWorkerLeaseClient (config 4 1) 0 (worker 12) LeaseClient.local_client [] key
    fourPipelined).getD Submitter.init

/-- The lease entry of worker 12 in `secondGranted`. -/
def secondLease : LeaseEntry := ⟨some LeaseClient.local_client, 1000, [], key, 0, false⟩

end Scenario

/-- A call that pushes a task to a worker. -/
def Call.isPushNormalTask : Call → Bool
  | Call.PushNormalTask _ _ _ _ => true
  | _ => false

/-- The captured variables of the push of `task_spec` to `addr` (line 691). -/
def PushNormalTask.context (addr : WorkerAddress) (scheduling_key : SchedulingKey)
    (assigned_resources : Resources) (task_spec : TaskSpecification) : PushContext :=
  PushContext.mk task_spec task_spec.task_id task_spec.is_actor_task
    task_spec.is_actor_creation_task scheduling_key addr assigned_resources

/-- The state `s'` is `s` after the tasks `ts`, taken from the front of the queue of `key`,
were pushed to the worker `addr` one after the other (the loop of lines 342-357): the calls
and the continuations handed out, the queue, the two counters of tasks in flight and the
executing tasks. -/
structure Submitter.Pipelined (addr : WorkerAddress) (key : SchedulingKey) (res : Resources)
    (ts : List TaskSpecification) (s s' : Submitter) : Prop where
  calls : s'.calls = s.calls ++ ts.map (fun t => Call.PushNormalTask addr key t res)
  pushes : s'.pushes = s.pushes ++ ts.map (PushNormalTask.context addr key res)
  queue : (s.entry key).task_queue = ts ++ (s'.entry key).task_queue
  in_flight : s'.lease addr = { s.lease addr with
    tasks_in_flight := (s.lease addr).tasks_in_flight + ts.length }
  total : (s'.entry key).total_tasks_in_flight
    = (s.entry key).total_tasks_in_flight + ts.length
  kept : ∀ id v, Assoc.lookup id s.executing_tasks = some v →
    Assoc.lookup id s'.executing_tasks = some v
  recorded : ∀ t ∈ ts, Assoc.lookup t.task_id s'.executing_tasks
    = some ((Assoc.lookup t.task_id s.executing_tasks).getD addr)
  active : (s'.entry key).active_workers = (s.entry key).active_workers
  pending : (s'.entry key).pending_lease_requests = (s.entry key).pending_lease_requests

namespace Scenario

/-- The state inside the lease reply that grants worker 11 after `task 1` and `task 2` were
submitted (cap 2), after `AddWorkerLeaseClient` (line 610): both tasks are queued and
worker 11 has a lease and no task in flight. -/
def firstGranted : Submitter :=
  (AddWorkerLeaseClient (config 2 1) 0 (worker 11) LeaseClient.local_client [] key
    (RequestNewWorkerIfNeeded.received (config 2 1) (LeaseContext.mk key 0 false ⟨0, 0, 0, 1⟩)
      ((run (config 2 1) (submit 1 ++ submit 2) Submitter.init).getD Submitter.init))).getD
    Submitter.init

/-- The lease entry of worker 11 in `firstGranted`. -/
def firstLease : LeaseEntry := ⟨some LeaseClient.local_client, 1000, [], key, 0, false⟩

end Scenario

namespace Scenario

/-- Worker 11 is granted at time 0 (cap 2, its lease expires at 1000) and gets `task 1`.
At time 2000, with `task 1` still in flight, `task 2` is submitted and stays queued,
because the lease has expired; then `task 3` is submitted. -/
def expiredLeaseTrace : List (Nat × Event) :=
  [(0, Event.SubmitTask (task 1)), (0, Event.DependenciesResolved 0 Status.OK []),
   (0, Event.LeaseReply 0 Status.OK (grant (worker 11))),
   (2000, Event.SubmitTask (task 2)), (2000, Event.DependenciesResolved 0 Status.OK []),
   (2000, Event.SubmitTask (task 3))]

/-- The state after `expiredLeaseTrace`. -/
def expiredLease : Submitter :=
  (run (config 2 1) expiredLeaseTrace Submitter.init).getD Submitter.init

/-- The state after `expiredLease` in which the continuation of `task 3` has enqueued the
task and reaches the loop over the active workers (line 89). -/
def thirdEnqueued : Submitter :=
  SubmitTask.enqueue (task 3) { expiredLease with resolving := [] }

end Scenario

namespace Scenario

/-- A driver like `config 2 1` that has a cancel retry timer. -/
def retryConfig : Config := { config 2 1 with has_cancel_retry_timer := true }

/-- The captured variables of the cancellation of `task 1` (forced, not recursive). -/
def cancelOfTask1 : CancelContext := CancelContext.mk (task 1) key true false

/-- The state after `CancelTask` was called in `pipelined` for `task 1`, which is executing
on worker 11: the task is marked as cancelled and the `CancelTask` RPC is on its way. -/
def cancelling : Submitter := (CancelTask retryConfig (task 1) true false true pipelined).1

end Scenario

namespace Scenario

/-- The state after `task 1` was submitted twice and resolved both times: the queue of its
key holds the task twice. -/
def submittedTwice : Submitter :=
  (run (config 2 1) (submit 1 ++ submit 1) Submitter.init).getD Submitter.init

/-- With a cap of 1, `task 1` is submitted twice; worker 11 is granted and gets the first
copy, then worker 12 is granted and gets the second. -/
def pushedTwiceTrace : List (Nat × Event) :=
  submit 1 ++ submit 1 ++
    [(0, Event.LeaseReply 0 Status.OK (grant (worker 11))),
     (0, Event.LeaseReply 0 Status.OK (grant (worker 12)))]

/-- The state inside the lease reply that grants worker 12 in `pushedTwiceTrace`, after
`AddWorkerLeaseClient` (line 610): the second copy of `task 1` is queued, the first is
executing on worker 11, and worker 12 has a lease and no task in flight. -/
def regranted : Submitter :=
  (AddWorkerLeaseClient (config 1 1) 0 (worker 12) LeaseClient.local_client [] key
    (RequestNewWorkerIfNeeded.received (config 1 1) (LeaseContext.mk key 1 false ⟨0, 0, 0, 1⟩)
      ((run (config 1 1)
        (submit 1 ++ submit 1 ++ [(0, Event.LeaseReply 0 Status.OK (grant (worker 11)))])
        Submitter.init).getD Submitter.init))).getD Submitter.init

end Scenario

namespace Scenario

/-- The state at the end of the single-task scenario. -/
def singleDone : Submitter :=
  (run (config 2 1) singleTaskTrace Submitter.init).getD Submitter.init

end Scenario

/-! ## Proofs -/

/-! ### Association lists -/

namespace Assoc

variable {α : Type} {β : Type} [DecidableEq α]

theorem lookup_update (k k' : α) (v : β) (m : List (α × β)) :
    lookup k' (update k v m) = if k = k' then some v else lookup k' m := by
  induction m with
  | nil => simp [update, lookup]
  | cons p rest ih =>
    obtain ⟨k0, v0⟩ := p
    simp only [update]
    split_ifs with h0 h1 h1 <;> simp only [lookup, ih] <;> split_ifs <;> simp_all

theorem lookup_remove (k k' : α) (m : List (α × β)) :
    lookup k' (remove k m) = if k = k' then none else lookup k' m := by
  induction m with
  | nil => simp [remove, lookup]
  | cons p rest ih =>
    obtain ⟨k0, v0⟩ := p
    simp only [remove]
    split_ifs with h0 h1 h1 <;> simp only [lookup, ih] <;> split_ifs <;> simp_all

theorem lookup_emplace (k k' : α) (v : β) (m : List (α × β)) :
    lookup k' (emplace k v m) = if k = k' then some ((lookup k m).getD v) else lookup k' m := by
  unfold emplace
  cases h : lookup k m with
  | none =>
    simp [lookup_update]
  | some x =>
    by_cases hk : k = k'
    · subst hk
      simp [h]
    · simp [hk]

theorem getD_lookup_emplace (k k' : α) (d : β) (m : List (α × β)) :
    (lookup k' (emplace k d m)).getD d = (lookup k' m).getD d := by
  rw [lookup_emplace]
  by_cases hk : k = k'
  · subst hk
    simp
  · simp [hk]

theorem lookup_map_snd (f : β → β) (k : α) (m : List (α × β)) :
    lookup k (m.map (fun p => (p.1, f p.2))) = (lookup k m).map f := by
  induction m with
  | nil => simp [lookup]
  | cons p rest ih =>
    obtain ⟨k0, v0⟩ := p
    by_cases h : k0 = k <;> simp [lookup, h, ih]

theorem length_update_le (k : α) (v : β) (m : List (α × β)) :
    (update k v m).length ≤ m.length + 1 := by
  induction m with
  | nil => simp [update]
  | cons p rest ih =>
    obtain ⟨k0, v0⟩ := p
    simp only [update]
    split_ifs <;> simp only [List.length_cons] <;> omega

theorem length_emplace_le (k : α) (v : β) (m : List (α × β)) :
    (emplace k v m).length ≤ m.length + 1 := by
  unfold emplace
  split
  · omega
  · exact length_update_le k v m

theorem length_remove_le (k : α) (m : List (α × β)) : (remove k m).length ≤ m.length := by
  induction m with
  | nil => simp [remove]
  | cons p rest ih =>
    obtain ⟨k0, v0⟩ := p
    simp only [remove]
    split_ifs <;> simp only [List.length_cons] <;> omega

end Assoc

@[simp] theorem SchedulingKeyEntry.empty_pending_lease_requests :
    SchedulingKeyEntry.empty.pending_lease_requests = [] := rfl

@[simp] theorem SchedulingKeyEntry.empty_task_queue :
    SchedulingKeyEntry.empty.task_queue = [] := rfl

@[simp] theorem SchedulingKeyEntry.empty_active_workers :
    SchedulingKeyEntry.empty.active_workers = [] := rfl

@[simp] theorem SchedulingKeyEntry.empty_total_tasks_in_flight :
    SchedulingKeyEntry.empty.total_tasks_in_flight = 0 := rfl

@[simp] theorem LeaseEntry.empty_tasks_in_flight : LeaseEntry.empty.tasks_in_flight = 0 := rfl

@[simp] theorem LeaseEntry.empty_is_stealing : LeaseEntry.empty.is_stealing = false := rfl

@[simp] theorem LeaseEntry.empty_lease_client : LeaseEntry.empty.lease_client = none := rfl

/-! ### Running event sequences -/

theorem reachable_of_run {cfg : Config} (events : List (Nat × Event)) :
    ∀ {s s' : Submitter}, Reachable cfg s → run cfg events s = some s' → Reachable cfg s' := by
  induction events with
  | nil =>
    intro s s' hs h
    simp only [run, Option.some.injEq] at h
    exact h ▸ hs
  | cons p rest ih =>
    intro s s' hs h
    obtain ⟨now, ev⟩ := p
    simp only [run] at h
    by_cases hen : ev.enabled s = true
    · rw [if_pos hen] at h
      cases hst : step cfg now ev s with
      | none => rw [hst] at h; simp at h
      | some s1 =>
        rw [hst] at h
        exact ih (Reachable.step now ev s s1 hs hen hst) h
    · rw [if_neg hen] at h
      simp at h

theorem reachable_getD_run (cfg : Config) (events : List (Nat × Event)) :
    Reachable cfg ((run cfg events Submitter.init).getD Submitter.init) := by
  cases h : run cfg events Submitter.init with
  | none => exact Reachable.init
  | some s => exact reachable_of_run events Reachable.init h

/-- A decidable test that holds of the outcome of a run yields a reachable state. -/
theorem run_witness {cfg : Config} {events : List (Nat × Event)} {p : Submitter → Bool}
    (h : (run cfg events Submitter.init).any p = true) :
    ∃ s, run cfg events Submitter.init = some s ∧ Reachable cfg s ∧ p s = true := by
  cases hr : run cfg events Submitter.init with
  | none => rw [hr] at h; simp at h
  | some s =>
    rw [hr] at h
    exact ⟨s, rfl, reachable_of_run events Reachable.init hr, by simpa using h⟩

/-! ### What a call that returns has done -/

namespace Assoc

variable {α : Type} {β : Type} [DecidableEq α]

theorem emplace_of_lookup_some {k : α} {x : β} (v : β) {m : List (α × β)}
    (h : lookup k m = some x) : emplace k v m = m := by
  simp [emplace, h]

theorem emplace_of_lookup_none {k : α} (v : β) {m : List (α × β)}
    (h : lookup k m = none) : emplace k v m = update k v m := by
  simp [emplace, h]

end Assoc

namespace Submitter

theorem entry_touchEntry (s : Submitter) (key key' : SchedulingKey) :
    (s.touchEntry key).entry key' = s.entry key' := by
  simp [entry, touchEntry, Assoc.getD_lookup_emplace]

theorem lease_touchLease (s : Submitter) (addr addr' : WorkerAddress) :
    (s.touchLease addr).lease addr' = s.lease addr' := by
  simp [lease, touchLease, Assoc.getD_lookup_emplace]

theorem lease_of_lookup {s : Submitter} {addr : WorkerAddress} {l : LeaseEntry}
    (h : Assoc.lookup addr s.worker_to_lease_entry = some l) : s.lease addr = l := by
  simp [lease, h]

theorem lease_of_lookup_none {s : Submitter} {addr : WorkerAddress}
    (h : Assoc.lookup addr s.worker_to_lease_entry = none) : s.lease addr = LeaseEntry.empty := by
  simp [lease, h]

theorem touchLease_of_lookup {s : Submitter} {addr : WorkerAddress} {l : LeaseEntry}
    (h : Assoc.lookup addr s.worker_to_lease_entry = some l) : s.touchLease addr = s := by
  simp [touchLease, Assoc.emplace_of_lookup_some _ h]

/-- A lease entry with a lease client is one that is stored in the map. -/
theorem lookup_of_lease_client {s : Submitter} {addr : WorkerAddress} {client : LeaseClient}
    (h : (s.lease addr).lease_client = some client) :
    Assoc.lookup addr s.worker_to_lease_entry = some (s.lease addr) := by
  cases hl : Assoc.lookup addr s.worker_to_lease_entry with
  | none => rw [lease_of_lookup_none hl] at h; cases h
  | some l => rw [lease_of_lookup hl]

end Submitter

theorem AddWorkerLeaseClient_inv {cfg : Config} {now : Nat} {addr : WorkerAddress}
    {lease_client : LeaseClient} {res : Resources} {key : SchedulingKey} {s s' : Submitter}
    (h : AddWorkerLeaseClient cfg now addr lease_client res key s = some s') :
    addr ∉ (s.entry key).active_workers ∧
    s' = ((((s.cacheConnect addr).emplaceLease addr
        ⟨some lease_client, now + cfg.lease_timeout_ms, res, key, 0, false⟩).touchEntry
          key).setEntry key ((s.entry key).withWorker addr)) := by
  unfold AddWorkerLeaseClient at h
  simp only [] at h
  split at h
  · cases h
  · rename_i hmem
    simp only [Option.some.injEq] at h
    refine ⟨?_, ?_⟩
    · simpa [Submitter.entry_touchEntry] using hmem
    · rw [← h]
      simp only [Submitter.entry_touchEntry]
      rfl

theorem ReturnWorker_inv {addr : WorkerAddress} {was_error : Bool} {key : SchedulingKey}
    {s s' : Submitter} (h : ReturnWorker addr was_error key s = some s') :
    ∃ l client, Assoc.lookup addr s.worker_to_lease_entry = some l ∧
      l.lease_client = some client ∧ l.tasks_in_flight = 0 ∧ l.is_stealing = false ∧
      (s.entry key).active_workers ≠ [] ∧
      s' = ((((s.touchEntry key).setEntry key
          ((s.entry key).withoutWorker addr)).eraseEntryIfCanDelete key).call
            (Call.ReturnWorker client addr.port addr.worker_id was_error)).eraseLease addr := by
  unfold ReturnWorker at h
  simp only [Submitter.entry_touchEntry, Submitter.lease_touchLease] at h
  split at h
  · cases h
  · rename_i hlen
    split at h
    · cases h
    · rename_i client hc
      have hc' : (s.lease addr).lease_client = some client := hc
      have hl := Submitter.lookup_of_lease_client hc'
      have htouch : (s.touchEntry key).touchLease addr = s.touchEntry key :=
        Submitter.touchLease_of_lookup (s := s.touchEntry key) hl
      rw [htouch] at h
      split at h
      · cases h
      · rename_i h1
        split at h
        · cases h
        · rename_i h2
          simp only [Option.some.injEq] at h
          refine ⟨s.lease addr, client, hl, hc', ?_, ?_, ?_, h.symm⟩
          · have h1' : ¬ (s.lease addr).tasks_in_flight ≠ 0 := h1
            omega
          · have h2' : ¬ (s.lease addr).WorkerIsStealing = true := h2
            simpa [LeaseEntry.WorkerIsStealing] using h2'
          · intro hnil
            rw [hnil] at hlen
            simp at hlen

theorem Assoc.Touched.touchedRefl {α : Type} {β : Type} [DecidableEq α] (d : β) (m : List (α × β)) :
    Assoc.Touched d m m := fun _ => Or.inl rfl

theorem Assoc.Touched.touchedTrans {α : Type} {β : Type} [DecidableEq α] {d : β}
    {m1 m2 m3 : List (α × β)} (h12 : Assoc.Touched d m1 m2) (h23 : Assoc.Touched d m2 m3) :
    Assoc.Touched d m1 m3 := by
  intro k
  rcases h23 k with h | ⟨h, h'⟩
  · rw [h]; exact h12 k
  · rcases h12 k with g | ⟨g, g'⟩
    · right; exact ⟨g ▸ h, h'⟩
    · rw [g'] at h; cases h

theorem Assoc.touched_emplace {α : Type} {β : Type} [DecidableEq α] (d : β) (k : α)
    (m : List (α × β)) : Assoc.Touched d m (Assoc.emplace k d m) := by
  intro k'
  rw [Assoc.lookup_emplace]
  by_cases hk : k = k'
  · subst hk
    cases h : Assoc.lookup k m with
    | none => right; simp
    | some x => left; simp
  · left; simp [hk]

theorem scan_inv (thief : WorkerAddress) (l : List WorkerAddress) :
    ∀ (victim : WorkerAddress) (s s' : Submitter) (v' : WorkerAddress),
      FindOptimalVictimForStealing.scan thief l victim s = some (s', v') →
      ∃ leases, s' = s.withLeases leases ∧
        Assoc.Touched LeaseEntry.empty s.worker_to_lease_entry leases ∧
        (v' = victim ∨ v' ∈ l) := by
  induction l with
  | nil =>
    intro victim s s' v' h
    simp only [FindOptimalVictimForStealing.scan, Option.some.injEq, Prod.mk.injEq] at h
    exact ⟨s.worker_to_lease_entry, h.1.symm, Assoc.Touched.touchedRefl _ _, Or.inl h.2.symm⟩
  | cons c rest ih =>
    intro victim s s' v' h
    simp only [FindOptimalVictimForStealing.scan] at h
    split at h
    · cases h
    · have htouch : Assoc.Touched LeaseEntry.empty s.worker_to_lease_entry
          (s.touchLease c).worker_to_lease_entry := Assoc.touched_emplace _ c _
      split at h
      · obtain ⟨leases, hs, ht, hv⟩ := ih _ _ _ _ h
        refine ⟨leases, hs, htouch.touchedTrans ht, Or.inr ?_⟩
        rcases hv with hv | hv
        · rw [hv]; exact List.mem_cons_self _ _
        · exact List.mem_cons_of_mem _ hv
      · obtain ⟨leases, hs, ht, hv⟩ := ih _ _ _ _ h
        refine ⟨leases, hs, htouch.touchedTrans ht, ?_⟩
        rcases hv with hv | hv
        · exact Or.inl hv
        · exact Or.inr (List.mem_cons_of_mem _ hv)

theorem FindOptimalVictimForStealing_inv {key : SchedulingKey} {thief victim0 : WorkerAddress}
    {s s' : Submitter} {found : Bool} {victim : WorkerAddress}
    (h : FindOptimalVictimForStealing key thief victim0 s = some (s', found, victim)) :
    ∃ leases, s' = (s.touchEntry key).withLeases leases ∧
      Assoc.Touched LeaseEntry.empty s.worker_to_lease_entry leases := by
  unfold FindOptimalVictimForStealing at h
  simp only [Submitter.entry_touchEntry] at h
  split at h
  · simp only [Option.some.injEq, Prod.mk.injEq] at h
    exact ⟨s.worker_to_lease_entry, h.1.symm, Assoc.Touched.touchedRefl _ _⟩
  · split at h
    · simp only [Option.some.injEq, Prod.mk.injEq] at h
      exact ⟨s.worker_to_lease_entry, h.1.symm, Assoc.Touched.touchedRefl _ _⟩
    · split at h
      · cases h
      · rename_i s2 v hscan
        obtain ⟨leases, hs2, ht, _⟩ := scan_inv _ _ _ _ _ _ hscan
        have htouch : Assoc.Touched LeaseEntry.empty leases
            (Assoc.emplace v LeaseEntry.empty leases) := Assoc.touched_emplace _ v _
        split at h
        · simp only [Option.some.injEq, Prod.mk.injEq] at h
          exact ⟨leases, by rw [← h.1, hs2], ht⟩
        · split at h
          · cases h
          · split at h
            · cases h
            · have hs3 : s2.touchLease v
                  = (s.touchEntry key).withLeases (Assoc.emplace v LeaseEntry.empty leases) := by
                rw [hs2]; rfl
              split at h <;>
              · simp only [Option.some.injEq, Prod.mk.injEq] at h
                exact ⟨Assoc.emplace v LeaseEntry.empty leases, by rw [← h.1, hs3],
                  ht.touchedTrans htouch⟩

theorem StealTasksOrReturnWorker_inv {cfg : Config} {now : Nat} {thief_addr : WorkerAddress}
    {was_error : Bool} {key : SchedulingKey} {s s' : Submitter}
    (h : StealTasksOrReturnWorker cfg now thief_addr was_error key s = some s') :
    ∃ l client, Assoc.lookup thief_addr s.worker_to_lease_entry = some l ∧
      l.lease_client = some client ∧ l.tasks_in_flight = 0 ∧ l.is_stealing = false ∧
      (ReturnWorker thief_addr was_error key s = some s' ∨
        (∃ s2 v, FindOptimalVictimForStealing key thief_addr WorkerAddress.empty s
              = some (s2, false, v) ∧
            ReturnWorker thief_addr was_error key
              (if cfg.max_tasks_in_flight_per_worker > 1
                then CancelWorkerLeaseIfNeeded cfg key s2 else s2) = some s') ∨
        (∃ s2 v, FindOptimalVictimForStealing key thief_addr WorkerAddress.empty s
              = some (s2, true, v) ∧
            s' = (((s2.setLease thief_addr
                { s2.lease thief_addr with is_stealing := true }).cacheConnect v).call
                  (Call.StealTasks v thief_addr)).addSteal
                    (StealContext.mk key v.worker_id v thief_addr))) := by
  unfold StealTasksOrReturnWorker at h
  simp only [Submitter.lease_touchLease] at h
  split at h
  · cases h
  · rename_i hc
    split at h
    · cases h
    · rename_i h1
      split at h
      · cases h
      · rename_i h2
        obtain ⟨client, hclient⟩ : ∃ client, (s.lease thief_addr).lease_client = some client := by
          cases hx : (s.lease thief_addr).lease_client with
          | none => simp [hx] at hc
          | some client => exact ⟨client, rfl⟩
        have hl := Submitter.lookup_of_lease_client hclient
        have htouch : s.touchLease thief_addr = s := Submitter.touchLease_of_lookup hl
        rw [htouch] at h
        refine ⟨s.lease thief_addr, client, hl, hclient, by omega, ?_, ?_⟩
        · simpa [LeaseEntry.WorkerIsStealing] using h2
        · split at h
          · exact Or.inl h
          · split at h
            · cases h
            · rename_i s2 v hfind
              exact Or.inr (Or.inl ⟨s2, v, hfind, h⟩)
            · rename_i s2 v hfind
              split at h
              · cases h
              · split at h
                · cases h
                · simp only [Option.some.injEq] at h
                  exact Or.inr (Or.inr ⟨s2, v, hfind, h.symm⟩)

theorem OnWorkerIdle_inv {cfg : Config} {now : Nat} {addr : WorkerAddress}
    {key : SchedulingKey} {was_error : Bool} {res : Resources} {s s' : Submitter}
    (h : OnWorkerIdle cfg now addr key was_error res s = some s') :
    ((s.lease addr).lease_client = none ∧ s' = s.touchLease addr) ∨
    (∃ l client, Assoc.lookup addr s.worker_to_lease_entry = some l ∧
      l.lease_client = some client ∧
      (((s.entry key).active_workers ≠ [] ∧
          ∃ s2, (if l.tasks_in_flight = 0 then
              StealTasksOrReturnWorker cfg now addr was_error key (s.touchEntry key)
            else some (s.touchEntry key)) = some s2 ∧
            RequestNewWorkerIfNeeded cfg key none s2 = some s') ∨
        ((s.entry key).task_queue ≠ [] ∨ l.is_stealing = true) ∧
          ∃ s3, OnWorkerIdle.pipeline cfg addr key res (s.entry key).task_queue.length
              ((s.touchEntry key).cacheConnect addr) = some s3 ∧
            RequestNewWorkerIfNeeded cfg key none
              (if cfg.max_tasks_in_flight_per_worker = 1
                then CancelWorkerLeaseIfNeeded cfg key s3 else s3) = some s')) := by
  unfold OnWorkerIdle at h
  simp only [Submitter.lease_touchLease, Submitter.entry_touchEntry] at h
  split at h
  · rename_i hc
    left
    simp only [Option.some.injEq] at h
    refine ⟨?_, h.symm⟩
    cases hx : (s.lease addr).lease_client with
    | none => rfl
    | some c => simp [hx] at hc
  · rename_i hc
    right
    obtain ⟨client, hclient⟩ : ∃ client, (s.lease addr).lease_client = some client := by
      cases hx : (s.lease addr).lease_client with
      | none => simp [hx] at hc
      | some client => exact ⟨client, rfl⟩
    have hl := Submitter.lookup_of_lease_client hclient
    have htouch : s.touchLease addr = s := Submitter.touchLease_of_lookup hl
    rw [htouch] at h
    refine ⟨s.lease addr, client, hl, hclient, ?_⟩
    split at h
    · split at h
      · cases h
      · rename_i hlen
        left
        refine ⟨?_, ?_⟩
        · intro hnil
          rw [hnil] at hlen
          simp at hlen
        · simp only [Option.bind_eq_some] at h
          exact h
    · rename_i hcond
      right
      refine ⟨?_, ?_⟩
      · simp only [Bool.or_eq_true, Bool.and_eq_true, not_or, not_and] at hcond
        by_cases hq : (s.entry key).task_queue = []
        · right
          have := hcond.2 (by simp [hq])
          simpa [LeaseEntry.WorkerIsStealing] using this
        · exact Or.inl hq
      · simp only [Option.bind_eq_some] at h
        exact h

theorem resolved_inv {cfg : Config} {now : Nat} {task_spec : TaskSpecification}
    {status : Status} {s s' : Submitter}
    (h : SubmitTask.resolved cfg now task_spec status s = some s') :
    (∃ c, s' = s.call c ∧ ∀ a k t r, c ≠ Call.PushNormalTask a k t r) ∨
    (∃ c, s' = { s.call (Call.AsyncCreateActor task_spec) with creating_actors := c }) ∨
    (∃ c, s' = (s.withCancelled c).call
      (Call.FailOrRetryPendingTask task_spec.task_id ErrorType.TASK_CANCELLED)) ∨
    (task_spec.task_id ∉ s.cancelled_tasks ∧
      ∃ s4, (if !((SubmitTask.enqueue task_spec s).entry
              task_spec.schedulingKey).AllPipelinesToWorkersFull
                cfg.max_tasks_in_flight_per_worker then
            SubmitTask.findWorker cfg now task_spec.schedulingKey
              ((SubmitTask.enqueue task_spec s).entry task_spec.schedulingKey).active_workers
              (SubmitTask.enqueue task_spec s)
          else some (SubmitTask.enqueue task_spec s)) = some s4 ∧
        RequestNewWorkerIfNeeded cfg task_spec.schedulingKey none s4 = some s') := by
  unfold SubmitTask.resolved at h
  simp only [] at h
  split at h
  · simp only [Option.some.injEq] at h
    exact Or.inl ⟨_, h.symm, by intros; simp⟩
  · split at h
    · simp only [Option.some.injEq] at h
      exact Or.inr (Or.inl ⟨_, h.symm⟩)
    · split at h
      · simp only [Option.some.injEq] at h
        exact Or.inr (Or.inr (Or.inl ⟨_, h.symm⟩))
      · rename_i hc
        simp only [Option.bind_eq_some] at h
        exact Or.inr (Or.inr (Or.inr ⟨hc, h⟩))

theorem leaseReply_inv {cfg : Config} {now : Nat} {ctx : LeaseContext} {status : Status}
    {reply : RequestWorkerLeaseReply} {s s' : Submitter}
    (h : RequestNewWorkerIfNeeded.reply cfg now ctx status reply s = some s') :
    (∃ err, s' = RequestNewWorkerIfNeeded.drain err ctx.scheduling_key
        (RequestNewWorkerIfNeeded.received cfg ctx s)) ∨
    (∃ r, RequestNewWorkerIfNeeded cfg ctx.scheduling_key r
        (RequestNewWorkerIfNeeded.received cfg ctx s) = some s') ∨
    (reply.grants status = true ∧
      ∃ client s4, AddWorkerLeaseClient cfg now reply.worker_address client
          reply.resource_mapping ctx.scheduling_key
          (RequestNewWorkerIfNeeded.received cfg ctx s) = some s4 ∧
        OnWorkerIdle cfg now reply.worker_address ctx.scheduling_key false
          reply.resource_mapping s4 = some s') ∨
    s' = { (RequestNewWorkerIfNeeded.received cfg ctx s).call Call.QuickExit with
      exited := true } := by
  unfold RequestNewWorkerIfNeeded.reply at h
  simp only [] at h
  split at h
  · rename_i hok
    split at h
    · rename_i hcanceled
      split at h
      · simp only [Option.some.injEq] at h
        exact Or.inl ⟨_, h.symm⟩
      · exact Or.inr (Or.inl ⟨_, h⟩)
    · rename_i hcanceled
      split at h
      · split at h
        · cases h
        · exact Or.inr (Or.inl ⟨_, h⟩)
      · rename_i hrejected
        split at h
        · rename_i hraylet
          simp only [Option.bind_eq_some] at h
          obtain ⟨s4, h4, h5⟩ := h
          split at h5
          · cases h5
          · refine Or.inr (Or.inr (Or.inl ⟨?_, _, s4, h4, h5⟩))
            simp only [RequestWorkerLeaseReply.grants, hok, Bool.true_and, Bool.and_eq_true,
              Bool.not_eq_true', decide_eq_true_eq]
            exact ⟨⟨by simpa using hcanceled, by simpa using hrejected⟩, hraylet⟩
        · split at h
          · cases h
          · exact Or.inr (Or.inl ⟨_, h⟩)
  · split at h
    · exact Or.inr (Or.inl ⟨_, h⟩)
    · split at h
      · split at h
        · simp only [Option.some.injEq] at h
          exact Or.inr (Or.inr (Or.inr h.symm))
        · simp only [Option.some.injEq] at h
          exact Or.inl ⟨_, h.symm⟩
      · exact Or.inr (Or.inl ⟨_, h⟩)

theorem pushReply_inv {cfg : Config} {now : Nat} {ctx : PushContext} {status : Status}
    {reply : PushTaskReply} {retry_possible : Bool} {s s' : Submitter}
    (h : PushNormalTask.reply cfg now ctx status reply retry_possible s = some s') :
    0 < (s.lease ctx.addr).tasks_in_flight ∧
    (s.entry ctx.scheduling_key).active_workers ≠ [] ∧
    1 ≤ (s.entry ctx.scheduling_key).total_tasks_in_flight ∧
    ((reply.worker_exiting = true ∧
        s' = PushNormalTask.finish ctx status reply retry_possible
          (PushNormalTask.workerExiting ctx (PushNormalTask.settle ctx s))) ∨
      (reply.worker_exiting = false ∧ reply.task_stolen = true ∧
        s' = PushNormalTask.settle ctx s) ∨
      (reply.worker_exiting = false ∧ reply.task_stolen = false ∧
        ∃ s6, OnWorkerIdle cfg now ctx.addr ctx.scheduling_key (!status.ok)
            ctx.assigned_resources (PushNormalTask.settle ctx s) = some s6 ∧
          s' = PushNormalTask.finish ctx status reply retry_possible s6) ∨
      (reply.worker_exiting = false ∧ reply.task_stolen = false ∧
        s' = PushNormalTask.finish ctx status reply retry_possible
          (PushNormalTask.settle ctx s))) := by
  unfold PushNormalTask.reply at h
  simp only [] at h
  split at h
  · cases h
  · rename_i h1
    split at h
    · cases h
    · rename_i h2
      split at h
      · cases h
      · rename_i h3
        refine ⟨by omega, ?_, by omega, ?_⟩
        · intro hnil
          rw [hnil] at h2
          simp at h2
        · split at h
          · rename_i hexit
            simp only [Option.some.injEq] at h
            exact Or.inl ⟨hexit, h.symm⟩
          · rename_i hexit
            have hexit' : reply.worker_exiting = false := by simpa using hexit
            split at h
            · rename_i hstolen
              simp only [Option.some.injEq] at h
              exact Or.inr (Or.inl ⟨hexit', hstolen, h.symm⟩)
            · rename_i hstolen
              have hstolen' : reply.task_stolen = false := by simpa using hstolen
              split at h
              · simp only [Option.map_eq_some'] at h
                obtain ⟨s6, h6, h7⟩ := h
                exact Or.inr (Or.inr (Or.inl ⟨hexit', hstolen', s6, h6, h7.symm⟩))
              · simp only [Option.some.injEq] at h
                exact Or.inr (Or.inr (Or.inr ⟨hexit', hstolen', h.symm⟩))

theorem stealReply_inv {cfg : Config} {now : Nat} {ctx : StealContext} {status : Status}
    {stolen : List (TaskID × Option TaskSpecification)} {s s' : Submitter}
    (h : StealTasksOrReturnWorker.reply cfg now ctx status stolen s = some s') :
    ∃ thief_entry, Assoc.lookup ctx.thief_addr s.worker_to_lease_entry = some thief_entry ∧
      thief_entry.is_stealing = true ∧
      ∃ s2, StealTasksOrReturnWorker.requeue ctx.scheduling_key stolen
          (s.setLease ctx.thief_addr { thief_entry with is_stealing := false }) = some s2 ∧
        OnWorkerIdle cfg now ctx.thief_addr ctx.scheduling_key (!status.ok)
          thief_entry.assigned_resources s2 = some s' := by
  unfold StealTasksOrReturnWorker.reply at h
  split at h
  · cases h
  · rename_i thief_entry hl
    split at h
    · cases h
    · rename_i hst
      simp only [Option.bind_eq_some] at h
      refine ⟨thief_entry, hl, ?_, h⟩
      simpa [LeaseEntry.WorkerIsStealing] using hst

/-! ### Steps that only touch the lease-request bookkeeping -/

namespace Submitter

theorem Quiet.quietRefl (s : Submitter) : Quiet s s := ⟨rfl, fun _ => rfl, fun _ => rfl⟩

theorem Quiet.quietTrans {s1 s2 s3 : Submitter} (h12 : Quiet s1 s2) (h23 : Quiet s2 s3) :
    Quiet s1 s3 :=
  ⟨h23.work.trans h12.work, fun key => (h23.queue key).trans (h12.queue key),
    fun key => (h23.active key).trans (h12.active key)⟩

theorem pushed_call (s : Submitter) (c : Call) :
    (s.call c).pushed = s.pushed ++
      (match c with
        | Call.PushNormalTask _ key task_spec _ => [(key, task_spec)]
        | _ => []) := by
  cases c <;> simp [pushed, call, List.filterMap_append]

theorem quiet_touchEntry (s : Submitter) (key : SchedulingKey) : Quiet s (s.touchEntry key) := by
  refine ⟨rfl, fun k => ?_, fun k => ?_⟩ <;>
    simp [entry, touchEntry, Assoc.getD_lookup_emplace]

theorem quiet_eraseEntryIfCanDelete (s : Submitter) (key : SchedulingKey) :
    Quiet s (s.eraseEntryIfCanDelete key) := by
  refine ⟨rfl, fun k => ?_, fun k => ?_⟩ <;>
  · simp only [entry, eraseEntryIfCanDelete]
    split_ifs with h
    · rw [Assoc.lookup_remove]
      split_ifs with hk
      · subst hk
        simp only [SchedulingKeyEntry.CanDelete, Bool.and_eq_true, List.isEmpty_iff] at h
        first | exact h.1.1.symm | exact h.1.2.symm
      · rfl
    · rfl

end Submitter

theorem cancelAll_work (cfg : Config) (key : SchedulingKey) (l : List (TaskID × WorkerAddress)) :
    ∀ s : Submitter, (CancelWorkerLeaseIfNeeded.cancelAll cfg key l s).work = s.work ∧
      (CancelWorkerLeaseIfNeeded.cancelAll cfg key l s).scheduling_key_entries
        = s.scheduling_key_entries := by
  induction l with
  | nil => intro s; exact ⟨rfl, rfl⟩
  | cons p rest ih =>
    intro s
    obtain ⟨t, r⟩ := p
    simp only [CancelWorkerLeaseIfNeeded.cancelAll]
    refine ⟨(ih _).1.trans ?_, (ih _).2.trans ?_⟩
    · simp [Submitter.work, Submitter.pushed, Submitter.call, GetOrConnectLeaseClient,
        List.filterMap_append]
    · simp [Submitter.call, GetOrConnectLeaseClient]

theorem quiet_CancelWorkerLeaseIfNeeded (cfg : Config) (key : SchedulingKey) (s : Submitter) :
    Submitter.Quiet s (CancelWorkerLeaseIfNeeded cfg key s) := by
  unfold CancelWorkerLeaseIfNeeded
  simp only []
  split_ifs
  · exact Submitter.quiet_touchEntry s key
  · refine Submitter.Quiet.quietTrans (Submitter.quiet_touchEntry s key) ⟨(cancelAll_work ..).1, ?_, ?_⟩
    · intro k; simp only [Submitter.entry, (cancelAll_work ..).2]
    · intro k; simp only [Submitter.entry, (cancelAll_work ..).2]

theorem quiet_ReportWorkerBacklogInternal (cfg : Config) (s : Submitter) :
    Submitter.Quiet s (ReportWorkerBacklogInternal cfg s) := by
  have hmap : ∀ k, Assoc.lookup k (s.scheduling_key_entries.map
      (fun ke => (ke.1, ke.2.reported)))
      = (Assoc.lookup k s.scheduling_key_entries).map SchedulingKeyEntry.reported :=
    fun k => Assoc.lookup_map_snd _ k _
  refine ⟨?_, fun k => ?_, fun k => ?_⟩
  · simp [ReportWorkerBacklogInternal, Submitter.work, Submitter.pushed, Submitter.call,
      List.filterMap_append]
  · simp only [ReportWorkerBacklogInternal, Submitter.entry, Submitter.call, hmap]
    cases Assoc.lookup k s.scheduling_key_entries <;> rfl
  · simp only [ReportWorkerBacklogInternal, Submitter.entry, Submitter.call, hmap]
    cases Assoc.lookup k s.scheduling_key_entries <;> rfl

theorem quiet_ReportWorkerBacklogIfNeeded (cfg : Config) (key : SchedulingKey) (s : Submitter) :
    Submitter.Quiet s (ReportWorkerBacklogIfNeeded cfg key s) := by
  unfold ReportWorkerBacklogIfNeeded
  simp only []
  split_ifs
  · exact (Submitter.quiet_touchEntry s key).quietTrans (quiet_ReportWorkerBacklogInternal cfg _)
  · exact Submitter.quiet_touchEntry s key

theorem quiet_RequestNewWorkerIfNeeded {cfg : Config} {key : SchedulingKey}
    {raylet_address : Option WorkerAddress} {s s' : Submitter}
    (h : RequestNewWorkerIfNeeded cfg key raylet_address s = some s') :
    Submitter.Quiet s s' := by
  unfold RequestNewWorkerIfNeeded at h
  simp only [] at h
  split_ifs at h <;> simp only [Option.some.injEq] at h <;> subst h
  · exact Submitter.quiet_touchEntry s key
  · exact Submitter.quiet_touchEntry s key
  · exact (Submitter.quiet_touchEntry s key).quietTrans (Submitter.quiet_eraseEntryIfCanDelete _ key)
  · exact Submitter.quiet_touchEntry s key
  · refine Submitter.Quiet.quietTrans (Submitter.quiet_touchEntry s key)
      (Submitter.Quiet.quietTrans ?_ (quiet_ReportWorkerBacklogIfNeeded cfg key _))
    refine ⟨?_, fun k => ?_, fun k => ?_⟩
    · simp [Submitter.work, Submitter.pushed, Submitter.call, Submitter.setEntry,
        GetOrConnectLeaseClient, List.filterMap_append]
    · simp only [Submitter.entry, Submitter.setEntry, Submitter.call, GetOrConnectLeaseClient,
        Assoc.lookup_update]
      split_ifs with hk
      · subst hk; rfl
      · rfl
    · simp only [Submitter.entry, Submitter.setEntry, Submitter.call, GetOrConnectLeaseClient,
        Assoc.lookup_update]
      split_ifs with hk
      · subst hk; rfl
      · rfl

/-! ### The pending lease requests stay within the cap -/

namespace Submitter

theorem PendingStep.pendingRefl (cfg : Config) (s : Submitter) : PendingStep cfg s s :=
  fun _ => Or.inl (Nat.le_refl _)

theorem PendingStep.pendingTrans {cfg : Config} {s1 s2 s3 : Submitter} (h12 : PendingStep cfg s1 s2)
    (h23 : PendingStep cfg s2 s3) : PendingStep cfg s1 s3 := by
  intro key
  rcases h23 key with h | h
  · rcases h12 key with h' | h'
    · exact Or.inl (Nat.le_trans h h')
    · exact Or.inr (Nat.le_trans h h')
  · exact Or.inr h

theorem pendingStep_of_entries_eq (cfg : Config) {s t : Submitter}
    (h : t.scheduling_key_entries = s.scheduling_key_entries) : PendingStep cfg s t := by
  intro key
  simp only [entry, h]
  exact Or.inl (Nat.le_refl _)

theorem pendingStep_touchEntry (cfg : Config) (s : Submitter) (key : SchedulingKey) :
    PendingStep cfg s (s.touchEntry key) := by
  intro k
  simp only [entry, touchEntry, Assoc.getD_lookup_emplace]
  exact Or.inl (Nat.le_refl _)

theorem pendingStep_eraseEntryIfCanDelete (cfg : Config) (s : Submitter) (key : SchedulingKey) :
    PendingStep cfg s (s.eraseEntryIfCanDelete key) := by
  intro k
  left
  simp only [entry, eraseEntryIfCanDelete]
  split_ifs with h
  · rw [Assoc.lookup_remove]
    split_ifs with hk
    · simp [SchedulingKeyEntry.empty]
    · exact Nat.le_refl _
  · exact Nat.le_refl _

theorem pendingStep_setEntry (cfg : Config) (s : Submitter) (key : SchedulingKey)
    (e : SchedulingKeyEntry)
    (h : e.pending_lease_requests.length ≤ (s.entry key).pending_lease_requests.length ∨
      e.pending_lease_requests.length ≤ cfg.max_pending_lease_requests_per_scheduling_category) :
    PendingStep cfg s (s.setEntry key e) := by
  intro k
  simp only [entry, setEntry, Assoc.lookup_update]
  split_ifs with hk
  · subst hk
    exact h
  · exact Or.inl (Nat.le_refl _)

theorem pendingStep_setEntry_same (cfg : Config) (s : Submitter) (key : SchedulingKey)
    (e : SchedulingKeyEntry)
    (h : e.pending_lease_requests = (s.entry key).pending_lease_requests) :
    PendingStep cfg s (s.setEntry key e) :=
  pendingStep_setEntry cfg s key e (Or.inl (by rw [h]))

theorem PendingStep.of_eq_right {cfg : Config} {s u t : Submitter}
    (h : PendingStep cfg s u) (heq : t.scheduling_key_entries = u.scheduling_key_entries) :
    PendingStep cfg s t :=
  h.pendingTrans (pendingStep_of_entries_eq cfg heq)

theorem pendingStep_of_quiet_entries (cfg : Config) {s s' : Submitter}
    (h : ∀ key, (s'.entry key).pending_lease_requests = (s.entry key).pending_lease_requests) :
    PendingStep cfg s s' := by
  intro key
  rw [h key]
  exact Or.inl (Nat.le_refl _)

theorem pendingBounded_iff (cfg : Config) (s : Submitter) :
    PendingBounded cfg s ↔ ∀ key, (s.entry key).pending_lease_requests.length
      ≤ cfg.max_pending_lease_requests_per_scheduling_category := by
  constructor
  · intro h key
    simp only [entry]
    cases hl : Assoc.lookup key s.scheduling_key_entries with
    | none => simp [SchedulingKeyEntry.empty]
    | some e => exact h key e hl
  · intro h key e hl
    have := h key
    simpa [entry, hl] using this

theorem PendingBounded.afterPending {cfg : Config} {s s' : Submitter} (h : PendingBounded cfg s)
    (hstep : PendingStep cfg s s') : PendingBounded cfg s' := by
  rw [pendingBounded_iff] at h ⊢
  intro key
  rcases hstep key with h' | h'
  · exact Nat.le_trans h' (h key)
  · exact h'

end Submitter


theorem pendingStep_AddWorkerLeaseClient {cfg : Config} {now : Nat} {addr : WorkerAddress}
    {lease_client : LeaseClient} {res : Resources} {key : SchedulingKey} {s s' : Submitter}
    (h : AddWorkerLeaseClient cfg now addr lease_client res key s = some s') :
    Submitter.PendingStep cfg s s' := by
  obtain ⟨-, rfl⟩ := AddWorkerLeaseClient_inv h
  refine Submitter.PendingStep.pendingTrans (Submitter.pendingStep_touchEntry cfg s key) ?_
  refine Submitter.PendingStep.pendingTrans
    (Submitter.pendingStep_setEntry_same cfg (s.touchEntry key) key
      ((s.entry key).withWorker addr) ?_) (Submitter.pendingStep_of_entries_eq cfg rfl)
  rw [Submitter.entry_touchEntry]
  rfl

theorem pendingStep_ReturnWorker (cfg : Config) {addr : WorkerAddress} {was_error : Bool}
    {key : SchedulingKey} {s s' : Submitter}
    (h : ReturnWorker addr was_error key s = some s') : Submitter.PendingStep cfg s s' := by
  obtain ⟨l, client, -, -, -, -, -, rfl⟩ := ReturnWorker_inv h
  refine Submitter.PendingStep.of_eq_right
    (u := ((s.touchEntry key).setEntry key
      ((s.entry key).withoutWorker addr)).eraseEntryIfCanDelete key) ?_ rfl
  refine ((Submitter.pendingStep_touchEntry cfg s key).pendingTrans
    (Submitter.pendingStep_setEntry_same cfg _ key _ ?_)).pendingTrans
    (Submitter.pendingStep_eraseEntryIfCanDelete cfg _ key)
  rw [Submitter.entry_touchEntry]
  rfl

theorem pendingStep_FindOptimalVictimForStealing (cfg : Config) {key : SchedulingKey}
    {thief victim0 : WorkerAddress} {s s' : Submitter} {found : Bool} {victim : WorkerAddress}
    (h : FindOptimalVictimForStealing key thief victim0 s = some (s', found, victim)) :
    Submitter.PendingStep cfg s s' := by
  obtain ⟨leases, rfl, -⟩ := FindOptimalVictimForStealing_inv h
  exact (Submitter.pendingStep_touchEntry cfg s key).of_eq_right rfl

theorem pendingStep_CancelWorkerLeaseIfNeeded (cfg cfg' : Config) (key : SchedulingKey)
    (s : Submitter) : Submitter.PendingStep cfg s (CancelWorkerLeaseIfNeeded cfg' key s) := by
  unfold CancelWorkerLeaseIfNeeded
  simp only []
  split_ifs
  · exact Submitter.pendingStep_touchEntry cfg s key
  · exact (Submitter.pendingStep_touchEntry cfg s key).pendingTrans
      (Submitter.pendingStep_of_entries_eq cfg (cancelAll_work ..).2)

theorem pendingStep_ReportWorkerBacklogInternal (cfg cfg' : Config) (s : Submitter) :
    Submitter.PendingStep cfg s (ReportWorkerBacklogInternal cfg' s) := by
  apply Submitter.pendingStep_of_quiet_entries
  intro k
  simp only [ReportWorkerBacklogInternal, Submitter.entry, Submitter.call,
    Assoc.lookup_map_snd SchedulingKeyEntry.reported]
  cases Assoc.lookup k s.scheduling_key_entries <;> rfl

theorem pendingStep_ReportWorkerBacklogIfNeeded (cfg cfg' : Config) (key : SchedulingKey)
    (s : Submitter) : Submitter.PendingStep cfg s (ReportWorkerBacklogIfNeeded cfg' key s) := by
  unfold ReportWorkerBacklogIfNeeded
  simp only []
  split_ifs
  · exact (Submitter.pendingStep_touchEntry cfg s key).pendingTrans
      (pendingStep_ReportWorkerBacklogInternal cfg cfg' _)
  · exact Submitter.pendingStep_touchEntry cfg s key

theorem pendingStep_RequestNewWorkerIfNeeded {cfg : Config} {key : SchedulingKey}
    {raylet_address : Option WorkerAddress} {s s' : Submitter}
    (h : RequestNewWorkerIfNeeded cfg key raylet_address s = some s') :
    Submitter.PendingStep cfg s s' := by
  unfold RequestNewWorkerIfNeeded at h
  simp only [] at h
  split_ifs at h with h1 h2 h3 h4 h5 <;> simp only [Option.some.injEq] at h <;> subst h
  · exact Submitter.pendingStep_touchEntry cfg s key
  · exact Submitter.pendingStep_touchEntry cfg s key
  · exact (Submitter.pendingStep_touchEntry cfg s key).pendingTrans
      (Submitter.pendingStep_eraseEntryIfCanDelete cfg _ key)
  · exact Submitter.pendingStep_touchEntry cfg s key
  · refine Submitter.PendingStep.pendingTrans ?_ (pendingStep_ReportWorkerBacklogIfNeeded cfg cfg key _)
    refine Submitter.PendingStep.pendingTrans (Submitter.pendingStep_touchEntry cfg s key) ?_
    refine Submitter.PendingStep.pendingTrans
      (Submitter.pendingStep_of_entries_eq cfg (s := s.touchEntry key) rfl)
      (Submitter.pendingStep_setEntry cfg _ key _ (Or.inr ?_))
    have hlen := Assoc.length_emplace_le (s.touchEntry key).random_counter
        (match raylet_address with
          | some a => a
          | none => cfg.GetBestNodeForTask
              { ((s.touchEntry key).entry key).resource_spec with
                task_id := (s.touchEntry key).random_counter })
        ((s.touchEntry key).entry key).pending_lease_requests
    have h2' : ((s.touchEntry key).entry key).pending_lease_requests.length
        < cfg.max_pending_lease_requests_per_scheduling_category := by
      simpa using h2
    exact Nat.le_trans hlen h2'

theorem pendingStep_StealTasksOrReturnWorker {cfg : Config} {now : Nat}
    {thief_addr : WorkerAddress} {was_error : Bool} {key : SchedulingKey} {s s' : Submitter}
    (h : StealTasksOrReturnWorker cfg now thief_addr was_error key s = some s') :
    Submitter.PendingStep cfg s s' := by
  obtain ⟨l, client, -, -, -, -, hcase⟩ := StealTasksOrReturnWorker_inv h
  rcases hcase with hr | ⟨s2, v, hfind, hr⟩ | ⟨s2, v, hfind, rfl⟩
  · exact pendingStep_ReturnWorker cfg hr
  · refine (pendingStep_FindOptimalVictimForStealing cfg hfind).pendingTrans
      (Submitter.PendingStep.pendingTrans ?_ (pendingStep_ReturnWorker cfg hr))
    split_ifs
    · exact pendingStep_CancelWorkerLeaseIfNeeded cfg cfg key s2
    · exact Submitter.PendingStep.pendingRefl cfg s2
  · exact (pendingStep_FindOptimalVictimForStealing cfg hfind).of_eq_right rfl

theorem pendingStep_pushFront (cfg : Config) (addr : WorkerAddress) (key : SchedulingKey)
    (res : Resources) (task_spec : TaskSpecification) (s : Submitter) :
    Submitter.PendingStep cfg s (OnWorkerIdle.pushFront addr key res task_spec s) := by
  intro k
  left
  simp only [OnWorkerIdle.pushFront, PushNormalTask, Submitter.entry, Submitter.setEntry,
    Submitter.setLease, Submitter.call, Submitter.addPush, Submitter.withExecuting,
    Assoc.lookup_update]
  split_ifs with hk
  · subst hk
    simp
  · simp

theorem pendingStep_pipeline (cfg : Config) (addr : WorkerAddress) (key : SchedulingKey)
    (res : Resources) (fuel : Nat) :
    ∀ {s s' : Submitter}, OnWorkerIdle.pipeline cfg addr key res fuel s = some s' →
      Submitter.PendingStep cfg s s' := by
  induction fuel with
  | zero =>
    intro s s' h
    simp only [OnWorkerIdle.pipeline, Option.some.injEq] at h
    exact h ▸ Submitter.PendingStep.pendingRefl cfg s
  | succ n ih =>
    intro s s' h
    simp only [OnWorkerIdle.pipeline] at h
    split at h
    · simp only [Option.some.injEq] at h
      exact h ▸ Submitter.PendingStep.pendingRefl cfg s
    · split at h
      · simp only [Option.some.injEq] at h
        exact h ▸ Submitter.PendingStep.pendingRefl cfg s
      · split at h
        · cases h
        · exact (pendingStep_pushFront cfg addr key res _ s).pendingTrans (ih h)

theorem pendingStep_OnWorkerIdle {cfg : Config} {now : Nat} {addr : WorkerAddress}
    {key : SchedulingKey} {was_error : Bool} {res : Resources} {s s' : Submitter}
    (h : OnWorkerIdle cfg now addr key was_error res s = some s') :
    Submitter.PendingStep cfg s s' := by
  rcases OnWorkerIdle_inv h with ⟨-, rfl⟩ | ⟨l, client, -, -, hcase⟩
  · exact Submitter.pendingStep_of_entries_eq cfg rfl
  · rcases hcase with ⟨-, s2, h2, h3⟩ | ⟨-, s3, h2, h3⟩
    · refine Submitter.PendingStep.pendingTrans ?_ (pendingStep_RequestNewWorkerIfNeeded h3)
      split_ifs at h2
      · exact (Submitter.pendingStep_touchEntry cfg s key).pendingTrans
          (pendingStep_StealTasksOrReturnWorker h2)
      · simp only [Option.some.injEq] at h2
        exact h2 ▸ Submitter.pendingStep_touchEntry cfg s key
    · refine Submitter.PendingStep.pendingTrans ?_ (pendingStep_RequestNewWorkerIfNeeded h3)
      refine (((Submitter.pendingStep_touchEntry cfg s key).of_eq_right
        (t := (s.touchEntry key).cacheConnect addr) rfl).pendingTrans
        (pendingStep_pipeline cfg addr key res _ h2)).pendingTrans ?_
      split_ifs
      · exact pendingStep_CancelWorkerLeaseIfNeeded cfg cfg key s3
      · exact Submitter.PendingStep.pendingRefl cfg s3

theorem pendingStep_findWorker (cfg : Config) (now : Nat) (key : SchedulingKey)
    (workers : List WorkerAddress) :
    ∀ {s s' : Submitter}, SubmitTask.findWorker cfg now key workers s = some s' →
      Submitter.PendingStep cfg s s' := by
  induction workers with
  | nil =>
    intro s s' h
    simp only [SubmitTask.findWorker, Option.some.injEq] at h
    exact h ▸ Submitter.PendingStep.pendingRefl cfg s
  | cons a rest ih =>
    intro s s' h
    simp only [SubmitTask.findWorker] at h
    split at h
    · cases h
    · split at h
      · exact pendingStep_OnWorkerIdle h
      · exact ih h

theorem pendingStep_enqueue (cfg : Config) (task_spec : TaskSpecification) (s : Submitter) :
    Submitter.PendingStep cfg s (SubmitTask.enqueue task_spec s) := by
  unfold SubmitTask.enqueue
  simp only []
  refine Submitter.PendingStep.pendingTrans ?_ (Submitter.pendingStep_of_entries_eq cfg rfl)
  refine (Submitter.pendingStep_touchEntry cfg s _).pendingTrans
    (Submitter.pendingStep_setEntry_same cfg _ _ _ ?_)
  rfl

theorem pendingStep_resolved {cfg : Config} {now : Nat} {task_spec : TaskSpecification}
    {status : Status} {s s' : Submitter}
    (h : SubmitTask.resolved cfg now task_spec status s = some s') :
    Submitter.PendingStep cfg s s' := by
  rcases resolved_inv h with ⟨c, rfl, -⟩ | ⟨c, rfl⟩ | ⟨c, rfl⟩ | ⟨-, s4, h4, h5⟩
  · exact Submitter.pendingStep_of_entries_eq cfg rfl
  · exact Submitter.pendingStep_of_entries_eq cfg rfl
  · exact Submitter.pendingStep_of_entries_eq cfg rfl
  · refine Submitter.PendingStep.pendingTrans ?_ (pendingStep_RequestNewWorkerIfNeeded h5)
    refine (pendingStep_enqueue cfg task_spec s).pendingTrans ?_
    split at h4
    · exact pendingStep_findWorker cfg now _ _ h4
    · simp only [Option.some.injEq] at h4
      exact h4 ▸ Submitter.PendingStep.pendingRefl cfg _

theorem failQueued_entries (err : TaskSpecification → ErrorType) (q : List TaskSpecification) :
    ∀ s : Submitter, (RequestNewWorkerIfNeeded.failQueued err q s).scheduling_key_entries
      = s.scheduling_key_entries := by
  induction q with
  | nil => intro s; rfl
  | cons t rest ih =>
    intro s
    simp only [RequestNewWorkerIfNeeded.failQueued]
    rw [ih]
    rfl

theorem pendingStep_drain (cfg : Config) (err : TaskSpecification → ErrorType)
    (key : SchedulingKey) (s : Submitter) :
    Submitter.PendingStep cfg s (RequestNewWorkerIfNeeded.drain err key s) := by
  unfold RequestNewWorkerIfNeeded.drain
  simp only []
  refine Submitter.PendingStep.pendingTrans
    (Submitter.pendingStep_of_entries_eq cfg
      (failQueued_entries err (s.entry key).task_queue s)) ?_
  refine (Submitter.pendingStep_setEntry_same cfg _ key _ ?_).pendingTrans
    (Submitter.pendingStep_eraseEntryIfCanDelete cfg _ key)
  rfl

theorem pendingStep_received (cfg : Config) (ctx : LeaseContext) (s : Submitter) :
    Submitter.PendingStep cfg s (RequestNewWorkerIfNeeded.received cfg ctx s) := by
  unfold RequestNewWorkerIfNeeded.received
  simp only []
  refine (Submitter.pendingStep_touchEntry cfg s ctx.scheduling_key).pendingTrans ?_
  refine Submitter.PendingStep.pendingTrans
    (Submitter.pendingStep_of_entries_eq cfg
      (t := (GetOrConnectLeaseClient cfg ctx.raylet_address
        (s.touchEntry ctx.scheduling_key)).1) rfl) ?_
  exact Submitter.pendingStep_setEntry cfg _ _ _ (Or.inl (Assoc.length_remove_le _ _))

theorem pendingStep_leaseReply {cfg : Config} {now : Nat} {ctx : LeaseContext}
    {status : Status} {reply : RequestWorkerLeaseReply} {s s' : Submitter}
    (h : RequestNewWorkerIfNeeded.reply cfg now ctx status reply s = some s') :
    Submitter.PendingStep cfg s s' := by
  refine (pendingStep_received cfg ctx s).pendingTrans ?_
  rcases leaseReply_inv h with ⟨err, rfl⟩ | ⟨r, hr⟩ | ⟨-, client, s4, h4, h5⟩ | rfl
  · exact pendingStep_drain cfg err _ _
  · exact pendingStep_RequestNewWorkerIfNeeded hr
  · exact (pendingStep_AddWorkerLeaseClient h4).pendingTrans (pendingStep_OnWorkerIdle h5)
  · exact Submitter.pendingStep_of_entries_eq cfg rfl

theorem finish_entries (ctx : PushContext) (status : Status) (reply : PushTaskReply)
    (retry_possible : Bool) (s : Submitter) :
    (PushNormalTask.finish ctx status reply retry_possible s).scheduling_key_entries
      = s.scheduling_key_entries := by
  unfold PushNormalTask.finish
  simp only []
  split_ifs <;> rfl

theorem pendingStep_settle (cfg : Config) (ctx : PushContext) (s : Submitter) :
    Submitter.PendingStep cfg s (PushNormalTask.settle ctx s) := by
  unfold PushNormalTask.settle
  simp only []
  refine Submitter.PendingStep.pendingTrans ?_ (Submitter.pendingStep_setEntry_same cfg _ _ _ ?_)
  · refine Submitter.PendingStep.pendingTrans ?_ (Submitter.pendingStep_touchEntry cfg _ _)
    exact Submitter.pendingStep_of_entries_eq cfg rfl
  · rfl

theorem pendingStep_workerExiting (cfg : Config) (ctx : PushContext) (s : Submitter) :
    Submitter.PendingStep cfg s (PushNormalTask.workerExiting ctx s) := by
  unfold PushNormalTask.workerExiting
  simp only []
  refine Submitter.PendingStep.pendingTrans ?_ (Submitter.pendingStep_eraseEntryIfCanDelete cfg _ _)
  refine Submitter.PendingStep.pendingTrans ?_ (Submitter.pendingStep_setEntry_same cfg _ _ _ ?_)
  · refine Submitter.PendingStep.pendingTrans ?_ (Submitter.pendingStep_touchEntry cfg _ _)
    exact Submitter.pendingStep_of_entries_eq cfg rfl
  · rfl

theorem pendingStep_pushReply {cfg : Config} {now : Nat} {ctx : PushContext} {status : Status}
    {reply : PushTaskReply} {retry_possible : Bool} {s s' : Submitter}
    (h : PushNormalTask.reply cfg now ctx status reply retry_possible s = some s') :
    Submitter.PendingStep cfg s s' := by
  obtain ⟨-, -, -, hcase⟩ := pushReply_inv h
  refine (pendingStep_settle cfg ctx s).pendingTrans ?_
  rcases hcase with ⟨-, rfl⟩ | ⟨-, -, rfl⟩ | ⟨-, -, s6, h6, rfl⟩ | ⟨-, -, rfl⟩
  · exact (pendingStep_workerExiting cfg ctx _).of_eq_right (finish_entries ..)
  · exact Submitter.PendingStep.pendingRefl cfg _
  · exact (pendingStep_OnWorkerIdle h6).of_eq_right (finish_entries ..)
  · exact Submitter.pendingStep_of_entries_eq cfg (finish_entries ..)

theorem pendingStep_requeue (cfg : Config) (key : SchedulingKey)
    (stolen : List (TaskID × Option TaskSpecification)) :
    ∀ {s s' : Submitter}, StealTasksOrReturnWorker.requeue key stolen s = some s' →
      Submitter.PendingStep cfg s s' := by
  induction stolen with
  | nil =>
    intro s s' h
    simp only [StealTasksOrReturnWorker.requeue, Option.some.injEq] at h
    exact h ▸ Submitter.PendingStep.pendingRefl cfg s
  | cons p rest ih =>
    intro s s' h
    obtain ⟨id, spec⟩ := p
    cases spec with
    | none => simp [StealTasksOrReturnWorker.requeue] at h
    | some spec =>
      simp only [StealTasksOrReturnWorker.requeue] at h
      refine Submitter.PendingStep.pendingTrans ?_ (ih h)
      refine Submitter.PendingStep.pendingTrans ?_ (Submitter.pendingStep_setEntry_same cfg _ _ _ ?_)
      · refine Submitter.PendingStep.pendingTrans ?_ (Submitter.pendingStep_touchEntry cfg _ _)
        exact Submitter.pendingStep_of_entries_eq cfg rfl
      · rfl

theorem pendingStep_stealReply {cfg : Config} {now : Nat} {ctx : StealContext}
    {status : Status} {stolen : List (TaskID × Option TaskSpecification)} {s s' : Submitter}
    (h : StealTasksOrReturnWorker.reply cfg now ctx status stolen s = some s') :
    Submitter.PendingStep cfg s s' := by
  obtain ⟨thief_entry, -, -, s2, h2, h3⟩ := stealReply_inv h
  refine Submitter.PendingStep.pendingTrans
    (Submitter.pendingStep_of_entries_eq cfg
      (t := s.setLease ctx.thief_addr { thief_entry with is_stealing := false }) rfl) ?_
  exact (pendingStep_requeue cfg _ _ h2).pendingTrans (pendingStep_OnWorkerIdle h3)

theorem pendingStep_CancelTask (cfg : Config) (task_spec : TaskSpecification)
    (force_kill recursive mark : Bool) (s : Submitter) :
    Submitter.PendingStep cfg s (CancelTask cfg task_spec force_kill recursive mark s).1 := by
  unfold CancelTask
  simp only []
  split
  · exact Submitter.PendingStep.pendingRefl cfg s
  · split
    · exact Submitter.pendingStep_of_entries_eq cfg rfl
    · refine Submitter.PendingStep.pendingTrans
        (Submitter.pendingStep_of_entries_eq cfg
          (t := s.call (Call.MarkTaskCanceled task_spec.task_id)) rfl) ?_
      refine (Submitter.pendingStep_touchEntry cfg _ task_spec.schedulingKey).pendingTrans ?_
      split
      · dsimp only
        refine Submitter.PendingStep.pendingTrans ?_ (Submitter.pendingStep_of_entries_eq cfg
          (t := Submitter.call _ _) rfl)
        split
        · refine Submitter.PendingStep.pendingTrans ?_
            (pendingStep_CancelWorkerLeaseIfNeeded cfg cfg _ _)
          refine Submitter.pendingStep_setEntry_same cfg _ _ _ ?_
          rfl
        · refine Submitter.pendingStep_setEntry_same cfg _ _ _ ?_
          rfl
      · split
        · dsimp only
          refine Submitter.PendingStep.pendingTrans ?_
            (Submitter.pendingStep_eraseEntryIfCanDelete cfg _ _)
          exact Submitter.pendingStep_of_entries_eq cfg rfl
        · split
          · exact Submitter.pendingStep_of_entries_eq cfg rfl
          · exact Submitter.pendingStep_of_entries_eq cfg rfl

theorem pendingStep_step {cfg : Config} {now : Nat} {ev : Event} {s s' : Submitter}
    (h : step cfg now ev s = some s') : Submitter.PendingStep cfg s s' := by
  cases ev with
  | SubmitTask task_spec =>
    simp only [step, Option.some.injEq] at h
    exact h ▸ Submitter.pendingStep_of_entries_eq cfg rfl
  | DependenciesResolved i status deps =>
    simp only [step] at h
    split at h
    · cases h
    · refine Submitter.PendingStep.pendingTrans ?_ (pendingStep_resolved h)
      exact Submitter.pendingStep_of_entries_eq cfg rfl
  | ActorCreated i status =>
    simp only [step] at h
    split at h
    · cases h
    · simp only [Option.some.injEq] at h
      subst h
      unfold SubmitTask.actorCreated
      split <;> exact Submitter.pendingStep_of_entries_eq cfg rfl
  | LeaseReply i status reply =>
    simp only [step] at h
    split at h
    · cases h
    · refine Submitter.PendingStep.pendingTrans ?_ (pendingStep_leaseReply h)
      exact Submitter.pendingStep_of_entries_eq cfg rfl
  | PushReply i status reply retry_possible =>
    simp only [step] at h
    split at h
    · cases h
    · refine Submitter.PendingStep.pendingTrans ?_ (pendingStep_pushReply h)
      exact Submitter.pendingStep_of_entries_eq cfg rfl
  | StealReply i status stolen =>
    simp only [step] at h
    split at h
    · cases h
    · refine Submitter.PendingStep.pendingTrans ?_ (pendingStep_stealReply h)
      exact Submitter.pendingStep_of_entries_eq cfg rfl
  | CancelLeaseReply i status success =>
    simp only [step] at h
    split at h
    · cases h
    · simp only [Option.some.injEq] at h
      subst h
      unfold CancelWorkerLeaseIfNeeded.reply
      split
      · refine Submitter.PendingStep.pendingTrans ?_
          (pendingStep_CancelWorkerLeaseIfNeeded cfg cfg _ _)
        exact Submitter.pendingStep_of_entries_eq cfg rfl
      · exact Submitter.pendingStep_of_entries_eq cfg rfl
  | CancelTask task_spec force_kill recursive mark =>
    simp only [step, Option.some.injEq] at h
    exact h ▸ pendingStep_CancelTask cfg task_spec force_kill recursive mark s
  | CancelReply i status attempt_succeeded =>
    simp only [step] at h
    split at h
    · cases h
    · simp only [Option.some.injEq] at h
      subst h
      unfold CancelTask.reply
      simp only []
      split <;> exact Submitter.pendingStep_of_entries_eq cfg rfl
  | CancelRetry i mark =>
    simp only [step] at h
    split at h
    · cases h
    · simp only [Option.some.injEq] at h
      subst h
      refine Submitter.PendingStep.pendingTrans ?_ (pendingStep_CancelTask cfg _ _ _ mark _)
      exact Submitter.pendingStep_of_entries_eq cfg rfl
  | ReportWorkerBacklog =>
    simp only [step, Option.some.injEq] at h
    exact h ▸ pendingStep_ReportWorkerBacklogInternal cfg cfg s
  | CancelRemoteTask object_id worker_addr force_kill recursive =>
    simp only [step, Option.some.injEq] at h
    subst h
    unfold CancelRemoteTask
    split <;> exact Submitter.pendingStep_of_entries_eq cfg rfl

/-- C5 (I4): in every reachable state every scheduling key entry has at most
`max_pending_lease_requests_per_scheduling_category` pending lease requests. -/
theorem pending_lease_requests_within_cap (cfg : Config) (s : Submitter)
    (h_reach : Reachable cfg s) :
    ∀ key e, Assoc.lookup key s.scheduling_key_entries = some e →
      e.pending_lease_requests.length
        ≤ cfg.max_pending_lease_requests_per_scheduling_category := by
  have hb : Submitter.PendingBounded cfg s := by
    induction h_reach with
    | init => intro key e h; simp [Submitter.init, Assoc.lookup] at h
    | step now ev s s' _ _ hstep ih => exact ih.afterPending (pendingStep_step hstep)
  exact hb

theorem pending_lease_requests_within_cap_witness :
    Reachable (Scenario.config 2 1) Scenario.afterSubmit ∧
      (Scenario.afterSubmit.entry Scenario.key).pending_lease_requests.length = 1 ∧
      (Scenario.afterSubmit.entry Scenario.key).pending_lease_requests.length
        ≤ (Scenario.config 2 1).max_pending_lease_requests_per_scheduling_category :=
  ⟨reachable_getD_run _ _, by decide,
    pending_lease_requests_within_cap (Scenario.config 2 1) Scenario.afterSubmit
      (reachable_getD_run _ _) Scenario.key (Scenario.afterSubmit.entry Scenario.key)
      (by decide)⟩

/-! ### The tasks in flight of a worker stay within the cap -/

namespace Submitter

theorem Quiet.leases_eq {s s' : Submitter} (h : Quiet s s') :
    s'.worker_to_lease_entry = s.worker_to_lease_entry :=
  congrArg Prod.fst h.work

theorem InFlightStep.inFlightRefl (cfg : Config) (s : Submitter) : InFlightStep cfg s s :=
  fun _ l' h => Or.inr ⟨l', h, Nat.le_refl _⟩

theorem InFlightStep.inFlightTrans {cfg : Config} {s1 s2 s3 : Submitter} (h12 : InFlightStep cfg s1 s2)
    (h23 : InFlightStep cfg s2 s3) : InFlightStep cfg s1 s3 := by
  intro a l3 h3
  rcases h23 a l3 h3 with h | ⟨l2, h2, hle⟩
  · exact Or.inl h
  · rcases h12 a l2 h2 with h | ⟨l1, h1, hle'⟩
    · exact Or.inl (Nat.le_trans hle h)
    · exact Or.inr ⟨l1, h1, Nat.le_trans hle hle'⟩

theorem inFlightStep_of_leases_eq (cfg : Config) {s t : Submitter}
    (h : t.worker_to_lease_entry = s.worker_to_lease_entry) : InFlightStep cfg s t := by
  intro a l' hl
  rw [h] at hl
  exact Or.inr ⟨l', hl, Nat.le_refl _⟩

theorem inFlightStep_withLeases (cfg : Config) (s : Submitter)
    (leases : List (WorkerAddress × LeaseEntry))
    (h : Assoc.Touched LeaseEntry.empty s.worker_to_lease_entry leases) :
    InFlightStep cfg s (s.withLeases leases) := by
  intro a l' hl
  rcases h a with h1 | ⟨-, h2⟩
  · exact Or.inr ⟨l', by rw [← h1]; exact hl, Nat.le_refl _⟩
  · left
    have hl' : Assoc.lookup a leases = some l' := hl
    rw [h2] at hl'
    cases hl'
    exact Nat.zero_le _

theorem inFlightStep_touchLease (cfg : Config) (s : Submitter) (addr : WorkerAddress) :
    InFlightStep cfg s (s.touchLease addr) :=
  inFlightStep_withLeases cfg s _ (Assoc.touched_emplace _ addr _)

theorem inFlightStep_eraseLease (cfg : Config) (s : Submitter) (addr : WorkerAddress) :
    InFlightStep cfg s (s.eraseLease addr) := by
  intro a l' hl
  simp only [eraseLease, Assoc.lookup_remove] at hl
  split_ifs at hl
  exact Or.inr ⟨l', hl, Nat.le_refl _⟩

theorem inFlightStep_emplaceLease (cfg : Config) (s : Submitter) (addr : WorkerAddress)
    (l : LeaseEntry) (h : l.tasks_in_flight ≤ cfg.max_tasks_in_flight_per_worker) :
    InFlightStep cfg s (s.emplaceLease addr l) := by
  intro a l' hl
  simp only [emplaceLease, Assoc.lookup_emplace] at hl
  split_ifs at hl with ha
  · subst ha
    cases hx : Assoc.lookup addr s.worker_to_lease_entry with
    | none =>
      simp only [hx, Option.getD_none, Option.some.injEq] at hl
      exact Or.inl (hl ▸ h)
    | some l0 =>
      simp only [hx, Option.getD_some, Option.some.injEq] at hl
      exact Or.inr ⟨l0, rfl, by rw [hl]⟩
  · exact Or.inr ⟨l', hl, Nat.le_refl _⟩

theorem inFlightStep_setLease (cfg : Config) (s : Submitter) (addr : WorkerAddress)
    (l : LeaseEntry)
    (h : l.tasks_in_flight ≤ cfg.max_tasks_in_flight_per_worker ∨
      l.tasks_in_flight ≤ (s.lease addr).tasks_in_flight) :
    InFlightStep cfg s (s.setLease addr l) := by
  intro a l' hl
  simp only [setLease, Assoc.lookup_update] at hl
  split_ifs at hl with ha
  · subst ha
    simp only [Option.some.injEq] at hl
    subst hl
    rcases h with h | h
    · exact Or.inl h
    · cases hx : Assoc.lookup addr s.worker_to_lease_entry with
      | none =>
        rw [lease_of_lookup_none hx] at h
        left
        simp only [LeaseEntry.empty_tasks_in_flight] at h
        omega
      | some l0 =>
        rw [lease_of_lookup hx] at h
        exact Or.inr ⟨l0, rfl, h⟩
  · exact Or.inr ⟨l', hl, Nat.le_refl _⟩

theorem InFlightBounded.afterInFlight {cfg : Config} {s s' : Submitter} (h : InFlightBounded cfg s)
    (hstep : InFlightStep cfg s s') : InFlightBounded cfg s' := by
  intro a l' hl
  rcases hstep a l' hl with h' | ⟨l, hl0, hle⟩
  · exact h'
  · exact Nat.le_trans hle (h a l hl0)

end Submitter

theorem inFlightStep_AddWorkerLeaseClient {cfg : Config} {now : Nat} {addr : WorkerAddress}
    {lease_client : LeaseClient} {res : Resources} {key : SchedulingKey} {s s' : Submitter}
    (h : AddWorkerLeaseClient cfg now addr lease_client res key s = some s') :
    Submitter.InFlightStep cfg s s' := by
  obtain ⟨-, rfl⟩ := AddWorkerLeaseClient_inv h
  refine Submitter.InFlightStep.inFlightTrans ?_ (Submitter.inFlightStep_of_leases_eq cfg
    (s := (s.cacheConnect addr).emplaceLease addr _) rfl)
  refine Submitter.InFlightStep.inFlightTrans ?_ (Submitter.inFlightStep_emplaceLease cfg _ _ _ ?_)
  · exact Submitter.inFlightStep_of_leases_eq cfg rfl
  · exact Nat.zero_le _

theorem inFlightStep_ReturnWorker (cfg : Config) {addr : WorkerAddress} {was_error : Bool}
    {key : SchedulingKey} {s s' : Submitter}
    (h : ReturnWorker addr was_error key s = some s') : Submitter.InFlightStep cfg s s' := by
  obtain ⟨l, client, -, -, -, -, -, rfl⟩ := ReturnWorker_inv h
  refine Submitter.InFlightStep.inFlightTrans ?_ (Submitter.inFlightStep_eraseLease cfg _ _)
  exact Submitter.inFlightStep_of_leases_eq cfg rfl

theorem inFlightStep_FindOptimalVictimForStealing (cfg : Config) {key : SchedulingKey}
    {thief victim0 : WorkerAddress} {s s' : Submitter} {found : Bool} {victim : WorkerAddress}
    (h : FindOptimalVictimForStealing key thief victim0 s = some (s', found, victim)) :
    Submitter.InFlightStep cfg s s' := by
  obtain ⟨leases, rfl, ht⟩ := FindOptimalVictimForStealing_inv h
  exact Submitter.inFlightStep_withLeases cfg (s.touchEntry key) leases ht

theorem inFlightStep_StealTasksOrReturnWorker {cfg : Config} {now : Nat}
    {thief_addr : WorkerAddress} {was_error : Bool} {key : SchedulingKey} {s s' : Submitter}
    (h : StealTasksOrReturnWorker cfg now thief_addr was_error key s = some s') :
    Submitter.InFlightStep cfg s s' := by
  obtain ⟨l, client, -, -, -, -, hcase⟩ := StealTasksOrReturnWorker_inv h
  rcases hcase with hr | ⟨s2, v, hfind, hr⟩ | ⟨s2, v, hfind, rfl⟩
  · exact inFlightStep_ReturnWorker cfg hr
  · refine (inFlightStep_FindOptimalVictimForStealing cfg hfind).inFlightTrans
      (Submitter.InFlightStep.inFlightTrans ?_ (inFlightStep_ReturnWorker cfg hr))
    split_ifs
    · exact Submitter.inFlightStep_of_leases_eq cfg
        (quiet_CancelWorkerLeaseIfNeeded cfg key s2).leases_eq
    · exact Submitter.InFlightStep.inFlightRefl cfg s2
  · refine (inFlightStep_FindOptimalVictimForStealing cfg hfind).inFlightTrans ?_
    refine Submitter.InFlightStep.inFlightTrans ?_ (Submitter.inFlightStep_of_leases_eq cfg
      (s := s2.setLease thief_addr { s2.lease thief_addr with is_stealing := true }) rfl)
    exact Submitter.inFlightStep_setLease cfg _ _ _ (Or.inr (Nat.le_refl _))

theorem inFlightStep_pushFront (cfg : Config) (addr : WorkerAddress) (key : SchedulingKey)
    (res : Resources) (task_spec : TaskSpecification) (s : Submitter)
    (h : (s.lease addr).PipelineToWorkerFull cfg.max_tasks_in_flight_per_worker = false) :
    Submitter.InFlightStep cfg s (OnWorkerIdle.pushFront addr key res task_spec s) := by
  unfold OnWorkerIdle.pushFront
  simp only []
  refine Submitter.InFlightStep.inFlightTrans ?_ (Submitter.inFlightStep_of_leases_eq cfg
    (s := s.setLease addr
      { s.lease addr with tasks_in_flight := (s.lease addr).tasks_in_flight + 1 }) rfl)
  refine Submitter.inFlightStep_setLease cfg _ _ _ (Or.inl ?_)
  simp only [LeaseEntry.PipelineToWorkerFull, Bool.not_eq_false', decide_eq_true_eq] at h
  exact h

theorem inFlightStep_pipeline (cfg : Config) (addr : WorkerAddress) (key : SchedulingKey)
    (res : Resources) (fuel : Nat) :
    ∀ {s s' : Submitter}, OnWorkerIdle.pipeline cfg addr key res fuel s = some s' →
      Submitter.InFlightStep cfg s s' := by
  induction fuel with
  | zero =>
    intro s s' h
    simp only [OnWorkerIdle.pipeline, Option.some.injEq] at h
    exact h ▸ Submitter.InFlightStep.inFlightRefl cfg s
  | succ n ih =>
    intro s s' h
    simp only [OnWorkerIdle.pipeline] at h
    split at h
    · simp only [Option.some.injEq] at h
      exact h ▸ Submitter.InFlightStep.inFlightRefl cfg s
    · split at h
      · simp only [Option.some.injEq] at h
        exact h ▸ Submitter.InFlightStep.inFlightRefl cfg s
      · rename_i hfull
        split at h
        · cases h
        · exact (inFlightStep_pushFront cfg addr key res _ s (by simpa using hfull)).inFlightTrans
            (ih h)

theorem inFlightStep_OnWorkerIdle {cfg : Config} {now : Nat} {addr : WorkerAddress}
    {key : SchedulingKey} {was_error : Bool} {res : Resources} {s s' : Submitter}
    (h : OnWorkerIdle cfg now addr key was_error res s = some s') :
    Submitter.InFlightStep cfg s s' := by
  rcases OnWorkerIdle_inv h with ⟨-, rfl⟩ | ⟨l, client, -, -, hcase⟩
  · exact Submitter.inFlightStep_touchLease cfg s addr
  · rcases hcase with ⟨-, s2, h2, h3⟩ | ⟨-, s3, h2, h3⟩
    · refine Submitter.InFlightStep.inFlightTrans ?_
        (Submitter.inFlightStep_of_leases_eq cfg (quiet_RequestNewWorkerIfNeeded h3).leases_eq)
      split_ifs at h2
      · refine Submitter.InFlightStep.inFlightTrans ?_ (inFlightStep_StealTasksOrReturnWorker h2)
        exact Submitter.inFlightStep_of_leases_eq cfg rfl
      · simp only [Option.some.injEq] at h2
        exact h2 ▸ Submitter.inFlightStep_of_leases_eq cfg rfl
    · refine Submitter.InFlightStep.inFlightTrans ?_
        (Submitter.inFlightStep_of_leases_eq cfg (quiet_RequestNewWorkerIfNeeded h3).leases_eq)
      refine Submitter.InFlightStep.inFlightTrans
        (Submitter.InFlightStep.inFlightTrans ?_ (inFlightStep_pipeline cfg addr key res _ h2)) ?_
      · exact Submitter.inFlightStep_of_leases_eq cfg rfl
      · split_ifs
        · exact Submitter.inFlightStep_of_leases_eq cfg
            (quiet_CancelWorkerLeaseIfNeeded cfg key s3).leases_eq
        · exact Submitter.InFlightStep.inFlightRefl cfg s3

theorem inFlightStep_findWorker (cfg : Config) (now : Nat) (key : SchedulingKey)
    (workers : List WorkerAddress) :
    ∀ {s s' : Submitter}, SubmitTask.findWorker cfg now key workers s = some s' →
      Submitter.InFlightStep cfg s s' := by
  induction workers with
  | nil =>
    intro s s' h
    simp only [SubmitTask.findWorker, Option.some.injEq] at h
    exact h ▸ Submitter.InFlightStep.inFlightRefl cfg s
  | cons a rest ih =>
    intro s s' h
    simp only [SubmitTask.findWorker] at h
    split at h
    · cases h
    · split at h
      · exact inFlightStep_OnWorkerIdle h
      · exact ih h

theorem inFlightStep_resolved {cfg : Config} {now : Nat} {task_spec : TaskSpecification}
    {status : Status} {s s' : Submitter}
    (h : SubmitTask.resolved cfg now task_spec status s = some s') :
    Submitter.InFlightStep cfg s s' := by
  rcases resolved_inv h with ⟨c, rfl, -⟩ | ⟨c, rfl⟩ | ⟨c, rfl⟩ | ⟨-, s4, h4, h5⟩
  · exact Submitter.inFlightStep_of_leases_eq cfg rfl
  · exact Submitter.inFlightStep_of_leases_eq cfg rfl
  · exact Submitter.inFlightStep_of_leases_eq cfg rfl
  · refine Submitter.InFlightStep.inFlightTrans ?_
      (Submitter.inFlightStep_of_leases_eq cfg (quiet_RequestNewWorkerIfNeeded h5).leases_eq)
    refine Submitter.InFlightStep.inFlightTrans
      (Submitter.inFlightStep_of_leases_eq cfg (t := SubmitTask.enqueue task_spec s) rfl) ?_
    split at h4
    · exact inFlightStep_findWorker cfg now _ _ h4
    · simp only [Option.some.injEq] at h4
      exact h4 ▸ Submitter.InFlightStep.inFlightRefl cfg _

theorem failQueued_leases (err : TaskSpecification → ErrorType) (q : List TaskSpecification) :
    ∀ s : Submitter, (RequestNewWorkerIfNeeded.failQueued err q s).worker_to_lease_entry
      = s.worker_to_lease_entry := by
  induction q with
  | nil => intro s; rfl
  | cons t rest ih =>
    intro s
    simp only [RequestNewWorkerIfNeeded.failQueued]
    rw [ih]
    rfl

theorem drain_leases (err : TaskSpecification → ErrorType) (key : SchedulingKey)
    (s : Submitter) :
    (RequestNewWorkerIfNeeded.drain err key s).worker_to_lease_entry
      = s.worker_to_lease_entry :=
  failQueued_leases err (s.entry key).task_queue s

theorem inFlightStep_leaseReply {cfg : Config} {now : Nat} {ctx : LeaseContext}
    {status : Status} {reply : RequestWorkerLeaseReply} {s s' : Submitter}
    (h : RequestNewWorkerIfNeeded.reply cfg now ctx status reply s = some s') :
    Submitter.InFlightStep cfg s s' := by
  refine Submitter.InFlightStep.inFlightTrans
    (Submitter.inFlightStep_of_leases_eq cfg
      (t := RequestNewWorkerIfNeeded.received cfg ctx s) rfl) ?_
  rcases leaseReply_inv h with ⟨err, rfl⟩ | ⟨r, hr⟩ | ⟨-, client, s4, h4, h5⟩ | rfl
  · exact Submitter.inFlightStep_of_leases_eq cfg (drain_leases err _ _)
  · exact Submitter.inFlightStep_of_leases_eq cfg (quiet_RequestNewWorkerIfNeeded hr).leases_eq
  · exact (inFlightStep_AddWorkerLeaseClient h4).inFlightTrans (inFlightStep_OnWorkerIdle h5)
  · exact Submitter.inFlightStep_of_leases_eq cfg rfl

theorem finish_leases (ctx : PushContext) (status : Status) (reply : PushTaskReply)
    (retry_possible : Bool) (s : Submitter) :
    (PushNormalTask.finish ctx status reply retry_possible s).worker_to_lease_entry
      = s.worker_to_lease_entry := by
  unfold PushNormalTask.finish
  simp only []
  split_ifs <;> rfl

theorem inFlightStep_settle (cfg : Config) (ctx : PushContext) (s : Submitter) :
    Submitter.InFlightStep cfg s (PushNormalTask.settle ctx s) := by
  unfold PushNormalTask.settle
  simp only []
  refine Submitter.InFlightStep.inFlightTrans ?_ (Submitter.inFlightStep_of_leases_eq cfg
    (s := ((s.withExecuting (Assoc.remove ctx.task_id s.executing_tasks)).touchLease
      ctx.addr).setLease ctx.addr _) rfl)
  refine Submitter.InFlightStep.inFlightTrans ?_ (Submitter.inFlightStep_setLease cfg _ _ _ (Or.inr ?_))
  · refine Submitter.InFlightStep.inFlightTrans ?_ (Submitter.inFlightStep_touchLease cfg _ _)
    exact Submitter.inFlightStep_of_leases_eq cfg rfl
  · exact Nat.sub_le _ _

theorem inFlightStep_workerExiting (cfg : Config) (ctx : PushContext) (s : Submitter) :
    Submitter.InFlightStep cfg s (PushNormalTask.workerExiting ctx s) := by
  unfold PushNormalTask.workerExiting
  simp only []
  refine Submitter.InFlightStep.inFlightTrans (Submitter.inFlightStep_eraseLease cfg s ctx.addr) ?_
  exact Submitter.inFlightStep_of_leases_eq cfg rfl

theorem inFlightStep_pushReply {cfg : Config} {now : Nat} {ctx : PushContext}
    {status : Status} {reply : PushTaskReply} {retry_possible : Bool} {s s' : Submitter}
    (h : PushNormalTask.reply cfg now ctx status reply retry_possible s = some s') :
    Submitter.InFlightStep cfg s s' := by
  obtain ⟨-, -, -, hcase⟩ := pushReply_inv h
  refine (inFlightStep_settle cfg ctx s).inFlightTrans ?_
  rcases hcase with ⟨-, rfl⟩ | ⟨-, -, rfl⟩ | ⟨-, -, s6, h6, rfl⟩ | ⟨-, -, rfl⟩
  · exact (inFlightStep_workerExiting cfg ctx _).inFlightTrans
      (Submitter.inFlightStep_of_leases_eq cfg (finish_leases ..))
  · exact Submitter.InFlightStep.inFlightRefl cfg _
  · exact (inFlightStep_OnWorkerIdle h6).inFlightTrans
      (Submitter.inFlightStep_of_leases_eq cfg (finish_leases ..))
  · exact Submitter.inFlightStep_of_leases_eq cfg (finish_leases ..)

theorem requeue_leases (key : SchedulingKey)
    (stolen : List (TaskID × Option TaskSpecification)) :
    ∀ {s s' : Submitter}, StealTasksOrReturnWorker.requeue key stolen s = some s' →
      s'.worker_to_lease_entry = s.worker_to_lease_entry := by
  induction stolen with
  | nil =>
    intro s s' h
    simp only [StealTasksOrReturnWorker.requeue, Option.some.injEq] at h
    rw [← h]
  | cons p rest ih =>
    intro s s' h
    obtain ⟨id, spec⟩ := p
    cases spec with
    | none => simp [StealTasksOrReturnWorker.requeue] at h
    | some spec =>
      simp only [StealTasksOrReturnWorker.requeue] at h
      rw [ih h]
      rfl

theorem inFlightStep_stealReply {cfg : Config} {now : Nat} {ctx : StealContext}
    {status : Status} {stolen : List (TaskID × Option TaskSpecification)} {s s' : Submitter}
    (h : StealTasksOrReturnWorker.reply cfg now ctx status stolen s = some s') :
    Submitter.InFlightStep cfg s s' := by
  obtain ⟨thief_entry, hl, -, s2, h2, h3⟩ := stealReply_inv h
  refine Submitter.InFlightStep.inFlightTrans
    (Submitter.inFlightStep_setLease cfg s ctx.thief_addr
      { thief_entry with is_stealing := false } (Or.inr ?_)) ?_
  · rw [Submitter.lease_of_lookup hl]
  · exact (Submitter.inFlightStep_of_leases_eq cfg (requeue_leases _ _ h2)).inFlightTrans
      (inFlightStep_OnWorkerIdle h3)

theorem CancelTask_leases (cfg : Config) (task_spec : TaskSpecification)
    (force_kill recursive mark : Bool) (s : Submitter) :
    (CancelTask cfg task_spec force_kill recursive mark s).1.worker_to_lease_entry
      = s.worker_to_lease_entry := by
  unfold CancelTask
  simp only []
  split
  · rfl
  · split
    · rfl
    · split
      · dsimp only
        split
        · exact (quiet_CancelWorkerLeaseIfNeeded cfg _ _).leases_eq
        · rfl
      · split
        · rfl
        · split <;> rfl

theorem inFlightStep_step {cfg : Config} {now : Nat} {ev : Event} {s s' : Submitter}
    (h : step cfg now ev s = some s') : Submitter.InFlightStep cfg s s' := by
  cases ev with
  | SubmitTask task_spec =>
    simp only [step, Option.some.injEq] at h
    exact h ▸ Submitter.inFlightStep_of_leases_eq cfg rfl
  | DependenciesResolved i status deps =>
    simp only [step] at h
    split at h
    · cases h
    · refine Submitter.InFlightStep.inFlightTrans ?_ (inFlightStep_resolved h)
      exact Submitter.inFlightStep_of_leases_eq cfg rfl
  | ActorCreated i status =>
    simp only [step] at h
    split at h
    · cases h
    · simp only [Option.some.injEq] at h
      subst h
      unfold SubmitTask.actorCreated
      split <;> exact Submitter.inFlightStep_of_leases_eq cfg rfl
  | LeaseReply i status reply =>
    simp only [step] at h
    split at h
    · cases h
    · refine Submitter.InFlightStep.inFlightTrans ?_ (inFlightStep_leaseReply h)
      exact Submitter.inFlightStep_of_leases_eq cfg rfl
  | PushReply i status reply retry_possible =>
    simp only [step] at h
    split at h
    · cases h
    · refine Submitter.InFlightStep.inFlightTrans ?_ (inFlightStep_pushReply h)
      exact Submitter.inFlightStep_of_leases_eq cfg rfl
  | StealReply i status stolen =>
    simp only [step] at h
    split at h
    · cases h
    · refine Submitter.InFlightStep.inFlightTrans ?_ (inFlightStep_stealReply h)
      exact Submitter.inFlightStep_of_leases_eq cfg rfl
  | CancelLeaseReply i status success =>
    simp only [step] at h
    split at h
    · cases h
    · simp only [Option.some.injEq] at h
      subst h
      unfold CancelWorkerLeaseIfNeeded.reply
      split
      · exact Submitter.inFlightStep_of_leases_eq cfg
          (quiet_CancelWorkerLeaseIfNeeded cfg _ _).leases_eq
      · exact Submitter.inFlightStep_of_leases_eq cfg rfl
  | CancelTask task_spec force_kill recursive mark =>
    simp only [step, Option.some.injEq] at h
    exact h ▸ Submitter.inFlightStep_of_leases_eq cfg (CancelTask_leases ..)
  | CancelReply i status attempt_succeeded =>
    simp only [step] at h
    split at h
    · cases h
    · simp only [Option.some.injEq] at h
      subst h
      unfold CancelTask.reply
      simp only []
      split <;> exact Submitter.inFlightStep_of_leases_eq cfg rfl
  | CancelRetry i mark =>
    simp only [step] at h
    split at h
    · cases h
    · simp only [Option.some.injEq] at h
      subst h
      exact Submitter.inFlightStep_of_leases_eq cfg (CancelTask_leases ..)
  | ReportWorkerBacklog =>
    simp only [step, Option.some.injEq] at h
    exact h ▸ Submitter.inFlightStep_of_leases_eq cfg
      (quiet_ReportWorkerBacklogInternal cfg s).leases_eq
  | CancelRemoteTask object_id worker_addr force_kill recursive =>
    simp only [step, Option.some.injEq] at h
    subst h
    unfold CancelRemoteTask
    split <;> exact Submitter.inFlightStep_of_leases_eq cfg rfl

/-- C3 (I3): in every reachable state every lease entry has
`0 ≤ tasks_in_flight ≤ max_tasks_in_flight_per_worker` (the counter is a natural number,
so the lower bound is part of its type). -/
theorem tasks_in_flight_within_cap (cfg : Config) (s : Submitter)
    (h_reach : Reachable cfg s) :
    ∀ addr l, Assoc.lookup addr s.worker_to_lease_entry = some l →
      0 ≤ l.tasks_in_flight ∧ l.tasks_in_flight ≤ cfg.max_tasks_in_flight_per_worker := by
  have hb : Submitter.InFlightBounded cfg s := by
    induction h_reach with
    | init => intro a l h; simp [Submitter.init, Assoc.lookup] at h
    | step now ev s s' _ _ hstep ih => exact ih.afterInFlight (inFlightStep_step hstep)
  intro addr l hl
  exact ⟨Nat.zero_le _, hb addr l hl⟩

theorem tasks_in_flight_within_cap_witness :
    Reachable (Scenario.config 2 1) Scenario.pipelined ∧
      (Scenario.pipelined.lease (Scenario.worker 11)).tasks_in_flight = 2 ∧
      (0 ≤ (Scenario.pipelined.lease (Scenario.worker 11)).tasks_in_flight ∧
        (Scenario.pipelined.lease (Scenario.worker 11)).tasks_in_flight
          ≤ (Scenario.config 2 1).max_tasks_in_flight_per_worker) :=
  ⟨reachable_getD_run _ _, by decide,
    tasks_in_flight_within_cap (Scenario.config 2 1) Scenario.pipelined
      (reachable_getD_run _ _) (Scenario.worker 11)
      (Scenario.pipelined.lease (Scenario.worker 11)) (by decide)⟩

/-! ### Lease entries and active workers mirror each other -/

namespace Submitter

theorem SameCross.crossRefl (s : Submitter) : SameCross s s :=
  ⟨fun _ => rfl, fun _ => rfl, fun _ h => h, fun _ h => h⟩

theorem SameCross.crossTrans {s1 s2 s3 : Submitter} (h12 : SameCross s1 s2) (h23 : SameCross s2 s3) :
    SameCross s1 s3 :=
  ⟨fun a => (h23.binding a).trans (h12.binding a),
    fun key => (h23.active key).trans (h12.active key),
    fun c h => h12.pushes c (h23.pushes c h), fun c h => h12.steals c (h23.steals c h)⟩

theorem Quiet.pushes_eq {s s' : Submitter} (h : Quiet s s') : s'.pushes = s.pushes :=
  congrArg (fun w => w.2.2.2.1) h.work

theorem Quiet.steals_eq {s s' : Submitter} (h : Quiet s s') : s'.steals = s.steals :=
  congrArg (fun w => w.2.2.2.2.1) h.work

theorem Quiet.sameCross {s s' : Submitter} (h : Quiet s s') : SameCross s s' :=
  ⟨fun a => by rw [h.leases_eq], h.active, fun c hc => by rw [← h.pushes_eq]; exact hc,
    fun c hc => by rw [← h.steals_eq]; exact hc⟩

/-- A step that leaves the lease map, the entries' active workers and the continuations as
they were. -/
theorem sameCross_of_fields {s t : Submitter}
    (hl : t.worker_to_lease_entry = s.worker_to_lease_entry)
    (ha : ∀ key, (t.entry key).active_workers = (s.entry key).active_workers)
    (hp : t.pushes = s.pushes) (hs : t.steals = s.steals) : SameCross s t :=
  ⟨fun a => by rw [hl], ha, fun c hc => by rw [← hp]; exact hc,
    fun c hc => by rw [← hs]; exact hc⟩

theorem sameCross_recordEnqueued (s : Submitter) (key : SchedulingKey)
    (t : TaskSpecification) : SameCross s (s.recordEnqueued key t) :=
  sameCross_of_fields rfl (fun _ => rfl) rfl rfl

theorem sameCross_withExecuting (s : Submitter) (m : List (TaskID × WorkerAddress)) :
    SameCross s (s.withExecuting m) :=
  sameCross_of_fields rfl (fun _ => rfl) rfl rfl

theorem sameCross_withCancelled (s : Submitter) (m : List TaskID) :
    SameCross s (s.withCancelled m) :=
  sameCross_of_fields rfl (fun _ => rfl) rfl rfl

theorem sameCross_callAll (s : Submitter) (cs : List Call) : SameCross s (s.callAll cs) :=
  sameCross_of_fields rfl (fun _ => rfl) rfl rfl

theorem sameCross_call (s : Submitter) (c : Call) : SameCross s (s.call c) :=
  sameCross_of_fields rfl (fun _ => rfl) rfl rfl

theorem sameCross_setLease (s : Submitter) (addr : WorkerAddress) (l0 l : LeaseEntry)
    (h0 : Assoc.lookup addr s.worker_to_lease_entry = some l0)
    (hk : l.scheduling_key = l0.scheduling_key) (hc : l.lease_client = l0.lease_client) :
    SameCross s (s.setLease addr l) := by
  refine ⟨fun a => ?_, fun _ => rfl, fun _ h => h, fun _ h => h⟩
  simp only [setLease, Assoc.lookup_update]
  split_ifs with ha
  · subst ha
    simp [h0, hk, hc]
  · rfl

theorem sameCross_setEntry (s : Submitter) (key : SchedulingKey) (e : SchedulingKeyEntry)
    (h : e.active_workers = (s.entry key).active_workers) : SameCross s (s.setEntry key e) := by
  refine ⟨fun _ => rfl, fun k => ?_, fun _ h => h, fun _ h => h⟩
  simp only [entry, setEntry, Assoc.lookup_update]
  split_ifs with hk
  · subst hk
    simpa [entry] using h
  · rfl

theorem CrossMap.of_sameCross {s s' : Submitter} (h : CrossMap s) (hs : SameCross s s') :
    CrossMap s' := by
  have hback : ∀ a l', Assoc.lookup a s'.worker_to_lease_entry = some l' →
      ∃ l, Assoc.lookup a s.worker_to_lease_entry = some l ∧
        l.scheduling_key = l'.scheduling_key ∧ l.lease_client.isSome = l'.lease_client.isSome := by
    intro a l' hl'
    have hb := hs.binding a
    rw [hl'] at hb
    cases hx : Assoc.lookup a s.worker_to_lease_entry with
    | none => rw [hx] at hb; simp at hb
    | some l =>
      rw [hx] at hb
      simp only [Option.map_some', Option.some.injEq, Prod.mk.injEq] at hb
      exact ⟨l, rfl, hb.1.symm, hb.2.symm⟩
  refine ⟨?_, ?_, ?_, ?_⟩
  · intro a l' hl'
    obtain ⟨l, hl, hk, hc⟩ := hback a l' hl'
    obtain ⟨h1, h2⟩ := h.leased_active a l hl
    refine ⟨by rw [← hc]; exact h1, ?_⟩
    rw [hs.active, ← hk]
    exact h2
  · intro key a ha
    rw [hs.active] at ha
    obtain ⟨l, hl, hk⟩ := h.active_leased key a ha
    have hb := hs.binding a
    rw [hl] at hb
    cases hx : Assoc.lookup a s'.worker_to_lease_entry with
    | none => rw [hx] at hb; simp at hb
    | some l' =>
      rw [hx] at hb
      simp only [Option.map_some', Option.some.injEq, Prod.mk.injEq] at hb
      exact ⟨l', rfl, hb.1.trans hk⟩
  · intro c hc l' hl'
    obtain ⟨l, hl, hk, -⟩ := hback c.addr l' hl'
    rw [← hk]
    exact h.push_key c (hs.pushes c hc) l hl
  · intro c hc l' hl'
    obtain ⟨l, hl, hk, -⟩ := hback c.thief_addr l' hl'
    rw [← hk]
    exact h.steal_key c (hs.steals c hc) l hl

theorem crossMap_addPush {s : Submitter} (h : CrossMap s) (ctx : PushContext)
    (hk : ∀ l, Assoc.lookup ctx.addr s.worker_to_lease_entry = some l →
      l.scheduling_key = ctx.scheduling_key) : CrossMap (s.addPush ctx) := by
  refine ⟨h.leased_active, h.active_leased, ?_, h.steal_key⟩
  intro c hc l hl
  simp only [addPush, List.mem_append, List.mem_singleton] at hc
  rcases hc with hc | hc
  · exact h.push_key c hc l hl
  · subst hc
    exact hk l hl

theorem crossMap_addSteal {s : Submitter} (h : CrossMap s) (ctx : StealContext)
    (hk : ∀ l, Assoc.lookup ctx.thief_addr s.worker_to_lease_entry = some l →
      l.scheduling_key = ctx.scheduling_key) : CrossMap (s.addSteal ctx) := by
  refine ⟨h.leased_active, h.active_leased, h.push_key, ?_⟩
  intro c hc l hl
  simp only [addSteal, List.mem_append, List.mem_singleton] at hc
  rcases hc with hc | hc
  · exact h.steal_key c hc l hl
  · subst hc
    exact hk l hl

/-- Releasing a worker: its lease entry is erased and it leaves the active workers of the
key its lease entry is bound to. -/
theorem crossMap_release {s s' : Submitter} (h : CrossMap s) {addr : WorkerAddress}
    {key : SchedulingKey} {l : LeaseEntry}
    (hl : Assoc.lookup addr s.worker_to_lease_entry = some l) (hk : l.scheduling_key = key)
    (hleases : s'.worker_to_lease_entry = Assoc.remove addr s.worker_to_lease_entry)
    (hactive : ∀ k, (s'.entry k).active_workers =
      if key = k then (s.entry k).active_workers.filter (fun a => decide (a ≠ addr))
      else (s.entry k).active_workers)
    (hp : ∀ c ∈ s'.pushes, c ∈ s.pushes) (hs : ∀ c ∈ s'.steals, c ∈ s.steals) :
    CrossMap s' := by
  have hlook : ∀ a l', Assoc.lookup a s'.worker_to_lease_entry = some l' →
      a ≠ addr ∧ Assoc.lookup a s.worker_to_lease_entry = some l' := by
    intro a l' hl'
    rw [hleases, Assoc.lookup_remove] at hl'
    split_ifs at hl' with ha
    exact ⟨fun hx => ha hx.symm, hl'⟩
  refine ⟨?_, ?_, ?_, ?_⟩
  · intro a l' hl'
    obtain ⟨hne, hl0⟩ := hlook a l' hl'
    obtain ⟨h1, h2⟩ := h.leased_active a l' hl0
    refine ⟨h1, ?_⟩
    rw [hactive]
    split_ifs
    · simp only [List.mem_filter, decide_eq_true_eq]
      exact ⟨h2, hne⟩
    · exact h2
  · intro k a ha
    rw [hactive] at ha
    have hmem : a ∈ (s.entry k).active_workers ∧ (key = k → a ≠ addr) := by
      split_ifs at ha with hkk
      · simp only [List.mem_filter, decide_eq_true_eq] at ha
        exact ⟨ha.1, fun _ => ha.2⟩
      · exact ⟨ha, fun hx => absurd hx hkk⟩
    obtain ⟨l0, hl0, hk0⟩ := h.active_leased k a hmem.1
    have hne : a ≠ addr := by
      intro hx
      subst hx
      rw [hl] at hl0
      cases hl0
      exact hmem.2 (hk.symm.trans hk0) rfl
    refine ⟨l0, ?_, hk0⟩
    rw [hleases, Assoc.lookup_remove, if_neg (fun hx => hne hx.symm)]
    exact hl0
  · intro c hc l' hl'
    exact h.push_key c (hp c hc) l' (hlook _ _ hl').2
  · intro c hc l' hl'
    exact h.steal_key c (hs c hc) l' (hlook _ _ hl').2

end Submitter

namespace Submitter

theorem entry_setEntry (s : Submitter) (key : SchedulingKey) (e : SchedulingKeyEntry)
    (k : SchedulingKey) : (s.setEntry key e).entry k = if key = k then e else s.entry k := by
  simp only [entry, setEntry, Assoc.lookup_update]
  split_ifs <;> rfl

theorem active_eraseEntryIfCanDelete (s : Submitter) (key k : SchedulingKey) :
    ((s.eraseEntryIfCanDelete key).entry k).active_workers = (s.entry k).active_workers :=
  (quiet_eraseEntryIfCanDelete s key).active k

end Submitter

theorem crossMap_AddWorkerLeaseClient {cfg : Config} {now : Nat} {addr : WorkerAddress}
    {lease_client : LeaseClient} {res : Resources} {key : SchedulingKey} {s s' : Submitter}
    (hx : s.CrossMap) (hnone : Assoc.lookup addr s.worker_to_lease_entry = none)
    (hp : ∀ c ∈ s.pushes, c.addr ≠ addr) (hs : ∀ c ∈ s.steals, c.thief_addr ≠ addr)
    (h : AddWorkerLeaseClient cfg now addr lease_client res key s = some s') :
    s'.CrossMap ∧ ∃ l, Assoc.lookup addr s'.worker_to_lease_entry = some l ∧
      l.scheduling_key = key := by
  obtain ⟨-, rfl⟩ := AddWorkerLeaseClient_inv h
  have hleases : ∀ a, Assoc.lookup a ((((s.cacheConnect addr).emplaceLease addr
        ⟨some lease_client, now + cfg.lease_timeout_ms, res, key, 0, false⟩).touchEntry
          key).setEntry key ((s.entry key).withWorker addr)).worker_to_lease_entry
      = if addr = a then
          some ⟨some lease_client, now + cfg.lease_timeout_ms, res, key, 0, false⟩
        else Assoc.lookup a s.worker_to_lease_entry := by
    intro a
    show Assoc.lookup a (Assoc.emplace addr _ s.worker_to_lease_entry) = _
    rw [Assoc.lookup_emplace, hnone]
    rfl
  have hentry : ∀ k, ((((s.cacheConnect addr).emplaceLease addr
        ⟨some lease_client, now + cfg.lease_timeout_ms, res, key, 0, false⟩).touchEntry
          key).setEntry key ((s.entry key).withWorker addr)).entry k
      = if key = k then (s.entry key).withWorker addr else s.entry k := by
    intro k
    rw [Submitter.entry_setEntry, Submitter.entry_touchEntry]
    rfl
  refine ⟨⟨?_, ?_, ?_, ?_⟩, _, by rw [hleases, if_pos rfl], rfl⟩
  · intro a l' hl'
    rw [hleases] at hl'
    split_ifs at hl' with ha
    · subst ha
      simp only [Option.some.injEq] at hl'
      subst hl'
      refine ⟨rfl, ?_⟩
      rw [hentry, if_pos rfl]
      simp [SchedulingKeyEntry.withWorker]
    · obtain ⟨h1, h2⟩ := hx.leased_active a l' hl'
      refine ⟨h1, ?_⟩
      rw [hentry]
      split_ifs with hk
      · rw [← hk] at h2
        simp only [SchedulingKeyEntry.withWorker, List.mem_append]
        exact Or.inl h2
      · exact h2
  · intro k a ha
    rw [hentry] at ha
    have hcase : a ∈ (s.entry k).active_workers ∨ (a = addr ∧ key = k) := by
      split_ifs at ha with hk
      · subst hk
        simp only [SchedulingKeyEntry.withWorker, List.mem_append, List.mem_singleton] at ha
        rcases ha with ha | ha
        · exact Or.inl ha
        · exact Or.inr ⟨ha, rfl⟩
      · exact Or.inl ha
    rcases hcase with ha' | ⟨ha', hk⟩
    · obtain ⟨l0, hl0, hk0⟩ := hx.active_leased k a ha'
      refine ⟨l0, ?_, hk0⟩
      rw [hleases]
      split_ifs with hadd
      · subst hadd
        rw [hnone] at hl0
        cases hl0
      · exact hl0
    · subst ha'
      exact ⟨_, by rw [hleases, if_pos rfl], hk⟩
  · intro c hc l' hl'
    rw [hleases, if_neg (fun hh => hp c hc hh.symm)] at hl'
    exact hx.push_key c hc l' hl'
  · intro c hc l' hl'
    rw [hleases, if_neg (fun hh => hs c hc hh.symm)] at hl'
    exact hx.steal_key c hc l' hl'

theorem crossMap_ReturnWorker {addr : WorkerAddress} {was_error : Bool}
    {key : SchedulingKey} {s s' : Submitter} (hx : s.CrossMap)
    (hkey : ∀ l, Assoc.lookup addr s.worker_to_lease_entry = some l → l.scheduling_key = key)
    (h : ReturnWorker addr was_error key s = some s') : s'.CrossMap := by
  obtain ⟨l, client, hl, -, -, -, -, rfl⟩ := ReturnWorker_inv h
  refine Submitter.crossMap_release hx hl (hkey l hl) rfl ?_ (fun _ hc => hc) (fun _ hc => hc)
  intro k
  show ((((s.touchEntry key).setEntry key
    ((s.entry key).withoutWorker addr)).eraseEntryIfCanDelete key).entry k).active_workers = _
  rw [Submitter.active_eraseEntryIfCanDelete, Submitter.entry_setEntry,
    Submitter.entry_touchEntry]
  split_ifs with hk
  · subst hk
    rfl
  · rfl

theorem scan_noop (thief : WorkerAddress) (l : List WorkerAddress) :
    ∀ (victim : WorkerAddress) (s s' : Submitter) (v' : WorkerAddress),
      (∀ c ∈ l, ∃ lc, Assoc.lookup c s.worker_to_lease_entry = some lc) →
      FindOptimalVictimForStealing.scan thief l victim s = some (s', v') → s' = s := by
  induction l with
  | nil =>
    intro victim s s' v' _ h
    simp only [FindOptimalVictimForStealing.scan, Option.some.injEq, Prod.mk.injEq] at h
    exact h.1.symm
  | cons c rest ih =>
    intro victim s s' v' hall h
    obtain ⟨lc, hlc⟩ := hall c (List.mem_cons_self _ _)
    have htouch : s.touchLease c = s := Submitter.touchLease_of_lookup hlc
    simp only [FindOptimalVictimForStealing.scan, htouch] at h
    have hrest : ∀ c' ∈ rest, ∃ lc, Assoc.lookup c' s.worker_to_lease_entry = some lc :=
      fun c' hc' => hall c' (List.mem_cons_of_mem _ hc')
    split at h
    · cases h
    · split at h
      · exact ih _ _ _ _ hrest h
      · exact ih _ _ _ _ hrest h

theorem FindOptimalVictimForStealing_noop {key : SchedulingKey} {thief victim0 : WorkerAddress}
    {s s' : Submitter} {found : Bool} {victim : WorkerAddress} (hx : s.CrossMap)
    (h : FindOptimalVictimForStealing key thief victim0 s = some (s', found, victim)) :
    s' = s.touchEntry key := by
  have hall : ∀ c ∈ (s.entry key).active_workers,
      ∃ lc, Assoc.lookup c (s.touchEntry key).worker_to_lease_entry = some lc := by
    intro c hc
    obtain ⟨lc, hlc, -⟩ := hx.active_leased key c hc
    exact ⟨lc, hlc⟩
  unfold FindOptimalVictimForStealing at h
  simp only [Submitter.entry_touchEntry] at h
  split at h
  · simp only [Option.some.injEq, Prod.mk.injEq] at h
    exact h.1.symm
  · split at h
    · simp only [Option.some.injEq, Prod.mk.injEq] at h
      exact h.1.symm
    · rename_i first rest hact
      split at h
      · cases h
      · rename_i s2 v hscan
        have hs2 : s2 = s.touchEntry key := scan_noop _ _ _ _ _ _ hall hscan
        obtain ⟨_, _, _, hv⟩ := scan_inv _ _ _ _ _ _ hscan
        have hvmem : v ∈ (s.entry key).active_workers := by
          rcases hv with hv | hv
          · rw [hv, hact]; exact List.mem_cons_self _ _
          · exact hv
        obtain ⟨lv, hlv⟩ := hall v hvmem
        have htouch : s2.touchLease v = s2 := by
          rw [hs2]
          exact Submitter.touchLease_of_lookup hlv
        rw [htouch] at h
        split at h
        · simp only [Option.some.injEq, Prod.mk.injEq] at h
          rw [← h.1, hs2]
        · split at h
          · cases h
          · split at h
            · cases h
            · split at h <;>
              · simp only [Option.some.injEq, Prod.mk.injEq] at h
                rw [← h.1, hs2]

theorem crossMap_StealTasksOrReturnWorker {cfg : Config} {now : Nat}
    {thief_addr : WorkerAddress} {was_error : Bool} {key : SchedulingKey} {s s' : Submitter}
    (hx : s.CrossMap)
    (hkey : ∀ l, Assoc.lookup thief_addr s.worker_to_lease_entry = some l →
      l.scheduling_key = key)
    (h : StealTasksOrReturnWorker cfg now thief_addr was_error key s = some s') :
    s'.CrossMap := by
  obtain ⟨l, client, hl, -, -, -, hcase⟩ := StealTasksOrReturnWorker_inv h
  rcases hcase with hr | ⟨s2, v, hfind, hr⟩ | ⟨s2, v, hfind, rfl⟩
  · exact crossMap_ReturnWorker hx hkey hr
  · have hs2 := FindOptimalVictimForStealing_noop hx hfind
    subst hs2
    have hx2 : (s.touchEntry key).CrossMap :=
      hx.of_sameCross (Submitter.quiet_touchEntry s key).sameCross
    have hq : Submitter.Quiet (s.touchEntry key)
        (if cfg.max_tasks_in_flight_per_worker > 1
          then CancelWorkerLeaseIfNeeded cfg key (s.touchEntry key) else s.touchEntry key) := by
      split_ifs
      · exact quiet_CancelWorkerLeaseIfNeeded cfg key _
      · exact Submitter.Quiet.quietRefl _
    refine crossMap_ReturnWorker (hx2.of_sameCross hq.sameCross) ?_ hr
    intro l' hl'
    rw [hq.leases_eq] at hl'
    exact hkey l' hl'
  · have hs2 := FindOptimalVictimForStealing_noop hx hfind
    subst hs2
    have hx2 : (s.touchEntry key).CrossMap :=
      hx.of_sameCross (Submitter.quiet_touchEntry s key).sameCross
    have hl2 : Assoc.lookup thief_addr (s.touchEntry key).worker_to_lease_entry = some l := hl
    have hx3 := hx2.of_sameCross (Submitter.sameCross_setLease (s.touchEntry key) thief_addr l
      { (s.touchEntry key).lease thief_addr with is_stealing := true } hl2
      (by rw [Submitter.lease_of_lookup hl2]) (by rw [Submitter.lease_of_lookup hl2]))
    refine Submitter.crossMap_addSteal
      (hx3.of_sameCross (Submitter.sameCross_of_fields
        (t := (((s.touchEntry key).setLease thief_addr
          { (s.touchEntry key).lease thief_addr with is_stealing := true }).cacheConnect
            v).call (Call.StealTasks v thief_addr))
        rfl (fun _ => rfl) rfl rfl)) _ ?_
    intro l' hl'
    have hl'' : Assoc.lookup thief_addr (Assoc.update thief_addr
        { (s.touchEntry key).lease thief_addr with is_stealing := true }
        (s.touchEntry key).worker_to_lease_entry) = some l' := hl'
    rw [Assoc.lookup_update, if_pos rfl] at hl''
    simp only [Option.some.injEq] at hl''
    rw [← hl'', Submitter.lease_of_lookup hl2]
    exact hkey l hl

theorem crossMap_pushFront {addr : WorkerAddress} {key : SchedulingKey} {res : Resources}
    {task_spec : TaskSpecification} {s : Submitter} {l : LeaseEntry} (hx : s.CrossMap)
    (hl : Assoc.lookup addr s.worker_to_lease_entry = some l) (hk : l.scheduling_key = key) :
    (OnWorkerIdle.pushFront addr key res task_spec s).CrossMap ∧
      ∃ l', Assoc.lookup addr
          (OnWorkerIdle.pushFront addr key res task_spec s).worker_to_lease_entry = some l' ∧
        l'.scheduling_key = key := by
  have hlease : s.lease addr = l := Submitter.lease_of_lookup hl
  have hx1 := hx.of_sameCross (Submitter.sameCross_setLease s addr l
    { s.lease addr with tasks_in_flight := (s.lease addr).tasks_in_flight + 1 } hl
    (by rw [hlease]) (by rw [hlease]))
  have hlook : Assoc.lookup addr (s.setLease addr
      { s.lease addr with tasks_in_flight := (s.lease addr).tasks_in_flight + 1
        }).worker_to_lease_entry
      = some { s.lease addr with tasks_in_flight := (s.lease addr).tasks_in_flight + 1 } := by
    simp [Submitter.setLease, Assoc.lookup_update]
  have hx2 := hx1.of_sameCross (Submitter.sameCross_setEntry
    (s.setLease addr { s.lease addr with tasks_in_flight := (s.lease addr).tasks_in_flight + 1 })
    key { s.entry key with total_tasks_in_flight := (s.entry key).total_tasks_in_flight + 1 }
    rfl)
  have hx3 := Submitter.crossMap_addPush
    (hx2.of_sameCross (Submitter.sameCross_of_fields
      (t := (((s.setLease addr { s.lease addr with
          tasks_in_flight := (s.lease addr).tasks_in_flight + 1 }).setEntry key
            { s.entry key with
              total_tasks_in_flight := (s.entry key).total_tasks_in_flight + 1 }).withExecuting
        (Assoc.emplace task_spec.task_id addr s.executing_tasks)).call
          (Call.PushNormalTask addr key task_spec res))
      rfl (fun _ => rfl) rfl rfl))
    (PushContext.mk task_spec task_spec.task_id task_spec.is_actor_task
      task_spec.is_actor_creation_task key addr res)
    (by
      intro l' hl'
      have hl'' : Assoc.lookup addr (s.setLease addr { s.lease addr with
          tasks_in_flight := (s.lease addr).tasks_in_flight + 1 }).worker_to_lease_entry
          = some l' := hl'
      rw [hlook] at hl''
      simp only [Option.some.injEq] at hl''
      rw [← hl'', hlease]
      exact hk)
  refine ⟨hx3.of_sameCross (Submitter.sameCross_setEntry _ key _ rfl), _, hlook, ?_⟩
  rw [hlease]
  exact hk

theorem crossMap_pipeline (cfg : Config) (addr : WorkerAddress) (key : SchedulingKey)
    (res : Resources) (fuel : Nat) :
    ∀ {s s' : Submitter}, s.CrossMap →
      (∃ l, Assoc.lookup addr s.worker_to_lease_entry = some l ∧ l.scheduling_key = key) →
      OnWorkerIdle.pipeline cfg addr key res fuel s = some s' → s'.CrossMap := by
  induction fuel with
  | zero =>
    intro s s' hx _ h
    simp only [OnWorkerIdle.pipeline, Option.some.injEq] at h
    exact h ▸ hx
  | succ n ih =>
    intro s s' hx hl h
    simp only [OnWorkerIdle.pipeline] at h
    split at h
    · simp only [Option.some.injEq] at h
      exact h ▸ hx
    · split at h
      · simp only [Option.some.injEq] at h
        exact h ▸ hx
      · split at h
        · cases h
        · obtain ⟨l, hl1, hk⟩ := hl
          rename_i t _ _ _ _
          obtain ⟨hx', hl'⟩ := @crossMap_pushFront addr key res t s l hx hl1 hk
          exact ih hx' hl' h

theorem crossMap_OnWorkerIdle {cfg : Config} {now : Nat} {addr : WorkerAddress}
    {key : SchedulingKey} {was_error : Bool} {res : Resources} {s s' : Submitter}
    (hx : s.CrossMap)
    (hl : ∃ l, Assoc.lookup addr s.worker_to_lease_entry = some l ∧ l.scheduling_key = key)
    (h : OnWorkerIdle cfg now addr key was_error res s = some s') : s'.CrossMap := by
  obtain ⟨l0, hl0, hk0⟩ := hl
  have hx1 : (s.touchEntry key).CrossMap :=
    hx.of_sameCross (Submitter.quiet_touchEntry s key).sameCross
  rcases OnWorkerIdle_inv h with ⟨hnone, -⟩ | ⟨l, client, -, -, hcase⟩
  · have := (hx.leased_active addr l0 hl0).1
    rw [Submitter.lease_of_lookup hl0] at hnone
    rw [hnone] at this
    cases this
  · rcases hcase with ⟨-, s2, h2, h3⟩ | ⟨-, s3, h2, h3⟩
    · refine Submitter.CrossMap.of_sameCross ?_ (quiet_RequestNewWorkerIfNeeded h3).sameCross
      split_ifs at h2
      · refine crossMap_StealTasksOrReturnWorker hx1 ?_ h2
        intro l' hl'
        have hl'' : Assoc.lookup addr s.worker_to_lease_entry = some l' := hl'
        rw [hl0] at hl''
        cases hl''
        exact hk0
      · simp only [Option.some.injEq] at h2
        exact h2 ▸ hx1
    · refine Submitter.CrossMap.of_sameCross ?_ (quiet_RequestNewWorkerIfNeeded h3).sameCross
      have hx2 : ((s.touchEntry key).cacheConnect addr).CrossMap :=
        hx1.of_sameCross (Submitter.sameCross_of_fields rfl (fun _ => rfl) rfl rfl)
      have hx3 := crossMap_pipeline cfg addr key res _ hx2 ⟨l0, hl0, hk0⟩ h2
      split_ifs
      · exact hx3.of_sameCross (quiet_CancelWorkerLeaseIfNeeded cfg key s3).sameCross
      · exact hx3

theorem crossMap_findWorker (cfg : Config) (now : Nat) (key : SchedulingKey)
    (workers : List WorkerAddress) :
    ∀ {s s' : Submitter}, s.CrossMap →
      (∀ a ∈ workers, a ∈ (s.entry key).active_workers) →
      SubmitTask.findWorker cfg now key workers s = some s' → s'.CrossMap := by
  induction workers with
  | nil =>
    intro s s' hx _ h
    simp only [SubmitTask.findWorker, Option.some.injEq] at h
    exact h ▸ hx
  | cons a rest ih =>
    intro s s' hx hsub h
    simp only [SubmitTask.findWorker] at h
    split at h
    · cases h
    · split at h
      · exact crossMap_OnWorkerIdle hx
          (hx.active_leased key a (hsub a (List.mem_cons_self _ _))) h
      · exact ih hx (fun b hb => hsub b (List.mem_cons_of_mem _ hb)) h

theorem sameCross_enqueue (task_spec : TaskSpecification) (s : Submitter) :
    Submitter.SameCross s (SubmitTask.enqueue task_spec s) := by
  unfold SubmitTask.enqueue
  simp only []
  refine Submitter.SameCross.crossTrans ?_ (Submitter.sameCross_recordEnqueued _ _ _)
  refine (Submitter.quiet_touchEntry s task_spec.schedulingKey).sameCross.crossTrans
    (Submitter.sameCross_setEntry _ task_spec.schedulingKey _ ?_)
  rfl

theorem crossMap_resolved {cfg : Config} {now : Nat} {task_spec : TaskSpecification}
    {status : Status} {s s' : Submitter} (hx : s.CrossMap)
    (h : SubmitTask.resolved cfg now task_spec status s = some s') : s'.CrossMap := by
  rcases resolved_inv h with ⟨c, rfl, -⟩ | ⟨c, rfl⟩ | ⟨c, rfl⟩ | ⟨-, s4, h4, h5⟩
  · exact hx.of_sameCross (Submitter.sameCross_of_fields rfl (fun _ => rfl) rfl rfl)
  · exact hx.of_sameCross (Submitter.sameCross_of_fields rfl (fun _ => rfl) rfl rfl)
  · exact hx.of_sameCross (Submitter.sameCross_of_fields rfl (fun _ => rfl) rfl rfl)
  · refine Submitter.CrossMap.of_sameCross ?_ (quiet_RequestNewWorkerIfNeeded h5).sameCross
    have hx1 := hx.of_sameCross (sameCross_enqueue task_spec s)
    split at h4
    · exact crossMap_findWorker cfg now _ _ hx1 (fun _ ha => ha) h4
    · simp only [Option.some.injEq] at h4
      exact h4 ▸ hx1

theorem failQueued_eq (err : TaskSpecification → ErrorType) (q : List TaskSpecification) :
    ∀ s : Submitter, RequestNewWorkerIfNeeded.failQueued err q s
      = s.callAll (q.map (fun t => Call.FailPendingTask t.task_id (err t))) := by
  induction q with
  | nil => intro s; simp [RequestNewWorkerIfNeeded.failQueued, Submitter.callAll]
  | cons t rest ih =>
    intro s
    simp only [RequestNewWorkerIfNeeded.failQueued]
    rw [ih]
    simp [Submitter.call, Submitter.callAll, List.append_assoc]

theorem sameCross_drain (err : TaskSpecification → ErrorType) (key : SchedulingKey)
    (s : Submitter) : Submitter.SameCross s (RequestNewWorkerIfNeeded.drain err key s) := by
  unfold RequestNewWorkerIfNeeded.drain
  simp only []
  rw [failQueued_eq]
  refine Submitter.SameCross.crossTrans ?_
    (Submitter.quiet_eraseEntryIfCanDelete _ key).sameCross
  refine Submitter.SameCross.crossTrans (Submitter.sameCross_callAll s _)
    (Submitter.sameCross_setEntry _ key _ ?_)
  rfl

theorem sameCross_received (cfg : Config) (ctx : LeaseContext) (s : Submitter) :
    Submitter.SameCross s (RequestNewWorkerIfNeeded.received cfg ctx s) := by
  unfold RequestNewWorkerIfNeeded.received
  simp only []
  refine Submitter.SameCross.crossTrans ?_ (Submitter.sameCross_setEntry _ _ _ ?_)
  · refine Submitter.SameCross.crossTrans
      (Submitter.quiet_touchEntry s ctx.scheduling_key).sameCross ?_
    exact Submitter.sameCross_of_fields rfl (fun _ => rfl) rfl rfl
  · rfl

theorem crossMap_leaseReply {cfg : Config} {now : Nat} {ctx : LeaseContext}
    {status : Status} {reply : RequestWorkerLeaseReply} {s s' : Submitter} (hx : s.CrossMap)
    (hidle : reply.grants status = true → s.idleForLease reply.worker_address = true)
    (h : RequestNewWorkerIfNeeded.reply cfg now ctx status reply s = some s') :
    s'.CrossMap := by
  have hsame := sameCross_received cfg ctx s
  have hx1 := hx.of_sameCross hsame
  rcases leaseReply_inv h with ⟨err, rfl⟩ | ⟨r, hr⟩ | ⟨hgrant, client, s4, h4, h5⟩ | rfl
  · exact hx1.of_sameCross (sameCross_drain err _ _)
  · exact hx1.of_sameCross (quiet_RequestNewWorkerIfNeeded hr).sameCross
  · have hi := hidle hgrant
    simp only [Submitter.idleForLease, Bool.and_eq_true, Option.isNone_iff_eq_none,
      List.all_eq_true, decide_eq_true_eq] at hi
    obtain ⟨⟨hnone, hp⟩, hs⟩ := hi
    have hleases : (RequestNewWorkerIfNeeded.received cfg ctx s).worker_to_lease_entry
        = s.worker_to_lease_entry := rfl
    obtain ⟨hx4, hl4⟩ := crossMap_AddWorkerLeaseClient hx1 (by rw [hleases]; exact hnone)
      (fun c hc => hp c (hsame.pushes c hc)) (fun c hc => hs c (hsame.steals c hc)) h4
    exact crossMap_OnWorkerIdle hx4 hl4 h5
  · exact hx1.of_sameCross (Submitter.sameCross_of_fields rfl (fun _ => rfl) rfl rfl)

theorem finish_eq (ctx : PushContext) (status : Status) (reply : PushTaskReply)
    (retry_possible : Bool) (s : Submitter) :
    ∃ cs, PushNormalTask.finish ctx status reply retry_possible s
      = s.callAll cs ∧
      ∀ c ∈ cs, ∀ a k t r, c ≠ Call.PushNormalTask a k t r := by
  unfold PushNormalTask.finish
  simp only []
  split_ifs
  all_goals first
    | exact ⟨[_], rfl, by simp⟩
    | exact ⟨[Call.RetryTaskIfPossible ctx.task_id, Call.CompletePendingTask ctx.task_id],
        by simp [Submitter.call, Submitter.callAll], by simp⟩

theorem sameCross_finish (ctx : PushContext) (status : Status) (reply : PushTaskReply)
    (retry_possible : Bool) (s : Submitter) :
    Submitter.SameCross s (PushNormalTask.finish ctx status reply retry_possible s) := by
  obtain ⟨cs, hcs, -⟩ := finish_eq ctx status reply retry_possible s
  rw [hcs]
  exact Submitter.sameCross_callAll s cs

theorem sameCross_settle (ctx : PushContext) (s : Submitter) {l : LeaseEntry}
    (hl : Assoc.lookup ctx.addr s.worker_to_lease_entry = some l) :
    Submitter.SameCross s (PushNormalTask.settle ctx s) := by
  unfold PushNormalTask.settle
  simp only []
  have hl' : Assoc.lookup ctx.addr (s.withExecuting
      (Assoc.remove ctx.task_id s.executing_tasks)).worker_to_lease_entry = some l := hl
  rw [Submitter.touchLease_of_lookup hl', Submitter.lease_of_lookup hl']
  refine Submitter.SameCross.crossTrans ?_ (Submitter.sameCross_setEntry _ _ _ ?_)
  · refine Submitter.SameCross.crossTrans ?_ (Submitter.quiet_touchEntry _ _).sameCross
    exact (Submitter.sameCross_withExecuting s _).crossTrans
      (Submitter.sameCross_setLease _ ctx.addr l _ hl' rfl rfl)
  · rfl

theorem crossMap_workerExiting (ctx : PushContext) {s : Submitter} {l : LeaseEntry}
    (hx : s.CrossMap) (hl : Assoc.lookup ctx.addr s.worker_to_lease_entry = some l)
    (hk : l.scheduling_key = ctx.scheduling_key) :
    (PushNormalTask.workerExiting ctx s).CrossMap := by
  refine Submitter.crossMap_release hx hl hk rfl ?_ (fun _ hc => hc) (fun _ hc => hc)
  intro k
  unfold PushNormalTask.workerExiting
  simp only []
  rw [Submitter.active_eraseEntryIfCanDelete, Submitter.entry_setEntry]
  simp only [Submitter.entry_touchEntry]
  split_ifs with hkk
  · subst hkk
    rfl
  · rfl

theorem crossMap_pushReply {cfg : Config} {now : Nat} {ctx : PushContext} {status : Status}
    {reply : PushTaskReply} {retry_possible : Bool} {s s' : Submitter} (hx : s.CrossMap)
    (hctx : ∀ l, Assoc.lookup ctx.addr s.worker_to_lease_entry = some l →
      l.scheduling_key = ctx.scheduling_key)
    (h : PushNormalTask.reply cfg now ctx status reply retry_possible s = some s') :
    s'.CrossMap := by
  obtain ⟨hpos, -, -, hcase⟩ := pushReply_inv h
  obtain ⟨l, hl⟩ : ∃ l, Assoc.lookup ctx.addr s.worker_to_lease_entry = some l := by
    cases hx0 : Assoc.lookup ctx.addr s.worker_to_lease_entry with
    | none =>
      rw [Submitter.lease_of_lookup_none hx0] at hpos
      simp at hpos
    | some l => exact ⟨l, rfl⟩
  have hsame := sameCross_settle ctx s hl
  have hx1 := hx.of_sameCross hsame
  obtain ⟨l1, hl1, hk1⟩ : ∃ l1, Assoc.lookup ctx.addr
      (PushNormalTask.settle ctx s).worker_to_lease_entry = some l1 ∧
      l1.scheduling_key = ctx.scheduling_key := by
    have hb := hsame.binding ctx.addr
    rw [hl] at hb
    cases hx0 : Assoc.lookup ctx.addr (PushNormalTask.settle ctx s).worker_to_lease_entry with
    | none => rw [hx0] at hb; simp at hb
    | some l1 =>
      rw [hx0] at hb
      simp only [Option.map_some', Option.some.injEq, Prod.mk.injEq] at hb
      exact ⟨l1, rfl, hb.1.trans (hctx l hl)⟩
  rcases hcase with ⟨-, rfl⟩ | ⟨-, -, rfl⟩ | ⟨-, -, s6, h6, rfl⟩ | ⟨-, -, rfl⟩
  · exact (crossMap_workerExiting ctx hx1 hl1 hk1).of_sameCross (sameCross_finish ..)
  · exact hx1
  · exact (crossMap_OnWorkerIdle hx1 ⟨l1, hl1, hk1⟩ h6).of_sameCross (sameCross_finish ..)
  · exact hx1.of_sameCross (sameCross_finish ..)

theorem sameCross_requeue (key : SchedulingKey)
    (stolen : List (TaskID × Option TaskSpecification)) :
    ∀ {s s' : Submitter}, StealTasksOrReturnWorker.requeue key stolen s = some s' →
      Submitter.SameCross s s' := by
  induction stolen with
  | nil =>
    intro s s' h
    simp only [StealTasksOrReturnWorker.requeue, Option.some.injEq] at h
    exact h ▸ Submitter.SameCross.crossRefl s
  | cons p rest ih =>
    intro s s' h
    obtain ⟨id, spec⟩ := p
    cases spec with
    | none => simp [StealTasksOrReturnWorker.requeue] at h
    | some spec =>
      simp only [StealTasksOrReturnWorker.requeue] at h
      refine Submitter.SameCross.crossTrans ?_ (ih h)
      refine Submitter.SameCross.crossTrans ?_ (Submitter.sameCross_setEntry _ _ _ ?_)
      · exact (Submitter.sameCross_withExecuting s _).crossTrans
          (Submitter.quiet_touchEntry _ _).sameCross
      · rfl

theorem crossMap_stealReply {cfg : Config} {now : Nat} {ctx : StealContext}
    {status : Status} {stolen : List (TaskID × Option TaskSpecification)} {s s' : Submitter}
    (hx : s.CrossMap)
    (hctx : ∀ l, Assoc.lookup ctx.thief_addr s.worker_to_lease_entry = some l →
      l.scheduling_key = ctx.scheduling_key)
    (h : StealTasksOrReturnWorker.reply cfg now ctx status stolen s = some s') :
    s'.CrossMap := by
  obtain ⟨thief_entry, hl, -, s2, h2, h3⟩ := stealReply_inv h
  have hsame1 := Submitter.sameCross_setLease s ctx.thief_addr thief_entry
    { thief_entry with is_stealing := false } hl rfl rfl
  have hsame2 := hsame1.crossTrans (sameCross_requeue _ _ h2)
  refine crossMap_OnWorkerIdle (hx.of_sameCross hsame2) ?_ h3
  have hb := hsame2.binding ctx.thief_addr
  rw [hl] at hb
  cases hx0 : Assoc.lookup ctx.thief_addr s2.worker_to_lease_entry with
  | none => rw [hx0] at hb; simp at hb
  | some l1 =>
    rw [hx0] at hb
    simp only [Option.map_some', Option.some.injEq, Prod.mk.injEq] at hb
    exact ⟨l1, rfl, hb.1.trans (hctx thief_entry hl)⟩

theorem sameCross_CancelTask (cfg : Config) (task_spec : TaskSpecification)
    (force_kill recursive mark : Bool) (s : Submitter) :
    Submitter.SameCross s (CancelTask cfg task_spec force_kill recursive mark s).1 := by
  unfold CancelTask
  simp only []
  split
  · exact Submitter.SameCross.crossRefl s
  · split
    · exact Submitter.sameCross_call s _
    · refine Submitter.SameCross.crossTrans
        (Submitter.sameCross_call s (Call.MarkTaskCanceled task_spec.task_id)) ?_
      refine (Submitter.quiet_touchEntry _ task_spec.schedulingKey).sameCross.crossTrans ?_
      split
      · dsimp only
        refine Submitter.SameCross.crossTrans ?_ (Submitter.sameCross_call _ _)
        split
        · refine Submitter.SameCross.crossTrans ?_
            (quiet_CancelWorkerLeaseIfNeeded cfg _ _).sameCross
          refine Submitter.sameCross_setEntry _ _ _ ?_
          rfl
        · refine Submitter.sameCross_setEntry _ _ _ ?_
          rfl
      · split
        · dsimp only
          refine Submitter.SameCross.crossTrans ?_
            (Submitter.quiet_eraseEntryIfCanDelete _ _).sameCross
          exact Submitter.sameCross_withCancelled _ _
        · split
          · exact Submitter.sameCross_withCancelled _ _
          · exact Submitter.sameCross_of_fields rfl (fun _ => rfl) rfl rfl

theorem sameCross_erase_pushes (s : Submitter) (i : Nat) :
    Submitter.SameCross s { s with pushes := s.pushes.eraseIdx i } :=
  ⟨fun _ => rfl, fun _ => rfl, fun _ hc => List.mem_of_mem_eraseIdx hc, fun _ hc => hc⟩

theorem sameCross_erase_steals (s : Submitter) (i : Nat) :
    Submitter.SameCross s { s with steals := s.steals.eraseIdx i } :=
  ⟨fun _ => rfl, fun _ => rfl, fun _ hc => hc, fun _ hc => List.mem_of_mem_eraseIdx hc⟩

theorem crossMap_init : Submitter.init.CrossMap := by
  refine ⟨?_, ?_, ?_, ?_⟩
  · intro a l h
    simp [Submitter.init, Assoc.lookup] at h
  · intro key a h
    simp [Submitter.init, Submitter.entry, Assoc.lookup] at h
  · intro c h
    simp [Submitter.init] at h
  · intro c h
    simp [Submitter.init] at h

theorem crossMap_step {cfg : Config} {now : Nat} {ev : Event} {s s' : Submitter}
    (hx : s.CrossMap) (hen : ev.enabled s = true) (h : step cfg now ev s = some s') :
    s'.CrossMap := by
  cases ev with
  | SubmitTask task_spec =>
    simp only [step, Option.some.injEq] at h
    exact h ▸ hx.of_sameCross (Submitter.sameCross_of_fields rfl (fun _ => rfl) rfl rfl)
  | DependenciesResolved i status deps =>
    simp only [step] at h
    split at h
    · cases h
    · refine crossMap_resolved ?_ h
      exact hx.of_sameCross (Submitter.sameCross_of_fields rfl (fun _ => rfl) rfl rfl)
  | ActorCreated i status =>
    simp only [step] at h
    split at h
    · cases h
    · simp only [Option.some.injEq] at h
      subst h
      unfold SubmitTask.actorCreated
      split <;>
        exact hx.of_sameCross (Submitter.sameCross_of_fields rfl (fun _ => rfl) rfl rfl)
  | LeaseReply i status reply =>
    simp only [step] at h
    split at h
    · cases h
    · refine crossMap_leaseReply ?_ ?_ h
      · exact hx.of_sameCross (Submitter.sameCross_of_fields rfl (fun _ => rfl) rfl rfl)
      · intro hg
        simp only [Event.enabled, Bool.and_eq_true, Bool.or_eq_true, hg, Bool.not_true,
          Bool.false_eq_true, false_or] at hen
        exact hen.2
  | PushReply i status reply retry_possible =>
    simp only [step] at h
    split at h
    · cases h
    · rename_i ctx heq
      refine crossMap_pushReply ?_ ?_ h
      · exact hx.of_sameCross (sameCross_erase_pushes s i)
      · intro l hl
        exact hx.push_key ctx (List.get?_mem heq) l hl
  | StealReply i status stolen =>
    simp only [step] at h
    split at h
    · cases h
    · rename_i ctx heq
      refine crossMap_stealReply ?_ ?_ h
      · exact hx.of_sameCross (sameCross_erase_steals s i)
      · intro l hl
        exact hx.steal_key ctx (List.get?_mem heq) l hl
  | CancelLeaseReply i status success =>
    simp only [step] at h
    split at h
    · cases h
    · simp only [Option.some.injEq] at h
      subst h
      have hx1 : Submitter.CrossMap { s with lease_cancels := s.lease_cancels.eraseIdx i } :=
        hx.of_sameCross (Submitter.sameCross_of_fields rfl (fun _ => rfl) rfl rfl)
      unfold CancelWorkerLeaseIfNeeded.reply
      split
      · exact hx1.of_sameCross (quiet_CancelWorkerLeaseIfNeeded cfg _ _).sameCross
      · exact hx1
  | CancelTask task_spec force_kill recursive mark =>
    simp only [step, Option.some.injEq] at h
    exact h ▸ hx.of_sameCross (sameCross_CancelTask ..)
  | CancelReply i status attempt_succeeded =>
    simp only [step] at h
    split at h
    · cases h
    · simp only [Option.some.injEq] at h
      subst h
      unfold CancelTask.reply
      simp only []
      split <;>
        exact hx.of_sameCross (Submitter.sameCross_of_fields rfl (fun _ => rfl) rfl rfl)
  | CancelRetry i mark =>
    simp only [step] at h
    split at h
    · cases h
    · simp only [Option.some.injEq] at h
      subst h
      have hx1 : Submitter.CrossMap { s with cancel_timers := s.cancel_timers.eraseIdx i } :=
        hx.of_sameCross (Submitter.sameCross_of_fields rfl (fun _ => rfl) rfl rfl)
      exact hx1.of_sameCross (sameCross_CancelTask ..)
  | ReportWorkerBacklog =>
    simp only [step, Option.some.injEq] at h
    exact h ▸ hx.of_sameCross (quiet_ReportWorkerBacklogInternal cfg s).sameCross
  | CancelRemoteTask object_id worker_addr force_kill recursive =>
    simp only [step, Option.some.injEq] at h
    subst h
    unfold CancelRemoteTask
    split <;>
      exact hx.of_sameCross (Submitter.sameCross_of_fields rfl (fun _ => rfl) rfl rfl)

theorem crossMap_reachable {cfg : Config} {s : Submitter} (h : Reachable cfg s) :
    s.CrossMap := by
  induction h with
  | init => exact crossMap_init
  | step now ev s s' _ hen hstep ih => exact crossMap_step ih hen hstep

/-- C2 (I1): in every reachable state the lease entries and the active workers mirror each
other.  An address with a lease entry is an active worker of the key entry that the lease
entry's `scheduling_key` names, and that key entry exists; every active worker of a key
entry has a lease entry, and it is bound to that key.  The lease map holds at most one
entry per address, so that lease entry is the only one.  Reachable states are those where
a lease reply grants only a worker that is idle for this submitter. -/
theorem lease_entries_mirror_active_workers (cfg : Config) (s : Submitter)
    (h_reach : Reachable cfg s) :
    (∀ addr l, Assoc.lookup addr s.worker_to_lease_entry = some l →
      ∃ e, Assoc.lookup l.scheduling_key s.scheduling_key_entries = some e ∧
        addr ∈ e.active_workers) ∧
    (∀ key e addr, Assoc.lookup key s.scheduling_key_entries = some e →
      addr ∈ e.active_workers →
      ∃ l, Assoc.lookup addr s.worker_to_lease_entry = some l ∧ l.scheduling_key = key) := by
  have hx := crossMap_reachable h_reach
  refine ⟨?_, ?_⟩
  · intro addr l hl
    have hmem := (hx.leased_active addr l hl).2
    cases he : Assoc.lookup l.scheduling_key s.scheduling_key_entries with
    | none => simp [Submitter.entry, he] at hmem
    | some e =>
      refine ⟨e, rfl, ?_⟩
      simpa [Submitter.entry, he] using hmem
  · intro key e addr he hmem
    refine hx.active_leased key addr ?_
    simpa [Submitter.entry, he] using hmem

theorem lease_entries_mirror_active_workers_witness :
    Reachable (Scenario.config 2 1) Scenario.pipelined ∧
      (Assoc.lookup (Scenario.worker 11) Scenario.pipelined.worker_to_lease_entry).isSome
        = true ∧
      (Scenario.pipelined.entry Scenario.key).active_workers = [Scenario.worker 11] ∧
      ((∀ addr l, Assoc.lookup addr Scenario.pipelined.worker_to_lease_entry = some l →
        ∃ e, Assoc.lookup l.scheduling_key Scenario.pipelined.scheduling_key_entries = some e ∧
          addr ∈ e.active_workers) ∧
      (∀ key e addr, Assoc.lookup key Scenario.pipelined.scheduling_key_entries = some e →
        addr ∈ e.active_workers →
        ∃ l, Assoc.lookup addr Scenario.pipelined.worker_to_lease_entry = some l ∧
          l.scheduling_key = key)) :=
  ⟨reachable_getD_run _ _, by decide, by decide,
    lease_entries_mirror_active_workers (Scenario.config 2 1) Scenario.pipelined
      (reachable_getD_run _ _)⟩

/-! ### Key entries without content, executing tasks without record -/

/-- C4 (I5), evaluated on the code: once worker 11 is returned and the pending lease
request is answered as canceled, the key has no entry; the reply to the lease cancellation
(`success = false`) then runs `CancelWorkerLeaseIfNeeded`, whose `operator[]` at line 368
creates an entry again.  The key has an entry although its task queue, its active workers
and its pending lease requests are all empty. -/
theorem empty_key_entry_after_cancel_lease_reply :
    ∃ s0 s e, run (Scenario.config 1 1) Scenario.leaseCanceledTrace Submitter.init = some s0 ∧
      Assoc.lookup Scenario.key s0.scheduling_key_entries = none ∧
      run (Scenario.config 1 1) Scenario.cancelReplyTrace Submitter.init = some s ∧
      Reachable (Scenario.config 1 1) s ∧
      Assoc.lookup Scenario.key s.scheduling_key_entries = some e ∧
      e.task_queue = [] ∧ e.active_workers = [] ∧ e.pending_lease_requests = [] := by
  have h0 : (run (Scenario.config 1 1) Scenario.leaseCanceledTrace Submitter.init).any
      (fun s => decide (Assoc.lookup Scenario.key s.scheduling_key_entries = none))
        = true := by decide
  have h1 : (run (Scenario.config 1 1) Scenario.cancelReplyTrace Submitter.init).any
      (fun s => decide
        ((Assoc.lookup Scenario.key s.scheduling_key_entries).isSome = true ∧
          (s.entry Scenario.key).task_queue = [] ∧
          (s.entry Scenario.key).active_workers = [] ∧
          (s.entry Scenario.key).pending_lease_requests = [])) = true := by decide
  obtain ⟨s0, hrun0, -, hp0⟩ := run_witness h0
  obtain ⟨s, hrun, hreach, hp⟩ := run_witness h1
  simp only [decide_eq_true_eq] at hp0 hp
  obtain ⟨h2, h3, h4, h5⟩ := hp
  obtain ⟨e, he⟩ := Option.isSome_iff_exists.mp h2
  have hentry : s.entry Scenario.key = e := by simp [Submitter.entry, he]
  rw [hentry] at h3 h4 h5
  exact ⟨s0, s, e, hrun0, hp0, hrun, hreach, he, h3, h4, h5⟩

/-- C6 (I6), evaluated on the code: the steal reply naming task 4 pushes the task to the
thief, worker 12, and records it as executing there; the reply to the first push of task 4
(to the victim, worker 11, answered `task_stolen`) arrives afterwards and line 697 erases
the task id from `executing_tasks`.  The push of task 4 to worker 12 is then outstanding,
no reply to it and no steal reply has been processed since it was issued, and yet task 4
is not a key of `executing_tasks`. -/
theorem executing_task_erased_by_victim_reply :
    ∃ s1 s, run (Scenario.config 4 1) Scenario.stolenTrace Submitter.init = some s1 ∧
      Assoc.lookup 4 s1.executing_tasks = some (Scenario.worker 12) ∧
      (s1.pushes.get? 3).map (fun c => (c.task_id, c.addr)) = some (4, Scenario.worker 11) ∧
      (Event.PushReply 3 Status.OK Scenario.stolenReply false).enabled s1 = true ∧
      step (Scenario.config 4 1) 0 (Event.PushReply 3 Status.OK Scenario.stolenReply false) s1
        = some s ∧
      Reachable (Scenario.config 4 1) s ∧
      (∃ c ∈ s.pushes, c.task_id = 4 ∧ c.addr = Scenario.worker 12) ∧
      s.steals = [] ∧
      Assoc.lookup 4 s.executing_tasks = none := by
  have h : (run (Scenario.config 4 1) Scenario.stolenTrace Submitter.init).any
      (fun s1 => decide
        (Assoc.lookup 4 s1.executing_tasks = some (Scenario.worker 12) ∧
          (s1.pushes.get? 3).map (fun c => (c.task_id, c.addr))
            = some (4, Scenario.worker 11) ∧
          (Event.PushReply 3 Status.OK Scenario.stolenReply false).enabled s1 = true ∧
          (step (Scenario.config 4 1) 0
            (Event.PushReply 3 Status.OK Scenario.stolenReply false) s1).any
            (fun s => decide
              (s.pushes.any (fun c => decide (c.task_id = 4 ∧ c.addr = Scenario.worker 12))
                  = true ∧
                s.steals = [] ∧ Assoc.lookup 4 s.executing_tasks = none)) = true)) = true := by
    decide
  obtain ⟨s1, hrun, hreach, hp⟩ := run_witness h
  simp only [decide_eq_true_eq] at hp
  obtain ⟨h1, h2, h3, h4⟩ := hp
  cases hstep : step (Scenario.config 4 1) 0
      (Event.PushReply 3 Status.OK Scenario.stolenReply false) s1 with
  | none => rw [hstep] at h4; simp at h4
  | some s =>
    rw [hstep] at h4
    simp only [Option.any_some, decide_eq_true_eq, List.any_eq_true] at h4
    obtain ⟨⟨c, hc, hc4⟩, h6, h7⟩ := h4
    exact ⟨s1, s, hrun, h1, h2, h3, hstep, Reachable.step 0 _ s1 s hreach h3 hstep,
      ⟨c, hc, hc4⟩, h6, h7⟩

/-! ### When the stealing flag is set -/

namespace Submitter

theorem NoNewStealing.noNewRefl (s : Submitter) : NoNewStealing s s :=
  fun _ l' h hs => ⟨l', h, hs⟩

theorem NoNewStealing.noNewTrans {s1 s2 s3 : Submitter} (h12 : NoNewStealing s1 s2)
    (h23 : NoNewStealing s2 s3) : NoNewStealing s1 s3 := by
  intro a l3 h3 hs3
  obtain ⟨l2, h2, hs2⟩ := h23 a l3 h3 hs3
  exact h12 a l2 h2 hs2

theorem noNew_of_leases_eq {s t : Submitter}
    (h : t.worker_to_lease_entry = s.worker_to_lease_entry) : NoNewStealing s t := by
  intro a l' hl hs
  rw [h] at hl
  exact ⟨l', hl, hs⟩

theorem NoNewStealing.fresh {s s' : Submitter} (h : NoNewStealing s s') : StealFresh s s' :=
  fun a l' hl hs => Or.inl (h a l' hl hs)

theorem StealFresh.after {s s1 s2 : Submitter} (h01 : NoNewStealing s s1)
    (h12 : StealFresh s1 s2) : StealFresh s s2 := by
  intro a l' hl hs
  rcases h12 a l' hl hs with ⟨l1, hl1, hs1⟩ | h0
  · exact Or.inl (h01 a l1 hl1 hs1)
  · exact Or.inr h0

theorem StealFresh.then_eq {s u t : Submitter} (h01 : StealFresh s u)
    (h : t.worker_to_lease_entry = u.worker_to_lease_entry) : StealFresh s t := by
  intro a l' hl hs
  rw [h] at hl
  exact h01 a l' hl hs

theorem noNew_withLeases (s : Submitter) (leases : List (WorkerAddress × LeaseEntry))
    (h : Assoc.Touched LeaseEntry.empty s.worker_to_lease_entry leases) :
    NoNewStealing s (s.withLeases leases) := by
  intro a l' hl hs
  have hl' : Assoc.lookup a leases = some l' := hl
  rcases h a with h1 | ⟨-, h2⟩
  · exact ⟨l', by rw [← h1]; exact hl', hs⟩
  · rw [h2] at hl'
    cases hl'
    simp at hs

theorem noNew_touchLease (s : Submitter) (addr : WorkerAddress) :
    NoNewStealing s (s.touchLease addr) :=
  noNew_withLeases s _ (Assoc.touched_emplace _ addr _)

theorem noNew_eraseLease (s : Submitter) (addr : WorkerAddress) :
    NoNewStealing s (s.eraseLease addr) := by
  intro a l' hl hs
  simp only [eraseLease, Assoc.lookup_remove] at hl
  split_ifs at hl
  exact ⟨l', hl, hs⟩

theorem noNew_emplaceLease (s : Submitter) (addr : WorkerAddress) (l : LeaseEntry)
    (h : l.is_stealing = false) : NoNewStealing s (s.emplaceLease addr l) := by
  intro a l' hl hs
  simp only [emplaceLease, Assoc.lookup_emplace] at hl
  split_ifs at hl with ha
  · subst ha
    cases hx : Assoc.lookup addr s.worker_to_lease_entry with
    | none =>
      simp only [hx, Option.getD_none, Option.some.injEq] at hl
      rw [← hl, h] at hs
      cases hs
    | some l0 =>
      simp only [hx, Option.getD_some, Option.some.injEq] at hl
      exact ⟨l0, rfl, hl ▸ hs⟩
  · exact ⟨l', hl, hs⟩

theorem noNew_setLease (s : Submitter) (addr : WorkerAddress) (l : LeaseEntry)
    (h : l.is_stealing = true → (s.lease addr).is_stealing = true) :
    NoNewStealing s (s.setLease addr l) := by
  intro a l' hl hs
  simp only [setLease, Assoc.lookup_update] at hl
  split_ifs at hl with ha
  · subst ha
    simp only [Option.some.injEq] at hl
    subst hl
    have h1 := h hs
    cases hx : Assoc.lookup addr s.worker_to_lease_entry with
    | none =>
      rw [lease_of_lookup_none hx] at h1
      simp at h1
    | some l0 =>
      rw [lease_of_lookup hx] at h1
      exact ⟨l0, rfl, h1⟩
  · exact ⟨l', hl, hs⟩

theorem fresh_setStealing (s : Submitter) (addr : WorkerAddress)
    (h0 : (s.lease addr).tasks_in_flight = 0) :
    StealFresh s (s.setLease addr { s.lease addr with is_stealing := true }) := by
  intro a l' hl hs
  simp only [setLease, Assoc.lookup_update] at hl
  split_ifs at hl with ha
  · subst ha
    simp only [Option.some.injEq] at hl
    subst hl
    exact Or.inr h0
  · exact Or.inl ⟨l', hl, hs⟩

end Submitter

theorem noNew_AddWorkerLeaseClient {cfg : Config} {now : Nat} {addr : WorkerAddress}
    {lease_client : LeaseClient} {res : Resources} {key : SchedulingKey} {s s' : Submitter}
    (h : AddWorkerLeaseClient cfg now addr lease_client res key s = some s') :
    Submitter.NoNewStealing s s' := by
  obtain ⟨-, rfl⟩ := AddWorkerLeaseClient_inv h
  refine Submitter.NoNewStealing.noNewTrans ?_ (Submitter.noNew_of_leases_eq
    (s := (s.cacheConnect addr).emplaceLease addr _) rfl)
  refine Submitter.NoNewStealing.noNewTrans ?_ (Submitter.noNew_emplaceLease _ _ _ ?_)
  · exact Submitter.noNew_of_leases_eq rfl
  · rfl

theorem noNew_ReturnWorker {addr : WorkerAddress} {was_error : Bool}
    {key : SchedulingKey} {s s' : Submitter}
    (h : ReturnWorker addr was_error key s = some s') : Submitter.NoNewStealing s s' := by
  obtain ⟨l, client, -, -, -, -, -, rfl⟩ := ReturnWorker_inv h
  refine Submitter.NoNewStealing.noNewTrans ?_ (Submitter.noNew_eraseLease _ _)
  exact Submitter.noNew_of_leases_eq rfl

theorem noNew_FindOptimalVictimForStealing {key : SchedulingKey}
    {thief victim0 : WorkerAddress} {s s' : Submitter} {found : Bool} {victim : WorkerAddress}
    (h : FindOptimalVictimForStealing key thief victim0 s = some (s', found, victim)) :
    Submitter.NoNewStealing s s' := by
  obtain ⟨leases, rfl, ht⟩ := FindOptimalVictimForStealing_inv h
  exact Submitter.noNew_withLeases (s.touchEntry key) leases ht

theorem fresh_StealTasksOrReturnWorker {cfg : Config} {now : Nat}
    {thief_addr : WorkerAddress} {was_error : Bool} {key : SchedulingKey} {s s' : Submitter}
    (h : StealTasksOrReturnWorker cfg now thief_addr was_error key s = some s') :
    Submitter.StealFresh s s' := by
  obtain ⟨l, client, hl, -, h0, -, hcase⟩ := StealTasksOrReturnWorker_inv h
  rcases hcase with hr | ⟨s2, v, hfind, hr⟩ | ⟨s2, v, hfind, rfl⟩
  · exact (noNew_ReturnWorker hr).fresh
  · refine Submitter.NoNewStealing.fresh ?_
    refine (noNew_FindOptimalVictimForStealing hfind).noNewTrans
      (Submitter.NoNewStealing.noNewTrans ?_ (noNew_ReturnWorker hr))
    split_ifs
    · exact Submitter.noNew_of_leases_eq (quiet_CancelWorkerLeaseIfNeeded cfg key s2).leases_eq
    · exact Submitter.NoNewStealing.noNewRefl s2
  · refine Submitter.StealFresh.after (noNew_FindOptimalVictimForStealing hfind) ?_
    refine Submitter.StealFresh.then_eq
      (u := s2.setLease thief_addr { s2.lease thief_addr with is_stealing := true }) ?_ rfl
    refine Submitter.fresh_setStealing s2 thief_addr ?_
    obtain ⟨leases, rfl, ht⟩ := FindOptimalVictimForStealing_inv hfind
    have hl2 : Assoc.lookup thief_addr
        ((s.touchEntry key).withLeases leases).worker_to_lease_entry = some l := by
      rcases ht thief_addr with h1 | ⟨hnone, -⟩
      · exact h1.trans hl
      · rw [hl] at hnone
        cases hnone
    rw [Submitter.lease_of_lookup hl2]
    exact h0

theorem noNew_pushFront (addr : WorkerAddress) (key : SchedulingKey)
    (res : Resources) (task_spec : TaskSpecification) (s : Submitter) :
    Submitter.NoNewStealing s (OnWorkerIdle.pushFront addr key res task_spec s) := by
  unfold OnWorkerIdle.pushFront
  simp only []
  refine Submitter.NoNewStealing.noNewTrans ?_ (Submitter.noNew_of_leases_eq
    (s := s.setLease addr
      { s.lease addr with tasks_in_flight := (s.lease addr).tasks_in_flight + 1 }) rfl)
  exact Submitter.noNew_setLease _ _ _ (fun h => h)

theorem noNew_pipeline (cfg : Config) (addr : WorkerAddress) (key : SchedulingKey)
    (res : Resources) (fuel : Nat) :
    ∀ {s s' : Submitter}, OnWorkerIdle.pipeline cfg addr key res fuel s = some s' →
      Submitter.NoNewStealing s s' := by
  induction fuel with
  | zero =>
    intro s s' h
    simp only [OnWorkerIdle.pipeline, Option.some.injEq] at h
    exact h ▸ Submitter.NoNewStealing.noNewRefl s
  | succ n ih =>
    intro s s' h
    simp only [OnWorkerIdle.pipeline] at h
    split at h
    · simp only [Option.some.injEq] at h
      exact h ▸ Submitter.NoNewStealing.noNewRefl s
    · split at h
      · simp only [Option.some.injEq] at h
        exact h ▸ Submitter.NoNewStealing.noNewRefl s
      · split at h
        · cases h
        · exact (noNew_pushFront addr key res _ s).noNewTrans (ih h)

theorem fresh_OnWorkerIdle {cfg : Config} {now : Nat} {addr : WorkerAddress}
    {key : SchedulingKey} {was_error : Bool} {res : Resources} {s s' : Submitter}
    (h : OnWorkerIdle cfg now addr key was_error res s = some s') :
    Submitter.StealFresh s s' := by
  rcases OnWorkerIdle_inv h with ⟨-, rfl⟩ | ⟨l, client, -, -, hcase⟩
  · exact (Submitter.noNew_touchLease s addr).fresh
  · rcases hcase with ⟨-, s2, h2, h3⟩ | ⟨-, s3, h2, h3⟩
    · refine Submitter.StealFresh.then_eq ?_ (quiet_RequestNewWorkerIfNeeded h3).leases_eq
      split_ifs at h2
      · refine Submitter.StealFresh.after ?_ (fresh_StealTasksOrReturnWorker h2)
        exact Submitter.noNew_of_leases_eq rfl
      · simp only [Option.some.injEq] at h2
        exact h2 ▸ (Submitter.noNew_of_leases_eq rfl).fresh
    · refine Submitter.StealFresh.then_eq ?_ (quiet_RequestNewWorkerIfNeeded h3).leases_eq
      refine Submitter.NoNewStealing.fresh ?_
      refine Submitter.NoNewStealing.noNewTrans
        (Submitter.NoNewStealing.noNewTrans ?_ (noNew_pipeline cfg addr key res _ h2)) ?_
      · exact Submitter.noNew_of_leases_eq rfl
      · split_ifs
        · exact Submitter.noNew_of_leases_eq
            (quiet_CancelWorkerLeaseIfNeeded cfg key s3).leases_eq
        · exact Submitter.NoNewStealing.noNewRefl s3

theorem fresh_findWorker (cfg : Config) (now : Nat) (key : SchedulingKey)
    (workers : List WorkerAddress) :
    ∀ {s s' : Submitter}, SubmitTask.findWorker cfg now key workers s = some s' →
      Submitter.StealFresh s s' := by
  induction workers with
  | nil =>
    intro s s' h
    simp only [SubmitTask.findWorker, Option.some.injEq] at h
    exact h ▸ (Submitter.NoNewStealing.noNewRefl s).fresh
  | cons a rest ih =>
    intro s s' h
    simp only [SubmitTask.findWorker] at h
    split at h
    · cases h
    · split at h
      · exact fresh_OnWorkerIdle h
      · exact ih h

theorem fresh_resolved {cfg : Config} {now : Nat} {task_spec : TaskSpecification}
    {status : Status} {s s' : Submitter}
    (h : SubmitTask.resolved cfg now task_spec status s = some s') :
    Submitter.StealFresh s s' := by
  rcases resolved_inv h with ⟨c, rfl, -⟩ | ⟨c, rfl⟩ | ⟨c, rfl⟩ | ⟨-, s4, h4, h5⟩
  · exact (Submitter.noNew_of_leases_eq rfl).fresh
  · exact (Submitter.noNew_of_leases_eq rfl).fresh
  · exact (Submitter.noNew_of_leases_eq rfl).fresh
  · refine Submitter.StealFresh.then_eq ?_ (quiet_RequestNewWorkerIfNeeded h5).leases_eq
    refine Submitter.StealFresh.after
      (Submitter.noNew_of_leases_eq (t := SubmitTask.enqueue task_spec s) rfl) ?_
    split at h4
    · exact fresh_findWorker cfg now _ _ h4
    · simp only [Option.some.injEq] at h4
      exact h4 ▸ (Submitter.NoNewStealing.noNewRefl _).fresh

theorem fresh_leaseReply {cfg : Config} {now : Nat} {ctx : LeaseContext}
    {status : Status} {reply : RequestWorkerLeaseReply} {s s' : Submitter}
    (h : RequestNewWorkerIfNeeded.reply cfg now ctx status reply s = some s') :
    Submitter.StealFresh s s' := by
  refine Submitter.StealFresh.after
    (Submitter.noNew_of_leases_eq (t := RequestNewWorkerIfNeeded.received cfg ctx s) rfl) ?_
  rcases leaseReply_inv h with ⟨err, rfl⟩ | ⟨r, hr⟩ | ⟨-, client, s4, h4, h5⟩ | rfl
  · exact (Submitter.noNew_of_leases_eq (drain_leases err _ _)).fresh
  · exact (Submitter.noNew_of_leases_eq (quiet_RequestNewWorkerIfNeeded hr).leases_eq).fresh
  · exact Submitter.StealFresh.after (noNew_AddWorkerLeaseClient h4) (fresh_OnWorkerIdle h5)
  · exact (Submitter.noNew_of_leases_eq rfl).fresh

theorem noNew_settle (ctx : PushContext) (s : Submitter) :
    Submitter.NoNewStealing s (PushNormalTask.settle ctx s) := by
  unfold PushNormalTask.settle
  simp only []
  refine Submitter.NoNewStealing.noNewTrans ?_ (Submitter.noNew_of_leases_eq
    (s := ((s.withExecuting (Assoc.remove ctx.task_id s.executing_tasks)).touchLease
      ctx.addr).setLease ctx.addr _) rfl)
  refine Submitter.NoNewStealing.noNewTrans ?_ (Submitter.noNew_setLease _ _ _ (fun h => h))
  refine Submitter.NoNewStealing.noNewTrans ?_ (Submitter.noNew_touchLease _ _)
  exact Submitter.noNew_of_leases_eq rfl

theorem noNew_workerExiting (ctx : PushContext) (s : Submitter) :
    Submitter.NoNewStealing s (PushNormalTask.workerExiting ctx s) := by
  unfold PushNormalTask.workerExiting
  simp only []
  refine Submitter.NoNewStealing.noNewTrans (Submitter.noNew_eraseLease s ctx.addr) ?_
  exact Submitter.noNew_of_leases_eq rfl

theorem fresh_pushReply {cfg : Config} {now : Nat} {ctx : PushContext}
    {status : Status} {reply : PushTaskReply} {retry_possible : Bool} {s s' : Submitter}
    (h : PushNormalTask.reply cfg now ctx status reply retry_possible s = some s') :
    Submitter.StealFresh s s' := by
  obtain ⟨-, -, -, hcase⟩ := pushReply_inv h
  refine Submitter.StealFresh.after (noNew_settle ctx s) ?_
  rcases hcase with ⟨-, rfl⟩ | ⟨-, -, rfl⟩ | ⟨-, -, s6, h6, rfl⟩ | ⟨-, -, rfl⟩
  · exact ((noNew_workerExiting ctx _).noNewTrans
      (Submitter.noNew_of_leases_eq (finish_leases ..))).fresh
  · exact (Submitter.NoNewStealing.noNewRefl _).fresh
  · exact (fresh_OnWorkerIdle h6).then_eq (finish_leases ..)
  · exact (Submitter.noNew_of_leases_eq (finish_leases ..)).fresh

theorem fresh_stealReply {cfg : Config} {now : Nat} {ctx : StealContext}
    {status : Status} {stolen : List (TaskID × Option TaskSpecification)} {s s' : Submitter}
    (h : StealTasksOrReturnWorker.reply cfg now ctx status stolen s = some s') :
    Submitter.StealFresh s s' := by
  obtain ⟨thief_entry, hl, -, s2, h2, h3⟩ := stealReply_inv h
  refine Submitter.StealFresh.after ?_ (fresh_OnWorkerIdle h3)
  refine Submitter.NoNewStealing.noNewTrans
    (Submitter.noNew_setLease s ctx.thief_addr { thief_entry with is_stealing := false } ?_)
    (Submitter.noNew_of_leases_eq (requeue_leases _ _ h2))
  intro hs
  cases hs

theorem fresh_step {cfg : Config} {now : Nat} {ev : Event} {s s' : Submitter}
    (h : step cfg now ev s = some s') : Submitter.StealFresh s s' := by
  cases ev with
  | SubmitTask task_spec =>
    simp only [step, Option.some.injEq] at h
    exact h ▸ (Submitter.noNew_of_leases_eq rfl).fresh
  | DependenciesResolved i status deps =>
    simp only [step] at h
    split at h
    · cases h
    · refine Submitter.StealFresh.after ?_ (fresh_resolved h)
      exact Submitter.noNew_of_leases_eq rfl
  | ActorCreated i status =>
    simp only [step] at h
    split at h
    · cases h
    · simp only [Option.some.injEq] at h
      subst h
      unfold SubmitTask.actorCreated
      split <;> exact (Submitter.noNew_of_leases_eq rfl).fresh
  | LeaseReply i status reply =>
    simp only [step] at h
    split at h
    · cases h
    · refine Submitter.StealFresh.after ?_ (fresh_leaseReply h)
      exact Submitter.noNew_of_leases_eq rfl
  | PushReply i status reply retry_possible =>
    simp only [step] at h
    split at h
    · cases h
    · refine Submitter.StealFresh.after ?_ (fresh_pushReply h)
      exact Submitter.noNew_of_leases_eq rfl
  | StealReply i status stolen =>
    simp only [step] at h
    split at h
    · cases h
    · refine Submitter.StealFresh.after ?_ (fresh_stealReply h)
      exact Submitter.noNew_of_leases_eq rfl
  | CancelLeaseReply i status success =>
    simp only [step] at h
    split at h
    · cases h
    · simp only [Option.some.injEq] at h
      subst h
      unfold CancelWorkerLeaseIfNeeded.reply
      split
      · exact (Submitter.noNew_of_leases_eq
          (quiet_CancelWorkerLeaseIfNeeded cfg _ _).leases_eq).fresh
      · exact (Submitter.noNew_of_leases_eq rfl).fresh
  | CancelTask task_spec force_kill recursive mark =>
    simp only [step, Option.some.injEq] at h
    exact h ▸ (Submitter.noNew_of_leases_eq (CancelTask_leases ..)).fresh
  | CancelReply i status attempt_succeeded =>
    simp only [step] at h
    split at h
    · cases h
    · simp only [Option.some.injEq] at h
      subst h
      unfold CancelTask.reply
      simp only []
      split <;> exact (Submitter.noNew_of_leases_eq rfl).fresh
  | CancelRetry i mark =>
    simp only [step] at h
    split at h
    · cases h
    · simp only [Option.some.injEq] at h
      subst h
      exact (Submitter.noNew_of_leases_eq (CancelTask_leases ..)).fresh
  | ReportWorkerBacklog =>
    simp only [step, Option.some.injEq] at h
    exact h ▸ (Submitter.noNew_of_leases_eq
      (quiet_ReportWorkerBacklogInternal cfg s).leases_eq).fresh
  | CancelRemoteTask object_id worker_addr force_kill recursive =>
    simp only [step, Option.some.injEq] at h
    subst h
    unfold CancelRemoteTask
    split <;> exact (Submitter.noNew_of_leases_eq rfl).fresh

/-- C7 (I8) as stated fails: after worker 12 has started stealing from worker 11, a fifth
task is submitted; worker 11's pipeline is full, so the loop of lines 89-103 hands worker
12 to `OnWorkerIdle`, which pushes the task to it (the queue is not empty, line 331).  The
lease entry of worker 12 has `is_stealing` set and one task in flight. -/
theorem stealing_worker_with_task_in_flight :
    ∃ s l, run (Scenario.config 4 1) Scenario.pushedWhileStealingTrace Submitter.init
        = some s ∧
      Reachable (Scenario.config 4 1) s ∧
      Assoc.lookup (Scenario.worker 12) s.worker_to_lease_entry = some l ∧
      l.is_stealing = true ∧ l.tasks_in_flight = 1 ∧ s.steals.length = 1 := by
  have h : (run (Scenario.config 4 1) Scenario.pushedWhileStealingTrace Submitter.init).any
      (fun s => decide
        ((Assoc.lookup (Scenario.worker 12) s.worker_to_lease_entry).isSome = true ∧
          (s.lease (Scenario.worker 12)).is_stealing = true ∧
          (s.lease (Scenario.worker 12)).tasks_in_flight = 1 ∧
          s.steals.length = 1)) = true := by decide
  obtain ⟨s, hrun, hreach, hp⟩ := run_witness h
  simp only [decide_eq_true_eq] at hp
  obtain ⟨h1, h2, h3, h4⟩ := hp
  obtain ⟨l, hl⟩ := Option.isSome_iff_exists.mp h1
  rw [Submitter.lease_of_lookup hl] at h2 h3
  exact ⟨s, l, hrun, hreach, hl, h2, h3, h4⟩

/-- C7 (I8), the amended claim: whenever an operation or callback sets the `is_stealing`
flag of a lease entry (the flag was not set before it ran), that lease entry has
`tasks_in_flight = 0` when the operation or callback is done. -/
theorem stealing_flag_set_without_task_in_flight (cfg : Config) (now : Nat) (ev : Event)
    (s s' : Submitter) (h_step : step cfg now ev s = some s') (addr : WorkerAddress)
    (l' : LeaseEntry) (h_lease : Assoc.lookup addr s'.worker_to_lease_entry = some l')
    (h_flag : l'.is_stealing = true) (h_new : (s.lease addr).is_stealing = false) :
    l'.tasks_in_flight = 0 := by
  rcases fresh_step h_step addr l' h_lease h_flag with ⟨l, hl, hs⟩ | h0
  · rw [Submitter.lease_of_lookup hl, hs] at h_new
    cases h_new
  · exact h0

theorem stealing_flag_set_without_task_in_flight_witness :
    (Scenario.fourPipelined.lease (Scenario.worker 12)).is_stealing = false ∧
      (Scenario.stealing.lease (Scenario.worker 12)).is_stealing = true ∧
      (Scenario.stealing.lease (Scenario.worker 12)).tasks_in_flight = 0 :=
  ⟨by decide, by decide,
    stealing_flag_set_without_task_in_flight (Scenario.config 4 1) 0
      (Event.LeaseReply 0 Status.OK (Scenario.grant (Scenario.worker 12)))
      Scenario.fourPipelined Scenario.stealing (by decide) (Scenario.worker 12)
      (Scenario.stealing.lease (Scenario.worker 12)) (by decide) (by decide) (by decide)⟩

/-! ### Tasks are pushed in the order they were enqueued -/

namespace Submitter

theorem Shrinks.shrinksRefl (s : Submitter) : Shrinks s s :=
  ⟨rfl, rfl, fun _ => List.Sublist.refl _⟩

theorem Shrinks.shrinksTrans {s1 s2 s3 : Submitter} (h12 : Shrinks s1 s2) (h23 : Shrinks s2 s3) :
    Shrinks s1 s3 :=
  ⟨h23.pushed.trans h12.pushed, h23.enqueued.trans h12.enqueued,
    fun key => (h23.queue key).trans (h12.queue key)⟩

theorem Quiet.shrinks {s s' : Submitter} (h : Quiet s s') : Shrinks s s' :=
  ⟨congrArg (fun w => w.2.2.2.2.2.2) h.work, congrArg (fun w => w.2.2.2.2.2.1) h.work,
    fun key => by rw [h.queue key]⟩

theorem shrinks_of_fields {s s' : Submitter}
    (he : s'.scheduling_key_entries = s.scheduling_key_entries) (hc : s'.calls = s.calls)
    (hq : s'.enqueued = s.enqueued) : Shrinks s s' :=
  ⟨by simp only [pushed, hc], hq, fun key => by simp only [entry, he, List.Sublist.refl]⟩

theorem shrinks_call (s : Submitter) (c : Call)
    (h : ∀ a k t r, c ≠ Call.PushNormalTask a k t r) : Shrinks s (s.call c) := by
  refine ⟨?_, rfl, fun _ => List.Sublist.refl _⟩
  rw [pushed_call]
  cases c <;> first | (simp; done) | exact absurd rfl (h _ _ _ _)

theorem shrinks_callAll (s : Submitter) (cs : List Call)
    (h : ∀ c ∈ cs, ∀ a k t r, c ≠ Call.PushNormalTask a k t r) : Shrinks s (s.callAll cs) := by
  induction cs generalizing s with
  | nil => exact shrinks_of_fields rfl (by simp [callAll]) rfl
  | cons c rest ih =>
    have h1 := shrinks_call s c (h c (List.mem_cons_self _ _))
    have h2 := ih (s.call c) (fun d hd => h d (List.mem_cons_of_mem _ hd))
    refine (h1.shrinksTrans h2).shrinksTrans (shrinks_of_fields rfl ?_ rfl)
    simp [callAll, call, List.append_assoc]

theorem shrinks_eraseLease (s : Submitter) (addr : WorkerAddress) :
    Shrinks s (s.eraseLease addr) :=
  shrinks_of_fields rfl rfl rfl

theorem shrinks_setLease (s : Submitter) (addr : WorkerAddress) (l : LeaseEntry) :
    Shrinks s (s.setLease addr l) :=
  shrinks_of_fields rfl rfl rfl

theorem shrinks_touchLease (s : Submitter) (addr : WorkerAddress) :
    Shrinks s (s.touchLease addr) :=
  shrinks_of_fields rfl rfl rfl

theorem shrinks_withLeases (s : Submitter) (leases : List (WorkerAddress × LeaseEntry)) :
    Shrinks s (s.withLeases leases) :=
  shrinks_of_fields rfl rfl rfl

theorem shrinks_withExecuting (s : Submitter) (m : List (TaskID × WorkerAddress)) :
    Shrinks s (s.withExecuting m) :=
  shrinks_of_fields rfl rfl rfl

theorem shrinks_addSteal (s : Submitter) (ctx : StealContext) : Shrinks s (s.addSteal ctx) :=
  shrinks_of_fields rfl rfl rfl

theorem shrinks_addPush (s : Submitter) (ctx : PushContext) : Shrinks s (s.addPush ctx) :=
  shrinks_of_fields rfl rfl rfl

theorem shrinks_cacheConnect (s : Submitter) (addr : WorkerAddress) :
    Shrinks s (s.cacheConnect addr) :=
  shrinks_of_fields rfl rfl rfl

theorem shrinks_setEntry (s : Submitter) (key : SchedulingKey) (e : SchedulingKeyEntry)
    (h : e.task_queue.Sublist (s.entry key).task_queue) : Shrinks s (s.setEntry key e) := by
  refine ⟨rfl, rfl, fun k => ?_⟩
  rw [entry_setEntry]
  split_ifs with hk
  · subst hk
    exact h
  · exact List.Sublist.refl _

theorem pushedFor_eq {s s' : Submitter} (h : s'.pushed = s.pushed) (key : SchedulingKey) :
    s'.pushedFor key = s.pushedFor key := by
  simp only [pushedFor, h]

theorem enqueuedFor_eq {s s' : Submitter} (h : s'.enqueued = s.enqueued)
    (key : SchedulingKey) : s'.enqueuedFor key = s.enqueuedFor key := by
  simp only [enqueuedFor, h]

theorem Flow.of_shrinks {s s' : Submitter} (hf : Flow s) (h : Shrinks s s') : Flow s' := by
  intro key
  rw [pushedFor_eq h.pushed, enqueuedFor_eq h.enqueued]
  exact ((h.queue key).append_left _).trans (hf key)

theorem flow_init : Flow Submitter.init := by
  intro key
  simp [Submitter.init, pushedFor, pushed, enqueuedFor, entry, Assoc.lookup]

end Submitter

theorem shrinks_AddWorkerLeaseClient {cfg : Config} {now : Nat} {addr : WorkerAddress}
    {lease_client : LeaseClient} {res : Resources} {key : SchedulingKey} {s s' : Submitter}
    (h : AddWorkerLeaseClient cfg now addr lease_client res key s = some s') :
    Submitter.Shrinks s s' := by
  obtain ⟨-, rfl⟩ := AddWorkerLeaseClient_inv h
  refine Submitter.Shrinks.shrinksTrans ?_ (Submitter.shrinks_setEntry _ _ _ ?_)
  · refine Submitter.Shrinks.shrinksTrans ?_ (Submitter.quiet_touchEntry _ _).shrinks
    exact Submitter.shrinks_of_fields rfl rfl rfl
  · rw [Submitter.entry_touchEntry]
    exact List.Sublist.refl _

theorem shrinks_ReturnWorker {addr : WorkerAddress} {was_error : Bool}
    {key : SchedulingKey} {s s' : Submitter}
    (h : ReturnWorker addr was_error key s = some s') : Submitter.Shrinks s s' := by
  obtain ⟨l, client, -, -, -, -, -, rfl⟩ := ReturnWorker_inv h
  refine Submitter.Shrinks.shrinksTrans ?_ (Submitter.shrinks_eraseLease _ _)
  refine Submitter.Shrinks.shrinksTrans ?_ (Submitter.shrinks_call _ _ (by simp))
  refine Submitter.Shrinks.shrinksTrans ?_ (Submitter.quiet_eraseEntryIfCanDelete _ _).shrinks
  refine Submitter.Shrinks.shrinksTrans (Submitter.quiet_touchEntry s key).shrinks
    (Submitter.shrinks_setEntry _ _ _ ?_)
  rw [Submitter.entry_touchEntry]
  exact List.Sublist.refl _

theorem shrinks_FindOptimalVictimForStealing {key : SchedulingKey}
    {thief victim0 : WorkerAddress} {s s' : Submitter} {found : Bool} {victim : WorkerAddress}
    (h : FindOptimalVictimForStealing key thief victim0 s = some (s', found, victim)) :
    Submitter.Shrinks s s' := by
  obtain ⟨leases, rfl, -⟩ := FindOptimalVictimForStealing_inv h
  exact (Submitter.quiet_touchEntry s key).shrinks.shrinksTrans
    (Submitter.shrinks_of_fields rfl rfl rfl)

theorem shrinks_StealTasksOrReturnWorker {cfg : Config} {now : Nat}
    {thief_addr : WorkerAddress} {was_error : Bool} {key : SchedulingKey} {s s' : Submitter}
    (h : StealTasksOrReturnWorker cfg now thief_addr was_error key s = some s') :
    Submitter.Shrinks s s' := by
  obtain ⟨l, client, -, -, -, -, hcase⟩ := StealTasksOrReturnWorker_inv h
  rcases hcase with hr | ⟨s2, v, hfind, hr⟩ | ⟨s2, v, hfind, rfl⟩
  · exact shrinks_ReturnWorker hr
  · refine (shrinks_FindOptimalVictimForStealing hfind).shrinksTrans
      (Submitter.Shrinks.shrinksTrans ?_ (shrinks_ReturnWorker hr))
    split_ifs
    · exact (quiet_CancelWorkerLeaseIfNeeded cfg key s2).shrinks
    · exact Submitter.Shrinks.shrinksRefl s2
  · refine (shrinks_FindOptimalVictimForStealing hfind).shrinksTrans ?_
    refine Submitter.Shrinks.shrinksTrans ?_ (Submitter.shrinks_addSteal _ _)
    refine Submitter.Shrinks.shrinksTrans ?_ (Submitter.shrinks_call _ _ (by simp))
    exact (Submitter.shrinks_setLease _ _ _).shrinksTrans (Submitter.shrinks_cacheConnect _ _)

namespace Submitter

theorem entry_of_entries_eq {s s' : Submitter}
    (h : s'.scheduling_key_entries = s.scheduling_key_entries) (key : SchedulingKey) :
    s'.entry key = s.entry key := by
  simp only [entry, h]

theorem entry_recordEnqueued (s : Submitter) (k : SchedulingKey) (t : TaskSpecification)
    (key : SchedulingKey) : (s.recordEnqueued k t).entry key = s.entry key :=
  rfl

theorem pushedFor_call_push (s : Submitter) (a : WorkerAddress) (k : SchedulingKey)
    (t : TaskSpecification) (r : Resources) (key : SchedulingKey) :
    (s.call (Call.PushNormalTask a k t r)).pushedFor key
      = s.pushedFor key ++ (if k = key then [t] else []) := by
  simp only [pushedFor, pushed_call, List.filter_append, List.map_append]
  split_ifs with hk <;> simp [hk]

theorem enqueuedFor_recordEnqueued (s : Submitter) (k : SchedulingKey)
    (t : TaskSpecification) (key : SchedulingKey) :
    (s.recordEnqueued k t).enqueuedFor key
      = s.enqueuedFor key ++ (if k = key then [t] else []) := by
  simp only [enqueuedFor, recordEnqueued, List.filter_append, List.map_append]
  split_ifs with hk <;> simp [hk]

end Submitter

theorem flow_pushFront (addr : WorkerAddress) (key : SchedulingKey) (res : Resources)
    (t : TaskSpecification) (rest : List TaskSpecification) {s : Submitter} (hf : s.Flow)
    (hq : (s.entry key).task_queue = t :: rest) :
    (OnWorkerIdle.pushFront addr key res t s).Flow := by
  intro K
  have hp : (OnWorkerIdle.pushFront addr key res t s).pushedFor K
      = s.pushedFor K ++ (if key = K then [t] else []) := by
    have h1 : (OnWorkerIdle.pushFront addr key res t s).pushed
        = (s.call (Call.PushNormalTask addr key t res)).pushed := rfl
    rw [Submitter.pushedFor_eq h1, Submitter.pushedFor_call_push]
  have he : (OnWorkerIdle.pushFront addr key res t s).enqueuedFor K = s.enqueuedFor K :=
    Submitter.enqueuedFor_eq rfl K
  have h2 : ∀ k, ((s.setLease addr { s.lease addr with
      tasks_in_flight := (s.lease addr).tasks_in_flight + 1 }).setEntry key
        { s.entry key with
          total_tasks_in_flight := (s.entry key).total_tasks_in_flight + 1 }).entry k
      = if key = k then { s.entry key with
          total_tasks_in_flight := (s.entry key).total_tasks_in_flight + 1 }
        else s.entry k := by
    intro k
    rw [Submitter.entry_setEntry]
    rfl
  have hqueue : ((OnWorkerIdle.pushFront addr key res t s).entry K).task_queue
      = if key = K then rest else (s.entry K).task_queue := by
    unfold OnWorkerIdle.pushFront
    simp only []
    rw [Submitter.entry_setEntry]
    split_ifs with hk
    · subst hk
      show (((s.setLease addr _).setEntry key _).entry key).task_queue.tail = rest
      rw [h2, if_pos rfl]
      show (s.entry key).task_queue.tail = rest
      rw [hq]
      rfl
    · show (((s.setLease addr _).setEntry key _).entry K).task_queue = _
      rw [h2, if_neg hk]
  rw [hp, he, hqueue]
  have h0 := hf K
  split_ifs with hk
  · subst hk
    rw [hq] at h0
    simpa [List.append_assoc] using h0
  · simpa using h0

theorem flow_pipeline (cfg : Config) (addr : WorkerAddress) (key : SchedulingKey)
    (res : Resources) (fuel : Nat) :
    ∀ {s s' : Submitter}, s.Flow → OnWorkerIdle.pipeline cfg addr key res fuel s = some s' →
      s'.Flow := by
  induction fuel with
  | zero =>
    intro s s' hf h
    simp only [OnWorkerIdle.pipeline, Option.some.injEq] at h
    exact h ▸ hf
  | succ n ih =>
    intro s s' hf h
    simp only [OnWorkerIdle.pipeline] at h
    split at h
    · simp only [Option.some.injEq] at h
      exact h ▸ hf
    · rename_i t rest hq
      split at h
      · simp only [Option.some.injEq] at h
        exact h ▸ hf
      · split at h
        · cases h
        · exact ih (flow_pushFront addr key res t rest hf hq) h

theorem flow_OnWorkerIdle {cfg : Config} {now : Nat} {addr : WorkerAddress}
    {key : SchedulingKey} {was_error : Bool} {res : Resources} {s s' : Submitter}
    (hf : s.Flow) (h : OnWorkerIdle cfg now addr key was_error res s = some s') :
    s'.Flow := by
  rcases OnWorkerIdle_inv h with ⟨-, rfl⟩ | ⟨l, client, -, -, hcase⟩
  · exact hf.of_shrinks (Submitter.shrinks_touchLease s addr)
  · rcases hcase with ⟨-, s2, h2, h3⟩ | ⟨-, s3, h2, h3⟩
    · refine Submitter.Flow.of_shrinks ?_ (quiet_RequestNewWorkerIfNeeded h3).shrinks
      have hf1 := hf.of_shrinks (Submitter.quiet_touchEntry s key).shrinks
      split_ifs at h2
      · exact hf1.of_shrinks (shrinks_StealTasksOrReturnWorker h2)
      · simp only [Option.some.injEq] at h2
        exact h2 ▸ hf1
    · refine Submitter.Flow.of_shrinks ?_ (quiet_RequestNewWorkerIfNeeded h3).shrinks
      have hf1 := (hf.of_shrinks (Submitter.quiet_touchEntry s key).shrinks).of_shrinks
        (Submitter.shrinks_cacheConnect _ addr)
      have hf3 := flow_pipeline cfg addr key res _ hf1 h2
      split_ifs
      · exact hf3.of_shrinks (quiet_CancelWorkerLeaseIfNeeded cfg key s3).shrinks
      · exact hf3

theorem flow_findWorker (cfg : Config) (now : Nat) (key : SchedulingKey)
    (workers : List WorkerAddress) :
    ∀ {s s' : Submitter}, s.Flow → SubmitTask.findWorker cfg now key workers s = some s' →
      s'.Flow := by
  induction workers with
  | nil =>
    intro s s' hf h
    simp only [SubmitTask.findWorker, Option.some.injEq] at h
    exact h ▸ hf
  | cons a rest ih =>
    intro s s' hf h
    simp only [SubmitTask.findWorker] at h
    split at h
    · cases h
    · split at h
      · exact flow_OnWorkerIdle hf h
      · exact ih hf h

theorem flow_enqueue (task_spec : TaskSpecification) {s : Submitter} (hf : s.Flow) :
    (SubmitTask.enqueue task_spec s).Flow := by
  intro K
  have hp : (SubmitTask.enqueue task_spec s).pushedFor K = s.pushedFor K :=
    Submitter.pushedFor_eq rfl K
  have he : (SubmitTask.enqueue task_spec s).enqueuedFor K
      = s.enqueuedFor K ++ (if task_spec.schedulingKey = K then [task_spec] else []) := by
    unfold SubmitTask.enqueue
    simp only []
    rw [Submitter.enqueuedFor_recordEnqueued]
    rfl
  have hqueue : ((SubmitTask.enqueue task_spec s).entry K).task_queue
      = (s.entry K).task_queue ++
        (if task_spec.schedulingKey = K then [task_spec] else []) := by
    unfold SubmitTask.enqueue
    simp only []
    rw [Submitter.entry_recordEnqueued, Submitter.entry_setEntry]
    split_ifs with hk
    · subst hk
      show ((s.touchEntry task_spec.schedulingKey).entry _).task_queue ++ [task_spec] = _
      rw [Submitter.entry_touchEntry]
    · rw [Submitter.entry_touchEntry, List.append_nil]
  rw [hp, he, hqueue, ← List.append_assoc]
  exact List.Sublist.append (hf K) (List.Sublist.refl _)

theorem flow_resolved {cfg : Config} {now : Nat} {task_spec : TaskSpecification}
    {status : Status} {s s' : Submitter} (hf : s.Flow)
    (h : SubmitTask.resolved cfg now task_spec status s = some s') : s'.Flow := by
  rcases resolved_inv h with ⟨c, rfl, hc⟩ | ⟨c, rfl⟩ | ⟨c, rfl⟩ | ⟨-, s4, h4, h5⟩
  · exact hf.of_shrinks (Submitter.shrinks_call s c hc)
  · refine hf.of_shrinks ((Submitter.shrinks_call s (Call.AsyncCreateActor task_spec)
      (by simp)).shrinksTrans ?_)
    exact Submitter.shrinks_of_fields rfl rfl rfl
  · refine hf.of_shrinks (Submitter.Shrinks.shrinksTrans ?_ (Submitter.shrinks_call _ _ (by simp)))
    exact Submitter.shrinks_of_fields rfl rfl rfl
  · refine Submitter.Flow.of_shrinks ?_ (quiet_RequestNewWorkerIfNeeded h5).shrinks
    have hf1 := flow_enqueue task_spec hf
    split at h4
    · exact flow_findWorker cfg now _ _ hf1 h4
    · simp only [Option.some.injEq] at h4
      exact h4 ▸ hf1

theorem shrinks_drain (err : TaskSpecification → ErrorType) (key : SchedulingKey)
    (s : Submitter) : Submitter.Shrinks s (RequestNewWorkerIfNeeded.drain err key s) := by
  unfold RequestNewWorkerIfNeeded.drain
  simp only []
  rw [failQueued_eq]
  refine Submitter.Shrinks.shrinksTrans ?_ (Submitter.quiet_eraseEntryIfCanDelete _ key).shrinks
  refine Submitter.Shrinks.shrinksTrans (Submitter.shrinks_callAll s _ ?_)
    (Submitter.shrinks_setEntry _ key _ ?_)
  · intro c hc
    simp only [List.mem_map] at hc
    obtain ⟨t, -, rfl⟩ := hc
    simp
  · exact List.nil_sublist _

theorem shrinks_received (cfg : Config) (ctx : LeaseContext) (s : Submitter) :
    Submitter.Shrinks s (RequestNewWorkerIfNeeded.received cfg ctx s) := by
  unfold RequestNewWorkerIfNeeded.received
  simp only []
  refine Submitter.Shrinks.shrinksTrans ?_ (Submitter.shrinks_setEntry _ _ _ ?_)
  · refine Submitter.Shrinks.shrinksTrans (Submitter.quiet_touchEntry s ctx.scheduling_key).shrinks ?_
    exact Submitter.shrinks_of_fields rfl rfl rfl
  · exact List.Sublist.refl _

theorem flow_leaseReply {cfg : Config} {now : Nat} {ctx : LeaseContext}
    {status : Status} {reply : RequestWorkerLeaseReply} {s s' : Submitter} (hf : s.Flow)
    (h : RequestNewWorkerIfNeeded.reply cfg now ctx status reply s = some s') :
    s'.Flow := by
  have hf1 := hf.of_shrinks (shrinks_received cfg ctx s)
  rcases leaseReply_inv h with ⟨err, rfl⟩ | ⟨r, hr⟩ | ⟨-, client, s4, h4, h5⟩ | rfl
  · exact hf1.of_shrinks (shrinks_drain err _ _)
  · exact hf1.of_shrinks (quiet_RequestNewWorkerIfNeeded hr).shrinks
  · exact flow_OnWorkerIdle (hf1.of_shrinks (shrinks_AddWorkerLeaseClient h4)) h5
  · refine hf1.of_shrinks ((Submitter.shrinks_call _ Call.QuickExit (by simp)).shrinksTrans ?_)
    exact Submitter.shrinks_of_fields rfl rfl rfl

theorem shrinks_finish (ctx : PushContext) (status : Status) (reply : PushTaskReply)
    (retry_possible : Bool) (s : Submitter) :
    Submitter.Shrinks s (PushNormalTask.finish ctx status reply retry_possible s) := by
  obtain ⟨cs, hcs, hno⟩ := finish_eq ctx status reply retry_possible s
  rw [hcs]
  exact Submitter.shrinks_callAll s cs hno

theorem shrinks_settle (ctx : PushContext) (s : Submitter) :
    Submitter.Shrinks s (PushNormalTask.settle ctx s) := by
  unfold PushNormalTask.settle
  simp only []
  refine Submitter.Shrinks.shrinksTrans ?_ (Submitter.shrinks_setEntry _ _ _ ?_)
  · refine Submitter.Shrinks.shrinksTrans ?_ (Submitter.quiet_touchEntry _ _).shrinks
    refine Submitter.Shrinks.shrinksTrans ?_ (Submitter.shrinks_setLease _ _ _)
    exact (Submitter.shrinks_withExecuting s _).shrinksTrans (Submitter.shrinks_touchLease _ _)
  · exact List.Sublist.refl _

theorem shrinks_workerExiting (ctx : PushContext) (s : Submitter) :
    Submitter.Shrinks s (PushNormalTask.workerExiting ctx s) := by
  unfold PushNormalTask.workerExiting
  simp only []
  refine Submitter.Shrinks.shrinksTrans ?_ (Submitter.quiet_eraseEntryIfCanDelete _ _).shrinks
  refine Submitter.Shrinks.shrinksTrans ?_ (Submitter.shrinks_setEntry _ _ _ ?_)
  · exact (Submitter.shrinks_eraseLease s _).shrinksTrans (Submitter.quiet_touchEntry _ _).shrinks
  · exact List.Sublist.refl _

theorem flow_pushReply {cfg : Config} {now : Nat} {ctx : PushContext} {status : Status}
    {reply : PushTaskReply} {retry_possible : Bool} {s s' : Submitter} (hf : s.Flow)
    (h : PushNormalTask.reply cfg now ctx status reply retry_possible s = some s') :
    s'.Flow := by
  obtain ⟨-, -, -, hcase⟩ := pushReply_inv h
  have hf1 := hf.of_shrinks (shrinks_settle ctx s)
  rcases hcase with ⟨-, rfl⟩ | ⟨-, -, rfl⟩ | ⟨-, -, s6, h6, rfl⟩ | ⟨-, -, rfl⟩
  · exact (hf1.of_shrinks (shrinks_workerExiting ctx _)).of_shrinks (shrinks_finish ..)
  · exact hf1
  · exact (flow_OnWorkerIdle hf1 h6).of_shrinks (shrinks_finish ..)
  · exact hf1.of_shrinks (shrinks_finish ..)

theorem flow_stealReply {cfg : Config} {now : Nat} {ctx : StealContext}
    {status : Status} {s s' : Submitter} (hf : s.Flow)
    (h : StealTasksOrReturnWorker.reply cfg now ctx status [] s = some s') :
    s'.Flow := by
  obtain ⟨thief_entry, -, -, s2, h2, h3⟩ := stealReply_inv h
  simp only [StealTasksOrReturnWorker.requeue, Option.some.injEq] at h2
  subst h2
  exact flow_OnWorkerIdle (hf.of_shrinks (Submitter.shrinks_setLease s _ _)) h3

theorem flow_step {cfg : Config} {now : Nat} {ev : Event} {s s' : Submitter} (hf : s.Flow)
    (hplain : ev.plain = true) (h : step cfg now ev s = some s') : s'.Flow := by
  cases ev with
  | SubmitTask task_spec =>
    simp only [step, Option.some.injEq] at h
    subst h
    refine hf.of_shrinks ⟨?_, rfl, fun _ => List.Sublist.refl _⟩
    simp [SubmitTask, Submitter.pushed, Submitter.call, List.filterMap_append]
  | DependenciesResolved i status deps =>
    simp only [step] at h
    split at h
    · cases h
    · refine flow_resolved ?_ h
      exact hf.of_shrinks (Submitter.shrinks_of_fields rfl rfl rfl)
  | ActorCreated i status =>
    simp only [step] at h
    split at h
    · cases h
    · simp only [Option.some.injEq] at h
      subst h
      have hf1 : Submitter.Flow { s with creating_actors := s.creating_actors.eraseIdx i } :=
        hf.of_shrinks (Submitter.shrinks_of_fields rfl rfl rfl)
      unfold SubmitTask.actorCreated
      split <;> exact hf1.of_shrinks (Submitter.shrinks_call _ _ (by simp))
  | LeaseReply i status reply =>
    simp only [step] at h
    split at h
    · cases h
    · refine flow_leaseReply ?_ h
      exact hf.of_shrinks (Submitter.shrinks_of_fields rfl rfl rfl)
  | PushReply i status reply retry_possible =>
    simp only [step] at h
    split at h
    · cases h
    · refine flow_pushReply ?_ h
      exact hf.of_shrinks (Submitter.shrinks_of_fields rfl rfl rfl)
  | StealReply i status stolen =>
    simp only [Event.plain, List.isEmpty_iff] at hplain
    subst hplain
    simp only [step] at h
    split at h
    · cases h
    · refine flow_stealReply ?_ h
      exact hf.of_shrinks (Submitter.shrinks_of_fields rfl rfl rfl)
  | CancelLeaseReply i status success =>
    simp only [step] at h
    split at h
    · cases h
    · simp only [Option.some.injEq] at h
      subst h
      have hf1 : Submitter.Flow { s with lease_cancels := s.lease_cancels.eraseIdx i } :=
        hf.of_shrinks (Submitter.shrinks_of_fields rfl rfl rfl)
      unfold CancelWorkerLeaseIfNeeded.reply
      split
      · exact hf1.of_shrinks (quiet_CancelWorkerLeaseIfNeeded cfg _ _).shrinks
      · exact hf1
  | CancelTask task_spec force_kill recursive mark => simp [Event.plain] at hplain
  | CancelReply i status attempt_succeeded => simp [Event.plain] at hplain
  | CancelRetry i mark => simp [Event.plain] at hplain
  | ReportWorkerBacklog =>
    simp only [step, Option.some.injEq] at h
    exact h ▸ hf.of_shrinks (quiet_ReportWorkerBacklogInternal cfg s).shrinks
  | CancelRemoteTask object_id worker_addr force_kill recursive =>
    simp [Event.plain] at hplain

theorem flow_run (cfg : Config) (events : List (Nat × Event)) :
    ∀ {s s' : Submitter}, s.Flow → (∀ p ∈ events, p.2.plain = true) →
      run cfg events s = some s' → s'.Flow := by
  induction events with
  | nil =>
    intro s s' hf _ h
    simp only [run, Option.some.injEq] at h
    exact h ▸ hf
  | cons p rest ih =>
    intro s s' hf hplain h
    obtain ⟨now, ev⟩ := p
    simp only [run] at h
    split_ifs at h
    cases hstep : step cfg now ev s with
    | none => rw [hstep] at h; cases h
    | some s1 =>
      rw [hstep] at h
      exact ih (flow_step hf (hplain (now, ev) (List.mem_cons_self _ _)) hstep)
        (fun q hq => hplain q (List.mem_cons_of_mem _ hq)) h

/-- C9 (P2): after any event sequence in which no task is stolen and none is cancelled,
for every scheduling key the tasks for which `PushNormalTask` was issued, in the order of
the calls, followed by the tasks still in the key's queue, are a subsequence of the tasks
enqueued for the key by the resolution continuation, in the order they were enqueued:
tasks are pushed in the order in which they were enqueued (a task drained from the queue
by a failed lease is enqueued and never pushed). -/
theorem pushes_follow_enqueue_order (cfg : Config) (events : List (Nat × Event))
    (s : Submitter) (h_plain : ∀ p ∈ events, p.2.plain = true)
    (h_run : run cfg events Submitter.init = some s) (key : SchedulingKey) :
    (s.pushedFor key ++ (s.entry key).task_queue).Sublist (s.enqueuedFor key) :=
  flow_run cfg events Submitter.flow_init h_plain h_run key

theorem pushes_follow_enqueue_order_witness :
    Scenario.pipelined.pushedFor Scenario.key = [Scenario.task 1, Scenario.task 2] ∧
      Scenario.pipelined.enqueuedFor Scenario.key = [Scenario.task 1, Scenario.task 2] ∧
      (Scenario.pipelined.pushedFor Scenario.key
        ++ (Scenario.pipelined.entry Scenario.key).task_queue).Sublist
          (Scenario.pipelined.enqueuedFor Scenario.key) :=
  ⟨by decide, by decide,
    pushes_follow_enqueue_order (Scenario.config 2 1)
      (Scenario.submit 1 ++ Scenario.submit 2 ++
        [(0, Event.LeaseReply 0 Status.OK (Scenario.grant (Scenario.worker 11)))])
      Scenario.pipelined (by decide) (by decide) Scenario.key⟩

/-! ### A steal reply keeps the work of the key -/

namespace Assoc

variable {α : Type} {β : Type} [DecidableEq α]

theorem keys_remove (k : α) (m : List (α × β)) :
    (remove k m).map Prod.fst = (m.map Prod.fst).filter (fun x => decide (x ≠ k)) := by
  induction m with
  | nil => rfl
  | cons p rest ih =>
    obtain ⟨k', v⟩ := p
    simp only [remove]
    split_ifs with hk
    · simp [hk, ih]
    · simp [hk, ih]

theorem lookup_eq_none_of_not_mem {k : α} {m : List (α × β)} (h : k ∉ m.map Prod.fst) :
    lookup k m = none := by
  induction m with
  | nil => rfl
  | cons p rest ih =>
    obtain ⟨k', v⟩ := p
    simp only [List.map_cons, List.mem_cons, not_or] at h
    simp only [lookup]
    rw [if_neg (fun hx => h.1 hx.symm)]
    exact ih h.2

theorem keys_update_of_not_mem {k : α} (v : β) {m : List (α × β)}
    (h : k ∉ m.map Prod.fst) : (update k v m).map Prod.fst = m.map Prod.fst ++ [k] := by
  induction m with
  | nil => rfl
  | cons p rest ih =>
    obtain ⟨k', v'⟩ := p
    simp only [List.map_cons, List.mem_cons, not_or] at h
    simp only [update]
    rw [if_neg (fun hx => h.1 hx.symm)]
    simp [ih h.2]

theorem keys_emplace_of_not_mem {k : α} (v : β) {m : List (α × β)}
    (h : k ∉ m.map Prod.fst) : (emplace k v m).map Prod.fst = m.map Prod.fst ++ [k] := by
  rw [emplace_of_lookup_none v (lookup_eq_none_of_not_mem h)]
  exact keys_update_of_not_mem v h

end Assoc

namespace Submitter

theorem SameTasks.tasksRefl (s : Submitter) : SameTasks s s := ⟨rfl, fun _ => rfl⟩

theorem SameTasks.tasksTrans {s1 s2 s3 : Submitter} (h12 : SameTasks s1 s2)
    (h23 : SameTasks s2 s3) : SameTasks s1 s3 :=
  ⟨h23.executing.trans h12.executing, fun key => (h23.queue key).trans (h12.queue key)⟩

theorem Quiet.sameTasks {s s' : Submitter} (h : Quiet s s') : SameTasks s s' :=
  ⟨congrArg (fun w => w.2.1) h.work, h.queue⟩

theorem sameTasks_of_fields {s s' : Submitter}
    (he : s'.scheduling_key_entries = s.scheduling_key_entries)
    (hx : s'.executing_tasks = s.executing_tasks) : SameTasks s s' :=
  ⟨hx, fun key => by simp only [entry, he]⟩

theorem sameTasks_call (s : Submitter) (c : Call) : SameTasks s (s.call c) :=
  sameTasks_of_fields rfl rfl

theorem sameTasks_eraseLease (s : Submitter) (addr : WorkerAddress) :
    SameTasks s (s.eraseLease addr) :=
  sameTasks_of_fields rfl rfl

theorem sameTasks_setLease (s : Submitter) (addr : WorkerAddress) (l : LeaseEntry) :
    SameTasks s (s.setLease addr l) :=
  sameTasks_of_fields rfl rfl

theorem sameTasks_touchLease (s : Submitter) (addr : WorkerAddress) :
    SameTasks s (s.touchLease addr) :=
  sameTasks_of_fields rfl rfl

theorem sameTasks_withLeases (s : Submitter) (leases : List (WorkerAddress × LeaseEntry)) :
    SameTasks s (s.withLeases leases) :=
  sameTasks_of_fields rfl rfl

theorem sameTasks_addSteal (s : Submitter) (ctx : StealContext) :
    SameTasks s (s.addSteal ctx) :=
  sameTasks_of_fields rfl rfl

theorem sameTasks_cacheConnect (s : Submitter) (addr : WorkerAddress) :
    SameTasks s (s.cacheConnect addr) :=
  sameTasks_of_fields rfl rfl

theorem sameTasks_setEntry (s : Submitter) (key : SchedulingKey) (e : SchedulingKeyEntry)
    (h : e.task_queue = (s.entry key).task_queue) : SameTasks s (s.setEntry key e) := by
  refine ⟨rfl, fun k => ?_⟩
  rw [entry_setEntry]
  split_ifs with hk
  · subst hk
    exact h
  · rfl

theorem workIds_eq {s s' : Submitter} (h : SameTasks s s') (key : SchedulingKey) :
    s'.workIds key = s.workIds key := by
  simp only [workIds, h.executing, h.queue key]

end Submitter

theorem sameTasks_ReturnWorker {addr : WorkerAddress} {was_error : Bool}
    {key : SchedulingKey} {s s' : Submitter}
    (h : ReturnWorker addr was_error key s = some s') : Submitter.SameTasks s s' := by
  obtain ⟨l, client, -, -, -, -, -, rfl⟩ := ReturnWorker_inv h
  refine Submitter.SameTasks.tasksTrans ?_ (Submitter.sameTasks_eraseLease _ _)
  refine Submitter.SameTasks.tasksTrans ?_ (Submitter.sameTasks_call _ _)
  refine Submitter.SameTasks.tasksTrans ?_ (Submitter.quiet_eraseEntryIfCanDelete _ _).sameTasks
  refine Submitter.SameTasks.tasksTrans (Submitter.quiet_touchEntry s key).sameTasks
    (Submitter.sameTasks_setEntry _ _ _ ?_)
  rw [Submitter.entry_touchEntry]
  rfl

theorem sameTasks_FindOptimalVictimForStealing {key : SchedulingKey}
    {thief victim0 : WorkerAddress} {s s' : Submitter} {found : Bool} {victim : WorkerAddress}
    (h : FindOptimalVictimForStealing key thief victim0 s = some (s', found, victim)) :
    Submitter.SameTasks s s' := by
  obtain ⟨leases, rfl, -⟩ := FindOptimalVictimForStealing_inv h
  exact (Submitter.quiet_touchEntry s key).sameTasks.tasksTrans
    (Submitter.sameTasks_withLeases _ _)

theorem sameTasks_StealTasksOrReturnWorker {cfg : Config} {now : Nat}
    {thief_addr : WorkerAddress} {was_error : Bool} {key : SchedulingKey} {s s' : Submitter}
    (h : StealTasksOrReturnWorker cfg now thief_addr was_error key s = some s') :
    Submitter.SameTasks s s' := by
  obtain ⟨l, client, -, -, -, -, hcase⟩ := StealTasksOrReturnWorker_inv h
  rcases hcase with hr | ⟨s2, v, hfind, hr⟩ | ⟨s2, v, hfind, rfl⟩
  · exact sameTasks_ReturnWorker hr
  · refine (sameTasks_FindOptimalVictimForStealing hfind).tasksTrans
      (Submitter.SameTasks.tasksTrans ?_ (sameTasks_ReturnWorker hr))
    split_ifs
    · exact (quiet_CancelWorkerLeaseIfNeeded cfg key s2).sameTasks
    · exact Submitter.SameTasks.tasksRefl s2
  · refine (sameTasks_FindOptimalVictimForStealing hfind).tasksTrans ?_
    refine Submitter.SameTasks.tasksTrans ?_ (Submitter.sameTasks_addSteal _ _)
    refine Submitter.SameTasks.tasksTrans ?_ (Submitter.sameTasks_call _ _)
    exact (Submitter.sameTasks_setLease _ _ _).tasksTrans (Submitter.sameTasks_cacheConnect _ _)

theorem pushFront_queue (addr : WorkerAddress) (key : SchedulingKey) (res : Resources)
    (t : TaskSpecification) (s : Submitter) :
    ((OnWorkerIdle.pushFront addr key res t s).entry key).task_queue
      = (s.entry key).task_queue.tail := by
  have h2 : ((s.setLease addr { s.lease addr with
      tasks_in_flight := (s.lease addr).tasks_in_flight + 1 }).setEntry key
        { s.entry key with
          total_tasks_in_flight := (s.entry key).total_tasks_in_flight + 1 }).entry key
      = { s.entry key with
          total_tasks_in_flight := (s.entry key).total_tasks_in_flight + 1 } := by
    rw [Submitter.entry_setEntry, if_pos rfl]
  unfold OnWorkerIdle.pushFront
  simp only []
  rw [Submitter.entry_setEntry, if_pos rfl]
  show (((s.setLease addr _).setEntry key _).entry key).task_queue.tail = _
  rw [h2]

theorem perm_pushFront (addr : WorkerAddress) (key : SchedulingKey) (res : Resources)
    (t : TaskSpecification) (rest : List TaskSpecification) {s : Submitter}
    (hq : (s.entry key).task_queue = t :: rest) (hn : (s.workIds key).Nodup) :
    List.Perm ((OnWorkerIdle.pushFront addr key res t s).workIds key) (s.workIds key) := by
  have hx : (OnWorkerIdle.pushFront addr key res t s).executing_tasks
      = Assoc.emplace t.task_id addr s.executing_tasks := rfl
  have hnot : t.task_id ∉ s.executing_tasks.map Prod.fst := by
    simp only [Submitter.workIds, hq, List.map_cons, List.cons_append,
      List.nodup_cons, List.mem_append, not_or] at hn
    exact hn.1.2
  simp only [Submitter.workIds, pushFront_queue, hx, hq, List.tail_cons,
    Assoc.keys_emplace_of_not_mem addr hnot, List.map_cons, List.cons_append]
  rw [← List.append_assoc]
  exact List.perm_append_singleton _ _

theorem perm_pipeline (cfg : Config) (addr : WorkerAddress) (key : SchedulingKey)
    (res : Resources) (fuel : Nat) :
    ∀ {s s' : Submitter}, (s.workIds key).Nodup →
      OnWorkerIdle.pipeline cfg addr key res fuel s = some s' →
      List.Perm (s'.workIds key) (s.workIds key) := by
  induction fuel with
  | zero =>
    intro s s' _ h
    simp only [OnWorkerIdle.pipeline, Option.some.injEq] at h
    exact h ▸ List.Perm.refl _
  | succ n ih =>
    intro s s' hn h
    simp only [OnWorkerIdle.pipeline] at h
    split at h
    · simp only [Option.some.injEq] at h
      exact h ▸ List.Perm.refl _
    · rename_i t rest hq
      split at h
      · simp only [Option.some.injEq] at h
        exact h ▸ List.Perm.refl _
      · split at h
        · cases h
        · have hp := perm_pushFront addr key res t rest hq hn
          exact (ih (hp.nodup_iff.mpr hn) h).trans hp

theorem perm_OnWorkerIdle {cfg : Config} {now : Nat} {addr : WorkerAddress}
    {key : SchedulingKey} {was_error : Bool} {res : Resources} {s s' : Submitter}
    (hn : (s.workIds key).Nodup)
    (h : OnWorkerIdle cfg now addr key was_error res s = some s') :
    List.Perm (s'.workIds key) (s.workIds key) := by
  rcases OnWorkerIdle_inv h with ⟨-, rfl⟩ | ⟨l, client, -, -, hcase⟩
  · rw [Submitter.workIds_eq (Submitter.sameTasks_touchLease s addr)]
  · rcases hcase with ⟨-, s2, h2, h3⟩ | ⟨-, s3, h2, h3⟩
    · rw [Submitter.workIds_eq (quiet_RequestNewWorkerIfNeeded h3).sameTasks]
      have h1 := Submitter.workIds_eq (Submitter.quiet_touchEntry s key).sameTasks key
      split_ifs at h2
      · rw [Submitter.workIds_eq (sameTasks_StealTasksOrReturnWorker h2), h1]
      · simp only [Option.some.injEq] at h2
        rw [← h2, h1]
    · rw [Submitter.workIds_eq (quiet_RequestNewWorkerIfNeeded h3).sameTasks]
      have h1 : ((s.touchEntry key).cacheConnect addr).workIds key = s.workIds key :=
        Submitter.workIds_eq ((Submitter.quiet_touchEntry s key).sameTasks.tasksTrans
          (Submitter.sameTasks_cacheConnect _ addr)) key
      have hp := perm_pipeline cfg addr key res _ (by rw [h1]; exact hn) h2
      rw [h1] at hp
      split_ifs
      · rw [Submitter.workIds_eq (quiet_CancelWorkerLeaseIfNeeded cfg key s3).sameTasks]
        exact hp
      · exact hp

theorem perm_requeue_one (key : SchedulingKey) (id : TaskID) (spec : TaskSpecification)
    (s : Submitter) (hspec : spec.task_id = id) (hn : (s.workIds key).Nodup) :
    List.Perm
      ((((s.withExecuting (Assoc.remove id s.executing_tasks)).touchEntry key).setEntry key
        { ((s.withExecuting (Assoc.remove id s.executing_tasks)).touchEntry key).entry key with
          task_queue := spec ::
            (((s.withExecuting (Assoc.remove id s.executing_tasks)).touchEntry key).entry
              key).task_queue }).workIds key)
      (s.workIds key ++
        if id ∈ s.executing_tasks.map Prod.fst then [] else [id]) := by
  have hkeys : (s.executing_tasks.map Prod.fst).Nodup := (List.nodup_append.mp hn).2.1
  simp only [Submitter.workIds]
  rw [Submitter.entry_setEntry, if_pos rfl, Submitter.entry_touchEntry]
  show List.Perm (List.map (fun t => t.task_id) (spec :: (s.entry key).task_queue)
    ++ List.map Prod.fst (Assoc.remove id s.executing_tasks)) _
  rw [Assoc.keys_remove, List.map_cons, hspec, List.cons_append]
  split_ifs with hmem
  · have hfe : List.filter (fun x => decide (x ≠ id)) (s.executing_tasks.map Prod.fst)
        = (s.executing_tasks.map Prod.fst).erase id := by
      rw [hkeys.erase_eq_filter]
      apply List.filter_congr
      intro x _
      by_cases hx : x = id <;> simp [hx]
    rw [List.append_nil, hfe]
    exact List.perm_middle.symm.trans
      (List.Perm.append_left _ (List.perm_cons_erase hmem).symm)
  · have hfilter : List.filter (fun x => decide (x ≠ id)) (s.executing_tasks.map Prod.fst)
        = s.executing_tasks.map Prod.fst := by
      rw [List.filter_eq_self]
      intro x hx
      simp only [decide_eq_true_eq]
      exact fun hxid => hmem (hxid ▸ hx)
    rw [hfilter]
    exact (List.perm_append_singleton _ _).symm

theorem perm_requeue (key : SchedulingKey)
    (stolen : List (TaskID × Option TaskSpecification)) :
    ∀ {s s2 : Submitter}, StealTasksOrReturnWorker.requeue key stolen s = some s2 →
      (∀ p ∈ stolen, ∀ spec, p.2 = some spec → spec.task_id = p.1) →
      (stolen.map Prod.fst).Nodup → (s.workIds key).Nodup →
      (∀ p ∈ stolen, p.1 ∉ (s.entry key).task_queue.map (fun t => t.task_id)) →
      List.Perm (s2.workIds key)
        (s.workIds key ++ (stolen.map Prod.fst).filter
          (fun id => decide (id ∉ s.executing_tasks.map Prod.fst))) := by
  induction stolen with
  | nil =>
    intro s s2 h _ _ _ _
    simp only [StealTasksOrReturnWorker.requeue, Option.some.injEq] at h
    subst h
    simp
  | cons p rest ih =>
    intro s s2 h hspecs hdistinct hn hnq
    obtain ⟨id, ospec⟩ := p
    cases ospec with
    | none => simp [StealTasksOrReturnWorker.requeue] at h
    | some spec =>
      simp only [StealTasksOrReturnWorker.requeue] at h
      have hspec : spec.task_id = id := hspecs (id, some spec) (List.mem_cons_self _ _) spec rfl
      have hone := perm_requeue_one key id spec s hspec hn
      simp only [List.map_cons, List.nodup_cons] at hdistinct
      have hidq : id ∉ (s.entry key).task_queue.map (fun t => t.task_id) :=
        hnq (id, some spec) (List.mem_cons_self _ _)
      have hn1 : (s.workIds key ++
          if id ∈ s.executing_tasks.map Prod.fst then [] else [id]).Nodup := by
        split_ifs with hmem
        · simpa using hn
        · rw [List.nodup_append]
          refine ⟨hn, List.nodup_singleton _, ?_⟩
          intro x hx hx'
          simp only [List.mem_singleton] at hx'
          subst hx'
          simp only [Submitter.workIds, List.mem_append] at hx
          rcases hx with hx | hx
          · exact hidq hx
          · exact hmem hx
      have hrec := ih h (fun q hq => hspecs q (List.mem_cons_of_mem _ hq)) hdistinct.2
        (hone.nodup_iff.mpr hn1) ?_
      · refine hrec.trans ?_
        have hfilter : List.filter (fun x => decide (x ∉ List.map Prod.fst
            (Assoc.remove id s.executing_tasks))) (rest.map Prod.fst)
            = List.filter (fun x => decide (x ∉ s.executing_tasks.map Prod.fst))
              (rest.map Prod.fst) := by
          apply List.filter_congr
          intro x hx
          have hxid : x ≠ id := fun hxid => hdistinct.1 (hxid ▸ hx)
          simp [Assoc.keys_remove, hxid]
        have hexec : ((((s.withExecuting (Assoc.remove id s.executing_tasks)).touchEntry
            key).setEntry key
              { ((s.withExecuting (Assoc.remove id s.executing_tasks)).touchEntry key).entry
                  key with
                task_queue := spec ::
                  (((s.withExecuting (Assoc.remove id s.executing_tasks)).touchEntry
                    key).entry key).task_queue }).executing_tasks)
            = Assoc.remove id s.executing_tasks := rfl
        rw [hexec, hfilter]
        refine (List.Perm.append_right _ hone).trans ?_
        rw [List.append_assoc, List.map_cons, List.filter_cons]
        refine List.Perm.append_left _ ?_
        by_cases hmem : id ∈ s.executing_tasks.map Prod.fst
        · simp [hmem]
        · simp [hmem]
      · intro q hq
        rw [Submitter.entry_setEntry, if_pos rfl, Submitter.entry_touchEntry]
        show q.1 ∉ List.map (fun t => t.task_id) (spec :: (s.entry key).task_queue)
        simp only [List.map_cons, List.mem_cons, not_or]
        refine ⟨?_, hnq q (List.mem_cons_of_mem _ hq)⟩
        rw [hspec]
        exact fun hqid => hdistinct.1 (hqid ▸ List.mem_map_of_mem Prod.fst hq)

/-- C10 (P3) as stated fails: the reply to the push of task 4 to the victim, answered
`task_stolen`, arrives before the steal reply and erases task 4 from `executing_tasks`; the
steal reply naming task 4 then requeues it and pushes it to the thief.  Before the steal
callback the queued-or-executing ids are 1, 2, 3; after it they are 1, 2, 3, 4. -/
theorem steal_reply_changes_work_ids :
    ∃ s1 s2, run (Scenario.config 4 1) Scenario.victimRepliedTrace Submitter.init = some s1 ∧
      Reachable (Scenario.config 4 1) s1 ∧
      (Event.StealReply 0 Status.OK [(4, some (Scenario.task 4))]).enabled s1 = true ∧
      step (Scenario.config 4 1) 0
        (Event.StealReply 0 Status.OK [(4, some (Scenario.task 4))]) s1 = some s2 ∧
      s1.workIds Scenario.key = [1, 2, 3] ∧ s2.workIds Scenario.key = [1, 2, 3, 4] ∧
      ¬ List.Perm (s2.workIds Scenario.key) (s1.workIds Scenario.key) := by
  have h : (run (Scenario.config 4 1) Scenario.victimRepliedTrace Submitter.init).any
      (fun s1 => decide
        ((Event.StealReply 0 Status.OK [(4, some (Scenario.task 4))]).enabled s1 = true ∧
          s1.workIds Scenario.key = [1, 2, 3] ∧
          (step (Scenario.config 4 1) 0
            (Event.StealReply 0 Status.OK [(4, some (Scenario.task 4))]) s1).any
            (fun s2 => decide (s2.workIds Scenario.key = [1, 2, 3, 4])) = true)) = true := by
    decide
  obtain ⟨s1, hrun, hreach, hp⟩ := run_witness h
  simp only [decide_eq_true_eq] at hp
  obtain ⟨h1, h2, h3⟩ := hp
  cases hstep : step (Scenario.config 4 1) 0
      (Event.StealReply 0 Status.OK [(4, some (Scenario.task 4))]) s1 with
  | none => rw [hstep] at h3; simp at h3
  | some s2 =>
    rw [hstep] at h3
    simp only [Option.any_some, decide_eq_true_eq] at h3
    refine ⟨s1, s2, hrun, hreach, h1, hstep, h2, h3, ?_⟩
    intro hperm
    have := hperm.length_eq
    rw [h2, h3] at this
    cases this

/-- C10 (P3), the amended claim: when a steal reply is processed in a state whose queued
and executing task ids are pairwise distinct, with stolen ids that are distinct, not
queued, and for which the finisher returns the task of that id, the queued-or-executing
ids after the callback (the `OnWorkerIdle` it triggers included) are those before it plus
the stolen ids that were no longer recorded in `executing_tasks`.  When every stolen id is
still recorded as executing, the multiset is unchanged. -/
theorem steal_reply_keeps_work (cfg : Config) (now : Nat) (ctx : StealContext)
    (status : Status) (stolen : List (TaskID × Option TaskSpecification)) (s s' : Submitter)
    (h_reply : StealTasksOrReturnWorker.reply cfg now ctx status stolen s = some s')
    (h_specs : ∀ p ∈ stolen, ∀ spec, p.2 = some spec → spec.task_id = p.1)
    (h_distinct : (stolen.map Prod.fst).Nodup)
    (h_nodup : (s.workIds ctx.scheduling_key).Nodup)
    (h_not_queued : ∀ p ∈ stolen,
      p.1 ∉ (s.entry ctx.scheduling_key).task_queue.map (fun t => t.task_id)) :
    List.Perm (s'.workIds ctx.scheduling_key)
      (s.workIds ctx.scheduling_key ++ (stolen.map Prod.fst).filter
        (fun id => decide (id ∉ s.executing_tasks.map Prod.fst))) ∧
    ((∀ p ∈ stolen, p.1 ∈ s.executing_tasks.map Prod.fst) →
      List.Perm (s'.workIds ctx.scheduling_key) (s.workIds ctx.scheduling_key)) := by
  obtain ⟨thief_entry, -, -, s2, h2, h3⟩ := stealReply_inv h_reply
  have h0 := Submitter.workIds_eq (Submitter.sameTasks_setLease s ctx.thief_addr
    { thief_entry with is_stealing := false }) ctx.scheduling_key
  have hperm2 := perm_requeue ctx.scheduling_key stolen h2 h_specs h_distinct
    (by rw [h0]; exact h_nodup) h_not_queued
  rw [h0] at hperm2
  have hexec : (s.setLease ctx.thief_addr
      { thief_entry with is_stealing := false }).executing_tasks = s.executing_tasks := rfl
  rw [hexec] at hperm2
  have hall : (∀ p ∈ stolen, p.1 ∈ s.executing_tasks.map Prod.fst) →
      (stolen.map Prod.fst).filter
        (fun id => decide (id ∉ s.executing_tasks.map Prod.fst)) = [] := by
    intro hin
    rw [List.filter_eq_nil_iff]
    intro x hx
    obtain ⟨p, hp, rfl⟩ := List.mem_map.mp hx
    simpa using hin p hp
  have hn2 : (s2.workIds ctx.scheduling_key).Nodup := by
    rw [hperm2.nodup_iff, List.nodup_append]
    refine ⟨h_nodup, h_distinct.filter _, ?_⟩
    intro x hx hx'
    simp only [List.mem_filter, decide_eq_true_eq] at hx'
    obtain ⟨p, hp, rfl⟩ := List.mem_map.mp hx'.1
    simp only [Submitter.workIds, List.mem_append] at hx
    rcases hx with hx | hx
    · exact h_not_queued p hp hx
    · exact hx'.2 hx
  have hperm := (perm_OnWorkerIdle hn2 h3).trans hperm2
  refine ⟨hperm, fun hin => ?_⟩
  rw [hall hin, List.append_nil] at hperm
  exact hperm

theorem steal_reply_keeps_work_witness :
    Scenario.stealing.workIds Scenario.key = [1, 2, 3, 4] ∧
      List.Perm (Scenario.stolen.workIds Scenario.key)
        (Scenario.stealing.workIds Scenario.key) :=
  ⟨by decide,
    (steal_reply_keeps_work (Scenario.config 4 1) 0 Scenario.stealContext Status.OK
      [(4, some (Scenario.task 4))] Scenario.stealing Scenario.stolen (by decide)
      (by decide) (by decide) (by decide) (by decide)).2 (by decide)⟩

/-! ### The steal callback requeues the stolen tasks -/

/-- C11, the amended claim: when every stolen task id of a steal reply is known to the
finisher, the loop of lines 294-311 returns, and the queue immediately after it is the
stolen tasks in the reverse of their order in the reply, followed by the queue as it was:
each task is pushed to the front in turn, so the last stolen task of the reply ends up
first. -/
theorem requeue_puts_stolen_tasks_in_front_reversed (key : SchedulingKey)
    (stolen : List (TaskID × Option TaskSpecification)) (s : Submitter)
    (h_known : ∀ p ∈ stolen, p.2.isSome = true) :
    ∃ s2, StealTasksOrReturnWorker.requeue key stolen s = some s2 ∧
      (s2.entry key).task_queue
        = (stolen.filterMap Prod.snd).reverse ++ (s.entry key).task_queue := by
  induction stolen generalizing s with
  | nil => exact ⟨s, rfl, by simp⟩
  | cons p rest ih =>
    obtain ⟨id, ospec⟩ := p
    cases ospec with
    | none =>
      have := h_known (id, none) (List.mem_cons_self _ _)
      simp at this
    | some spec =>
      obtain ⟨s2, h2, hq⟩ := ih
        (((s.withExecuting (Assoc.remove id s.executing_tasks)).touchEntry key).setEntry key
          { ((s.withExecuting (Assoc.remove id s.executing_tasks)).touchEntry key).entry
              key with
            task_queue := spec ::
              (((s.withExecuting (Assoc.remove id s.executing_tasks)).touchEntry key).entry
                key).task_queue })
        (fun q hq => h_known q (List.mem_cons_of_mem _ hq))
      refine ⟨s2, ?_, ?_⟩
      · simp only [StealTasksOrReturnWorker.requeue]
        exact h2
      · rw [hq, Submitter.entry_setEntry, if_pos rfl, Submitter.entry_touchEntry]
        show _ ++ spec :: (s.entry key).task_queue = _
        simp

theorem requeue_puts_stolen_tasks_in_front_reversed_witness :
    ∃ s2, StealTasksOrReturnWorker.requeue Scenario.key
        [(3, some (Scenario.task 3)), (4, some (Scenario.task 4))] Scenario.stealing
          = some s2 ∧
      (s2.entry Scenario.key).task_queue
        = ([(3, some (Scenario.task 3)), (4, some (Scenario.task 4))].filterMap
            Prod.snd).reverse ++ (Scenario.stealing.entry Scenario.key).task_queue :=
  requeue_puts_stolen_tasks_in_front_reversed Scenario.key
    [(3, some (Scenario.task 3)), (4, some (Scenario.task 4))] Scenario.stealing
    (by decide)

/-- C11 as stated fails: a steal reply that lists task 3 and then task 4 leaves the queue
as task 4, task 3, not as task 3, task 4. -/
theorem requeue_reverses_stolen_tasks :
    ∃ s2, StealTasksOrReturnWorker.requeue Scenario.key
        [(3, some (Scenario.task 3)), (4, some (Scenario.task 4))] Scenario.stealing
          = some s2 ∧
      Reachable (Scenario.config 4 1) Scenario.stealing ∧
      (Scenario.stealing.entry Scenario.key).task_queue = [] ∧
      (s2.entry Scenario.key).task_queue = [Scenario.task 4, Scenario.task 3] ∧
      (s2.entry Scenario.key).task_queue
        ≠ [Scenario.task 3, Scenario.task 4]
          ++ (Scenario.stealing.entry Scenario.key).task_queue := by
  have h : (StealTasksOrReturnWorker.requeue Scenario.key
      [(3, some (Scenario.task 3)), (4, some (Scenario.task 4))] Scenario.stealing).any
      (fun s2 => decide ((s2.entry Scenario.key).task_queue
        = [Scenario.task 4, Scenario.task 3])) = true := by decide
  cases hr : StealTasksOrReturnWorker.requeue Scenario.key
      [(3, some (Scenario.task 3)), (4, some (Scenario.task 4))] Scenario.stealing with
  | none => rw [hr] at h; simp at h
  | some s2 =>
    rw [hr] at h
    simp only [Option.any_some, decide_eq_true_eq] at h
    have hq : (Scenario.stealing.entry Scenario.key).task_queue = [] := by decide
    have hreach : Reachable (Scenario.config 4 1) Scenario.stealing := by
      have h1 : Reachable (Scenario.config 4 1) Scenario.fourPipelined :=
        reachable_getD_run _ _
      cases hstep : step (Scenario.config 4 1) 0
          (Event.LeaseReply 0 Status.OK (Scenario.grant (Scenario.worker 12)))
          Scenario.fourPipelined with
      | none =>
        have : Scenario.stealing = Submitter.init := by
          simp only [Scenario.stealing, hstep, Option.getD_none]
        rw [this]
        exact Reachable.init
      | some s1 =>
        have : Scenario.stealing = s1 := by
          simp only [Scenario.stealing, hstep, Option.getD_some]
        rw [this]
        exact Reachable.step 0 _ _ _ h1 (by decide) hstep
    refine ⟨s2, rfl, hreach, hq, h, ?_⟩
    rw [h, hq]
    decide

/-! ### Which calls a function makes -/

namespace Submitter

theorem CallsOnly.callsRefl (p : Call → Bool) (s : Submitter) : CallsOnly p s s :=
  ⟨[], by simp, by simp⟩

theorem CallsOnly.callsTrans {p : Call → Bool} {s1 s2 s3 : Submitter}
    (h12 : CallsOnly p s1 s2) (h23 : CallsOnly p s2 s3) : CallsOnly p s1 s3 := by
  obtain ⟨c1, h1, hp1⟩ := h12
  obtain ⟨c2, h2, hp2⟩ := h23
  refine ⟨c1 ++ c2, by rw [h2, h1, List.append_assoc], ?_⟩
  intro c hc
  rcases List.mem_append.mp hc with hc | hc
  · exact hp1 c hc
  · exact hp2 c hc

theorem callsOnly_of_calls_eq (p : Call → Bool) {s t : Submitter} (h : t.calls = s.calls) :
    CallsOnly p s t :=
  ⟨[], by simp [h], by simp⟩

theorem callsOnly_call {p : Call → Bool} (s : Submitter) (c : Call) (h : p c = true) :
    CallsOnly p s (s.call c) :=
  ⟨[c], rfl, by simpa using h⟩

theorem CallsOnly.filter_eq {p q : Call → Bool} {s t : Submitter} (h : CallsOnly p s t)
    (hq : ∀ c, p c = true → q c = false) : t.calls.filter q = s.calls.filter q := by
  obtain ⟨cs, hcs, hp⟩ := h
  rw [hcs, List.filter_append]
  have : cs.filter q = [] := by
    rw [List.filter_eq_nil_iff]
    intro c hc
    simp [hq c (hp c hc)]
  rw [this, List.append_nil]

theorem CallsOnly.count_eq {p : Call → Bool} {s t : Submitter} (h : CallsOnly p s t)
    (c : Call) (hc : p c = false) : t.calls.count c = s.calls.count c := by
  obtain ⟨cs, hcs, hp⟩ := h
  rw [hcs, List.count_append]
  have : cs.count c = 0 := by
    rw [List.count_eq_zero]
    intro hmem
    rw [hp c hmem] at hc
    cases hc
  rw [this, Nat.add_zero]

end Submitter

theorem callsOnly_GetOrConnectLeaseClient (p : Call → Bool) (cfg : Config)
    (addr : WorkerAddress) (s : Submitter) :
    Submitter.CallsOnly p s (GetOrConnectLeaseClient cfg addr s).1 :=
  Submitter.callsOnly_of_calls_eq p rfl

theorem callsOnly_cancelAll (cfg : Config) (key : SchedulingKey)
    (l : List (TaskID × WorkerAddress)) :
    ∀ s : Submitter, Submitter.CallsOnly Call.isScheduling s
      (CancelWorkerLeaseIfNeeded.cancelAll cfg key l s) := by
  induction l with
  | nil => intro s; exact Submitter.CallsOnly.callsRefl _ s
  | cons p rest ih =>
    intro s
    obtain ⟨id, addr⟩ := p
    simp only [CancelWorkerLeaseIfNeeded.cancelAll]
    refine Submitter.CallsOnly.callsTrans ?_ (ih _)
    refine Submitter.CallsOnly.callsTrans ?_ (Submitter.callsOnly_of_calls_eq _
      (s := (GetOrConnectLeaseClient cfg addr s).1.call _) rfl)
    exact (callsOnly_GetOrConnectLeaseClient _ cfg addr s).callsTrans
      (Submitter.callsOnly_call _ _ rfl)

theorem callsOnly_CancelWorkerLeaseIfNeeded (cfg : Config) (key : SchedulingKey)
    (s : Submitter) :
    Submitter.CallsOnly Call.isScheduling s (CancelWorkerLeaseIfNeeded cfg key s) := by
  unfold CancelWorkerLeaseIfNeeded
  simp only []
  split_ifs
  · exact Submitter.callsOnly_of_calls_eq _ rfl
  · exact (Submitter.callsOnly_of_calls_eq _ rfl).callsTrans (callsOnly_cancelAll cfg key _ _)

theorem callsOnly_ReportWorkerBacklogInternal (cfg : Config) (s : Submitter) :
    Submitter.CallsOnly Call.isScheduling s (ReportWorkerBacklogInternal cfg s) :=
  ⟨[_], rfl, by simp [Call.isScheduling]⟩

theorem callsOnly_ReportWorkerBacklogIfNeeded (cfg : Config) (key : SchedulingKey)
    (s : Submitter) :
    Submitter.CallsOnly Call.isScheduling s (ReportWorkerBacklogIfNeeded cfg key s) := by
  unfold ReportWorkerBacklogIfNeeded
  simp only []
  split_ifs
  · exact (Submitter.callsOnly_of_calls_eq _ rfl).callsTrans
      (callsOnly_ReportWorkerBacklogInternal cfg _)
  · exact Submitter.callsOnly_of_calls_eq _ rfl

theorem callsOnly_RequestNewWorkerIfNeeded {cfg : Config} {key : SchedulingKey}
    {raylet_address : Option WorkerAddress} {s s' : Submitter}
    (h : RequestNewWorkerIfNeeded cfg key raylet_address s = some s') :
    Submitter.CallsOnly Call.isScheduling s s' := by
  unfold RequestNewWorkerIfNeeded at h
  simp only [] at h
  split_ifs at h <;> simp only [Option.some.injEq] at h <;> subst h
  · exact Submitter.callsOnly_of_calls_eq _ rfl
  · exact Submitter.callsOnly_of_calls_eq _ rfl
  · exact Submitter.callsOnly_of_calls_eq _ rfl
  · exact Submitter.callsOnly_of_calls_eq _ rfl
  · refine Submitter.CallsOnly.callsTrans ?_ (callsOnly_ReportWorkerBacklogIfNeeded cfg key _)
    exact ⟨[_], rfl, by simp [Call.isScheduling]⟩

theorem callsOnly_ReturnWorker {addr : WorkerAddress} {was_error : Bool}
    {key : SchedulingKey} {s s' : Submitter}
    (h : ReturnWorker addr was_error key s = some s') :
    Submitter.CallsOnly Call.isScheduling s s' := by
  obtain ⟨l, client, -, -, -, -, -, rfl⟩ := ReturnWorker_inv h
  exact ⟨[_], rfl, by simp [Call.isScheduling]⟩

theorem callsOnly_FindOptimalVictimForStealing (p : Call → Bool) {key : SchedulingKey}
    {thief victim0 : WorkerAddress} {s s' : Submitter} {found : Bool} {victim : WorkerAddress}
    (h : FindOptimalVictimForStealing key thief victim0 s = some (s', found, victim)) :
    Submitter.CallsOnly p s s' := by
  obtain ⟨leases, rfl, -⟩ := FindOptimalVictimForStealing_inv h
  exact Submitter.callsOnly_of_calls_eq p rfl

theorem callsOnly_StealTasksOrReturnWorker {cfg : Config} {now : Nat}
    {thief_addr : WorkerAddress} {was_error : Bool} {key : SchedulingKey} {s s' : Submitter}
    (h : StealTasksOrReturnWorker cfg now thief_addr was_error key s = some s') :
    Submitter.CallsOnly Call.isScheduling s s' := by
  obtain ⟨l, client, -, -, -, -, hcase⟩ := StealTasksOrReturnWorker_inv h
  rcases hcase with hr | ⟨s2, v, hfind, hr⟩ | ⟨s2, v, hfind, rfl⟩
  · exact callsOnly_ReturnWorker hr
  · refine (callsOnly_FindOptimalVictimForStealing _ hfind).callsTrans
      (Submitter.CallsOnly.callsTrans ?_ (callsOnly_ReturnWorker hr))
    split_ifs
    · exact callsOnly_CancelWorkerLeaseIfNeeded cfg key s2
    · exact Submitter.CallsOnly.callsRefl _ s2
  · refine (callsOnly_FindOptimalVictimForStealing _ hfind).callsTrans ?_
    exact ⟨[_], rfl, by simp [Call.isScheduling]⟩

theorem callsOnly_pushFront (addr : WorkerAddress) (key : SchedulingKey) (res : Resources)
    (t : TaskSpecification) (s : Submitter) :
    Submitter.CallsOnly Call.isScheduling s (OnWorkerIdle.pushFront addr key res t s) :=
  ⟨[_], rfl, by simp [Call.isScheduling]⟩

theorem callsOnly_pipeline (cfg : Config) (addr : WorkerAddress) (key : SchedulingKey)
    (res : Resources) (fuel : Nat) :
    ∀ {s s' : Submitter}, OnWorkerIdle.pipeline cfg addr key res fuel s = some s' →
      Submitter.CallsOnly Call.isScheduling s s' := by
  induction fuel with
  | zero =>
    intro s s' h
    simp only [OnWorkerIdle.pipeline, Option.some.injEq] at h
    exact h ▸ Submitter.CallsOnly.callsRefl _ s
  | succ n ih =>
    intro s s' h
    simp only [OnWorkerIdle.pipeline] at h
    split at h
    · simp only [Option.some.injEq] at h
      exact h ▸ Submitter.CallsOnly.callsRefl _ s
    · split at h
      · simp only [Option.some.injEq] at h
        exact h ▸ Submitter.CallsOnly.callsRefl _ s
      · split at h
        · cases h
        · exact (callsOnly_pushFront addr key res _ s).callsTrans (ih h)

theorem callsOnly_OnWorkerIdle {cfg : Config} {now : Nat} {addr : WorkerAddress}
    {key : SchedulingKey} {was_error : Bool} {res : Resources} {s s' : Submitter}
    (h : OnWorkerIdle cfg now addr key was_error res s = some s') :
    Submitter.CallsOnly Call.isScheduling s s' := by
  rcases OnWorkerIdle_inv h with ⟨-, rfl⟩ | ⟨l, client, -, -, hcase⟩
  · exact Submitter.callsOnly_of_calls_eq _ rfl
  · rcases hcase with ⟨-, s2, h2, h3⟩ | ⟨-, s3, h2, h3⟩
    · refine Submitter.CallsOnly.callsTrans ?_ (callsOnly_RequestNewWorkerIfNeeded h3)
      split_ifs at h2
      · refine Submitter.CallsOnly.callsTrans ?_ (callsOnly_StealTasksOrReturnWorker h2)
        exact Submitter.callsOnly_of_calls_eq _ rfl
      · simp only [Option.some.injEq] at h2
        exact h2 ▸ Submitter.callsOnly_of_calls_eq _ rfl
    · refine Submitter.CallsOnly.callsTrans ?_ (callsOnly_RequestNewWorkerIfNeeded h3)
      refine Submitter.CallsOnly.callsTrans
        (Submitter.CallsOnly.callsTrans ?_ (callsOnly_pipeline cfg addr key res _ h2)) ?_
      · exact Submitter.callsOnly_of_calls_eq _ rfl
      · split_ifs
        · exact callsOnly_CancelWorkerLeaseIfNeeded cfg key s3
        · exact Submitter.CallsOnly.callsRefl _ s3

/-! ### What the finisher is told about a push reply -/

theorem finish_calls (ctx : PushContext) (status : Status) (reply : PushTaskReply)
    (retry_possible : Bool) (s : Submitter) :
    (PushNormalTask.finish ctx status reply retry_possible s).calls
      = s.calls ++ PushNormalTask.outcome ctx status reply retry_possible := by
  unfold PushNormalTask.finish PushNormalTask.outcome
  cases hst : status.ok <;> cases hre : ctx.task_spec.retry_exceptions <;>
    cases happ : reply.is_application_level_error <;> cases retry_possible <;>
    simp [Submitter.call]

theorem isFinisher_of_isScheduling (c : Call) (h : c.isScheduling = true) :
    c.isFinisher = false := by
  cases c <;> simp [Call.isScheduling, Call.isFinisher] at h ⊢

theorem outcome_isFinisher (ctx : PushContext) (status : Status) (reply : PushTaskReply)
    (retry_possible : Bool) :
    (PushNormalTask.outcome ctx status reply retry_possible).filter Call.isFinisher
      = PushNormalTask.outcome ctx status reply retry_possible := by
  unfold PushNormalTask.outcome
  split_ifs <;> simp [Call.isFinisher]

/-- C15, the amended claim: a push reply whose callback passes its checks adds to what the
finisher was told exactly the outcome of lines 735-750 (an error status gives
`FailOrRetryPendingTask` with `ACTOR_DIED` or `WORKER_DIED`; OK gives `CompletePendingTask`
unless the retry of an application-level error is taken), except when the reply says
`task_stolen` without `worker_exiting`: then the callback returns at line 728 and the
finisher is told nothing. -/
theorem push_reply_finisher_outcome (cfg : Config) (now : Nat) (ctx : PushContext)
    (status : Status) (reply : PushTaskReply) (retry_possible : Bool) (s s' : Submitter)
    (h_reply : PushNormalTask.reply cfg now ctx status reply retry_possible s = some s') :
    s'.calls.filter Call.isFinisher = s.calls.filter Call.isFinisher ++
      (if reply.worker_exiting = false ∧ reply.task_stolen = true then []
        else PushNormalTask.outcome ctx status reply retry_possible) := by
  obtain ⟨-, -, -, hcase⟩ := pushReply_inv h_reply
  have hsettle : (PushNormalTask.settle ctx s).calls = s.calls := rfl
  rcases hcase with ⟨hex, rfl⟩ | ⟨hex, hst, rfl⟩ | ⟨hex, hst, s6, h6, rfl⟩ | ⟨hex, hst, rfl⟩
  · have hw : (PushNormalTask.workerExiting ctx (PushNormalTask.settle ctx s)).calls
        = s.calls := rfl
    rw [finish_calls, hw, List.filter_append, outcome_isFinisher, if_neg]
    simp [hex]
  · rw [hsettle, if_pos ⟨hex, hst⟩, List.append_nil]
  · have h6f := (callsOnly_OnWorkerIdle h6).filter_eq isFinisher_of_isScheduling
    rw [finish_calls, List.filter_append, outcome_isFinisher, h6f, hsettle, if_neg]
    simp [hst]
  · rw [finish_calls, hsettle, List.filter_append, outcome_isFinisher, if_neg]
    simp [hst]

theorem push_reply_finisher_outcome_witness :
    Scenario.pipelined.pushes.get? 0 = some Scenario.pushOfTask1 ∧
      PushNormalTask.outcome Scenario.pushOfTask1 Status.OK Scenario.okReply false
        = [Call.CompletePendingTask 1] ∧
      Scenario.completed.calls.filter Call.isFinisher
        = Scenario.pipelined.calls.filter Call.isFinisher ++
          (if Scenario.okReply.worker_exiting = false ∧ Scenario.okReply.task_stolen = true
            then []
            else PushNormalTask.outcome Scenario.pushOfTask1 Status.OK Scenario.okReply
              false) :=
  ⟨by decide, by decide,
    push_reply_finisher_outcome (Scenario.config 2 1) 0 Scenario.pushOfTask1 Status.OK
      Scenario.okReply false Scenario.pipelined Scenario.completed (by decide)⟩

/-- C15 as stated fails: the reply to the push of task 4, with status OK and no
application-level error, says the task was stolen; the callback returns at line 728 and
makes no call at all, so `CompletePendingTask` is not called. -/
theorem stolen_push_reply_tells_finisher_nothing :
    ∃ s1 s2, run (Scenario.config 4 1) Scenario.stealingTrace Submitter.init = some s1 ∧
      Reachable (Scenario.config 4 1) s1 ∧
      (s1.pushes.get? 3).map (fun c => (c.task_id, c.task_spec.retry_exceptions))
        = some (4, false) ∧
      (Event.PushReply 3 Status.OK Scenario.stolenReply false).enabled s1 = true ∧
      step (Scenario.config 4 1) 0 (Event.PushReply 3 Status.OK Scenario.stolenReply false) s1
        = some s2 ∧
      s2.calls = s1.calls ∧ Call.CompletePendingTask 4 ∉ s2.calls := by
  have h : (run (Scenario.config 4 1) Scenario.stealingTrace Submitter.init).any
      (fun s1 => decide
        ((s1.pushes.get? 3).map (fun c => (c.task_id, c.task_spec.retry_exceptions))
            = some (4, false) ∧
          (Event.PushReply 3 Status.OK Scenario.stolenReply false).enabled s1 = true ∧
          (step (Scenario.config 4 1) 0
            (Event.PushReply 3 Status.OK Scenario.stolenReply false) s1).any
            (fun s2 => decide (s2.calls = s1.calls ∧ Call.CompletePendingTask 4 ∉ s2.calls))
              = true)) = true := by
    decide
  obtain ⟨s1, hrun, hreach, hp⟩ := run_witness h
  simp only [decide_eq_true_eq] at hp
  obtain ⟨h1, h2, h3⟩ := hp
  cases hstep : step (Scenario.config 4 1) 0
      (Event.PushReply 3 Status.OK Scenario.stolenReply false) s1 with
  | none => rw [hstep] at h3; simp at h3
  | some s2 =>
    rw [hstep] at h3
    simp only [Option.any_some, decide_eq_true_eq] at h3
    exact ⟨s1, s2, hrun, hreach, h1, h2, hstep, h3.1, h3.2⟩

/-! ### Cancelling a task -/

namespace Submitter

theorem cancelNotices_call (s : Submitter) (c : Call) (id : TaskID) :
    (s.call c).cancelNotices id = s.cancelNotices id +
      (if c = Call.FailOrRetryPendingTask id ErrorType.TASK_CANCELLED then 1 else 0) := by
  simp only [cancelNotices, call, List.count_append, List.count_singleton]
  by_cases h : c = Call.FailOrRetryPendingTask id ErrorType.TASK_CANCELLED
  · simp [h]
  · simp [h]

theorem cancelNotices_eq {s t : Submitter} (h : CallsOnly Call.isScheduling s t)
    (id : TaskID) : t.cancelNotices id = s.cancelNotices id :=
  h.count_eq _ rfl

theorem cancelRpcs_eq {s t : Submitter} (h : CallsOnly Call.isScheduling s t) :
    t.cancelRpcs = s.cancelRpcs := by
  refine h.filter_eq ?_
  intro c hc
  cases c <;> simp [Call.isScheduling] at hc ⊢

end Submitter

theorem cancelAll_task_cancels (cfg : Config) (key : SchedulingKey)
    (l : List (TaskID × WorkerAddress)) :
    ∀ s : Submitter, (CancelWorkerLeaseIfNeeded.cancelAll cfg key l s).task_cancels
      = s.task_cancels := by
  induction l with
  | nil => intro s; rfl
  | cons p rest ih =>
    intro s
    obtain ⟨id, addr⟩ := p
    simp only [CancelWorkerLeaseIfNeeded.cancelAll]
    rw [ih]
    rfl

theorem CancelWorkerLeaseIfNeeded_task_cancels (cfg : Config) (key : SchedulingKey)
    (s : Submitter) : (CancelWorkerLeaseIfNeeded cfg key s).task_cancels = s.task_cancels := by
  unfold CancelWorkerLeaseIfNeeded
  simp only []
  split_ifs
  · rfl
  · rw [cancelAll_task_cancels]
    rfl

theorem CancelTask_of_cancelled (cfg : Config) (task_spec : TaskSpecification)
    (force_kill recursive mark : Bool) (s : Submitter)
    (h : task_spec.task_id ∈ s.cancelled_tasks) :
    CancelTask cfg task_spec force_kill recursive mark s = (s, Status.OK) := by
  unfold CancelTask
  simp only []
  rw [if_pos h]

theorem CancelTask_of_unmarked (cfg : Config) (task_spec : TaskSpecification)
    (force_kill recursive : Bool) (s : Submitter)
    (h : task_spec.task_id ∉ s.cancelled_tasks) :
    CancelTask cfg task_spec force_kill recursive false s
      = (s.call (Call.MarkTaskCanceled task_spec.task_id), Status.OK) := by
  unfold CancelTask
  simp only []
  rw [if_neg h]
  rfl

theorem CancelTask_of_queued (cfg : Config) (task_spec : TaskSpecification)
    (force_kill recursive : Bool) (s : Submitter)
    (h : task_spec.task_id ∉ s.cancelled_tasks)
    (hq : (s.entry task_spec.schedulingKey).task_queue.any
      (fun spec => decide (spec.task_id = task_spec.task_id)) = true) :
    ∃ s3 : Submitter, CancelTask cfg task_spec force_kill recursive true s
        = (s3.call (Call.FailOrRetryPendingTask task_spec.task_id ErrorType.TASK_CANCELLED),
            Status.OK) ∧
      s3.task_cancels = s.task_cancels ∧ s3.work = s.work ∧
      (∀ key, (s3.entry key).task_queue =
        if task_spec.schedulingKey = key then
          (s.entry key).task_queue.eraseP
            (fun spec => decide (spec.task_id = task_spec.task_id))
        else (s.entry key).task_queue) ∧
      (∀ id, s3.cancelNotices id = s.cancelNotices id) ∧ s3.cancelRpcs = s.cancelRpcs := by
  have he : ((s.call (Call.MarkTaskCanceled task_spec.task_id)).touchEntry
      task_spec.schedulingKey).entry task_spec.schedulingKey
      = s.entry task_spec.schedulingKey := by
    rw [Submitter.entry_touchEntry]
    rfl
  have hq' : (((s.call (Call.MarkTaskCanceled task_spec.task_id)).touchEntry
      task_spec.schedulingKey).entry task_spec.schedulingKey).task_queue.any
      (fun spec => decide (spec.task_id = task_spec.task_id)) = true := by
    rw [he]
    exact hq
  have hqueue : ∀ key, ((((s.call (Call.MarkTaskCanceled task_spec.task_id)).touchEntry
      task_spec.schedulingKey).setEntry task_spec.schedulingKey
        { ((s.call (Call.MarkTaskCanceled task_spec.task_id)).touchEntry
            task_spec.schedulingKey).entry task_spec.schedulingKey with
          task_queue := (((s.call (Call.MarkTaskCanceled task_spec.task_id)).touchEntry
            task_spec.schedulingKey).entry task_spec.schedulingKey).task_queue.eraseP
              (fun spec => decide (spec.task_id = task_spec.task_id)) }).entry key).task_queue
      = if task_spec.schedulingKey = key then
          (s.entry key).task_queue.eraseP
            (fun spec => decide (spec.task_id = task_spec.task_id))
        else (s.entry key).task_queue := by
    intro key
    rw [Submitter.entry_setEntry]
    split_ifs with hk
    · subst hk
      show List.eraseP _ (_ : SchedulingKeyEntry).task_queue = _
      rw [he]
    · rw [Submitter.entry_touchEntry]
      rfl
  have hnote : ∀ id, (s.call (Call.MarkTaskCanceled task_spec.task_id)).cancelNotices id
      = s.cancelNotices id := by
    intro id
    rw [Submitter.cancelNotices_call]
    simp
  have hrpc : (s.call (Call.MarkTaskCanceled task_spec.task_id)).cancelRpcs = s.cancelRpcs := by
    simp [Submitter.cancelRpcs, Submitter.call, List.filter_append]
  have hwork : (s.call (Call.MarkTaskCanceled task_spec.task_id)).work = s.work := by
    simp only [Submitter.work, Submitter.pushed_call, List.append_nil]
    rfl
  unfold CancelTask
  simp only []
  rw [if_neg h]
  simp only [Bool.not_true, Bool.false_eq_true, if_false]
  rw [if_pos hq']
  split_ifs
  · refine ⟨_, rfl, ?_, ?_, ?_, ?_, ?_⟩
    · exact (CancelWorkerLeaseIfNeeded_task_cancels cfg _ _).trans rfl
    · exact (quiet_CancelWorkerLeaseIfNeeded cfg _ _).work.trans (Eq.trans rfl hwork)
    · exact fun key => ((quiet_CancelWorkerLeaseIfNeeded cfg _ _).queue key).trans (hqueue key)
    · exact fun id => (Submitter.cancelNotices_eq
        (callsOnly_CancelWorkerLeaseIfNeeded cfg _ _) id).trans (hnote id)
    · exact (Submitter.cancelRpcs_eq (callsOnly_CancelWorkerLeaseIfNeeded cfg _ _)).trans hrpc
  · exact ⟨_, rfl, rfl, Eq.trans rfl hwork, hqueue, hnote, hrpc⟩

theorem CancelTask_of_not_queued (cfg : Config) (task_spec : TaskSpecification)
    (force_kill recursive : Bool) (s : Submitter)
    (h : task_spec.task_id ∉ s.cancelled_tasks)
    (hq : (s.entry task_spec.schedulingKey).task_queue.any
      (fun spec => decide (spec.task_id = task_spec.task_id)) = false) :
    ∃ r, CancelTask cfg task_spec force_kill recursive true s = (r, Status.OK) ∧
      r.cancelled_tasks = s.cancelled_tasks ++ [task_spec.task_id] ∧
      r.executing_tasks = s.executing_tasks ∧
      (∀ key, (r.entry key).task_queue = (s.entry key).task_queue) ∧
      (∀ id, r.cancelNotices id = s.cancelNotices id) ∧
      (Assoc.lookup task_spec.task_id s.executing_tasks = none →
        r.calls = s.calls ++ [Call.MarkTaskCanceled task_spec.task_id] ∧
        r.task_cancels = s.task_cancels) := by
  have he : ((s.call (Call.MarkTaskCanceled task_spec.task_id)).touchEntry
      task_spec.schedulingKey).entry task_spec.schedulingKey
      = s.entry task_spec.schedulingKey := by
    rw [Submitter.entry_touchEntry]
    rfl
  have hq' : ¬ ((((s.call (Call.MarkTaskCanceled task_spec.task_id)).touchEntry
      task_spec.schedulingKey).entry task_spec.schedulingKey).task_queue.any
      (fun spec => decide (spec.task_id = task_spec.task_id)) = true) := by
    rw [he, hq]
    exact Bool.false_ne_true
  have hqueue : ∀ key, ((((s.call (Call.MarkTaskCanceled task_spec.task_id)).touchEntry
      task_spec.schedulingKey).withCancelled
        (((s.call (Call.MarkTaskCanceled task_spec.task_id)).touchEntry
          task_spec.schedulingKey).cancelled_tasks ++ [task_spec.task_id])).entry
            key).task_queue = (s.entry key).task_queue := by
    intro key
    show (((s.call (Call.MarkTaskCanceled task_spec.task_id)).touchEntry
      task_spec.schedulingKey).entry key).task_queue = _
    rw [Submitter.entry_touchEntry]
    rfl
  have hnote : ∀ id, (s.call (Call.MarkTaskCanceled task_spec.task_id)).cancelNotices id
      = s.cancelNotices id := by
    intro id
    rw [Submitter.cancelNotices_call]
    simp
  unfold CancelTask
  simp only []
  rw [if_neg h]
  simp only [Bool.not_true, Bool.false_eq_true, if_false]
  rw [if_neg hq']
  split
  · rename_i hnone
    refine ⟨_, rfl, rfl, rfl, fun key => ?_, hnote, fun _ => ⟨rfl, rfl⟩⟩
    rw [(Submitter.quiet_eraseEntryIfCanDelete _ _).queue key]
    exact hqueue key
  · rename_i addr hsome
    have hexec : Assoc.lookup task_spec.task_id s.executing_tasks = some addr := hsome
    split
    · refine ⟨_, rfl, rfl, rfl, hqueue, hnote, fun hnone => ?_⟩
      rw [hexec] at hnone
      cases hnone
    · refine ⟨_, rfl, rfl, rfl, hqueue, fun id => ?_, fun hnone => ?_⟩
      · show ((s.call (Call.MarkTaskCanceled task_spec.task_id)).call _).cancelNotices id = _
        rw [Submitter.cancelNotices_call, hnote]
        simp
      · rw [hexec] at hnone
        cases hnone

theorem any_eraseP_of_countP_le_one {α : Type} (p : α → Bool) (l : List α)
    (h : l.countP p ≤ 1) : (l.eraseP p).any p = false := by
  induction l with
  | nil => rfl
  | cons a rest ih =>
    by_cases hp : p a = true
    · rw [List.eraseP_cons_of_pos hp]
      rw [List.countP_cons_of_pos _ _ hp] at h
      have h0 : rest.countP p = 0 := by omega
      rw [List.countP_eq_zero] at h0
      rw [List.any_eq_false]
      exact h0
    · rw [List.eraseP_cons_of_neg hp, List.any_cons]
      rw [List.countP_cons_of_neg _ _ hp] at h
      simp [hp, ih h]

theorem CancelTask_notices (cfg : Config) (task_spec : TaskSpecification)
    (force_kill recursive mark : Bool) (s : Submitter) :
    (CancelTask cfg task_spec force_kill recursive mark s).2 = Status.OK ∧
      (CancelTask cfg task_spec force_kill recursive mark s).1.cancelNotices task_spec.task_id
        ≤ s.cancelNotices task_spec.task_id + 1 := by
  by_cases hc : task_spec.task_id ∈ s.cancelled_tasks
  · rw [CancelTask_of_cancelled cfg task_spec force_kill recursive mark s hc]
    exact ⟨rfl, Nat.le_succ _⟩
  · cases mark with
    | false =>
      rw [CancelTask_of_unmarked cfg task_spec force_kill recursive s hc]
      refine ⟨rfl, ?_⟩
      show (s.call _).cancelNotices _ ≤ _
      rw [Submitter.cancelNotices_call]
      simp
    | true =>
      cases hq : (s.entry task_spec.schedulingKey).task_queue.any
          (fun spec => decide (spec.task_id = task_spec.task_id)) with
      | true =>
        obtain ⟨s3, h3, -, -, -, hn, -⟩ :=
          CancelTask_of_queued cfg task_spec force_kill recursive s hc hq
        rw [h3]
        refine ⟨rfl, ?_⟩
        show (s3.call _).cancelNotices _ ≤ _
        rw [Submitter.cancelNotices_call, hn, if_pos rfl]
      | false =>
        obtain ⟨r, hr, -, -, -, hn, -⟩ :=
          CancelTask_of_not_queued cfg task_spec force_kill recursive s hc hq
        rw [hr]
        refine ⟨rfl, ?_⟩
        show r.cancelNotices _ ≤ _
        rw [hn]
        exact Nat.le_succ _

/-- C12 as stated fails: `task 1` is submitted twice, so its key queues it twice.  Two
calls of `CancelTask` in a row, with `MarkTaskCanceled` answering true, return OK both
times, and each call erases one queued copy and tells the finisher `TASK_CANCELLED`: the
finisher is notified twice. -/
theorem cancel_twice_notifies_twice :
    Reachable (Scenario.config 2 1) Scenario.submittedTwice ∧
      (Scenario.submittedTwice.entry Scenario.key).task_queue
        = [Scenario.task 1, Scenario.task 1] ∧
      Scenario.submittedTwice.cancelNotices 1 = 0 ∧
      (CancelTask (Scenario.config 2 1) (Scenario.task 1) false false true
        Scenario.submittedTwice).2 = Status.OK ∧
      (CancelTask (Scenario.config 2 1) (Scenario.task 1) false false true
        (CancelTask (Scenario.config 2 1) (Scenario.task 1) false false true
          Scenario.submittedTwice).1).2 = Status.OK ∧
      (CancelTask (Scenario.config 2 1) (Scenario.task 1) false false true
        (CancelTask (Scenario.config 2 1) (Scenario.task 1) false false true
          Scenario.submittedTwice).1).1.cancelNotices 1 = 2 ∧
      ∃ s, run (Scenario.config 2 1)
          (Scenario.submit 1 ++ Scenario.submit 1 ++
            [(0, Event.CancelTask (Scenario.task 1) false false true),
             (0, Event.CancelTask (Scenario.task 1) false false true)]) Submitter.init
          = some s ∧
        Reachable (Scenario.config 2 1) s ∧ s.cancelNotices 1 = 2 := by
  refine ⟨reachable_getD_run _ _, by decide, by decide, by decide, by decide, by decide, ?_⟩
  have h : (run (Scenario.config 2 1)
      (Scenario.submit 1 ++ Scenario.submit 1 ++
        [(0, Event.CancelTask (Scenario.task 1) false false true),
         (0, Event.CancelTask (Scenario.task 1) false false true)]) Submitter.init).any
      (fun s => decide (s.cancelNotices 1 = 2)) = true := by decide
  obtain ⟨s, hrun, hreach, hp⟩ := run_witness h
  exact ⟨s, hrun, hreach, by simpa using hp⟩

/-- C12 (P1), the amended claim: in every state in which the task is queued at most once
under its scheduling key, calling `CancelTask` twice in a row on the same task returns OK
both times, whatever `MarkTaskCanceled` answers, and across the two calls the finisher is
told `TASK_CANCELLED` for the task at most once. -/
theorem cancel_twice_notifies_at_most_once (cfg : Config) (task_spec : TaskSpecification)
    (force_kill recursive mark1 mark2 : Bool) (s : Submitter)
    (h_once : (s.entry task_spec.schedulingKey).task_queue.countP
      (fun spec => decide (spec.task_id = task_spec.task_id)) ≤ 1) :
    (CancelTask cfg task_spec force_kill recursive mark1 s).2 = Status.OK ∧
      (CancelTask cfg task_spec force_kill recursive mark2
        (CancelTask cfg task_spec force_kill recursive mark1 s).1).2 = Status.OK ∧
      (CancelTask cfg task_spec force_kill recursive mark2
        (CancelTask cfg task_spec force_kill recursive mark1 s).1).1.cancelNotices
          task_spec.task_id ≤ s.cancelNotices task_spec.task_id + 1 := by
  refine ⟨(CancelTask_notices ..).1, (CancelTask_notices ..).1, ?_⟩
  by_cases hc : task_spec.task_id ∈ s.cancelled_tasks
  · rw [CancelTask_of_cancelled cfg task_spec force_kill recursive mark1 s hc]
    exact (CancelTask_notices ..).2
  · cases mark1 with
    | false =>
      rw [CancelTask_of_unmarked cfg task_spec force_kill recursive s hc]
      refine Nat.le_trans (CancelTask_notices ..).2 ?_
      rw [Submitter.cancelNotices_call]
      simp
    | true =>
      cases hq : (s.entry task_spec.schedulingKey).task_queue.any
          (fun spec => decide (spec.task_id = task_spec.task_id)) with
      | true =>
        obtain ⟨s3, h3, -, hw, hqueue, hn, -⟩ :=
          CancelTask_of_queued cfg task_spec force_kill recursive s hc hq
        rw [h3]
        have hn1 : (s3.call (Call.FailOrRetryPendingTask task_spec.task_id
            ErrorType.TASK_CANCELLED)).cancelNotices task_spec.task_id
            = s.cancelNotices task_spec.task_id + 1 := by
          rw [Submitter.cancelNotices_call, hn, if_pos rfl]
        have hc1 : task_spec.task_id ∉ (s3.call (Call.FailOrRetryPendingTask task_spec.task_id
            ErrorType.TASK_CANCELLED)).cancelled_tasks := by
          have : s3.cancelled_tasks = s.cancelled_tasks := congrArg (fun w => w.2.2.1) hw
          show task_spec.task_id ∉ s3.cancelled_tasks
          rw [this]
          exact hc
        cases mark2 with
        | false =>
          rw [CancelTask_of_unmarked cfg task_spec force_kill recursive _ hc1]
          show ((s3.call _).call _).cancelNotices _ ≤ _
          rw [Submitter.cancelNotices_call, hn1]
          simp
        | true =>
          have hq1 : ((s3.call (Call.FailOrRetryPendingTask task_spec.task_id
              ErrorType.TASK_CANCELLED)).entry task_spec.schedulingKey).task_queue.any
              (fun spec => decide (spec.task_id = task_spec.task_id)) = false := by
            show (s3.entry task_spec.schedulingKey).task_queue.any _ = false
            rw [hqueue, if_pos rfl]
            exact any_eraseP_of_countP_le_one _ _ h_once
          obtain ⟨r, hr, -, -, -, hnr, -⟩ :=
            CancelTask_of_not_queued cfg task_spec force_kill recursive _ hc1 hq1
          rw [hr]
          show r.cancelNotices _ ≤ _
          rw [hnr, hn1]
      | false =>
        obtain ⟨r, hr, hcr, -, -, hn, -⟩ :=
          CancelTask_of_not_queued cfg task_spec force_kill recursive s hc hq
        rw [hr]
        have hmem : task_spec.task_id ∈ r.cancelled_tasks := by
          rw [hcr]
          simp
        rw [CancelTask_of_cancelled cfg task_spec force_kill recursive mark2 r hmem]
        show r.cancelNotices _ ≤ _
        rw [hn]
        exact Nat.le_succ _

theorem cancel_twice_notifies_at_most_once_witness :
    (Scenario.afterSubmit.entry Scenario.key).task_queue = [Scenario.task 1] ∧
      ((CancelTask (Scenario.config 2 1) (Scenario.task 1) false false true
          Scenario.afterSubmit).2 = Status.OK ∧
        (CancelTask (Scenario.config 2 1) (Scenario.task 1) false false true
          (CancelTask (Scenario.config 2 1) (Scenario.task 1) false false true
            Scenario.afterSubmit).1).2 = Status.OK ∧
        (CancelTask (Scenario.config 2 1) (Scenario.task 1) false false true
          (CancelTask (Scenario.config 2 1) (Scenario.task 1) false false true
            Scenario.afterSubmit).1).1.cancelNotices (Scenario.task 1).task_id
            ≤ Scenario.afterSubmit.cancelNotices (Scenario.task 1).task_id + 1) :=
  ⟨by decide,
    cancel_twice_notifies_at_most_once (Scenario.config 2 1) (Scenario.task 1) false false
      true true Scenario.afterSubmit (by decide)⟩

/-- C13: for a task that is queued under its scheduling key and not yet cancelled, with
`MarkTaskCanceled` answering true, `CancelTask` returns OK and removes the first queued
task with that id and nothing else, leaving the other queued tasks in their order under
every key; `cancelled_tasks` and `executing_tasks` are as before, the finisher is told
`TASK_CANCELLED` for the task once more, and no `CancelTask` RPC is sent nor awaited. -/
theorem cancel_removes_queued_task (cfg : Config) (task_spec : TaskSpecification)
    (force_kill recursive : Bool) (s : Submitter)
    (h_not_cancelled : task_spec.task_id ∉ s.cancelled_tasks)
    (h_queued : ∃ t ∈ (s.entry task_spec.schedulingKey).task_queue,
      t.task_id = task_spec.task_id) :
    ∃ s' pre t post, CancelTask cfg task_spec force_kill recursive true s = (s', Status.OK) ∧
      (s.entry task_spec.schedulingKey).task_queue = pre ++ t :: post ∧
      t.task_id = task_spec.task_id ∧ (∀ x ∈ pre, x.task_id ≠ task_spec.task_id) ∧
      (s'.entry task_spec.schedulingKey).task_queue = pre ++ post ∧
      (∀ key, key ≠ task_spec.schedulingKey →
        (s'.entry key).task_queue = (s.entry key).task_queue) ∧
      s'.cancelled_tasks = s.cancelled_tasks ∧ s'.executing_tasks = s.executing_tasks ∧
      s'.cancelNotices task_spec.task_id = s.cancelNotices task_spec.task_id + 1 ∧
      s'.cancelRpcs = s.cancelRpcs ∧ s'.task_cancels = s.task_cancels := by
  obtain ⟨t0, ht0, hid0⟩ := h_queued
  have hq : (s.entry task_spec.schedulingKey).task_queue.any
      (fun spec => decide (spec.task_id = task_spec.task_id)) = true := by
    rw [List.any_eq_true]
    exact ⟨t0, ht0, by simpa using hid0⟩
  obtain ⟨s3, h3, htc, hw, hqueue, hn, hrpc⟩ :=
    CancelTask_of_queued cfg task_spec force_kill recursive s h_not_cancelled hq
  obtain ⟨t, pre, post, hpre, ht, hsplit, herase⟩ :=
    List.exists_of_eraseP (p := fun spec : TaskSpecification =>
      decide (spec.task_id = task_spec.task_id)) ht0 (by simpa using hid0)
  refine ⟨_, pre, t, post, h3, hsplit, by simpa using ht, ?_, ?_, ?_, ?_, ?_, ?_, ?_, htc⟩
  · intro x hx
    simpa using hpre x hx
  · show (s3.entry task_spec.schedulingKey).task_queue = _
    rw [hqueue, if_pos rfl, herase]
  · intro key hkey
    show (s3.entry key).task_queue = _
    rw [hqueue, if_neg (fun h => hkey h.symm)]
  · exact congrArg (fun w => w.2.2.1) hw
  · exact congrArg (fun w => w.2.1) hw
  · rw [Submitter.cancelNotices_call, hn, if_pos rfl]
  · rw [← hrpc]
    simp [Submitter.cancelRpcs, Submitter.call, List.filter_append]

theorem cancel_removes_queued_task_witness :
    (Scenario.afterSubmit.entry (Scenario.task 1).schedulingKey).task_queue
        = [Scenario.task 1] ∧
      ∃ s' pre t post, CancelTask (Scenario.config 2 1) (Scenario.task 1) false false true
          Scenario.afterSubmit = (s', Status.OK) ∧
        (Scenario.afterSubmit.entry (Scenario.task 1).schedulingKey).task_queue
          = pre ++ t :: post ∧
        t.task_id = (Scenario.task 1).task_id ∧
        (∀ x ∈ pre, x.task_id ≠ (Scenario.task 1).task_id) ∧
        (s'.entry (Scenario.task 1).schedulingKey).task_queue = pre ++ post ∧
        (∀ key, key ≠ (Scenario.task 1).schedulingKey →
          (s'.entry key).task_queue = (Scenario.afterSubmit.entry key).task_queue) ∧
        s'.cancelled_tasks = Scenario.afterSubmit.cancelled_tasks ∧
        s'.executing_tasks = Scenario.afterSubmit.executing_tasks ∧
        s'.cancelNotices (Scenario.task 1).task_id
          = Scenario.afterSubmit.cancelNotices (Scenario.task 1).task_id + 1 ∧
        s'.cancelRpcs = Scenario.afterSubmit.cancelRpcs ∧
        s'.task_cancels = Scenario.afterSubmit.task_cancels :=
  ⟨by decide,
    cancel_removes_queued_task (Scenario.config 2 1) (Scenario.task 1) false false
      Scenario.afterSubmit (by decide) ⟨Scenario.task 1, by decide, rfl⟩⟩

theorem received_entry (cfg : Config) (ctx : LeaseContext) (s : Submitter) :
    (RequestNewWorkerIfNeeded.received cfg ctx s).entry ctx.scheduling_key
      = { s.entry ctx.scheduling_key with
          pending_lease_requests :=
            Assoc.remove ctx.task_id (s.entry ctx.scheduling_key).pending_lease_requests } := by
  unfold RequestNewWorkerIfNeeded.received
  simp only []
  rw [Submitter.entry_setEntry, if_pos rfl]
  have h : (GetOrConnectLeaseClient cfg ctx.raylet_address
      (s.touchEntry ctx.scheduling_key)).1.entry ctx.scheduling_key
      = s.entry ctx.scheduling_key := by
    rw [← Submitter.entry_touchEntry s ctx.scheduling_key ctx.scheduling_key]
    rfl
  rw [h]

theorem drain_calls (err : TaskSpecification → ErrorType) (key : SchedulingKey)
    (s : Submitter) :
    (RequestNewWorkerIfNeeded.drain err key s).calls
      = s.calls ++ (s.entry key).task_queue.map
          (fun t => Call.FailPendingTask t.task_id (err t)) := by
  unfold RequestNewWorkerIfNeeded.drain
  simp only []
  rw [failQueued_eq]
  rfl

theorem drain_lease_requests (err : TaskSpecification → ErrorType) (key : SchedulingKey)
    (s : Submitter) :
    (RequestNewWorkerIfNeeded.drain err key s).lease_requests = s.lease_requests
      ∧ (RequestNewWorkerIfNeeded.drain err key s).exited = s.exited := by
  unfold RequestNewWorkerIfNeeded.drain
  simp only []
  rw [failQueued_eq]
  exact ⟨rfl, rfl⟩

theorem drain_queue (err : TaskSpecification → ErrorType) (key : SchedulingKey)
    (s : Submitter) : ((RequestNewWorkerIfNeeded.drain err key s).entry key).task_queue = [] := by
  unfold RequestNewWorkerIfNeeded.drain
  simp only []
  rw [(Submitter.quiet_eraseEntryIfCanDelete _ key).queue key, Submitter.entry_setEntry,
    if_pos rfl]

theorem drain_lookup (err : TaskSpecification → ErrorType) (key : SchedulingKey)
    (s : Submitter) :
    Assoc.lookup key (RequestNewWorkerIfNeeded.drain err key s).scheduling_key_entries = none
      ↔ (s.entry key).active_workers = [] ∧ (s.entry key).pending_lease_requests = [] := by
  have he : (RequestNewWorkerIfNeeded.failQueued err (s.entry key).task_queue s).entry key
      = s.entry key := by
    simp only [Submitter.entry, failQueued_entries]
  unfold RequestNewWorkerIfNeeded.drain
  simp only [Submitter.eraseEntryIfCanDelete]
  rw [Submitter.entry_setEntry, if_pos rfl, he]
  simp only [SchedulingKeyEntry.CanDelete, List.isEmpty_nil, Bool.true_and, Bool.and_eq_true,
    List.isEmpty_iff]
  split_ifs with hc
  · rw [Assoc.lookup_remove, if_pos rfl]
    exact ⟨fun _ => hc, fun _ => rfl⟩
  · simp only [Submitter.setEntry, Assoc.lookup_update, if_pos]
    constructor
    · intro h
      cases h
    · intro h
      exact absurd h hc

/-- C16: a lease reply with status OK that is canceled because the runtime env setup
failed or the placement group was removed returns, and fails every task queued under the
key once, in queue order, by the only calls it makes: with `RUNTIME_ENV_SETUP_FAILED` for
the runtime env reason, and otherwise with `ACTOR_PLACEMENT_GROUP_REMOVED` for an actor
creation task and `TASK_PLACEMENT_GROUP_REMOVED` for any other.  Afterwards the queue of
the key is empty, no lease request was added, and the key entry is erased exactly when the
key has no active worker and no other pending lease request. -/
theorem canceled_lease_fails_queued_tasks (cfg : Config) (now : Nat) (ctx : LeaseContext)
    (reply : RequestWorkerLeaseReply) (s : Submitter)
    (h_canceled : reply.canceled = true)
    (h_reason : reply.failure_type
        = SchedulingFailureType.SCHEDULING_CANCELLED_RUNTIME_ENV_SETUP_FAILED ∨
      reply.failure_type = SchedulingFailureType.SCHEDULING_CANCELLED_PLACEMENT_GROUP_REMOVED) :
    ∃ s', RequestNewWorkerIfNeeded.reply cfg now ctx Status.OK reply s = some s' ∧
      s'.calls = s.calls ++ (s.entry ctx.scheduling_key).task_queue.map
        (fun t => Call.FailPendingTask t.task_id
          (RequestNewWorkerIfNeeded.cancelError reply.failure_type t)) ∧
      (s'.entry ctx.scheduling_key).task_queue = [] ∧
      s'.lease_requests = s.lease_requests ∧
      (Assoc.lookup ctx.scheduling_key s'.scheduling_key_entries = none ↔
        (s.entry ctx.scheduling_key).active_workers = [] ∧
          Assoc.remove ctx.task_id (s.entry ctx.scheduling_key).pending_lease_requests = []) := by
  refine ⟨RequestNewWorkerIfNeeded.drain
    (RequestNewWorkerIfNeeded.cancelError reply.failure_type) ctx.scheduling_key
      (RequestNewWorkerIfNeeded.received cfg ctx s), ?_, ?_, drain_queue _ _ _, ?_, ?_⟩
  · unfold RequestNewWorkerIfNeeded.reply
    simp only [Status.ok, decide_True, if_true, h_canceled]
    rw [if_pos h_reason]
    rfl
  · rw [drain_calls, received_entry]
    rfl
  · exact (drain_lease_requests _ _ _).1.trans rfl
  · rw [drain_lookup, received_entry]

theorem canceled_lease_fails_queued_tasks_witness :
    (Scenario.afterSubmit.entry Scenario.key).task_queue = [Scenario.task 1] ∧
      ∃ s', RequestNewWorkerIfNeeded.reply (Scenario.config 2 1) 0
          (LeaseContext.mk Scenario.key 0 false ⟨0, 0, 0, 1⟩) Status.OK
          Scenario.placementGroupRemoved Scenario.afterSubmit = some s' ∧
        s'.calls = Scenario.afterSubmit.calls ++
          (Scenario.afterSubmit.entry Scenario.key).task_queue.map
            (fun t => Call.FailPendingTask t.task_id
              (RequestNewWorkerIfNeeded.cancelError
                Scenario.placementGroupRemoved.failure_type t)) ∧
        (s'.entry Scenario.key).task_queue = [] ∧
        s'.lease_requests = Scenario.afterSubmit.lease_requests ∧
        (Assoc.lookup Scenario.key s'.scheduling_key_entries = none ↔
          (Scenario.afterSubmit.entry Scenario.key).active_workers = [] ∧
            Assoc.remove 0 (Scenario.afterSubmit.entry Scenario.key).pending_lease_requests
              = []) :=
  ⟨by decide,
    canceled_lease_fails_queued_tasks (Scenario.config 2 1) 0
      (LeaseContext.mk Scenario.key 0 false ⟨0, 0, 0, 1⟩) Scenario.placementGroupRemoved
      Scenario.afterSubmit (by decide) (by decide)⟩

/-- C17: a lease reply with status gRPC-unavailable to a request that went to the local
raylet returns.  In a driver it fails every task queued under the key with
`LOCAL_RAYLET_DIED`, in queue order, by the only calls it makes; the queue of the key is
then empty, no lease request was added, the process has not exited, and the key entry is
erased exactly when the key has no active worker and no other pending lease request.  In
a worker its only call is `QuickExit`. -/
theorem local_raylet_unavailable (cfg : Config) (now : Nat) (ctx : LeaseContext)
    (reply : RequestWorkerLeaseReply) (s : Submitter)
    (h_local : ctx.raylet_address.raylet_id = cfg.local_raylet_id) :
    (cfg.worker_type = WorkerType.DRIVER →
      ∃ s', RequestNewWorkerIfNeeded.reply cfg now ctx Status.GrpcUnavailable reply s
          = some s' ∧
        s'.calls = s.calls ++ (s.entry ctx.scheduling_key).task_queue.map
          (fun t => Call.FailPendingTask t.task_id ErrorType.LOCAL_RAYLET_DIED) ∧
        (s'.entry ctx.scheduling_key).task_queue = [] ∧
        s'.lease_requests = s.lease_requests ∧ s'.exited = s.exited ∧
        (Assoc.lookup ctx.scheduling_key s'.scheduling_key_entries = none ↔
          (s.entry ctx.scheduling_key).active_workers = [] ∧
            Assoc.remove ctx.task_id (s.entry ctx.scheduling_key).pending_lease_requests
              = [])) ∧
    (cfg.worker_type = WorkerType.WORKER →
      ∃ s', RequestNewWorkerIfNeeded.reply cfg now ctx Status.GrpcUnavailable reply s
          = some s' ∧
        s'.calls = s.calls ++ [Call.QuickExit] ∧ s'.exited = true) := by
  have hclient : (GetOrConnectLeaseClient cfg ctx.raylet_address s).2
      = LeaseClient.local_client := by
    simp [GetOrConnectLeaseClient, h_local]
  constructor
  · intro hdriver
    refine ⟨RequestNewWorkerIfNeeded.drain (fun _ => ErrorType.LOCAL_RAYLET_DIED)
      ctx.scheduling_key (RequestNewWorkerIfNeeded.received cfg ctx s), ?_, ?_,
      drain_queue _ _ _, ?_, ?_, ?_⟩
    · unfold RequestNewWorkerIfNeeded.reply
      simp [Status.ok, Status.IsGrpcUnavailable, hclient, hdriver]
    · rw [drain_calls, received_entry]
      rfl
    · exact (drain_lease_requests _ _ _).1.trans rfl
    · exact (drain_lease_requests _ _ _).2.trans rfl
    · rw [drain_lookup, received_entry]
  · intro hworker
    refine ⟨{ (RequestNewWorkerIfNeeded.received cfg ctx s).call Call.QuickExit with
      exited := true }, ?_, rfl, rfl⟩
    unfold RequestNewWorkerIfNeeded.reply
    simp [Status.ok, Status.IsGrpcUnavailable, hclient, hworker]

theorem local_raylet_unavailable_witness :
    (Scenario.config 2 1).worker_type = WorkerType.DRIVER ∧
      (Scenario.afterSubmit.entry Scenario.key).task_queue = [Scenario.task 1] ∧
      ∃ s', RequestNewWorkerIfNeeded.reply (Scenario.config 2 1) 0
          (LeaseContext.mk Scenario.key 0 false ⟨0, 0, 0, 1⟩) Status.GrpcUnavailable
          (Scenario.grant (Scenario.worker 11)) Scenario.afterSubmit = some s' ∧
        s'.calls = Scenario.afterSubmit.calls ++
          (Scenario.afterSubmit.entry Scenario.key).task_queue.map
            (fun t => Call.FailPendingTask t.task_id ErrorType.LOCAL_RAYLET_DIED) ∧
        (s'.entry Scenario.key).task_queue = [] ∧
        s'.lease_requests = Scenario.afterSubmit.lease_requests ∧
        s'.exited = Scenario.afterSubmit.exited ∧
        (Assoc.lookup Scenario.key s'.scheduling_key_entries = none ↔
          (Scenario.afterSubmit.entry Scenario.key).active_workers = [] ∧
            Assoc.remove 0 (Scenario.afterSubmit.entry Scenario.key).pending_lease_requests
              = []) :=
  ⟨by decide, by decide,
    (local_raylet_unavailable (Scenario.config 2 1) 0
      (LeaseContext.mk Scenario.key 0 false ⟨0, 0, 0, 1⟩) (Scenario.grant (Scenario.worker 11))
      Scenario.afterSubmit (by decide)).1 (by decide)⟩

/-! ### When a lease is requested -/

theorem update_of_lookup_none {α : Type} {β : Type} [DecidableEq α] {k : α} (v : β)
    {m : List (α × β)} (h : Assoc.lookup k m = none) : Assoc.update k v m = m ++ [(k, v)] := by
  induction m with
  | nil => rfl
  | cons p rest ih =>
    obtain ⟨k', v'⟩ := p
    simp only [Assoc.lookup] at h
    split_ifs at h with hk
    simp only [Assoc.update, if_neg hk, ih h, List.cons_append]

theorem pending_touchEntry (s : Submitter) (key k : SchedulingKey) :
    ((s.touchEntry key).entry k).pending_lease_requests
      = (s.entry k).pending_lease_requests := by
  rw [Submitter.entry_touchEntry]

theorem pending_eraseEntryIfCanDelete (s : Submitter) (key k : SchedulingKey) :
    ((s.eraseEntryIfCanDelete key).entry k).pending_lease_requests
      = (s.entry k).pending_lease_requests := by
  simp only [Submitter.entry, Submitter.eraseEntryIfCanDelete]
  split_ifs with h
  · rw [Assoc.lookup_remove]
    split_ifs with hk
    · subst hk
      simp only [SchedulingKeyEntry.CanDelete, Bool.and_eq_true, List.isEmpty_iff] at h
      exact h.2.symm
    · rfl
  · rfl

theorem pending_ReportWorkerBacklogIfNeeded (cfg : Config) (key k : SchedulingKey)
    (s : Submitter) :
    ((ReportWorkerBacklogIfNeeded cfg key s).entry k).pending_lease_requests
      = (s.entry k).pending_lease_requests := by
  unfold ReportWorkerBacklogIfNeeded
  simp only []
  split_ifs
  · refine Eq.trans ?_ (pending_touchEntry s key k)
    simp only [ReportWorkerBacklogInternal, Submitter.entry, Submitter.call,
      Assoc.lookup_map_snd SchedulingKeyEntry.reported]
    cases Assoc.lookup k (s.touchEntry key).scheduling_key_entries <;> rfl
  · exact pending_touchEntry s key k

theorem ReportWorkerBacklogIfNeeded_calls (cfg : Config) (key : SchedulingKey) (s : Submitter) :
    (ReportWorkerBacklogIfNeeded cfg key s).calls.filter Call.isRequestWorkerLease
        = s.calls.filter Call.isRequestWorkerLease ∧
      (ReportWorkerBacklogIfNeeded cfg key s).lease_requests = s.lease_requests := by
  unfold ReportWorkerBacklogIfNeeded
  simp only []
  split_ifs
  · simp [ReportWorkerBacklogInternal, Submitter.call, Submitter.touchEntry,
      Call.isRequestWorkerLease]
  · exact ⟨rfl, rfl⟩

theorem RequestNewWorkerIfNeeded_of_needed (cfg : Config) (key : SchedulingKey)
    (raylet_address : Option WorkerAddress) (s : Submitter)
    (h : RequestNewWorkerIfNeeded.needed cfg (s.entry key) = true) :
    ∃ s', RequestNewWorkerIfNeeded cfg key raylet_address s = some s' ∧
      s'.calls.filter Call.isRequestWorkerLease
        = s.calls.filter Call.isRequestWorkerLease ++
          [Call.RequestWorkerLease
            (GetOrConnectLeaseClient cfg
              (RequestNewWorkerIfNeeded.target cfg key raylet_address s) s).2
            (RequestNewWorkerIfNeeded.resourceSpec key s) raylet_address.isSome
            (s.entry key).task_queue.length] ∧
      (s'.entry key).pending_lease_requests
        = Assoc.emplace s.random_counter
            (RequestNewWorkerIfNeeded.target cfg key raylet_address s)
            (s.entry key).pending_lease_requests ∧
      (∀ k, k ≠ key →
        (s'.entry k).pending_lease_requests = (s.entry k).pending_lease_requests) ∧
      s'.lease_requests = s.lease_requests ++
        [LeaseContext.mk key s.random_counter raylet_address.isSome
          (RequestNewWorkerIfNeeded.target cfg key raylet_address s)] := by
  simp only [RequestNewWorkerIfNeeded.needed, Bool.and_eq_true, decide_eq_true_eq,
    Bool.not_eq_true', Bool.and_eq_false_iff, Bool.or_eq_true, Bool.not_eq_true,
    decide_eq_false_iff_not] at h
  obtain ⟨⟨h1, h2⟩, h3⟩ := h
  have c1 : ¬ ((s.entry key).pending_lease_requests.length
      = cfg.max_pending_lease_requests_per_scheduling_category) := Nat.ne_of_lt h1
  have c3 : ¬ ((!(s.entry key).AllPipelinesToWorkersFull cfg.max_tasks_in_flight_per_worker &&
      decide (cfg.max_tasks_in_flight_per_worker = 1)) = true) := by
    rcases h2 with h2 | h2 <;> simp [h2]
  have c4 : ¬ (((s.entry key).task_queue.isEmpty && !(s.entry key).StealableTasks) = true) := by
    rcases h3 with ⟨-, h3⟩ | ⟨h3, -⟩ <;> simp [h3]
  have c5 : ¬ ((!(s.entry key).task_queue.isEmpty &&
      decide ((s.entry key).task_queue.length ≤ (s.entry key).pending_lease_requests.length))
        = true) := by
    rcases h3 with ⟨h3, -⟩ | ⟨-, h3⟩
    · simp [h3]
    · simp [Nat.not_le.mpr h3]
  unfold RequestNewWorkerIfNeeded
  simp only [Submitter.entry_touchEntry]
  rw [if_neg c1, if_neg (not_not.mpr h1), if_neg c3, if_neg c4, if_neg c5]
  refine ⟨_, rfl, ?_, ?_, ?_, ?_⟩
  · refine (ReportWorkerBacklogIfNeeded_calls cfg key _).1.trans ?_
    simp only [Submitter.call, Submitter.setEntry, List.filter_append]
    rfl
  · refine (pending_ReportWorkerBacklogIfNeeded cfg key key _).trans ?_
    rw [Submitter.entry_setEntry, if_pos rfl]
    show Assoc.emplace _ _ ((s.touchEntry key).entry key).pending_lease_requests = _
    rw [Submitter.entry_touchEntry]
    rfl
  · intro k hk
    refine (pending_ReportWorkerBacklogIfNeeded cfg key k _).trans ?_
    rw [Submitter.entry_setEntry, if_neg (Ne.symm hk)]
    exact pending_touchEntry s key k
  · refine (ReportWorkerBacklogIfNeeded_calls cfg key _).2.trans ?_
    rfl

theorem RequestNewWorkerIfNeeded_of_not_needed (cfg : Config) (key : SchedulingKey)
    (raylet_address : Option WorkerAddress) (s : Submitter)
    (h : RequestNewWorkerIfNeeded.needed cfg (s.entry key) = false) :
    ((s.entry key).pending_lease_requests.length
        ≤ cfg.max_pending_lease_requests_per_scheduling_category →
      ∃ s', RequestNewWorkerIfNeeded cfg key raylet_address s = some s') ∧
    ∀ s', RequestNewWorkerIfNeeded cfg key raylet_address s = some s' →
      s'.calls = s.calls ∧ s'.lease_requests = s.lease_requests ∧
      (∀ k, (s'.entry k).pending_lease_requests = (s.entry k).pending_lease_requests) ∧
      (s' = s.touchEntry key ∨
        ((s.entry key).task_queue = [] ∧ (s.entry key).StealableTasks = false ∧
          s' = (s.touchEntry key).eraseEntryIfCanDelete key)) := by
  unfold RequestNewWorkerIfNeeded
  simp only [Submitter.entry_touchEntry]
  split_ifs with h1 h2 h3 h4 h5
  · exact ⟨fun _ => ⟨_, rfl⟩, fun s' hs => by
      cases hs
      exact ⟨rfl, rfl, fun k => pending_touchEntry s key k, Or.inl rfl⟩⟩
  · exact ⟨fun _ => ⟨_, rfl⟩, fun s' hs => by
      cases hs
      exact ⟨rfl, rfl, fun k => pending_touchEntry s key k, Or.inl rfl⟩⟩
  · refine ⟨fun _ => ⟨_, rfl⟩, fun s' hs => ?_⟩
    cases hs
    simp only [Bool.and_eq_true, List.isEmpty_iff, Bool.not_eq_true'] at h4
    exact ⟨rfl, rfl, fun k => (pending_eraseEntryIfCanDelete _ key k).trans
      (pending_touchEntry s key k), Or.inr ⟨h4.1, h4.2, rfl⟩⟩
  · exact ⟨fun _ => ⟨_, rfl⟩, fun s' hs => by
      cases hs
      exact ⟨rfl, rfl, fun k => pending_touchEntry s key k, Or.inl rfl⟩⟩
  · exfalso
    revert h
    simp only [RequestNewWorkerIfNeeded.needed]
    cases hq : (s.entry key).task_queue.isEmpty <;>
      cases hst : (s.entry key).StealableTasks <;>
      cases hall : (s.entry key).AllPipelinesToWorkersFull cfg.max_tasks_in_flight_per_worker <;>
      simp_all
  · exact ⟨fun hle => absurd (Nat.lt_of_le_of_ne hle h1) h2, fun s' hs => by cases hs⟩

theorem touchEntry_of_lookup {s : Submitter} {key : SchedulingKey} {e : SchedulingKeyEntry}
    (h : Assoc.lookup key s.scheduling_key_entries = some e) : s.touchEntry key = s := by
  simp only [Submitter.touchEntry, Assoc.emplace_of_lookup_some _ h]

/-- C19: `RequestNewWorkerIfNeeded` issues a `RequestWorkerLease` exactly when the condition
`needed` holds: the pending lease count is below the cap, it is not the case that stealing
is disabled while the pipelines are not all full, and the queue is empty with stealable
tasks or non-empty and longer than the pending lease count.  When it holds, the call
returns, sends exactly one `RequestWorkerLease`, to the target raylet, hands out one lease
reply continuation, and adds the entry (fresh task id, target raylet) to the pending lease
requests of the key, given that the id drawn is not the id of a pending request; the
pending lease requests of the other keys are unchanged.  When it does not hold, the call
returns whenever the pending lease count is within the cap, and every result has the same
`RequestWorkerLease` calls, the same continuations and the same pending lease requests
under every key. -/
theorem lease_requested_exactly_when_needed (cfg : Config) (key : SchedulingKey)
    (raylet_address : Option WorkerAddress) (s : Submitter) :
    (RequestNewWorkerIfNeeded.needed cfg (s.entry key) = true →
      ∃ s', RequestNewWorkerIfNeeded cfg key raylet_address s = some s' ∧
        s'.calls.filter Call.isRequestWorkerLease
          = s.calls.filter Call.isRequestWorkerLease ++
            [Call.RequestWorkerLease
              (GetOrConnectLeaseClient cfg
                (RequestNewWorkerIfNeeded.target cfg key raylet_address s) s).2
              (RequestNewWorkerIfNeeded.resourceSpec key s) raylet_address.isSome
              (s.entry key).task_queue.length] ∧
        s'.lease_requests = s.lease_requests ++
          [LeaseContext.mk key s.random_counter raylet_address.isSome
            (RequestNewWorkerIfNeeded.target cfg key raylet_address s)] ∧
        (Assoc.lookup s.random_counter (s.entry key).pending_lease_requests = none →
          (s'.entry key).pending_lease_requests
            = (s.entry key).pending_lease_requests ++
              [(s.random_counter,
                RequestNewWorkerIfNeeded.target cfg key raylet_address s)]) ∧
        ∀ k, k ≠ key →
          (s'.entry k).pending_lease_requests = (s.entry k).pending_lease_requests) ∧
    (RequestNewWorkerIfNeeded.needed cfg (s.entry key) = false →
      ((s.entry key).pending_lease_requests.length
          ≤ cfg.max_pending_lease_requests_per_scheduling_category →
        ∃ s', RequestNewWorkerIfNeeded cfg key raylet_address s = some s') ∧
      ∀ s', RequestNewWorkerIfNeeded cfg key raylet_address s = some s' →
        s'.calls.filter Call.isRequestWorkerLease
          = s.calls.filter Call.isRequestWorkerLease ∧
        s'.lease_requests = s.lease_requests ∧
        ∀ k, (s'.entry k).pending_lease_requests = (s.entry k).pending_lease_requests) := by
  constructor
  · intro h
    obtain ⟨s', hrun, hcalls, hpending, hother, hctx⟩ :=
      RequestNewWorkerIfNeeded_of_needed cfg key raylet_address s h
    refine ⟨s', hrun, hcalls, hctx, fun hfresh => ?_, hother⟩
    rw [hpending, Assoc.emplace_of_lookup_none _ hfresh, update_of_lookup_none _ hfresh]
  · intro h
    obtain ⟨hex, hall⟩ := RequestNewWorkerIfNeeded_of_not_needed cfg key raylet_address s h
    refine ⟨hex, fun s' hs => ?_⟩
    obtain ⟨hcalls, hctx, hpending, -⟩ := hall s' hs
    exact ⟨by rw [hcalls], hctx, hpending⟩

theorem lease_requested_exactly_when_needed_witness :
    RequestNewWorkerIfNeeded.needed (Scenario.config 2 1)
        (Scenario.queuedOne.entry Scenario.key) = true ∧
      ∃ s', RequestNewWorkerIfNeeded (Scenario.config 2 1) Scenario.key none
          Scenario.queuedOne = some s' ∧
        s'.calls.filter Call.isRequestWorkerLease
          = [Call.RequestWorkerLease LeaseClient.local_client
              { Scenario.task 1 with task_id := 0 } false 1] ∧
        (s'.entry Scenario.key).pending_lease_requests = [(0, ⟨0, 0, 0, 1⟩)] := by
  refine ⟨by decide, ?_⟩
  obtain ⟨s', hrun, hcalls, -, hpending, -⟩ :=
    (lease_requested_exactly_when_needed (Scenario.config 2 1) Scenario.key none
      Scenario.queuedOne).1 (by decide)
  exact ⟨s', hrun, hcalls, hpending (by decide)⟩

/-! ### A failed lease request to a remote raylet -/

theorem received_calls (cfg : Config) (ctx : LeaseContext) (s : Submitter) :
    (RequestNewWorkerIfNeeded.received cfg ctx s).calls = s.calls ∧
      (RequestNewWorkerIfNeeded.received cfg ctx s).random_counter = s.random_counter := by
  exact ⟨rfl, rfl⟩

theorem received_queue (cfg : Config) (ctx : LeaseContext) (s : Submitter)
    (k : SchedulingKey) :
    ((RequestNewWorkerIfNeeded.received cfg ctx s).entry k).task_queue
      = (s.entry k).task_queue := by
  simp only [RequestNewWorkerIfNeeded.received, Submitter.entry_setEntry]
  split_ifs with hk
  · subst hk
    show ((s.touchEntry ctx.scheduling_key).entry ctx.scheduling_key).task_queue = _
    rw [Submitter.entry_touchEntry]
  · show ((s.touchEntry ctx.scheduling_key).entry k).task_queue = _
    rw [Submitter.entry_touchEntry]

theorem leaseReply_of_remote_failure (cfg : Config) (now : Nat) (ctx : LeaseContext)
    (status : Status) (reply : RequestWorkerLeaseReply) (s : Submitter)
    (h_status : status ≠ Status.OK)
    (h_remote : ctx.raylet_address.raylet_id ≠ cfg.local_raylet_id) :
    RequestNewWorkerIfNeeded.reply cfg now ctx status reply s
      = RequestNewWorkerIfNeeded cfg ctx.scheduling_key none
          (RequestNewWorkerIfNeeded.received cfg ctx s) := by
  unfold RequestNewWorkerIfNeeded.reply
  simp [Status.ok, h_status, GetOrConnectLeaseClient, h_remote]

/-- C18, evaluated on the code: under a lease policy that answers node 2 (the local raylet
is node 1), the lease request of `task 1` goes to the raylet of node 2; it fails with an IO
error, no task is failed, and the replacement lease request goes to the raylet of node 2
again, not to the local one.  The comment and the log text of lines 627-631 say that the
request is retried locally; line 634 calls `RequestNewWorkerIfNeeded` without an address,
so the lease policy picks the raylet. -/
theorem failed_remote_lease_request_retried_remotely :
    ∃ s, run Scenario.remotePolicy Scenario.remoteFailureTrace Submitter.init = some s ∧
      Reachable Scenario.remotePolicy s ∧
      s.calls.filter Call.isRequestWorkerLease
        = [Call.RequestWorkerLease (LeaseClient.remote_client 2)
            { Scenario.task 1 with task_id := 0 } false 1,
           Call.RequestWorkerLease (LeaseClient.remote_client 2)
            { Scenario.task 1 with task_id := 1 } false 1] ∧
      s.calls.filter Call.isFinisher = [] ∧
      (s.entry Scenario.key).task_queue = [Scenario.task 1] := by
  have h : (run Scenario.remotePolicy Scenario.remoteFailureTrace Submitter.init).any
      (fun s => decide
        (s.calls.filter Call.isRequestWorkerLease
          = [Call.RequestWorkerLease (LeaseClient.remote_client 2)
              { Scenario.task 1 with task_id := 0 } false 1,
             Call.RequestWorkerLease (LeaseClient.remote_client 2)
              { Scenario.task 1 with task_id := 1 } false 1] ∧
        s.calls.filter Call.isFinisher = [] ∧
        (s.entry Scenario.key).task_queue = [Scenario.task 1])) = true := by
    decide
  obtain ⟨s, hrun, hreach, hp⟩ := run_witness h
  simp only [decide_eq_true_eq] at hp
  exact ⟨s, hrun, hreach, hp⟩

/-- Lines 626-635 in every state: a lease reply with a non-OK status to a request that went
to a remote raylet returns whenever the remaining pending lease requests of the key are
within the cap.  It tells the finisher nothing and leaves the task queue of every key as it was.
When a lease is still needed, it sends exactly one `RequestWorkerLease`, not as a
spillback, to the raylet the lease policy picks for the resource spec of the key: over the
local lease client only if that raylet is the local one.  When no lease is needed, it
sends none. -/
theorem failed_remote_lease_request_asks_policy (cfg : Config) (now : Nat)
    (ctx : LeaseContext) (status : Status) (reply : RequestWorkerLeaseReply) (s : Submitter)
    (h_status : status ≠ Status.OK)
    (h_remote : ctx.raylet_address.raylet_id ≠ cfg.local_raylet_id) :
    (((RequestNewWorkerIfNeeded.received cfg ctx s).entry
          ctx.scheduling_key).pending_lease_requests.length
        ≤ cfg.max_pending_lease_requests_per_scheduling_category →
      ∃ s', RequestNewWorkerIfNeeded.reply cfg now ctx status reply s = some s') ∧
    ∀ s', RequestNewWorkerIfNeeded.reply cfg now ctx status reply s = some s' →
      s'.calls.filter Call.isFinisher = s.calls.filter Call.isFinisher ∧
      (∀ k, (s'.entry k).task_queue = (s.entry k).task_queue) ∧
      s'.calls.filter Call.isRequestWorkerLease
        = s.calls.filter Call.isRequestWorkerLease ++
          if RequestNewWorkerIfNeeded.needed cfg
              ((RequestNewWorkerIfNeeded.received cfg ctx s).entry ctx.scheduling_key) then
            [Call.RequestWorkerLease
              (if (cfg.GetBestNodeForTask
                    (RequestNewWorkerIfNeeded.resourceSpec ctx.scheduling_key s)).raylet_id
                  = cfg.local_raylet_id then LeaseClient.local_client
                else LeaseClient.remote_client
                  (cfg.GetBestNodeForTask
                    (RequestNewWorkerIfNeeded.resourceSpec ctx.scheduling_key s)).raylet_id)
              (RequestNewWorkerIfNeeded.resourceSpec ctx.scheduling_key s) false
              (s.entry ctx.scheduling_key).task_queue.length]
          else [] := by
  rw [leaseReply_of_remote_failure cfg now ctx status reply s h_status h_remote]
  have hspec : RequestNewWorkerIfNeeded.resourceSpec ctx.scheduling_key
      (RequestNewWorkerIfNeeded.received cfg ctx s)
      = RequestNewWorkerIfNeeded.resourceSpec ctx.scheduling_key s := by
    simp only [RequestNewWorkerIfNeeded.resourceSpec, received_entry]
    rfl
  have hframe : ∀ s', RequestNewWorkerIfNeeded cfg ctx.scheduling_key none
      (RequestNewWorkerIfNeeded.received cfg ctx s) = some s' →
      s'.calls.filter Call.isFinisher = s.calls.filter Call.isFinisher ∧
      (∀ k, (s'.entry k).task_queue = (s.entry k).task_queue) := by
    intro s' hs
    refine ⟨?_, fun k => ?_⟩
    · exact (callsOnly_RequestNewWorkerIfNeeded hs).filter_eq isFinisher_of_isScheduling
    · exact ((quiet_RequestNewWorkerIfNeeded hs).queue k).trans (received_queue cfg ctx s k)
  cases hn : RequestNewWorkerIfNeeded.needed cfg
      ((RequestNewWorkerIfNeeded.received cfg ctx s).entry ctx.scheduling_key) with
  | true =>
    obtain ⟨s1, hrun, hcalls, -, -, -⟩ := RequestNewWorkerIfNeeded_of_needed cfg
      ctx.scheduling_key none (RequestNewWorkerIfNeeded.received cfg ctx s) hn
    refine ⟨fun _ => ⟨s1, hrun⟩, fun s' hs => ?_⟩
    obtain ⟨hfin, hqueue⟩ := hframe s' hs
    rw [hrun] at hs
    cases hs
    refine ⟨hfin, hqueue, ?_⟩
    rw [hcalls, if_pos rfl]
    simp only [RequestNewWorkerIfNeeded.target, hspec, received_queue, GetOrConnectLeaseClient,
      Option.isSome_none, ne_eq, ite_not]
    rfl
  | false =>
    obtain ⟨hex, hall⟩ := RequestNewWorkerIfNeeded_of_not_needed cfg ctx.scheduling_key none
      (RequestNewWorkerIfNeeded.received cfg ctx s) hn
    refine ⟨hex, fun s' hs => ?_⟩
    obtain ⟨hfin, hqueue⟩ := hframe s' hs
    refine ⟨hfin, hqueue, ?_⟩
    rw [(hall s' hs).1]
    simp
    rfl

theorem failed_remote_lease_request_asks_policy_witness :
    Status.IOError ≠ Status.OK ∧
      Scenario.remoteLease.raylet_address.raylet_id ≠ Scenario.remotePolicy.local_raylet_id ∧
      ∃ s', RequestNewWorkerIfNeeded.reply Scenario.remotePolicy 0 Scenario.remoteLease
          Status.IOError (Scenario.grant (Scenario.worker 11)) Scenario.afterRemoteSubmit
            = some s' ∧
        s'.calls.filter Call.isFinisher = [] ∧
        (s'.entry Scenario.key).task_queue = [Scenario.task 1] ∧
        s'.calls.filter Call.isRequestWorkerLease
          = [Call.RequestWorkerLease (LeaseClient.remote_client 2)
              { Scenario.task 1 with task_id := 0 } false 1,
             Call.RequestWorkerLease (LeaseClient.remote_client 2)
              { Scenario.task 1 with task_id := 1 } false 1] := by
  have h := failed_remote_lease_request_asks_policy Scenario.remotePolicy 0
    Scenario.remoteLease Status.IOError (Scenario.grant (Scenario.worker 11))
    Scenario.afterRemoteSubmit (by decide) (by decide)
  obtain ⟨s', hs⟩ := h.1 (by decide)
  obtain ⟨hfin, hqueue, hcalls⟩ := h.2 s' hs
  exact ⟨by decide, by decide, s', hs, hfin.trans (by decide),
    (hqueue Scenario.key).trans (by decide), hcalls.trans (by decide)⟩

/-! ### A key without queued tasks -/

/-- C20: for a key whose task queue is empty and which has no active workers and no tasks
in flight, with the pending lease requests within the cap, `RequestNewWorkerIfNeeded`
returns and issues no lease request: it makes no call, hands out no reply continuation
and leaves the pending lease requests of every key and the entries of the other keys as
they are.  When the key also has no pending lease requests (and the cap is at least 1, as
the configuration requires), the key has no entry afterwards; when it has pending lease
requests the state is unchanged.  So the single-task scenario ends, once the worker is
returned, with the one lease request of its beginning and without an entry for the key,
whether the per-worker cap is 1 or 2. -/
theorem idle_key_requests_no_lease :
    (∀ (cfg : Config) (key : SchedulingKey) (raylet_address : Option WorkerAddress)
        (s : Submitter),
      (s.entry key).task_queue = [] → (s.entry key).active_workers = [] →
      (s.entry key).total_tasks_in_flight = 0 →
      (s.entry key).pending_lease_requests.length
        ≤ cfg.max_pending_lease_requests_per_scheduling_category →
      ∃ s', RequestNewWorkerIfNeeded cfg key raylet_address s = some s' ∧
        s'.calls = s.calls ∧ s'.lease_requests = s.lease_requests ∧
        { s' with scheduling_key_entries := s.scheduling_key_entries } = s ∧
        (∀ k, (s'.entry k).pending_lease_requests = (s.entry k).pending_lease_requests) ∧
        (∀ k, k ≠ key → Assoc.lookup k s'.scheduling_key_entries
          = Assoc.lookup k s.scheduling_key_entries) ∧
        ((s.entry key).pending_lease_requests = [] →
          1 ≤ cfg.max_pending_lease_requests_per_scheduling_category →
          Assoc.lookup key s'.scheduling_key_entries = none) ∧
        ((s.entry key).pending_lease_requests ≠ [] → s' = s)) ∧
    (∃ s, run (Scenario.config 2 1) Scenario.singleTaskTrace Submitter.init = some s ∧
      Reachable (Scenario.config 2 1) s ∧
      s.calls.filter Call.isScheduling
        = [Call.RequestWorkerLease LeaseClient.local_client
            { Scenario.task 1 with task_id := 0 } false 1,
           Call.PushNormalTask (Scenario.worker 11) Scenario.key (Scenario.task 1) [],
           Call.ReturnWorker LeaseClient.local_client 5011 11 false] ∧
      s.worker_to_lease_entry = [] ∧ s.lease_requests = [] ∧
      Assoc.lookup Scenario.key s.scheduling_key_entries = none) ∧
    (∃ s, run (Scenario.config 1 1) Scenario.singleTaskTrace Submitter.init = some s ∧
      Reachable (Scenario.config 1 1) s ∧
      s.calls.filter Call.isScheduling
        = [Call.RequestWorkerLease LeaseClient.local_client
            { Scenario.task 1 with task_id := 0 } false 1,
           Call.PushNormalTask (Scenario.worker 11) Scenario.key (Scenario.task 1) [],
           Call.ReturnWorker LeaseClient.local_client 5011 11 false] ∧
      s.worker_to_lease_entry = [] ∧ s.lease_requests = [] ∧
      Assoc.lookup Scenario.key s.scheduling_key_entries = none) := by
  refine ⟨?_, ?_, ?_⟩
  · intro cfg key raylet_address s h_queue h_active h_total h_pending
    have hst : (s.entry key).StealableTasks = false := by
      simp [SchedulingKeyEntry.StealableTasks, h_active]
    have hfull : (s.entry key).AllPipelinesToWorkersFull cfg.max_tasks_in_flight_per_worker
        = true := by
      simp [SchedulingKeyEntry.AllPipelinesToWorkersFull, h_active, h_total]
    have hother : ∀ k, k ≠ key →
        Assoc.lookup k (s.touchEntry key).scheduling_key_entries
          = Assoc.lookup k s.scheduling_key_entries := by
      intro k hk
      simp only [Submitter.touchEntry, Assoc.lookup_emplace]
      rw [if_neg (fun h => hk h.symm)]
    have hkept : (s.entry key).pending_lease_requests ≠ [] → s.touchEntry key = s := by
      intro hne
      cases hl : Assoc.lookup key s.scheduling_key_entries with
      | none =>
        exfalso
        apply hne
        simp [Submitter.entry, hl, SchedulingKeyEntry.empty]
      | some e => exact touchEntry_of_lookup hl
    unfold RequestNewWorkerIfNeeded
    simp only [Submitter.entry_touchEntry, h_queue, hst, hfull, List.isEmpty_nil,
      Bool.not_true, Bool.false_and, Bool.not_false, Bool.and_self, Bool.false_eq_true,
      if_false, if_true]
    split_ifs with h1 h2
    · refine ⟨_, rfl, rfl, rfl, rfl, fun k => pending_touchEntry s key k, hother, ?_, hkept⟩
      intro he hcap
      rw [he] at h1
      simp only [List.length_nil] at h1
      omega
    · refine ⟨_, rfl, rfl, rfl, rfl,
        fun k => (pending_eraseEntryIfCanDelete _ key k).trans (pending_touchEntry s key k),
        ?_, ?_, ?_⟩
      · intro k hk
        simp only [Submitter.eraseEntryIfCanDelete]
        split_ifs
        · rw [Assoc.lookup_remove, if_neg (fun h => hk h.symm)]
          exact hother k hk
        · exact hother k hk
      · intro he _
        have hcan : ((s.touchEntry key).entry key).CanDelete = true := by
          rw [Submitter.entry_touchEntry]
          simp [SchedulingKeyEntry.CanDelete, h_queue, h_active, he]
        simp only [Submitter.eraseEntryIfCanDelete, hcan, if_true, Assoc.lookup_remove]
      · intro hne
        have hcan : ((s.touchEntry key).entry key).CanDelete = false := by
          rw [Submitter.entry_touchEntry]
          cases hp : (s.entry key).pending_lease_requests with
          | nil => exact absurd hp hne
          | cons a l => simp [SchedulingKeyEntry.CanDelete, hp]
        simp only [Submitter.eraseEntryIfCanDelete, hcan, Bool.false_eq_true, if_false]
        exact hkept hne
    · omega
  · have h : (run (Scenario.config 2 1) Scenario.singleTaskTrace Submitter.init).any
        (fun s => decide
          (s.calls.filter Call.isScheduling
              = [Call.RequestWorkerLease LeaseClient.local_client
                  { Scenario.task 1 with task_id := 0 } false 1,
                 Call.PushNormalTask (Scenario.worker 11) Scenario.key (Scenario.task 1) [],
                 Call.ReturnWorker LeaseClient.local_client 5011 11 false] ∧
            s.worker_to_lease_entry = [] ∧ s.lease_requests = [] ∧
            Assoc.lookup Scenario.key s.scheduling_key_entries = none)) = true := by decide
    obtain ⟨s, hrun, hreach, hp⟩ := run_witness h
    simp only [decide_eq_true_eq] at hp
    exact ⟨s, hrun, hreach, hp⟩
  · have h : (run (Scenario.config 1 1) Scenario.singleTaskTrace Submitter.init).any
        (fun s => decide
          (s.calls.filter Call.isScheduling
              = [Call.RequestWorkerLease LeaseClient.local_client
                  { Scenario.task 1 with task_id := 0 } false 1,
                 Call.PushNormalTask (Scenario.worker 11) Scenario.key (Scenario.task 1) [],
                 Call.ReturnWorker LeaseClient.local_client 5011 11 false] ∧
            s.worker_to_lease_entry = [] ∧ s.lease_requests = [] ∧
            Assoc.lookup Scenario.key s.scheduling_key_entries = none)) = true := by decide
    obtain ⟨s, hrun, hreach, hp⟩ := run_witness h
    simp only [decide_eq_true_eq] at hp
    exact ⟨s, hrun, hreach, hp⟩

theorem idle_key_requests_no_lease_witness :
    Reachable (Scenario.config 2 1) Scenario.singleDone ∧
      Assoc.lookup Scenario.key Scenario.singleDone.scheduling_key_entries = none ∧
      ∃ s', RequestNewWorkerIfNeeded (Scenario.config 2 1) Scenario.key none
          Scenario.singleDone = some s' ∧
        s'.calls = Scenario.singleDone.calls ∧
        Assoc.lookup Scenario.key s'.scheduling_key_entries = none := by
  obtain ⟨s', h0, h1, -, -, -, -, h6, -⟩ :=
    idle_key_requests_no_lease.1 (Scenario.config 2 1) Scenario.key none Scenario.singleDone
      (by decide) (by decide) (by decide) (by decide)
  exact ⟨reachable_getD_run _ _, by decide, s', h0, h1, h6 (by decide) (by decide)⟩

/-! ### Cancelling a task on a remote worker -/

/-- C26: `CancelRemoteTask` returns `Invalid` exactly when the client cache has no stub for
the worker id, and then it makes no call and leaves the state as it is; otherwise it
returns OK and its only effect is one `RemoteCancelTask` call on that stub with the given
object id, `force_kill` and `recursive`.  In both cases the key entries, the lease
entries, the executing tasks and the cancelled tasks are unchanged. -/
theorem cancel_remote_task_needs_stub (object_id : ObjectID) (worker_addr : WorkerAddress)
    (force_kill recursive : Bool) (s : Submitter) :
    ((CancelRemoteTask object_id worker_addr force_kill recursive s).2 = Status.Invalid ↔
      s.cacheGetByID worker_addr.worker_id = none) ∧
    (s.cacheGetByID worker_addr.worker_id = none →
      (CancelRemoteTask object_id worker_addr force_kill recursive s).1 = s) ∧
    (∀ client, s.cacheGetByID worker_addr.worker_id = some client →
      CancelRemoteTask object_id worker_addr force_kill recursive s
        = (s.call (Call.RemoteCancelTask client object_id force_kill recursive),
            Status.OK)) ∧
    (CancelRemoteTask object_id worker_addr force_kill recursive s).1.scheduling_key_entries
      = s.scheduling_key_entries ∧
    (CancelRemoteTask object_id worker_addr force_kill recursive s).1.worker_to_lease_entry
      = s.worker_to_lease_entry ∧
    (CancelRemoteTask object_id worker_addr force_kill recursive s).1.executing_tasks
      = s.executing_tasks ∧
    (CancelRemoteTask object_id worker_addr force_kill recursive s).1.cancelled_tasks
      = s.cancelled_tasks := by
  unfold CancelRemoteTask
  cases h : s.cacheGetByID worker_addr.worker_id with
  | none => simp
  | some client => simp [Submitter.call]

theorem cancel_remote_task_needs_stub_witness :
    Scenario.singlePushed.cacheGetByID (Scenario.worker 11).worker_id
        = some (Scenario.worker 11) ∧
      CancelRemoteTask 7 (Scenario.worker 11) true false Scenario.singlePushed
        = (Scenario.singlePushed.call
            (Call.RemoteCancelTask (Scenario.worker 11) 7 true false), Status.OK) :=
  ⟨by decide,
    (cancel_remote_task_needs_stub 7 (Scenario.worker 11) true false
      Scenario.singlePushed).2.2.1 (Scenario.worker 11) (by decide)⟩

/-! ### A worker without a lease entry -/

/-- C28 as stated fails: `OnWorkerIdle` for worker 11, which has no lease entry in the
initial state, returns, and `worker_to_lease_entry` then holds a default-constructed entry
for worker 11 (the insertion `operator[]` performs at line 321). -/
theorem on_worker_idle_inserts_lease_entry :
    Assoc.lookup (Scenario.worker 11) Submitter.init.worker_to_lease_entry = none ∧
    ∃ s', OnWorkerIdle (Scenario.config 2 1) 0 (Scenario.worker 11) Scenario.key false []
        Submitter.init = some s' ∧
      s'.worker_to_lease_entry = [(Scenario.worker 11, LeaseEntry.empty)] ∧
      s'.worker_to_lease_entry ≠ Submitter.init.worker_to_lease_entry :=
  ⟨by decide, _, rfl, by decide, by decide⟩

/-- C28, amended: `OnWorkerIdle` for a worker address without a lease entry returns and
makes no call; its only effect is that `worker_to_lease_entry` gains a default-constructed
entry for the address (no lease client, no task in flight, not stealing), all other
members being unchanged.  For an address whose lease entry has no lease client it returns
and changes nothing. -/
theorem on_worker_idle_without_lease (cfg : Config) (now : Nat) (addr : WorkerAddress)
    (key : SchedulingKey) (was_error : Bool) (res : Resources) (s : Submitter) :
    (Assoc.lookup addr s.worker_to_lease_entry = none →
      OnWorkerIdle cfg now addr key was_error res s
        = some (s.withLeases (s.worker_to_lease_entry ++ [(addr, LeaseEntry.empty)]))) ∧
    (∀ l, Assoc.lookup addr s.worker_to_lease_entry = some l → l.lease_client = none →
      OnWorkerIdle cfg now addr key was_error res s = some s) := by
  constructor
  · intro h
    have hl : (s.touchLease addr).lease addr = LeaseEntry.empty := by
      rw [Submitter.lease_touchLease, Submitter.lease_of_lookup_none h]
    unfold OnWorkerIdle
    simp only [hl]
    simp only [LeaseEntry.empty, Option.isNone_none, if_true, Submitter.touchLease,
      Submitter.withLeases, Assoc.emplace_of_lookup_none _ h, update_of_lookup_none _ h]
  · intro l h hc
    have hl : s.lease addr = l := Submitter.lease_of_lookup h
    unfold OnWorkerIdle
    simp only [Submitter.touchLease_of_lookup h, hl, hc, Option.isNone_none, if_true]

theorem on_worker_idle_without_lease_witness :
    Assoc.lookup (Scenario.worker 12) Scenario.singlePushed.worker_to_lease_entry = none ∧
      OnWorkerIdle (Scenario.config 2 1) 0 (Scenario.worker 12) Scenario.key false []
          Scenario.singlePushed
        = some (Scenario.singlePushed.withLeases
            (Scenario.singlePushed.worker_to_lease_entry ++
              [(Scenario.worker 12, LeaseEntry.empty)])) :=
  ⟨by decide,
    (on_worker_idle_without_lease (Scenario.config 2 1) 0 (Scenario.worker 12) Scenario.key
      false [] Scenario.singlePushed).1 (by decide)⟩

/-! ### The hand-off of a worker that is stealing -/

/-- C29, evaluated on the code: worker 12 is granted at time 0 (its lease expires at 1000)
and starts stealing from worker 11.  At time 2000, while worker 12 waits for its steal
reply without a task in flight, a fifth task is submitted.  Its continuation enqueues the
task, finds worker 12 with a pipeline that is not full and calls `OnWorkerIdle` for it;
the lease has expired and the worker has no task in flight, so `OnWorkerIdle` hands it to
`StealTasksOrReturnWorker`, whose check that the thief is not stealing (line 238) fails.
The same check fails without an expired lease when a task was pushed to worker 12 while
it was stealing and the reply to that push carries an error status. -/
theorem stealing_worker_handed_off_after_expiry :
    (∃ s2, run (Scenario.config 4 1) Scenario.pushedWhileStealingTrace Submitter.init
        = some s2 ∧
      Reachable (Scenario.config 4 1) s2 ∧
      (Event.PushReply 4 Status.IOError Scenario.okReply false).enabled s2 = true ∧
      step (Scenario.config 4 1) 0 (Event.PushReply 4 Status.IOError Scenario.okReply false) s2
        = none) ∧
    ∃ s, run (Scenario.config 4 1) Scenario.expiredWhileStealingTrace Submitter.init = some s ∧
      Reachable (Scenario.config 4 1) s ∧ s = Scenario.expiredWhileStealing ∧
      (Assoc.lookup (Scenario.worker 12) s.worker_to_lease_entry).map
          (fun l => (l.lease_client.isSome, l.tasks_in_flight, l.is_stealing,
            l.lease_expiration_time)) = some (true, 0, true, 1000) ∧
      (Event.DependenciesResolved 0 Status.OK []).enabled s = true ∧
      step (Scenario.config 4 1) 2000 (Event.DependenciesResolved 0 Status.OK []) s = none ∧
      (Scenario.fifthEnqueued.entry Scenario.key).task_queue = [Scenario.task 5] ∧
      SubmitTask.findWorker (Scenario.config 4 1) 2000 Scenario.key
          (Scenario.fifthEnqueued.entry Scenario.key).active_workers Scenario.fifthEnqueued
        = OnWorkerIdle (Scenario.config 4 1) 2000 (Scenario.worker 12) Scenario.key false []
            Scenario.fifthEnqueued ∧
      OnWorkerIdle (Scenario.config 4 1) 2000 (Scenario.worker 12) Scenario.key false []
          Scenario.fifthEnqueued
        = (StealTasksOrReturnWorker (Scenario.config 4 1) 2000 (Scenario.worker 12) false
            Scenario.key Scenario.fifthEnqueued).bind
              (RequestNewWorkerIfNeeded (Scenario.config 4 1) Scenario.key none) ∧
      StealTasksOrReturnWorker (Scenario.config 4 1) 2000 (Scenario.worker 12) false
          Scenario.key Scenario.fifthEnqueued = none := by
  have h2 : (run (Scenario.config 4 1) Scenario.pushedWhileStealingTrace Submitter.init).any
      (fun s2 => decide
        ((Event.PushReply 4 Status.IOError Scenario.okReply false).enabled s2 = true ∧
          step (Scenario.config 4 1) 0
            (Event.PushReply 4 Status.IOError Scenario.okReply false) s2 = none)) = true := by
    decide
  obtain ⟨s2, hrun2, hreach2, hp2⟩ := run_witness h2
  simp only [decide_eq_true_eq] at hp2
  have h : (run (Scenario.config 4 1) Scenario.expiredWhileStealingTrace Submitter.init).any
      (fun s => decide (s = Scenario.expiredWhileStealing)) = true := by decide
  obtain ⟨s, hrun, hreach, hp⟩ := run_witness h
  simp only [decide_eq_true_eq] at hp
  subst hp
  exact ⟨⟨s2, hrun2, hreach2, hp2.1, hp2.2⟩, _, hrun, hreach, rfl, by decide, by decide,
    by decide, by decide, by decide, by decide, by decide⟩

/-! ### Cancelling the pending lease requests of a key -/

theorem cancelAll_eq (cfg : Config) (key : SchedulingKey) (l : List (TaskID × WorkerAddress)) :
    ∀ s : Submitter,
      (CancelWorkerLeaseIfNeeded.cancelAll cfg key l s).calls = s.calls ++
          l.map (fun p =>
            Call.CancelWorkerLease (GetOrConnectLeaseClient cfg p.2 s).2 p.1) ∧
        (CancelWorkerLeaseIfNeeded.cancelAll cfg key l s).lease_cancels
          = s.lease_cancels ++ l.map (fun _ => key) ∧
        (CancelWorkerLeaseIfNeeded.cancelAll cfg key l s).scheduling_key_entries
          = s.scheduling_key_entries ∧
        (CancelWorkerLeaseIfNeeded.cancelAll cfg key l s).worker_to_lease_entry
          = s.worker_to_lease_entry := by
  induction l with
  | nil => intro s; simp [CancelWorkerLeaseIfNeeded.cancelAll]
  | cons p rest ih =>
    intro s
    obtain ⟨t, r⟩ := p
    simp only [CancelWorkerLeaseIfNeeded.cancelAll]
    obtain ⟨h1, h2, h3, h4⟩ := ih
      ({ (GetOrConnectLeaseClient cfg r s).1.call
          (Call.CancelWorkerLease (GetOrConnectLeaseClient cfg r s).2 t) with
        lease_cancels := ((GetOrConnectLeaseClient cfg r s).1.call
          (Call.CancelWorkerLease (GetOrConnectLeaseClient cfg r s).2 t)).lease_cancels
            ++ [key] })
    refine ⟨h1.trans ?_, h2.trans ?_, h3.trans rfl, h4.trans rfl⟩
    · simp [Submitter.call, GetOrConnectLeaseClient]
    · simp [Submitter.call, GetOrConnectLeaseClient]

theorem CancelWorkerLeaseIfNeeded_effect (cfg : Config) (key : SchedulingKey) (s : Submitter) :
    (CancelWorkerLeaseIfNeeded cfg key s).calls = s.calls ++
        (if (s.entry key).task_queue = [] ∧ (s.entry key).StealableTasks = false then
          (s.entry key).pending_lease_requests.map (fun p =>
            Call.CancelWorkerLease (GetOrConnectLeaseClient cfg p.2 s).2 p.1)
        else []) ∧
      (CancelWorkerLeaseIfNeeded cfg key s).lease_cancels = s.lease_cancels ++
        (if (s.entry key).task_queue = [] ∧ (s.entry key).StealableTasks = false then
          (s.entry key).pending_lease_requests.map (fun _ => key)
        else []) ∧
      (∀ k, (CancelWorkerLeaseIfNeeded cfg key s).entry k = s.entry k) ∧
      (CancelWorkerLeaseIfNeeded cfg key s).worker_to_lease_entry
        = s.worker_to_lease_entry := by
  unfold CancelWorkerLeaseIfNeeded
  simp only [Submitter.entry_touchEntry]
  by_cases h : (s.entry key).task_queue = [] ∧ (s.entry key).StealableTasks = false
  · have hc : ¬ ((!(s.entry key).task_queue.isEmpty || (s.entry key).StealableTasks) = true) := by
      simp [h.1, h.2]
    rw [if_neg hc, if_pos h, if_pos h]
    obtain ⟨h1, h2, h3, h4⟩ := cancelAll_eq cfg key (s.entry key).pending_lease_requests
      (s.touchEntry key)
    refine ⟨h1, h2, fun k => ?_, h4⟩
    exact (Submitter.entry_of_entries_eq h3 k).trans (Submitter.entry_touchEntry s key k)
  · have hc : (!(s.entry key).task_queue.isEmpty || (s.entry key).StealableTasks) = true := by
      by_cases hq : (s.entry key).task_queue = []
      · have hs : (s.entry key).StealableTasks = true := by
          cases hst : (s.entry key).StealableTasks with
          | true => rfl
          | false => exact absurd ⟨hq, hst⟩ h
        simp [hs]
      · cases hq' : (s.entry key).task_queue with
        | nil => exact absurd hq' hq
        | cons a l => simp
    rw [if_pos hc, if_neg h, if_neg h]
    exact ⟨by simp [Submitter.touchEntry], by simp [Submitter.touchEntry],
      fun k => Submitter.entry_touchEntry s key k, rfl⟩

/-- C24: `CancelWorkerLeaseIfNeeded` sends `CancelWorkerLease` calls exactly when the task
queue of the key is empty and `StealableTasks()` does not hold: then its calls are one
`CancelWorkerLease` per pending lease request of the key, in their order, each with the
id of the request and on the lease client of the raylet recorded for it, and it hands out
one reply continuation per call; otherwise it makes no call.  In both cases the entry of
every key reads the same (pending lease requests, task queue, active workers and the
counter of tasks in flight included) and the lease entries are unchanged. -/
theorem cancel_lease_requests_when_idle (cfg : Config) (key : SchedulingKey) (s : Submitter) :
    (CancelWorkerLeaseIfNeeded cfg key s).calls = s.calls ++
        (if (s.entry key).task_queue = [] ∧ (s.entry key).StealableTasks = false then
          (s.entry key).pending_lease_requests.map (fun p =>
            Call.CancelWorkerLease (GetOrConnectLeaseClient cfg p.2 s).2 p.1)
        else []) ∧
      (CancelWorkerLeaseIfNeeded cfg key s).lease_cancels = s.lease_cancels ++
        (if (s.entry key).task_queue = [] ∧ (s.entry key).StealableTasks = false then
          (s.entry key).pending_lease_requests.map (fun _ => key)
        else []) ∧
      (∀ k, (CancelWorkerLeaseIfNeeded cfg key s).entry k = s.entry k) ∧
      (CancelWorkerLeaseIfNeeded cfg key s).worker_to_lease_entry
        = s.worker_to_lease_entry :=
  CancelWorkerLeaseIfNeeded_effect cfg key s

/-! ### A push reply from a worker that is exiting -/

theorem settle_entry (ctx : PushContext) (s : Submitter) :
    (PushNormalTask.settle ctx s).entry ctx.scheduling_key
      = { s.entry ctx.scheduling_key with
          total_tasks_in_flight := (s.entry ctx.scheduling_key).total_tasks_in_flight - 1 } := by
  unfold PushNormalTask.settle
  simp only [Submitter.entry_setEntry, if_true, Submitter.entry_touchEntry]
  rfl

theorem workerExiting_entry (ctx : PushContext) (s : Submitter) :
    (Assoc.lookup ctx.scheduling_key
        (PushNormalTask.workerExiting ctx s).scheduling_key_entries = none ↔
      ((s.entry ctx.scheduling_key).withoutWorker ctx.addr).CanDelete = true) ∧
    ((PushNormalTask.workerExiting ctx s).entry ctx.scheduling_key).active_workers
      = (s.entry ctx.scheduling_key).active_workers.filter (fun a => decide (a ≠ ctx.addr)) := by
  unfold PushNormalTask.workerExiting
  simp only []
  have he : (((s.eraseLease ctx.addr).touchEntry ctx.scheduling_key).entry ctx.scheduling_key)
      = s.entry ctx.scheduling_key := by
    rw [Submitter.entry_touchEntry]
    rfl
  rw [he]
  constructor
  · simp only [Submitter.eraseEntryIfCanDelete]
    rw [Submitter.entry_setEntry, if_pos rfl]
    split_ifs with hc
    · rw [Assoc.lookup_remove, if_pos rfl]
      exact ⟨fun _ => hc, fun _ => rfl⟩
    · simp only [Submitter.setEntry, Assoc.lookup_update, if_pos]
      constructor
      · intro h
        cases h
      · intro h
        exact absurd h hc
  · rw [Submitter.active_eraseEntryIfCanDelete, Submitter.entry_setEntry, if_pos rfl]
    rfl

/-- C27: a push reply with `worker_exiting` set whose callback passes its three checks
returns.  Afterwards the task is not in `executing_tasks`, the worker has no lease entry
and is not among the active workers of the key, and the key entry is erased exactly when,
the worker removed, it can be deleted (no queued task, no other active worker, no pending
lease request).  The only calls the callback makes are those that tell the finisher the
outcome of the task: no `ReturnWorker`, no `PushNormalTask` and no other call towards a
raylet or a worker; and it hands out no push continuation. -/
theorem worker_exiting_reply_drops_worker (cfg : Config) (now : Nat) (ctx : PushContext)
    (status : Status) (reply : PushTaskReply) (retry_possible : Bool) (s : Submitter)
    (h_exiting : reply.worker_exiting = true)
    (h_in_flight : (s.lease ctx.addr).tasks_in_flight > 0)
    (h_active : (s.entry ctx.scheduling_key).active_workers ≠ [])
    (h_total : (s.entry ctx.scheduling_key).total_tasks_in_flight ≥ 1) :
    ∃ s', PushNormalTask.reply cfg now ctx status reply retry_possible s = some s' ∧
      Assoc.lookup ctx.task_id s'.executing_tasks = none ∧
      Assoc.lookup ctx.addr s'.worker_to_lease_entry = none ∧
      ctx.addr ∉ (s'.entry ctx.scheduling_key).active_workers ∧
      (Assoc.lookup ctx.scheduling_key s'.scheduling_key_entries = none ↔
        (s.entry ctx.scheduling_key).task_queue = [] ∧
        (s.entry ctx.scheduling_key).active_workers.filter (fun a => decide (a ≠ ctx.addr))
          = [] ∧
        (s.entry ctx.scheduling_key).pending_lease_requests = []) ∧
      s'.calls = s.calls ++ PushNormalTask.outcome ctx status reply retry_possible ∧
      s'.calls.filter Call.isScheduling = s.calls.filter Call.isScheduling ∧
      s'.pushes = s.pushes := by
  have hlen : ¬ (s.entry ctx.scheduling_key).active_workers.length < 1 := by
    cases hw : (s.entry ctx.scheduling_key).active_workers with
    | nil => exact absurd hw h_active
    | cons a l => simp
  obtain ⟨cs, hcs, -⟩ := finish_eq ctx status reply retry_possible
    (PushNormalTask.workerExiting ctx (PushNormalTask.settle ctx s))
  refine ⟨PushNormalTask.finish ctx status reply retry_possible
    (PushNormalTask.workerExiting ctx (PushNormalTask.settle ctx s)), ?_, ?_, ?_, ?_, ?_, ?_,
    ?_, ?_⟩
  · unfold PushNormalTask.reply
    rw [if_neg (not_not.mpr h_in_flight), if_neg hlen, if_neg (by omega)]
    simp only [h_exiting, if_true]
  · rw [hcs]
    show Assoc.lookup ctx.task_id (Assoc.remove ctx.task_id s.executing_tasks) = none
    rw [Assoc.lookup_remove, if_pos rfl]
  · rw [finish_leases]
    show Assoc.lookup ctx.addr (Assoc.remove ctx.addr _) = none
    rw [Assoc.lookup_remove, if_pos rfl]
  · rw [Submitter.entry_of_entries_eq (finish_entries ..), (workerExiting_entry ctx _).2]
    simp
  · rw [finish_entries, (workerExiting_entry ctx _).1, settle_entry]
    simp [SchedulingKeyEntry.CanDelete, SchedulingKeyEntry.withoutWorker, and_assoc]
  · rw [finish_calls]
    rfl
  · rw [finish_calls, List.filter_append]
    have : (PushNormalTask.outcome ctx status reply retry_possible).filter Call.isScheduling
        = [] := by
      unfold PushNormalTask.outcome
      split_ifs <;> simp [Call.isScheduling]
    rw [this, List.append_nil]
    rfl
  · rw [hcs]
    rfl

theorem worker_exiting_reply_drops_worker_witness :
    (Scenario.pipelined.lease (Scenario.worker 11)).tasks_in_flight = 2 ∧
      ∃ s', PushNormalTask.reply (Scenario.config 2 1) 0 Scenario.pushOfTask1 Status.OK
          Scenario.exitingReply false Scenario.pipelined = some s' ∧
        Assoc.lookup 1 s'.executing_tasks = none ∧
        Assoc.lookup (Scenario.worker 11) s'.worker_to_lease_entry = none ∧
        Scenario.worker 11 ∉ (s'.entry Scenario.key).active_workers ∧
        s'.calls = Scenario.pipelined.calls ++ [Call.CompletePendingTask 1] := by
  obtain ⟨s', h1, h2, h3, h4, -, h6, -, -⟩ :=
    worker_exiting_reply_drops_worker (Scenario.config 2 1) 0 Scenario.pushOfTask1 Status.OK
      Scenario.exitingReply false Scenario.pipelined (by decide) (by decide) (by decide)
      (by decide)
  exact ⟨by decide, s', h1, h2, h3, h4, h6⟩

/-! ### The backlog report -/

theorem keys_update {α : Type} {β : Type} [DecidableEq α] (k : α) (v : β) (m : List (α × β)) :
    (Assoc.update k v m).map Prod.fst
      = if k ∈ m.map Prod.fst then m.map Prod.fst else m.map Prod.fst ++ [k] := by
  induction m with
  | nil => simp [Assoc.update]
  | cons p rest ih =>
    obtain ⟨k', v'⟩ := p
    simp only [Assoc.update]
    by_cases hk : k' = k
    · subst hk
      simp
    · rw [if_neg hk]
      simp only [List.map_cons, ih, List.mem_cons]
      by_cases hmem : k ∈ rest.map Prod.fst
      · simp [hmem]
      · simp [hmem, Ne.symm hk]

theorem nodup_keys_update {α : Type} {β : Type} [DecidableEq α] (k : α) (v : β)
    {m : List (α × β)} (h : (m.map Prod.fst).Nodup) :
    ((Assoc.update k v m).map Prod.fst).Nodup := by
  rw [keys_update]
  split_ifs with hmem
  · exact h
  · exact List.Nodup.append h (List.nodup_singleton k) (by simpa using hmem)

theorem backlogs_nodup (l : List (SchedulingKey × SchedulingKeyEntry)) :
    ∀ acc : List (SchedulingClass × (TaskSpecification × Nat)), (acc.map Prod.fst).Nodup →
      ((ReportWorkerBacklogInternal.backlogs l acc).map Prod.fst).Nodup := by
  induction l with
  | nil => intro acc h; exact h
  | cons p rest ih =>
    intro acc h
    obtain ⟨key, e⟩ := p
    simp only [ReportWorkerBacklogInternal.backlogs]
    apply ih
    apply nodup_keys_update
    split
    · exact h
    · exact nodup_keys_update _ _ h

theorem backlogs_lookup (c : SchedulingClass) (l : List (SchedulingKey × SchedulingKeyEntry)) :
    ∀ acc : List (SchedulingClass × (TaskSpecification × Nat)),
      Assoc.lookup c (ReportWorkerBacklogInternal.backlogs l acc)
        = match Assoc.lookup c acc with
          | some b => some (b.1, b.2 + ReportWorkerBacklogInternal.backlogOf c l)
          | none => (l.find? (fun ke => decide (ke.1.scheduling_class = c))).map
              (fun ke => (ke.2.resource_spec, ReportWorkerBacklogInternal.backlogOf c l)) := by
  induction l with
  | nil =>
    intro acc
    simp only [ReportWorkerBacklogInternal.backlogs, ReportWorkerBacklogInternal.backlogOf]
    cases Assoc.lookup c acc <;> simp
  | cons p rest ih =>
    intro acc
    obtain ⟨key, e⟩ := p
    simp only [ReportWorkerBacklogInternal.backlogs]
    rw [ih]
    by_cases hc : key.scheduling_class = c
    · subst hc
      cases hl : Assoc.lookup key.scheduling_class acc with
      | some b =>
        simp [Assoc.lookup_update, hl, ReportWorkerBacklogInternal.backlogOf, Nat.add_assoc]
      | none =>
        simp [Assoc.lookup_update, hl, ReportWorkerBacklogInternal.backlogOf]
    · have hne : ∀ (v : TaskSpecification × Nat)
          (acc' : List (SchedulingClass × (TaskSpecification × Nat))),
          Assoc.lookup c (Assoc.update key.scheduling_class v acc')
          = Assoc.lookup c acc' := by
        intro v acc'
        rw [Assoc.lookup_update, if_neg hc]
      have h2 : ReportWorkerBacklogInternal.backlogOf c ((key, e) :: rest)
          = ReportWorkerBacklogInternal.backlogOf c rest := by
        simp [ReportWorkerBacklogInternal.backlogOf, hc]
      have h3 : List.find? (fun ke : SchedulingKey × SchedulingKeyEntry =>
            decide (ke.1.scheduling_class = c)) ((key, e) :: rest)
          = List.find? (fun ke => decide (ke.1.scheduling_class = c)) rest := by
        simp [List.find?, hc]
      rw [hne, h2, h3]
      cases hk : Assoc.lookup key.scheduling_class acc with
      | some b0 => rfl
      | none => simp only [hne]

/-- C25: `ReportWorkerBacklog` makes one call, `ReportWorkerBacklog` with the worker id of
this process and the reports built from the key entries.  There is exactly one report per
scheduling class that occurs among the key entries: the classes of the reports are
pairwise distinct, and a class has a report iff a key entry has it.  The report of a class
carries the resource spec of the first key entry of the class and, as backlog size, the
sum of `BacklogSize()` over the key entries of the class.  Afterwards, the last reported
backlog size of every key entry is its `BacklogSize()`, and `ReportWorkerBacklogIfNeeded`
called right after it, for any key, makes no call. -/
theorem backlog_report_per_scheduling_class (cfg : Config) (s : Submitter) :
    (ReportWorkerBacklog cfg s).calls = s.calls ++
        [Call.ReportWorkerBacklog cfg.rpc_address.worker_id
          ((ReportWorkerBacklogInternal.backlogs s.scheduling_key_entries []).map
            (fun b => b.2))] ∧
      ((ReportWorkerBacklogInternal.backlogs s.scheduling_key_entries []).map
        Prod.fst).Nodup ∧
      (∀ c, Assoc.lookup c (ReportWorkerBacklogInternal.backlogs s.scheduling_key_entries [])
        = (s.scheduling_key_entries.find? (fun ke => decide (ke.1.scheduling_class = c))).map
            (fun ke => (ke.2.resource_spec,
              ReportWorkerBacklogInternal.backlogOf c s.scheduling_key_entries))) ∧
      (∀ ke ∈ (ReportWorkerBacklog cfg s).scheduling_key_entries,
        ke.2.last_reported_backlog_size = ke.2.BacklogSize) ∧
      (∀ key, ((ReportWorkerBacklog cfg s).entry key).pending_lease_requests
          = (s.entry key).pending_lease_requests ∧
        ((ReportWorkerBacklog cfg s).entry key).task_queue = (s.entry key).task_queue) ∧
      ∀ key, (ReportWorkerBacklogIfNeeded cfg key (ReportWorkerBacklog cfg s)).calls
        = (ReportWorkerBacklog cfg s).calls := by
  have hentry : ∀ key, (ReportWorkerBacklog cfg s).entry key = (s.entry key).reported := by
    intro key
    simp only [ReportWorkerBacklog, ReportWorkerBacklogInternal, Submitter.entry,
      Submitter.call, Assoc.lookup_map_snd SchedulingKeyEntry.reported]
    cases Assoc.lookup key s.scheduling_key_entries <;> rfl
  refine ⟨rfl, backlogs_nodup _ [] (by simp), fun c => ?_, ?_, fun key => ?_, fun key => ?_⟩
  · rw [backlogs_lookup]
    rfl
  · intro ke hke
    simp only [ReportWorkerBacklog, ReportWorkerBacklogInternal, Submitter.call,
      List.mem_map] at hke
    obtain ⟨ke0, -, rfl⟩ := hke
    rfl
  · rw [hentry]
    exact ⟨rfl, rfl⟩
  · unfold ReportWorkerBacklogIfNeeded
    simp only [Submitter.entry_touchEntry, hentry]
    rw [if_neg (by simp [SchedulingKeyEntry.reported, SchedulingKeyEntry.BacklogSize])]
    rfl

/-! ### The victim of a steal -/

theorem scan_max (thief : WorkerAddress) (l : List WorkerAddress) :
    ∀ (victim : WorkerAddress) (s s' : Submitter) (v' : WorkerAddress),
      FindOptimalVictimForStealing.scan thief l victim s = some (s', v') →
      (∀ a, s'.lease a = s.lease a) ∧ (v' = victim ∨ v' ∈ l) ∧
      (v'.worker_id ≠ thief.worker_id →
        (victim.worker_id ≠ thief.worker_id →
          (s.lease victim).tasks_in_flight ≤ (s.lease v').tasks_in_flight) ∧
        ∀ a ∈ l, a.worker_id ≠ thief.worker_id →
          (s.lease a).tasks_in_flight ≤ (s.lease v').tasks_in_flight) := by
  induction l with
  | nil =>
    intro victim s s' v' h
    simp only [FindOptimalVictimForStealing.scan, Option.some.injEq, Prod.mk.injEq] at h
    obtain ⟨rfl, rfl⟩ := h
    exact ⟨fun _ => rfl, Or.inl rfl, fun _ => ⟨fun _ => Nat.le_refl _, by simp⟩⟩
  | cons c rest ih =>
    intro victim s s' v' h
    simp only [FindOptimalVictimForStealing.scan] at h
    split at h
    · cases h
    · rename_i victim_entry hv
      have hve : victim_entry = s.lease victim := by
        rw [← Submitter.lease_touchLease s c victim, Submitter.lease_of_lookup hv]
      rw [hve, Submitter.lease_touchLease] at h
      split at h
      · rename_i hcond
        obtain ⟨hl, hmem, hmax⟩ := ih _ _ _ _ h
        have hl' : ∀ a, s'.lease a = s.lease a := fun a =>
          (hl a).trans (Submitter.lease_touchLease s c a)
        refine ⟨hl', ?_, fun hv' => ?_⟩
        · rcases hmem with hm | hm
          · exact Or.inr (hm ▸ List.mem_cons_self _ _)
          · exact Or.inr (List.mem_cons_of_mem _ hm)
        · obtain ⟨h1, h2⟩ := hmax hv'
          simp only [Submitter.lease_touchLease] at h1 h2
          refine ⟨fun hvic => ?_, fun a ha hne => ?_⟩
          · rcases hcond with hc | ⟨hgt, hcne⟩
            · exact absurd hc hvic
            · have := h1 hcne
              omega
          · rcases List.mem_cons.mp ha with rfl | ha
            · exact h1 hne
            · exact h2 a ha hne
      · rename_i hcond
        obtain ⟨hl, hmem, hmax⟩ := ih _ _ _ _ h
        have hl' : ∀ a, s'.lease a = s.lease a := fun a =>
          (hl a).trans (Submitter.lease_touchLease s c a)
        have hvic : victim.worker_id ≠ thief.worker_id := fun hc => hcond (Or.inl hc)
        refine ⟨hl', ?_, fun hv' => ?_⟩
        · rcases hmem with hm | hm
          · exact Or.inl hm
          · exact Or.inr (List.mem_cons_of_mem _ hm)
        · obtain ⟨h1, h2⟩ := hmax hv'
          simp only [Submitter.lease_touchLease] at h1 h2
          refine ⟨fun _ => h1 hvic, fun a ha hne => ?_⟩
          rcases List.mem_cons.mp ha with rfl | ha
          · have hle : ¬ ((s.lease a).tasks_in_flight > (s.lease victim).tasks_in_flight) :=
              fun hgt => hcond (Or.inr ⟨hgt, hne⟩)
            have := h1 hvic
            omega
          · exact h2 a ha hne

/-- C23: whenever `FindOptimalVictimForStealing` returns true, the victim it leaves in
`*victim_raw_addr` is an active worker of the key, differs from the thief in address and
in worker id, has at least two tasks in flight, and no active worker of the key with a
worker id other than the thief's has more tasks in flight; with pairwise distinct worker
ids this is every active worker other than the thief.  The tasks in flight are those of
the lease entries, which the call leaves as they are. -/
theorem victim_has_most_tasks_in_flight (key : SchedulingKey) (thief victim0 : WorkerAddress)
    (s s' : Submitter) (victim : WorkerAddress)
    (h : FindOptimalVictimForStealing key thief victim0 s = some (s', true, victim)) :
    victim ∈ (s.entry key).active_workers ∧ victim ≠ thief ∧
      victim.worker_id ≠ thief.worker_id ∧ (s.lease victim).tasks_in_flight ≥ 2 ∧
      (∀ a ∈ (s.entry key).active_workers, a.worker_id ≠ thief.worker_id →
        (s.lease a).tasks_in_flight ≤ (s.lease victim).tasks_in_flight) ∧
      ((∀ a ∈ (s.entry key).active_workers, a.worker_id = thief.worker_id → a = thief) →
        ∀ a ∈ (s.entry key).active_workers, a ≠ thief →
          (s.lease a).tasks_in_flight ≤ (s.lease victim).tasks_in_flight) ∧
      ∀ a, s'.lease a = s.lease a := by
  unfold FindOptimalVictimForStealing at h
  simp only [Submitter.entry_touchEntry] at h
  split at h
  · cases h
  · split at h
    · cases h
    · rename_i first tl hact
      split at h
      · cases h
      · rename_i s2 v hscan
        obtain ⟨hl, hmem, hmax⟩ := scan_max _ _ _ _ _ _ hscan
        have hl2 : ∀ a, s2.lease a = s.lease a := fun a => (hl a).trans rfl
        rw [hact] at hmem hmax ⊢
        split at h
        · cases h
        · rename_i hne
          split at h
          · cases h
          · split at h
            · cases h
            · split at h
              · cases h
              · rename_i hhalf
                simp only [Option.some.injEq, Prod.mk.injEq, true_and] at h
                obtain ⟨rfl, rfl⟩ := h
                have hne1 : v ≠ thief := fun hc => hne (Or.inl hc)
                have hne2 : v.worker_id ≠ thief.worker_id := fun hc => hne (Or.inr hc)
                have hl3 : ∀ a, (s2.touchLease v).lease a = s.lease a := fun a =>
                  (Submitter.lease_touchLease s2 v a).trans (hl2 a)
                have hmem' : v ∈ first :: tl := by
                  rcases hmem with hm | hm
                  · exact hm ▸ List.mem_cons_self _ _
                  · exact hm
                have hmax' : ∀ a ∈ first :: tl, a.worker_id ≠ thief.worker_id →
                    (s.lease a).tasks_in_flight ≤ (s.lease v).tasks_in_flight := by
                  intro a ha hna
                  exact (hmax hne2).2 a ha hna
                refine ⟨hmem', hne1, hne2, ?_, hmax', fun hd a ha hna => ?_, hl3⟩
                · rw [hl3] at hhalf
                  omega
                · exact hmax' a ha (fun hc => hna (hd a ha hc))

theorem victim_has_most_tasks_in_flight_witness :
    ∃ s', FindOptimalVictimForStealing Scenario.key (Scenario.worker 12) WorkerAddress.empty
        Scenario.stealing = some (s', true, Scenario.worker 11) ∧
      Scenario.worker 11 ∈ (Scenario.stealing.entry Scenario.key).active_workers ∧
      (Scenario.stealing.lease (Scenario.worker 11)).tasks_in_flight ≥ 2 ∧
      ∀ a ∈ (Scenario.stealing.entry Scenario.key).active_workers,
        a.worker_id ≠ (Scenario.worker 12).worker_id →
        (Scenario.stealing.lease a).tasks_in_flight
          ≤ (Scenario.stealing.lease (Scenario.worker 11)).tasks_in_flight := by
  have hres : (FindOptimalVictimForStealing Scenario.key (Scenario.worker 12)
      WorkerAddress.empty Scenario.stealing).map (fun r => r.2)
        = some (true, Scenario.worker 11) := by decide
  cases hr : FindOptimalVictimForStealing Scenario.key (Scenario.worker 12)
      WorkerAddress.empty Scenario.stealing with
  | none => rw [hr] at hres; cases hres
  | some r =>
    obtain ⟨s', found, v⟩ := r
    rw [hr] at hres
    simp only [Option.map_some', Option.some.injEq, Prod.mk.injEq] at hres
    obtain ⟨rfl, rfl⟩ := hres
    have h := victim_has_most_tasks_in_flight Scenario.key (Scenario.worker 12)
      WorkerAddress.empty Scenario.stealing s' (Scenario.worker 11) hr
    exact ⟨s', rfl, h.1, h.2.2.2.1, h.2.2.2.2.1⟩

/-! ### Stealing tasks or returning the worker -/

theorem lookup_of_touched {α : Type} {β : Type} [DecidableEq α] {d : β} {m m' : List (α × β)}
    (h : Assoc.Touched d m m') {k : α} {v : β} (hk : Assoc.lookup k m = some v) :
    Assoc.lookup k m' = some v := by
  rcases h k with h1 | ⟨h1, -⟩
  · rw [h1, hk]
  · rw [hk] at h1
    cases h1

theorem ReturnWorker_effect {addr : WorkerAddress} (was_error : Bool) (key : SchedulingKey)
    {s : Submitter} {l : LeaseEntry} {client : LeaseClient}
    (h_lease : Assoc.lookup addr s.worker_to_lease_entry = some l)
    (h_client : l.lease_client = some client) (h_zero : l.tasks_in_flight = 0)
    (h_flag : l.is_stealing = false) (h_active : (s.entry key).active_workers ≠ []) :
    ∃ s', ReturnWorker addr was_error key s = some s' ∧
      Assoc.lookup addr s'.worker_to_lease_entry = none ∧
      (∀ a, a ≠ addr →
        Assoc.lookup a s'.worker_to_lease_entry = Assoc.lookup a s.worker_to_lease_entry) ∧
      (s'.entry key).active_workers
        = (s.entry key).active_workers.filter (fun a => decide (a ≠ addr)) ∧
      s'.calls = s.calls ++ [Call.ReturnWorker client addr.port addr.worker_id was_error] ∧
      s'.steals = s.steals := by
  have hlen : ¬ (s.entry key).active_workers.length < 1 := by
    cases hw : (s.entry key).active_workers with
    | nil => exact absurd hw h_active
    | cons a t => simp
  have hl : (s.touchEntry key).lease addr = l := Submitter.lease_of_lookup h_lease
  have htouch : (s.touchEntry key).touchLease addr = s.touchEntry key :=
    Submitter.touchLease_of_lookup (s := s.touchEntry key) h_lease
  refine ⟨((((s.touchEntry key).setEntry key
      ((s.entry key).withoutWorker addr)).eraseEntryIfCanDelete key).call
        (Call.ReturnWorker client addr.port addr.worker_id was_error)).eraseLease addr,
    ?_, ?_, ?_, ?_, rfl, rfl⟩
  · unfold ReturnWorker
    simp only [Submitter.entry_touchEntry, htouch, hl, h_client, h_zero, h_flag, if_neg hlen,
      LeaseEntry.WorkerIsStealing, ne_eq, not_true_eq_false, if_false, Bool.false_eq_true]
  · show Assoc.lookup addr (Assoc.remove addr _) = none
    rw [Assoc.lookup_remove, if_pos rfl]
  · intro a ha
    show Assoc.lookup a (Assoc.remove addr _) = _
    rw [Assoc.lookup_remove, if_neg (Ne.symm ha)]
    rfl
  · show ((((s.touchEntry key).setEntry key
      ((s.entry key).withoutWorker addr)).eraseEntryIfCanDelete key).entry key).active_workers
        = _
    rw [Submitter.active_eraseEntryIfCanDelete, Submitter.entry_setEntry, if_pos rfl]
    rfl

theorem FindOptimalVictimForStealing_frame {key : SchedulingKey} {thief victim0 : WorkerAddress}
    {s s' : Submitter} {found : Bool} {victim : WorkerAddress}
    (h : FindOptimalVictimForStealing key thief victim0 s = some (s', found, victim)) :
    s'.calls = s.calls ∧ s'.steals = s.steals ∧ (∀ k, s'.entry k = s.entry k) ∧
      (∀ a l, Assoc.lookup a s.worker_to_lease_entry = some l →
        Assoc.lookup a s'.worker_to_lease_entry = some l) ∧
      (found = true → (Assoc.lookup victim s'.worker_to_lease_entry).isSome = true) := by
  have hfound : found = true →
      (Assoc.lookup victim s'.worker_to_lease_entry).isSome = true := by
    intro hfound
    subst hfound
    unfold FindOptimalVictimForStealing at h
    simp only [Submitter.entry_touchEntry] at h
    split at h
    · cases h
    · split at h
      · cases h
      · split at h
        · cases h
        · rename_i s2 v hscan
          split at h
          · cases h
          · split at h
            · cases h
            · split at h
              · cases h
              · split at h
                · cases h
                · simp only [Option.some.injEq, Prod.mk.injEq, true_and] at h
                  obtain ⟨hs, hv⟩ := h
                  rw [← hs, ← hv]
                  simp [Submitter.touchLease, Assoc.lookup_emplace]
  obtain ⟨leases, rfl, ht⟩ := FindOptimalVictimForStealing_inv h
  exact ⟨rfl, rfl, fun k => Submitter.entry_touchEntry s key k,
    fun a l hl => lookup_of_touched ht hl, hfound⟩

/-- C22: for a thief that has a lease entry with a lease client, no task in flight and the
stealing flag not set, `StealTasksOrReturnWorker` does one of three things, according to
its tests.  (a) If `was_error` or the lease has expired, it returns the worker: the lease
entry is erased, the worker is removed from the active workers of the key, and the only
call is one `ReturnWorker` carrying `was_error`.  (b) Otherwise, if no victim is found, it
returns the worker in the same way, after the `CancelWorkerLease` calls of
`CancelWorkerLeaseIfNeeded`, which is called iff `max_tasks_in_flight_per_worker > 1`; no
`StealTasks` is sent in (a) and (b).  (c) Otherwise it sets the stealing flag of the thief,
whose lease entry and membership in the active workers are kept, and its only call is one
`StealTasks` to the selected victim, for which it hands out one reply continuation.  The
call returns in (a) and (b) when the key has an active worker, and in (c) when
`max_tasks_in_flight_per_worker > 1`. -/
theorem steal_tasks_or_return_worker (cfg : Config) (now : Nat) (thief_addr : WorkerAddress)
    (was_error : Bool) (key : SchedulingKey) (s : Submitter) (l : LeaseEntry)
    (client : LeaseClient)
    (h_lease : Assoc.lookup thief_addr s.worker_to_lease_entry = some l)
    (h_client : l.lease_client = some client) (h_zero : l.tasks_in_flight = 0)
    (h_flag : l.is_stealing = false) :
    ((was_error || decide (now > l.lease_expiration_time)) = true →
      (s.entry key).active_workers ≠ [] →
      ∃ s', StealTasksOrReturnWorker cfg now thief_addr was_error key s = some s' ∧
        Assoc.lookup thief_addr s'.worker_to_lease_entry = none ∧
        (s'.entry key).active_workers
          = (s.entry key).active_workers.filter (fun a => decide (a ≠ thief_addr)) ∧
        s'.calls = s.calls ++
          [Call.ReturnWorker client thief_addr.port thief_addr.worker_id was_error] ∧
        s'.steals = s.steals) ∧
    (∀ s2 v, (was_error || decide (now > l.lease_expiration_time)) = false →
      FindOptimalVictimForStealing key thief_addr WorkerAddress.empty s
        = some (s2, false, v) →
      (s.entry key).active_workers ≠ [] →
      ∃ s', StealTasksOrReturnWorker cfg now thief_addr was_error key s = some s' ∧
        Assoc.lookup thief_addr s'.worker_to_lease_entry = none ∧
        (s'.entry key).active_workers
          = (s.entry key).active_workers.filter (fun a => decide (a ≠ thief_addr)) ∧
        s'.calls = s.calls ++
          (if cfg.max_tasks_in_flight_per_worker > 1 ∧ (s.entry key).task_queue = [] ∧
              (s.entry key).StealableTasks = false then
            (s.entry key).pending_lease_requests.map (fun p =>
              Call.CancelWorkerLease (GetOrConnectLeaseClient cfg p.2 s).2 p.1)
          else []) ++
          [Call.ReturnWorker client thief_addr.port thief_addr.worker_id was_error] ∧
        s'.steals = s.steals) ∧
    (∀ s2 v, (was_error || decide (now > l.lease_expiration_time)) = false →
      FindOptimalVictimForStealing key thief_addr WorkerAddress.empty s
        = some (s2, true, v) →
      cfg.max_tasks_in_flight_per_worker > 1 →
      ∃ s', StealTasksOrReturnWorker cfg now thief_addr was_error key s = some s' ∧
        Assoc.lookup thief_addr s'.worker_to_lease_entry
          = some { l with is_stealing := true } ∧
        (s'.entry key).active_workers = (s.entry key).active_workers ∧
        s'.calls = s.calls ++ [Call.StealTasks v thief_addr] ∧
        s'.steals = s.steals ++ [StealContext.mk key v.worker_id v thief_addr]) := by
  have hl : s.lease thief_addr = l := Submitter.lease_of_lookup h_lease
  refine ⟨fun hc hact => ?_, fun s2 v hc hfind hact => ?_, fun s2 v hc hfind hmax => ?_⟩
  · obtain ⟨s', hr, h1, -, h3, h4, h5⟩ :=
      ReturnWorker_effect was_error key h_lease h_client h_zero h_flag hact
    refine ⟨s', ?_, h1, h3, h4, h5⟩
    unfold StealTasksOrReturnWorker
    simp only [Submitter.touchLease_of_lookup h_lease, hl, h_client, h_zero, h_flag,
      LeaseEntry.WorkerIsStealing, Option.isNone_some, ne_eq, not_true_eq_false, if_false,
      Bool.false_eq_true, hc, if_true]
    exact hr
  · obtain ⟨f1, f2, f3, f4, -⟩ := FindOptimalVictimForStealing_frame hfind
    obtain ⟨c1, -, c3, c4⟩ := CancelWorkerLeaseIfNeeded_effect cfg key s2
    have hlease3 : Assoc.lookup thief_addr
        (if cfg.max_tasks_in_flight_per_worker > 1
          then CancelWorkerLeaseIfNeeded cfg key s2 else s2).worker_to_lease_entry
        = some l := by
      split_ifs
      · rw [c4]
        exact f4 _ _ h_lease
      · exact f4 _ _ h_lease
    have hentry3 : (if cfg.max_tasks_in_flight_per_worker > 1
          then CancelWorkerLeaseIfNeeded cfg key s2 else s2).entry key = s.entry key := by
      split_ifs
      · rw [c3, f3]
      · exact f3 key
    have hsteals3 : (if cfg.max_tasks_in_flight_per_worker > 1
          then CancelWorkerLeaseIfNeeded cfg key s2 else s2).steals = s.steals := by
      split_ifs
      · refine Eq.trans ?_ f2
        exact (quiet_CancelWorkerLeaseIfNeeded cfg key s2).steals_eq
      · exact f2
    have hcalls3 : (if cfg.max_tasks_in_flight_per_worker > 1
          then CancelWorkerLeaseIfNeeded cfg key s2 else s2).calls
        = s.calls ++
          (if cfg.max_tasks_in_flight_per_worker > 1 ∧ (s.entry key).task_queue = [] ∧
              (s.entry key).StealableTasks = false then
            (s.entry key).pending_lease_requests.map (fun p =>
              Call.CancelWorkerLease (GetOrConnectLeaseClient cfg p.2 s).2 p.1)
          else []) := by
      by_cases hm : cfg.max_tasks_in_flight_per_worker > 1
      · rw [if_pos hm, c1, f1, f3]
        congr 1
        by_cases hq : (s.entry key).task_queue = [] ∧ (s.entry key).StealableTasks = false
        · rw [if_pos hq, if_pos ⟨hm, hq⟩]
          rfl
        · rw [if_neg hq, if_neg (fun hx => hq hx.2)]
      · rw [if_neg hm, if_neg (fun hx => hm hx.1), f1, List.append_nil]
    obtain ⟨s', hr, h1, -, h3, h4, h5⟩ :=
      ReturnWorker_effect was_error key hlease3 h_client h_zero h_flag
        (by rw [hentry3]; exact hact)
    refine ⟨s', ?_, h1, by rw [h3, hentry3], by rw [h4, hcalls3], by rw [h5, hsteals3]⟩
    unfold StealTasksOrReturnWorker
    simp only [Submitter.touchLease_of_lookup h_lease, hl, h_client, h_zero, h_flag,
      LeaseEntry.WorkerIsStealing, Option.isNone_some, ne_eq, not_true_eq_false, if_false,
      Bool.false_eq_true, hc, hfind]
    exact hr
  · obtain ⟨f1, f2, f3, f4, f5⟩ := FindOptimalVictimForStealing_frame hfind
    have hl2 : s2.lease thief_addr = l := Submitter.lease_of_lookup (f4 _ _ h_lease)
    have hv : ¬ ((Assoc.lookup v s2.worker_to_lease_entry).isNone = true) := by
      have := f5 rfl
      cases hx : Assoc.lookup v s2.worker_to_lease_entry with
      | none => rw [hx] at this; cases this
      | some x => simp
    refine ⟨(((s2.setLease thief_addr
      { s2.lease thief_addr with is_stealing := true }).cacheConnect v).call
        (Call.StealTasks v thief_addr)).addSteal
          (StealContext.mk key v.worker_id v thief_addr), ?_, ?_, ?_, ?_, ?_⟩
    · unfold StealTasksOrReturnWorker
      simp only [Submitter.touchLease_of_lookup h_lease, hl, h_client, h_zero, h_flag,
        LeaseEntry.WorkerIsStealing, Option.isNone_some, ne_eq, not_true_eq_false, if_false,
        Bool.false_eq_true, hc, hfind]
      rw [if_neg (not_not.mpr hmax), if_neg hv]
    · show Assoc.lookup thief_addr (Assoc.update thief_addr _ _) = _
      rw [Assoc.lookup_update, if_pos rfl, hl2]
    · exact congrArg SchedulingKeyEntry.active_workers (f3 key)
    · show s2.calls ++ _ = _
      rw [f1]
    · show s2.steals ++ _ = _
      rw [f2]

theorem steal_tasks_or_return_worker_witness :
    Assoc.lookup (Scenario.worker 12) Scenario.secondGranted.worker_to_lease_entry
        = some Scenario.secondLease ∧
      ∃ s', StealTasksOrReturnWorker (Scenario.config 4 1) 0 (Scenario.worker 12) false
          Scenario.key Scenario.secondGranted = some s' ∧
        Assoc.lookup (Scenario.worker 12) s'.worker_to_lease_entry
          = some { Scenario.secondLease with is_stealing := true } ∧
        s'.calls = Scenario.secondGranted.calls ++
          [Call.StealTasks (Scenario.worker 11) (Scenario.worker 12)] := by
  have hres : (FindOptimalVictimForStealing Scenario.key (Scenario.worker 12)
      WorkerAddress.empty Scenario.secondGranted).map (fun r => r.2)
        = some (true, Scenario.worker 11) := by decide
  cases hr : FindOptimalVictimForStealing Scenario.key (Scenario.worker 12)
      WorkerAddress.empty Scenario.secondGranted with
  | none => rw [hr] at hres; cases hres
  | some r =>
    obtain ⟨s2, found, v⟩ := r
    rw [hr] at hres
    simp only [Option.map_some', Option.some.injEq, Prod.mk.injEq] at hres
    obtain ⟨rfl, rfl⟩ := hres
    obtain ⟨s', h1, h2, -, h4, -⟩ :=
      (steal_tasks_or_return_worker (Scenario.config 4 1) 0 (Scenario.worker 12) false
        Scenario.key Scenario.secondGranted Scenario.secondLease LeaseClient.local_client
        (by decide) (by decide) (by decide) (by decide)).2.2 s2 (Scenario.worker 11)
        (by decide) hr (by decide)
    exact ⟨by decide, s', h1, h2, h4⟩

/-! ### Pipelining tasks to a worker -/

theorem pipelined_nil (addr : WorkerAddress) (key : SchedulingKey) (res : Resources)
    (s : Submitter) : Submitter.Pipelined addr key res [] s s :=
  ⟨by simp, by simp, rfl, by simp, by simp, fun _ _ h => h, by simp, rfl, rfl⟩

theorem pushFront_entry (addr : WorkerAddress) (key : SchedulingKey) (res : Resources)
    (t : TaskSpecification) (s : Submitter) :
    (OnWorkerIdle.pushFront addr key res t s).entry key
      = { s.entry key with
          total_tasks_in_flight := (s.entry key).total_tasks_in_flight + 1,
          task_queue := (s.entry key).task_queue.tail } := by
  simp only [OnWorkerIdle.pushFront, PushNormalTask, Submitter.entry, Submitter.setEntry,
    Submitter.setLease, Submitter.withExecuting, Submitter.call, Submitter.addPush,
    Assoc.lookup_update, if_true, Option.getD_some]

theorem pushFront_lease (addr : WorkerAddress) (key : SchedulingKey) (res : Resources)
    (t : TaskSpecification) (s : Submitter) :
    (OnWorkerIdle.pushFront addr key res t s).lease addr
      = { s.lease addr with tasks_in_flight := (s.lease addr).tasks_in_flight + 1 } := by
  show (Assoc.lookup addr (Assoc.update addr _ s.worker_to_lease_entry)).getD _ = _
  rw [Assoc.lookup_update, if_pos rfl]
  rfl

theorem pipelined_cons {addr : WorkerAddress} {key : SchedulingKey} {res : Resources}
    {t : TaskSpecification} {rest ts : List TaskSpecification} {s s' : Submitter}
    (hq : (s.entry key).task_queue = t :: rest)
    (h : Submitter.Pipelined addr key res ts (OnWorkerIdle.pushFront addr key res t s) s') :
    Submitter.Pipelined addr key res (t :: ts) s s' := by
  have he := pushFront_entry addr key res t s
  have hl := pushFront_lease addr key res t s
  have hexec : (OnWorkerIdle.pushFront addr key res t s).executing_tasks
      = Assoc.emplace t.task_id addr s.executing_tasks := rfl
  refine ⟨?_, ?_, ?_, ?_, ?_, ?_, ?_, ?_, ?_⟩
  · rw [h.calls]
    show (s.calls ++ [_]) ++ _ = _
    simp
  · rw [h.pushes]
    show (s.pushes ++ [_]) ++ _ = _
    simp [PushNormalTask.context]
  · have := h.queue
    rw [he] at this
    simp only [hq, List.tail_cons] at this
    rw [hq, this]
    rfl
  · rw [h.in_flight, hl]
    simp only [List.length_cons]
    congr 1
    omega
  · rw [h.total, he]
    simp only [List.length_cons]
    omega
  · intro id v hv
    apply h.kept
    rw [hexec, Assoc.lookup_emplace]
    split_ifs with hid
    · subst hid
      rw [hv]
      rfl
    · exact hv
  · intro t' ht'
    have hfirst : Assoc.lookup t.task_id
        (OnWorkerIdle.pushFront addr key res t s).executing_tasks
        = some ((Assoc.lookup t.task_id s.executing_tasks).getD addr) := by
      rw [hexec, Assoc.lookup_emplace, if_pos rfl]
    rcases List.mem_cons.mp ht' with rfl | ht'
    · exact h.kept _ _ hfirst
    · rw [h.recorded t' ht']
      by_cases hid : t.task_id = t'.task_id
      · rw [← hid, hfirst]
        rfl
      · rw [hexec, Assoc.lookup_emplace, if_neg hid]
  · rw [h.active, he]
  · rw [h.pending, he]

theorem pipeline_pipelined (cfg : Config) (addr : WorkerAddress) (key : SchedulingKey)
    (res : Resources) (fuel : Nat) :
    ∀ {s s' : Submitter}, (s.entry key).task_queue.length ≤ fuel →
      OnWorkerIdle.pipeline cfg addr key res fuel s = some s' →
      Submitter.Pipelined addr key res
        ((s.entry key).task_queue.take
          (min (s.entry key).task_queue.length
            (cfg.max_tasks_in_flight_per_worker - (s.lease addr).tasks_in_flight))) s s' := by
  induction fuel with
  | zero =>
    intro s s' hlen h
    simp only [OnWorkerIdle.pipeline, Option.some.injEq] at h
    subst h
    have : (s.entry key).task_queue = [] := List.length_eq_zero.mp (Nat.le_zero.mp hlen)
    rw [this, List.take_nil]
    exact pipelined_nil addr key res s
  | succ n ih =>
    intro s s' hlen h
    simp only [OnWorkerIdle.pipeline] at h
    split at h
    · rename_i hq
      simp only [Option.some.injEq] at h
      subst h
      rw [hq, List.take_nil]
      exact pipelined_nil addr key res s
    · rename_i t rest hq
      split at h
      · rename_i hfull
        simp only [Option.some.injEq] at h
        subst h
        have hz : cfg.max_tasks_in_flight_per_worker - (s.lease addr).tasks_in_flight = 0 := by
          simp only [LeaseEntry.PipelineToWorkerFull, Bool.not_eq_true', decide_eq_false_iff_not,
            Nat.not_lt] at hfull
          omega
        rw [hz, Nat.min_zero, List.take_zero]
        exact pipelined_nil addr key res s
      · rename_i hfull
        split at h
        · cases h
        · have he := pushFront_entry addr key res t s
          have hl := pushFront_lease addr key res t s
          have hlen' : ((OnWorkerIdle.pushFront addr key res t s).entry key).task_queue.length
              ≤ n := by
            rw [he]
            simp only [hq, List.tail_cons]
            rw [hq] at hlen
            simpa using hlen
          have hp := ih hlen' h
          rw [he, hl] at hp
          simp only [hq, List.tail_cons] at hp
          have hlt : (s.lease addr).tasks_in_flight < cfg.max_tasks_in_flight_per_worker := by
            simpa [LeaseEntry.PipelineToWorkerFull] using hfull
          have hk : min (t :: rest).length
              (cfg.max_tasks_in_flight_per_worker - (s.lease addr).tasks_in_flight)
              = min rest.length (cfg.max_tasks_in_flight_per_worker -
                  ((s.lease addr).tasks_in_flight + 1)) + 1 := by
            simp only [List.length_cons]
            omega
          rw [hq, hk, List.take_succ_cons]
          exact pipelined_cons hq hp

theorem pipeline_returns (cfg : Config) (addr : WorkerAddress) (key : SchedulingKey)
    (res : Resources) (fuel : Nat) :
    ∀ s : Submitter, (s.entry key).active_workers ≠ [] →
      ∃ s', OnWorkerIdle.pipeline cfg addr key res fuel s = some s' := by
  induction fuel with
  | zero => intro s _; exact ⟨s, rfl⟩
  | succ n ih =>
    intro s hact
    simp only [OnWorkerIdle.pipeline]
    split
    · exact ⟨s, rfl⟩
    · rename_i t rest hq
      split
      · exact ⟨s, rfl⟩
      · have hlen : ¬ (s.entry key).active_workers.length < 1 := by
          cases hw : (s.entry key).active_workers with
          | nil => exact absurd hw hact
          | cons a l => simp
        rw [if_neg hlen]
        apply ih
        rw [pushFront_entry]
        exact hact

theorem traffic_CancelWorkerLeaseIfNeeded (cfg : Config) (key : SchedulingKey)
    (s : Submitter) :
    Submitter.CallsOnly Call.isLeaseTraffic s (CancelWorkerLeaseIfNeeded cfg key s) := by
  refine ⟨_, (CancelWorkerLeaseIfNeeded_effect cfg key s).1, ?_⟩
  intro c hc
  split_ifs at hc
  · simp only [List.mem_map] at hc
    obtain ⟨p, -, rfl⟩ := hc
    rfl
  · cases hc

theorem traffic_ReportWorkerBacklogIfNeeded (cfg : Config) (key : SchedulingKey)
    (s : Submitter) :
    Submitter.CallsOnly Call.isLeaseTraffic s (ReportWorkerBacklogIfNeeded cfg key s) := by
  unfold ReportWorkerBacklogIfNeeded
  simp only []
  split_ifs
  · exact (Submitter.callsOnly_of_calls_eq _ rfl).callsTrans
      ⟨[_], rfl, by simp [Call.isLeaseTraffic]⟩
  · exact Submitter.callsOnly_of_calls_eq _ rfl

theorem traffic_RequestNewWorkerIfNeeded {cfg : Config} {key : SchedulingKey}
    {raylet_address : Option WorkerAddress} {s s' : Submitter}
    (h : RequestNewWorkerIfNeeded cfg key raylet_address s = some s') :
    Submitter.CallsOnly Call.isLeaseTraffic s s' := by
  unfold RequestNewWorkerIfNeeded at h
  simp only [] at h
  split_ifs at h <;> simp only [Option.some.injEq] at h <;> subst h
  · exact Submitter.callsOnly_of_calls_eq _ rfl
  · exact Submitter.callsOnly_of_calls_eq _ rfl
  · exact Submitter.callsOnly_of_calls_eq _ rfl
  · exact Submitter.callsOnly_of_calls_eq _ rfl
  · refine Submitter.CallsOnly.callsTrans ?_ (traffic_ReportWorkerBacklogIfNeeded cfg key _)
    exact ⟨[_], rfl, by simp [Call.isLeaseTraffic]⟩

theorem isPushNormalTask_of_isLeaseTraffic (c : Call) (h : c.isLeaseTraffic = true) :
    c.isPushNormalTask = false := by
  cases c <;> simp [Call.isLeaseTraffic, Call.isPushNormalTask] at h ⊢

theorem total_ReportWorkerBacklogIfNeeded (cfg : Config) (key k : SchedulingKey)
    (s : Submitter) :
    ((ReportWorkerBacklogIfNeeded cfg key s).entry k).total_tasks_in_flight
      = (s.entry k).total_tasks_in_flight := by
  unfold ReportWorkerBacklogIfNeeded
  simp only []
  split_ifs
  · refine Eq.trans ?_ (congrArg SchedulingKeyEntry.total_tasks_in_flight
      (Submitter.entry_touchEntry s key k))
    simp only [ReportWorkerBacklogInternal, Submitter.entry, Submitter.call,
      Assoc.lookup_map_snd SchedulingKeyEntry.reported]
    cases Assoc.lookup k (s.touchEntry key).scheduling_key_entries <;> rfl
  · rw [Submitter.entry_touchEntry]

theorem eraseEntryIfCanDelete_of_active (s : Submitter) (key : SchedulingKey)
    (h : (s.entry key).active_workers ≠ []) : s.eraseEntryIfCanDelete key = s := by
  have hcan : (s.entry key).CanDelete = false := by
    cases hw : (s.entry key).active_workers with
    | nil => exact absurd hw h
    | cons a l => simp [SchedulingKeyEntry.CanDelete, hw]
  simp [Submitter.eraseEntryIfCanDelete, hcan]

theorem RequestNewWorkerIfNeeded_total {cfg : Config} {key : SchedulingKey}
    {raylet_address : Option WorkerAddress} {s s' : Submitter}
    (h : RequestNewWorkerIfNeeded cfg key raylet_address s = some s')
    (hact : (s.entry key).active_workers ≠ []) (k : SchedulingKey) :
    (s'.entry k).total_tasks_in_flight = (s.entry k).total_tasks_in_flight := by
  have htouch : ((s.touchEntry key).entry k).total_tasks_in_flight
      = (s.entry k).total_tasks_in_flight := by rw [Submitter.entry_touchEntry]
  unfold RequestNewWorkerIfNeeded at h
  simp only [] at h
  split_ifs at h <;> simp only [Option.some.injEq] at h <;> subst h
  · exact htouch
  · exact htouch
  · rw [eraseEntryIfCanDelete_of_active _ key (by rw [Submitter.entry_touchEntry]; exact hact)]
    exact htouch
  · exact htouch
  · rw [total_ReportWorkerBacklogIfNeeded, Submitter.entry_setEntry]
    split_ifs with hk
    · subst hk
      exact htouch
    · exact htouch

theorem RequestNewWorkerIfNeeded_returns (cfg : Config) (key : SchedulingKey)
    (raylet_address : Option WorkerAddress) (s : Submitter)
    (h : (s.entry key).pending_lease_requests.length
      ≤ cfg.max_pending_lease_requests_per_scheduling_category) :
    ∃ s', RequestNewWorkerIfNeeded cfg key raylet_address s = some s' := by
  cases hn : RequestNewWorkerIfNeeded.needed cfg (s.entry key) with
  | true =>
    obtain ⟨s', hs, -⟩ := RequestNewWorkerIfNeeded_of_needed cfg key raylet_address s hn
    exact ⟨s', hs⟩
  | false => exact (RequestNewWorkerIfNeeded_of_not_needed cfg key raylet_address s hn).1 h

theorem Submitter.Quiet.executing_eq {s s' : Submitter} (h : Submitter.Quiet s s') :
    s'.executing_tasks = s.executing_tasks :=
  congrArg (fun w => w.2.1) h.work

/-- What the pipelining branch of `OnWorkerIdle` (lines 339-363) leaves behind, read off
after the lease bookkeeping that follows the loop. -/
theorem OnWorkerIdle_pipelined {cfg : Config} {addr : WorkerAddress}
    {key : SchedulingKey} {res : Resources} {s s3 s' : Submitter}
    {ts : List TaskSpecification}
    (hp : Submitter.Pipelined addr key res ts ((s.touchEntry key).cacheConnect addr) s3)
    (hact : (s.entry key).active_workers ≠ [])
    (h : RequestNewWorkerIfNeeded cfg key none
      (if cfg.max_tasks_in_flight_per_worker = 1
        then CancelWorkerLeaseIfNeeded cfg key s3 else s3) = some s') :
    s'.calls.filter Call.isPushNormalTask = s.calls.filter Call.isPushNormalTask ++
        ts.map (fun t => Call.PushNormalTask addr key t res) ∧
      s'.pushes = s.pushes ++ ts.map (PushNormalTask.context addr key res) ∧
      (s.entry key).task_queue = ts ++ (s'.entry key).task_queue ∧
      s'.lease addr = { s.lease addr with
        tasks_in_flight := (s.lease addr).tasks_in_flight + ts.length } ∧
      (s'.entry key).total_tasks_in_flight
        = (s.entry key).total_tasks_in_flight + ts.length ∧
      (∀ t ∈ ts, Assoc.lookup t.task_id s'.executing_tasks
        = some ((Assoc.lookup t.task_id s.executing_tasks).getD addr)) := by
  have hq4 : Submitter.Quiet s3 (if cfg.max_tasks_in_flight_per_worker = 1
      then CancelWorkerLeaseIfNeeded cfg key s3 else s3) := by
    split_ifs
    · exact quiet_CancelWorkerLeaseIfNeeded cfg key s3
    · exact Submitter.Quiet.quietRefl s3
  have ht4 : Submitter.CallsOnly Call.isLeaseTraffic s3
      (if cfg.max_tasks_in_flight_per_worker = 1
        then CancelWorkerLeaseIfNeeded cfg key s3 else s3) := by
    split_ifs
    · exact traffic_CancelWorkerLeaseIfNeeded cfg key s3
    · exact Submitter.CallsOnly.callsRefl _ s3
  have he4 : ∀ k, (if cfg.max_tasks_in_flight_per_worker = 1
      then CancelWorkerLeaseIfNeeded cfg key s3 else s3).entry k = s3.entry k := by
    intro k
    split_ifs
    · exact (CancelWorkerLeaseIfNeeded_effect cfg key s3).2.2.1 k
    · rfl
  have hq := hq4.quietTrans (quiet_RequestNewWorkerIfNeeded h)
  have ht := ht4.callsTrans (traffic_RequestNewWorkerIfNeeded h)
  have he0 : ((s.touchEntry key).cacheConnect addr).entry key = s.entry key :=
    Submitter.entry_touchEntry s key key
  have hl0 : ((s.touchEntry key).cacheConnect addr).lease addr = s.lease addr := rfl
  have hact3 : (s3.entry key).active_workers ≠ [] := by
    rw [hp.active, he0]
    exact hact
  refine ⟨?_, ?_, ?_, ?_, ?_, ?_⟩
  · rw [ht.filter_eq isPushNormalTask_of_isLeaseTraffic, hp.calls, List.filter_append]
    congr 1
    rw [List.filter_eq_self]
    intro c hc
    simp only [List.mem_map] at hc
    obtain ⟨t, -, rfl⟩ := hc
    rfl
  · rw [hq.pushes_eq, hp.pushes]
    rfl
  · rw [hq.queue key, ← he0]
    exact hp.queue
  · have : s'.lease addr = s3.lease addr := by
      simp only [Submitter.lease, hq.leases_eq]
    rw [this, hp.in_flight, hl0]
  · rw [RequestNewWorkerIfNeeded_total h (by rw [he4]; exact hact3) key, he4, hp.total, he0]
  · intro t ht'
    rw [hq.executing_eq]
    exact hp.recorded t ht'

/-- C21 as stated fails for a task id that already has a record: with a cap of 1, `task 1`
is submitted twice; worker 11 is granted and gets the first copy, which is recorded as
executing on worker 11.  When worker 12 is granted, `OnWorkerIdle` takes its pipelining
branch and pushes the second copy to worker 12, and `emplace` (line 354) keeps the old
record: afterwards `executing_tasks` names worker 11 for the task, not worker 12. -/
theorem pushed_task_keeps_old_record :
    Assoc.lookup (Scenario.worker 12) Scenario.regranted.worker_to_lease_entry
        = some ⟨some LeaseClient.local_client, 1000, [], Scenario.key, 0, false⟩ ∧
      (Scenario.regranted.entry Scenario.key).task_queue = [Scenario.task 1] ∧
      (Scenario.regranted.entry Scenario.key).active_workers
        = [Scenario.worker 11, Scenario.worker 12] ∧
      Scenario.regranted.executing_tasks = [(1, Scenario.worker 11)] ∧
      (∃ s', OnWorkerIdle (Scenario.config 1 1) 0 (Scenario.worker 12) Scenario.key false []
          Scenario.regranted = some s' ∧
        s'.calls.filter Call.isPushNormalTask
          = Scenario.regranted.calls.filter Call.isPushNormalTask ++
            [Call.PushNormalTask (Scenario.worker 12) Scenario.key (Scenario.task 1) []] ∧
        Assoc.lookup (Scenario.task 1).task_id s'.executing_tasks
          = some (Scenario.worker 11) ∧
        Assoc.lookup (Scenario.task 1).task_id s'.executing_tasks
          ≠ some (Scenario.worker 12)) ∧
      ∃ s, run (Scenario.config 1 1) Scenario.pushedTwiceTrace Submitter.init = some s ∧
        Reachable (Scenario.config 1 1) s ∧
        s.calls.filter Call.isPushNormalTask
          = [Call.PushNormalTask (Scenario.worker 11) Scenario.key (Scenario.task 1) [],
             Call.PushNormalTask (Scenario.worker 12) Scenario.key (Scenario.task 1) []] ∧
        s.executing_tasks = [(1, Scenario.worker 11)] := by
  refine ⟨by decide, by decide, by decide, by decide, ?_, ?_⟩
  · have h : (OnWorkerIdle (Scenario.config 1 1) 0 (Scenario.worker 12) Scenario.key false []
        Scenario.regranted).any (fun s' => decide
          (s'.calls.filter Call.isPushNormalTask
              = Scenario.regranted.calls.filter Call.isPushNormalTask ++
                [Call.PushNormalTask (Scenario.worker 12) Scenario.key (Scenario.task 1) []] ∧
            Assoc.lookup (Scenario.task 1).task_id s'.executing_tasks
              = some (Scenario.worker 11) ∧
            Assoc.lookup (Scenario.task 1).task_id s'.executing_tasks
              ≠ some (Scenario.worker 12))) = true := by decide
    cases hr : OnWorkerIdle (Scenario.config 1 1) 0 (Scenario.worker 12) Scenario.key false []
        Scenario.regranted with
    | none => rw [hr] at h; simp at h
    | some s' =>
      rw [hr] at h
      simp only [Option.any_some, decide_eq_true_eq] at h
      exact ⟨s', rfl, h⟩
  · have h : (run (Scenario.config 1 1) Scenario.pushedTwiceTrace Submitter.init).any
        (fun s => decide
          (s.calls.filter Call.isPushNormalTask
              = [Call.PushNormalTask (Scenario.worker 11) Scenario.key (Scenario.task 1) [],
                 Call.PushNormalTask (Scenario.worker 12) Scenario.key (Scenario.task 1) []] ∧
            s.executing_tasks = [(1, Scenario.worker 11)])) = true := by decide
    obtain ⟨s, hrun, hreach, hp⟩ := run_witness h
    simp only [decide_eq_true_eq] at hp
    exact ⟨s, hrun, hreach, hp⟩

/-- C21, the amended claim: when `OnWorkerIdle` takes its pipelining branch (the worker has
a lease client, there was no error, the lease has not expired, and the queue is not empty
or the worker is stealing) for a worker with `n` tasks in flight and a queue `q`, with an active worker
under the key and the pending lease requests within the cap, it returns and, with
`k = min(|q|, max_tasks_in_flight_per_worker − n)`: its `PushNormalTask` calls are exactly
the first `k` tasks of `q`, to that worker, in queue order, one reply continuation each;
the queue is left with the remaining tasks of `q` in order; the tasks in flight of the
worker and the total of the key went up by `k`; every pushed task has a record in
`executing_tasks`, which names the worker unless the id had a record before; and
afterwards the queue is empty or the pipeline of the worker is full. -/
theorem pipelining_pushes_queue_prefix (cfg : Config) (now : Nat) (addr : WorkerAddress)
    (key : SchedulingKey) (was_error : Bool) (res : Resources) (s : Submitter) (l : LeaseEntry)
    (h_lease : Assoc.lookup addr s.worker_to_lease_entry = some l)
    (h_client : l.lease_client.isSome = true)
    (h_branch : ((was_error || decide (now > l.lease_expiration_time)) ||
      ((s.entry key).task_queue.isEmpty && !l.WorkerIsStealing)) = false)
    (h_active : (s.entry key).active_workers ≠ [])
    (h_pending : (s.entry key).pending_lease_requests.length
      ≤ cfg.max_pending_lease_requests_per_scheduling_category) :
    ∃ s', OnWorkerIdle cfg now addr key was_error res s = some s' ∧
      s'.calls.filter Call.isPushNormalTask = s.calls.filter Call.isPushNormalTask ++
        ((s.entry key).task_queue.take
          (min (s.entry key).task_queue.length
            (cfg.max_tasks_in_flight_per_worker - l.tasks_in_flight))).map
          (fun t => Call.PushNormalTask addr key t res) ∧
      s'.pushes = s.pushes ++
        ((s.entry key).task_queue.take
          (min (s.entry key).task_queue.length
            (cfg.max_tasks_in_flight_per_worker - l.tasks_in_flight))).map
          (PushNormalTask.context addr key res) ∧
      (s'.entry key).task_queue = (s.entry key).task_queue.drop
        (min (s.entry key).task_queue.length
          (cfg.max_tasks_in_flight_per_worker - l.tasks_in_flight)) ∧
      Assoc.lookup addr s'.worker_to_lease_entry = some { l with
        tasks_in_flight := l.tasks_in_flight +
          min (s.entry key).task_queue.length
            (cfg.max_tasks_in_flight_per_worker - l.tasks_in_flight) } ∧
      (s'.entry key).total_tasks_in_flight = (s.entry key).total_tasks_in_flight +
        min (s.entry key).task_queue.length
          (cfg.max_tasks_in_flight_per_worker - l.tasks_in_flight) ∧
      (∀ t ∈ (s.entry key).task_queue.take
          (min (s.entry key).task_queue.length
            (cfg.max_tasks_in_flight_per_worker - l.tasks_in_flight)),
        Assoc.lookup t.task_id s'.executing_tasks
          = some ((Assoc.lookup t.task_id s.executing_tasks).getD addr)) ∧
      ((s'.entry key).task_queue = [] ∨
        (s'.lease addr).PipelineToWorkerFull cfg.max_tasks_in_flight_per_worker = true) := by
  have hl : s.lease addr = l := Submitter.lease_of_lookup h_lease
  have he0 : ((s.touchEntry key).cacheConnect addr).entry key = s.entry key :=
    Submitter.entry_touchEntry s key key
  have hl0 : ((s.touchEntry key).cacheConnect addr).lease addr = l := hl
  obtain ⟨s3, h3⟩ := pipeline_returns cfg addr key res (s.entry key).task_queue.length
    ((s.touchEntry key).cacheConnect addr) (by rw [he0]; exact h_active)
  have hp := pipeline_pipelined cfg addr key res (s.entry key).task_queue.length
    (by rw [he0]) h3
  rw [he0, hl0] at hp
  have he4 : (if cfg.max_tasks_in_flight_per_worker = 1
      then CancelWorkerLeaseIfNeeded cfg key s3 else s3).entry key = s3.entry key := by
    split_ifs
    · exact (CancelWorkerLeaseIfNeeded_effect cfg key s3).2.2.1 key
    · rfl
  obtain ⟨s', h'⟩ := RequestNewWorkerIfNeeded_returns cfg key none
    (if cfg.max_tasks_in_flight_per_worker = 1
      then CancelWorkerLeaseIfNeeded cfg key s3 else s3)
    (by rw [he4, hp.pending, he0]; exact h_pending)
  obtain ⟨c1, c2, c3, c4, c5, c6⟩ := OnWorkerIdle_pipelined hp h_active h'
  have hlen : ((s.entry key).task_queue.take
      (min (s.entry key).task_queue.length
        (cfg.max_tasks_in_flight_per_worker - l.tasks_in_flight))).length
      = min (s.entry key).task_queue.length
        (cfg.max_tasks_in_flight_per_worker - l.tasks_in_flight) := by
    rw [List.length_take]
    omega
  rw [hlen, hl] at c4
  rw [hlen] at c5
  have hdrop : (s'.entry key).task_queue = (s.entry key).task_queue.drop
      (min (s.entry key).task_queue.length
        (cfg.max_tasks_in_flight_per_worker - l.tasks_in_flight)) := by
    have := (List.take_append_drop (min (s.entry key).task_queue.length
      (cfg.max_tasks_in_flight_per_worker - l.tasks_in_flight)) (s.entry key).task_queue)
    exact (List.append_cancel_left (c3.symm.trans this.symm))
  have hlook : Assoc.lookup addr s'.worker_to_lease_entry = some (s'.lease addr) := by
    refine @Submitter.lookup_of_lease_client s' addr ((l.lease_client).get h_client) ?_
    rw [c4]
    simp
  refine ⟨s', ?_, c1, c2, hdrop, by rw [hlook, c4], c5, c6, ?_⟩
  · have hnone : ¬ (l.lease_client.isNone = true) := by
      cases hx : l.lease_client with
      | none => rw [hx] at h_client; cases h_client
      | some c => simp
    unfold OnWorkerIdle
    simp only [Submitter.touchLease_of_lookup h_lease, hl, if_neg hnone,
      Submitter.entry_touchEntry, h_branch, Bool.false_eq_true, if_false, h3,
      Option.some_bind]
    exact h'
  · by_cases hk : (s.entry key).task_queue.length
        ≤ cfg.max_tasks_in_flight_per_worker - l.tasks_in_flight
    · left
      rw [hdrop, Nat.min_eq_left hk, List.drop_length]
    · right
      rw [c4]
      simp only [LeaseEntry.PipelineToWorkerFull, Bool.not_eq_true', decide_eq_false_iff_not,
        Nat.not_lt]
      omega

theorem pipelining_pushes_queue_prefix_witness :
    Assoc.lookup (Scenario.worker 11) Scenario.firstGranted.worker_to_lease_entry
        = some Scenario.firstLease ∧
      (Scenario.firstGranted.entry Scenario.key).task_queue
        = [Scenario.task 1, Scenario.task 2] ∧
      ∃ s', OnWorkerIdle (Scenario.config 2 1) 0 (Scenario.worker 11) Scenario.key false []
          Scenario.firstGranted = some s' ∧
        s'.calls.filter Call.isPushNormalTask
          = [Call.PushNormalTask (Scenario.worker 11) Scenario.key (Scenario.task 1) [],
             Call.PushNormalTask (Scenario.worker 11) Scenario.key (Scenario.task 2) []] ∧
        (s'.entry Scenario.key).task_queue = [] ∧
        Assoc.lookup (Scenario.worker 11) s'.worker_to_lease_entry
          = some { Scenario.firstLease with tasks_in_flight := 2 } ∧
        (s'.entry Scenario.key).total_tasks_in_flight = 2 := by
  obtain ⟨s', h0, h1, -, h3, h4, h5, -, -⟩ :=
    pipelining_pushes_queue_prefix (Scenario.config 2 1) 0 (Scenario.worker 11) Scenario.key
      false [] Scenario.firstGranted Scenario.firstLease (by decide) (by decide) (by decide)
      (by decide) (by decide)
  exact ⟨by decide, by decide, s', h0, h1.trans (by decide), h3.trans (by decide),
    h4.trans (by decide), h5.trans (by decide)⟩

/-! ### Tasks are pushed from the front of the queue -/

/-- C30, evaluated on the code: worker 11 has `task 1` in flight (cap 2, so its pipeline is
not full) when its lease expires; `task 2`, submitted afterwards, stays queued, because
`OnWorkerIdle` pushes nothing to a worker whose lease has expired.  When the continuation
of `task 3` has enqueued its task, it finds worker 11 with a pipeline that is not full,
and the queue holds `task 2` ahead of `task 3`: the state that the comment of lines 96-100
rules out and on whose absence the `break` of line 101 relies. -/
theorem queued_task_next_to_worker_with_room :
    ∃ s, run (Scenario.config 2 1) Scenario.expiredLeaseTrace Submitter.init = some s ∧
      Reachable (Scenario.config 2 1) s ∧ s = Scenario.expiredLease ∧
      (Event.DependenciesResolved 0 Status.OK []).enabled s = true ∧
      s.resolving = [Scenario.task 3] ∧
      (Scenario.thirdEnqueued.entry Scenario.key).task_queue
        = [Scenario.task 2, Scenario.task 3] ∧
      (Scenario.thirdEnqueued.entry Scenario.key).AllPipelinesToWorkersFull 2 = false ∧
      (Scenario.thirdEnqueued.entry Scenario.key).active_workers = [Scenario.worker 11] ∧
      (Scenario.thirdEnqueued.lease (Scenario.worker 11)).PipelineToWorkerFull 2 = false ∧
      SubmitTask.findWorker (Scenario.config 2 1) 2000 Scenario.key
          (Scenario.thirdEnqueued.entry Scenario.key).active_workers Scenario.thirdEnqueued
        = OnWorkerIdle (Scenario.config 2 1) 2000 (Scenario.worker 11) Scenario.key false []
            Scenario.thirdEnqueued := by
  have h : (run (Scenario.config 2 1) Scenario.expiredLeaseTrace Submitter.init).any
      (fun s => decide (s = Scenario.expiredLease)) = true := by decide
  obtain ⟨s, hrun, hreach, hp⟩ := run_witness h
  simp only [decide_eq_true_eq] at hp
  subst hp
  exact ⟨_, hrun, hreach, rfl, by decide, by decide, by decide, by decide, by decide,
    by decide, by decide⟩

theorem pushedFor_pipelined {addr : WorkerAddress} {key : SchedulingKey} {res : Resources}
    {ts : List TaskSpecification} {s s' : Submitter}
    (h : Submitter.Pipelined addr key res ts s s') :
    s'.pushedFor key = s.pushedFor key ++ ts := by
  have aux1 : ∀ (l : List TaskSpecification) (s0 : Submitter),
      s0.calls = l.map (fun t => Call.PushNormalTask addr key t res) →
      s0.pushed = l.map (fun t => (key, t)) := by
    intro l
    induction l with
    | nil =>
      intro s0 h0
      simp [Submitter.pushed, h0]
    | cons t rest ih =>
      intro s0 h0
      have := ih { s0 with calls := rest.map (fun t => Call.PushNormalTask addr key t res) } rfl
      simp only [Submitter.pushed] at this ⊢
      rw [h0, List.map_cons, List.filterMap_cons, this]
      rfl
  have aux2 : ∀ l : List TaskSpecification,
      ((l.map (fun t => (key, t))).filter (fun p => decide (p.1 = key))).map (fun p => p.2)
        = l := by
    intro l
    induction l with
    | nil => rfl
    | cons t rest ih => simpa using ih
  have hX := aux1 ts { s with calls := ts.map (fun t => Call.PushNormalTask addr key t res) } rfl
  have hpushed : s'.pushed = s.pushed ++ ts.map (fun t => (key, t)) := by
    simp only [Submitter.pushed] at hX ⊢
    rw [h.calls, List.filterMap_append, hX]
  simp only [Submitter.pushedFor, hpushed, List.filter_append, List.map_append]
  rw [aux2]

theorem OnWorkerIdle_front {cfg : Config} {now : Nat} {addr : WorkerAddress}
    {key : SchedulingKey} {was_error : Bool} {res : Resources} {s s' : Submitter}
    (h : OnWorkerIdle cfg now addr key was_error res s = some s') :
    ∃ ts, s'.pushedFor key = s.pushedFor key ++ ts ∧
      (s.entry key).task_queue = ts ++ (s'.entry key).task_queue := by
  rcases OnWorkerIdle_inv h with ⟨-, rfl⟩ | ⟨l, client, hl, -, hcase⟩
  · exact ⟨[], by simp [Submitter.pushedFor, Submitter.pushed, Submitter.touchLease],
      by simp [Submitter.entry, Submitter.touchLease]⟩
  · rcases hcase with ⟨-, s2, h2, h3⟩ | ⟨-, s3, h2, h3⟩
    · have hq3 := quiet_RequestNewWorkerIfNeeded h3
      have h12 : s2.pushed = s.pushed ∧
          (s2.entry key).task_queue = (s.entry key).task_queue := by
        split_ifs at h2
        · exact ⟨(shrinks_StealTasksOrReturnWorker h2).pushed.trans rfl,
            ((sameTasks_StealTasksOrReturnWorker h2).queue key).trans
              (by rw [Submitter.entry_touchEntry])⟩
        · simp only [Option.some.injEq] at h2
          subst h2
          exact ⟨rfl, by rw [Submitter.entry_touchEntry]⟩
      refine ⟨[], ?_, ?_⟩
      · rw [List.append_nil]
        exact Submitter.pushedFor_eq (hq3.shrinks.pushed.trans h12.1) key
      · rw [List.nil_append, hq3.queue key, h12.2]
    · have he0 : ((s.touchEntry key).cacheConnect addr).entry key = s.entry key :=
        Submitter.entry_touchEntry s key key
      obtain ⟨ts, hp⟩ : ∃ ts, Submitter.Pipelined addr key res ts
          ((s.touchEntry key).cacheConnect addr) s3 :=
        ⟨_, pipeline_pipelined cfg addr key res (s.entry key).task_queue.length
          (by rw [he0]) h2⟩
      have hq4 : Submitter.Quiet s3 (if cfg.max_tasks_in_flight_per_worker = 1
          then CancelWorkerLeaseIfNeeded cfg key s3 else s3) := by
        split_ifs
        · exact quiet_CancelWorkerLeaseIfNeeded cfg key s3
        · exact Submitter.Quiet.quietRefl s3
      have hq := hq4.quietTrans (quiet_RequestNewWorkerIfNeeded h3)
      refine ⟨ts, ?_, ?_⟩
      · rw [Submitter.pushedFor_eq hq.shrinks.pushed key, pushedFor_pipelined hp]
        rfl
      · rw [hq.queue key, ← he0]
        exact hp.queue

theorem findWorker_front (cfg : Config) (now : Nat) (key : SchedulingKey)
    (workers : List WorkerAddress) :
    ∀ {s s' : Submitter}, SubmitTask.findWorker cfg now key workers s = some s' →
      ∃ ts, s'.pushedFor key = s.pushedFor key ++ ts ∧
        (s.entry key).task_queue = ts ++ (s'.entry key).task_queue := by
  induction workers with
  | nil =>
    intro s s' h
    simp only [SubmitTask.findWorker, Option.some.injEq] at h
    subst h
    exact ⟨[], by simp, by simp⟩
  | cons a rest ih =>
    intro s s' h
    simp only [SubmitTask.findWorker] at h
    split at h
    · cases h
    · split at h
      · exact OnWorkerIdle_front h
      · exact ih h

/-- The pushes of the continuation of `SubmitTask` in every state: when it enqueues a task
(the resolution succeeded, the task creates no actor and was not cancelled), whatever it
pushes comes from the front of the queue: the tasks pushed for the key by this activation
are, in order, the first tasks of the old queue followed by the new task, and the tasks
after them stay queued in their order. -/
theorem resolved_pushes_from_queue_front (cfg : Config) (now : Nat)
    (task_spec : TaskSpecification) (s s' : Submitter)
    (h_normal : task_spec.is_actor_creation_task = false)
    (h_live : task_spec.task_id ∉ s.cancelled_tasks)
    (h : SubmitTask.resolved cfg now task_spec Status.OK s = some s') :
    ∃ ts, s'.pushedFor task_spec.schedulingKey = s.pushedFor task_spec.schedulingKey ++ ts ∧
      (s.entry task_spec.schedulingKey).task_queue ++ [task_spec]
        = ts ++ (s'.entry task_spec.schedulingKey).task_queue := by
  have henq : ((SubmitTask.enqueue task_spec s).entry task_spec.schedulingKey).task_queue
      = (s.entry task_spec.schedulingKey).task_queue ++ [task_spec] := by
    unfold SubmitTask.enqueue
    simp only [Submitter.entry_recordEnqueued, Submitter.entry_setEntry, if_true,
      Submitter.entry_touchEntry]
  have hpush : (SubmitTask.enqueue task_spec s).pushedFor task_spec.schedulingKey
      = s.pushedFor task_spec.schedulingKey := Submitter.pushedFor_eq rfl _
  unfold SubmitTask.resolved at h
  simp only [Status.ok, decide_True, Bool.not_true, Bool.false_eq_true, if_false, h_normal,
    h_live, Option.bind_eq_some] at h
  obtain ⟨s4, h4, h5⟩ := h
  have hq := quiet_RequestNewWorkerIfNeeded h5
  obtain ⟨ts, hp4, hq4⟩ : ∃ ts,
      s4.pushedFor task_spec.schedulingKey
        = (SubmitTask.enqueue task_spec s).pushedFor task_spec.schedulingKey ++ ts ∧
      ((SubmitTask.enqueue task_spec s).entry task_spec.schedulingKey).task_queue
        = ts ++ (s4.entry task_spec.schedulingKey).task_queue := by
    split_ifs at h4
    · exact findWorker_front cfg now _ _ h4
    · simp only [Option.some.injEq] at h4
      subst h4
      exact ⟨[], by simp, by simp⟩
  refine ⟨ts, ?_, ?_⟩
  · rw [Submitter.pushedFor_eq hq.shrinks.pushed, hp4, hpush]
  · rw [hq.queue, ← hq4, henq]

theorem resolved_pushes_from_queue_front_witness :
    ∃ s' ts, SubmitTask.resolved (Scenario.config 2 1) 0 (Scenario.task 2) Status.OK
        Scenario.singlePushed = some s' ∧
      s'.pushedFor Scenario.key = [Scenario.task 1, Scenario.task 2] ∧
      s'.pushedFor (Scenario.task 2).schedulingKey
        = Scenario.singlePushed.pushedFor (Scenario.task 2).schedulingKey ++ ts ∧
      (Scenario.singlePushed.entry (Scenario.task 2).schedulingKey).task_queue ++
          [Scenario.task 2]
        = ts ++ (s'.entry (Scenario.task 2).schedulingKey).task_queue := by
  have hres : (SubmitTask.resolved (Scenario.config 2 1) 0 (Scenario.task 2) Status.OK
      Scenario.singlePushed).any
        (fun s' => decide (s'.pushedFor Scenario.key = [Scenario.task 1, Scenario.task 2]))
      = true := by decide
  cases hr : SubmitTask.resolved (Scenario.config 2 1) 0 (Scenario.task 2) Status.OK
      Scenario.singlePushed with
  | none => rw [hr] at hres; simp at hres
  | some s' =>
    rw [hr] at hres
    simp only [Option.any_some, decide_eq_true_eq] at hres
    obtain ⟨ts, h1, h2⟩ := resolved_pushes_from_queue_front (Scenario.config 2 1) 0
      (Scenario.task 2) Scenario.singlePushed s' (by decide) (by decide) hr
    exact ⟨s', ts, rfl, hres, h1, h2⟩

/-! ### The reply to a task cancellation -/

/-- C31: after the callback of a `CancelTask` RPC the task id is not in `cancelled_tasks`,
whatever the reply, and the other ids are there as before.  The callback schedules a retry
of `CancelTask` (one call on the timer, one continuation with the captured task,
`force_kill` and `recursive`) exactly when the status is OK, the reply says that the
attempt did not succeed, and a retry timer is configured; otherwise it makes no call and
hands out no continuation.  In particular a reply with an error status schedules
nothing. -/
theorem cancel_reply_erases_and_retries (cfg : Config) (ctx : CancelContext) (status : Status)
    (attempt_succeeded : Bool) (s : Submitter) :
    ctx.task_spec.task_id ∉ (CancelTask.reply cfg ctx status attempt_succeeded s).cancelled_tasks ∧
    (∀ t, t ≠ ctx.task_spec.task_id →
      (t ∈ (CancelTask.reply cfg ctx status attempt_succeeded s).cancelled_tasks ↔
        t ∈ s.cancelled_tasks)) ∧
    (CancelTask.reply cfg ctx status attempt_succeeded s).calls = s.calls ++
      (if status = Status.OK ∧ attempt_succeeded = false ∧ cfg.has_cancel_retry_timer = true
        then [Call.ScheduleCancelRetry ctx.task_spec.task_id] else []) ∧
    (CancelTask.reply cfg ctx status attempt_succeeded s).cancel_timers = s.cancel_timers ++
      (if status = Status.OK ∧ attempt_succeeded = false ∧ cfg.has_cancel_retry_timer = true
        then [ctx] else []) ∧
    (status ≠ Status.OK →
      (CancelTask.reply cfg ctx status attempt_succeeded s).calls = s.calls ∧
      (CancelTask.reply cfg ctx status attempt_succeeded s).cancel_timers
        = s.cancel_timers) := by
  unfold CancelTask.reply
  by_cases hc : status = Status.OK ∧ attempt_succeeded = false ∧
      cfg.has_cancel_retry_timer = true
  · have hb : (status.ok && !attempt_succeeded && cfg.has_cancel_retry_timer) = true := by
      simp [Status.ok, hc.1, hc.2.1, hc.2.2]
    simp only [hb, if_true, if_pos hc]
    refine ⟨?_, ?_, rfl, rfl, fun hne => absurd hc.1 hne⟩
    · simp [Submitter.withCancelled, Submitter.call]
    · intro t ht
      simp [Submitter.withCancelled, Submitter.call, ht]
  · have hb : ¬ ((status.ok && !attempt_succeeded && cfg.has_cancel_retry_timer) = true) := by
      intro hx
      apply hc
      simpa [Status.ok, and_assoc] using hx
    simp only [if_neg hb, if_neg hc, List.append_nil]
    refine ⟨?_, ?_, rfl, rfl, fun _ => ⟨rfl, rfl⟩⟩
    · simp [Submitter.withCancelled]
    · intro t ht
      simp [Submitter.withCancelled, ht]

theorem cancel_reply_erases_and_retries_witness :
    Scenario.cancelling.cancelled_tasks = [1] ∧ Status.IOError ≠ Status.OK ∧
      (CancelTask.reply Scenario.retryConfig Scenario.cancelOfTask1 Status.IOError false
        Scenario.cancelling).calls = Scenario.cancelling.calls ∧
      (CancelTask.reply Scenario.retryConfig Scenario.cancelOfTask1 Status.IOError false
        Scenario.cancelling).cancel_timers = Scenario.cancelling.cancel_timers :=
  ⟨by decide, by decide,
    (cancel_reply_erases_and_retries Scenario.retryConfig Scenario.cancelOfTask1
      Status.IOError false Scenario.cancelling).2.2.2.2 (by decide)⟩

/-! ### The stealable condition -/

theorem sum_map_le_length {α : Type} (f : α → Nat) (l : List α) (h : ∀ a ∈ l, f a ≤ 1) :
    (l.map f).sum ≤ l.length := by
  induction l with
  | nil => simp
  | cons a rest ih =>
    have h1 := h a (List.mem_cons_self a rest)
    have h2 := ih (fun b hb => h b (List.mem_cons_of_mem a hb))
    simp only [List.map_cons, List.sum_cons, List.length_cons]
    omega

/-- C1 (I2), evaluated on the code: after two tasks are pipelined to one worker and the
first push reply reports `worker_exiting`, the key entry survives with
`total_tasks_in_flight = 1` and no active worker, so the counter is not the sum over the
active workers (which is 0); the reply to the second push then fails the check of line
701. -/
theorem in_flight_sum_broken_by_worker_exiting :
    ∃ s e, run (Scenario.config 2 1) Scenario.exitingTrace Submitter.init = some s ∧
      Reachable (Scenario.config 2 1) s ∧
      Assoc.lookup Scenario.key s.scheduling_key_entries = some e ∧
      e.total_tasks_in_flight = 1 ∧ s.inFlightOfWorkers e = 0 ∧ ¬ s.InFlightSum ∧
      step (Scenario.config 2 1) 0 (Event.PushReply 0 Status.OK Scenario.okReply false) s
        = none := by
  have h : (run (Scenario.config 2 1) Scenario.exitingTrace Submitter.init).any
      (fun s => decide
        ((Assoc.lookup Scenario.key s.scheduling_key_entries).isSome = true ∧
          (s.entry Scenario.key).total_tasks_in_flight = 1 ∧
          s.inFlightOfWorkers (s.entry Scenario.key) = 0 ∧
          step (Scenario.config 2 1) 0 (Event.PushReply 0 Status.OK Scenario.okReply false) s
            = none)) = true := by decide
  obtain ⟨s, hrun, hreach, hp⟩ := run_witness h
  simp only [decide_eq_true_eq] at hp
  obtain ⟨h1, h2, h3, h4⟩ := hp
  obtain ⟨e, he⟩ := Option.isSome_iff_exists.mp h1
  have hentry : s.entry Scenario.key = e := by simp [Submitter.entry, he]
  rw [hentry] at h2 h3
  refine ⟨s, e, hrun, hreach, he, h2, h3, ?_, h4⟩
  intro hsum
  have := hsum Scenario.key e he
  omega

/-- C8, the amended claim: for a key entry that satisfies the in-flight sum invariant and
has at least one active worker, `StealableTasks()` implies that some active worker has
`tasks_in_flight ≥ 2`. -/
theorem stealable_some_worker_has_two (s : Submitter) (e : SchedulingKeyEntry)
    (h_sum : e.total_tasks_in_flight = s.inFlightOfWorkers e)
    (h_workers : e.active_workers ≠ [])
    (h_stealable : e.StealableTasks = true) :
    ∃ a ∈ e.active_workers, 2 ≤ (s.lease a).tasks_in_flight := by
  by_contra hno
  push_neg at hno
  have hle := sum_map_le_length (fun a => (s.lease a).tasks_in_flight) e.active_workers
    (fun a ha => by have := hno a ha; show (s.lease a).tasks_in_flight ≤ 1; omega)
  have hpos : 0 < e.active_workers.length := List.length_pos.mpr h_workers
  simp only [SchedulingKeyEntry.StealableTasks, decide_eq_true_eq] at h_stealable
  simp only [Submitter.inFlightOfWorkers] at h_sum
  omega

theorem stealable_some_worker_has_two_witness :
    ∃ a ∈ Scenario.oneBusyEntry.active_workers,
      2 ≤ (Scenario.oneBusyWorker.lease a).tasks_in_flight :=
  stealable_some_worker_has_two Scenario.oneBusyWorker Scenario.oneBusyEntry
    (by decide) (by decide) (by decide)

/-- C8 as stated fails: in a reachable state the entry of the key satisfies the in-flight
sum invariant and worker 11 has two tasks in flight, yet `StealableTasks()` is false
(2 < 2 × 2). -/
theorem stealable_iff_some_worker_has_two_fails :
    ∃ s e, run (Scenario.config 4 1) Scenario.unevenTrace Submitter.init = some s ∧
      Reachable (Scenario.config 4 1) s ∧
      Assoc.lookup Scenario.key s.scheduling_key_entries = some e ∧
      e.total_tasks_in_flight = s.inFlightOfWorkers e ∧
      ¬ (e.StealableTasks = true ↔
          ∃ a ∈ e.active_workers, 2 ≤ (s.lease a).tasks_in_flight) := by
  have h : (run (Scenario.config 4 1) Scenario.unevenTrace Submitter.init).any
      (fun s => decide
        ((Assoc.lookup Scenario.key s.scheduling_key_entries).isSome = true ∧
          (s.entry Scenario.key).total_tasks_in_flight
            = s.inFlightOfWorkers (s.entry Scenario.key) ∧
          (s.entry Scenario.key).StealableTasks = false ∧
          Scenario.worker 11 ∈ (s.entry Scenario.key).active_workers ∧
          2 ≤ (s.lease (Scenario.worker 11)).tasks_in_flight)) = true := by decide
  obtain ⟨s, hrun, hreach, hp⟩ := run_witness h
  simp only [decide_eq_true_eq] at hp
  obtain ⟨h1, h2, h3, h4, h5⟩ := hp
  obtain ⟨e, he⟩ := Option.isSome_iff_exists.mp h1
  have hentry : s.entry Scenario.key = e := by simp [Submitter.entry, he]
  rw [hentry] at h2 h3 h4
  refine ⟨s, e, hrun, hreach, he, h2, ?_⟩
  intro hiff
  have := hiff.mpr ⟨Scenario.worker 11, h4, h5⟩
  rw [h3] at this
  exact Bool.noConfusion this

/-! ### When a victim is found -/

theorem scan_returns (thief : WorkerAddress) (l : List WorkerAddress) :
    ∀ (victim : WorkerAddress) (s : Submitter),
      (∀ c ∈ l, (Assoc.lookup c s.worker_to_lease_entry).isSome = true) →
      (Assoc.lookup victim s.worker_to_lease_entry).isSome = true →
      ∃ v', FindOptimalVictimForStealing.scan thief l victim s = some (s, v') := by
  induction l with
  | nil => intro victim s _ _; exact ⟨victim, rfl⟩
  | cons c rest ih =>
    intro victim s hall hv
    obtain ⟨lc, hlc⟩ := Option.isSome_iff_exists.mp (hall c (List.mem_cons_self _ _))
    obtain ⟨lv, hlv⟩ := Option.isSome_iff_exists.mp hv
    have htouch : s.touchLease c = s := Submitter.touchLease_of_lookup hlc
    have hrest : ∀ c' ∈ rest, (Assoc.lookup c' s.worker_to_lease_entry).isSome = true :=
      fun c' hc' => hall c' (List.mem_cons_of_mem _ hc')
    simp only [FindOptimalVictimForStealing.scan, htouch, hlv]
    split_ifs
    · exact ih c s hrest (hall c (List.mem_cons_self _ _))
    · exact ih victim s hrest hv

theorem scan_not_thief (thief : WorkerAddress) (l : List WorkerAddress) :
    ∀ (victim : WorkerAddress) (s s' : Submitter) (v' : WorkerAddress),
      FindOptimalVictimForStealing.scan thief l victim s = some (s', v') →
      (victim.worker_id ≠ thief.worker_id ∨ ∃ a ∈ l, a.worker_id ≠ thief.worker_id) →
      v'.worker_id ≠ thief.worker_id := by
  induction l with
  | nil =>
    intro victim s s' v' h hne
    simp only [FindOptimalVictimForStealing.scan, Option.some.injEq, Prod.mk.injEq] at h
    obtain ⟨-, rfl⟩ := h
    rcases hne with hne | ⟨a, ha, -⟩
    · exact hne
    · cases ha
  | cons c rest ih =>
    intro victim s s' v' h hne
    simp only [FindOptimalVictimForStealing.scan] at h
    split at h
    · cases h
    · split at h
      · rename_i hcond
        apply ih _ _ _ _ h
        rcases hne with hne | ⟨a, ha, hna⟩
        · rcases hcond with hc | ⟨-, hc⟩
          · exact absurd hc hne
          · exact Or.inl hc
        · rcases List.mem_cons.mp ha with rfl | ha
          · exact Or.inl hna
          · exact Or.inr ⟨a, ha, hna⟩
      · rename_i hcond
        apply ih _ _ _ _ h
        exact Or.inl (fun hc => hcond (Or.inl hc))

theorem le_sum_map_of_mem {α : Type} (f : α → Nat) {l : List α} {a : α} (h : a ∈ l) :
    f a ≤ (l.map f).sum := by
  induction l with
  | nil => cases h
  | cons b rest ih =>
    simp only [List.map_cons, List.sum_cons]
    rcases List.mem_cons.mp h with rfl | h
    · omega
    · have := ih h
      omega

theorem exists_ne_of_nodup {α : Type} {l : List α} (hn : l.Nodup) (hlen : 2 ≤ l.length)
    (x : α) : ∃ a ∈ l, a ≠ x := by
  match l, hn, hlen with
  | a :: b :: rest, hn, _ =>
    by_cases ha : a = x
    · refine ⟨b, by simp, ?_⟩
      intro hb
      have hab : a ≠ b := by
        intro h
        rw [List.nodup_cons] at hn
        exact hn.1 (h ▸ List.mem_cons_self _ _)
      exact hab (ha.trans hb.symm)
    · exact ⟨a, by simp, ha⟩

/-- C32: let the active workers of the key be pairwise distinct, let each of them have a
lease entry bound to the key, let the counter of the key be the sum of the tasks in flight
of its active workers, let no other active worker carry the worker id of the thief, and
let the thief have no task in flight (it may be an active worker of the key).  Then
`FindOptimalVictimForStealing` returns, and it returns true iff the key has at least two
active workers and `StealableTasks()` holds; the rejection of a victim with fewer than two
tasks in flight (line 222) is never the reason for false. -/
theorem victim_found_iff_stealable (key : SchedulingKey) (thief victim0 : WorkerAddress)
    (s : Submitter)
    (h_nodup : (s.entry key).active_workers.Nodup)
    (h_leased : ∀ a ∈ (s.entry key).active_workers,
      (Assoc.lookup a s.worker_to_lease_entry).map (fun l => l.scheduling_key) = some key)
    (h_sum : (s.entry key).total_tasks_in_flight = s.inFlightOfWorkers (s.entry key))
    (h_ids : ∀ a ∈ (s.entry key).active_workers, a.worker_id = thief.worker_id → a = thief)
    (h_zero : (s.lease thief).tasks_in_flight = 0) :
    ∃ s' found victim,
      FindOptimalVictimForStealing key thief victim0 s = some (s', found, victim) ∧
      (found = true ↔
        2 ≤ (s.entry key).active_workers.length ∧ (s.entry key).StealableTasks = true) := by
  unfold FindOptimalVictimForStealing
  simp only [Submitter.entry_touchEntry]
  by_cases hc : (s.entry key).active_workers.length ≤ 1 ∨ (s.entry key).StealableTasks = false
  · rw [if_pos hc]
    refine ⟨_, false, _, rfl, ?_⟩
    constructor
    · intro h
      cases h
    · rintro ⟨h1, h2⟩
      rcases hc with hc | hc
      · omega
      · rw [h2] at hc
        cases hc
  · rw [if_neg hc]
    have hlen : 2 ≤ (s.entry key).active_workers.length := by
      by_contra hx
      exact hc (Or.inl (by omega))
    have hst : (s.entry key).StealableTasks = true := by
      cases hx : (s.entry key).StealableTasks with
      | true => rfl
      | false => exact absurd (Or.inr hx) hc
    have hsome : ∀ a ∈ (s.entry key).active_workers,
        (Assoc.lookup a (s.touchEntry key).worker_to_lease_entry).isSome = true := by
      intro a ha
      have := h_leased a ha
      show (Assoc.lookup a s.worker_to_lease_entry).isSome = true
      cases hx : Assoc.lookup a s.worker_to_lease_entry with
      | none => rw [hx] at this; cases this
      | some l => rfl
    cases hact : (s.entry key).active_workers with
    | nil => rw [hact] at hlen; simp at hlen
    | cons first tl =>
      simp only []
      have hfirst : first ∈ (s.entry key).active_workers := by
        rw [hact]
        exact List.mem_cons_self _ _
      obtain ⟨v, hscan⟩ := scan_returns thief (first :: tl) first (s.touchEntry key)
        (by rw [← hact]; exact hsome) (hsome first hfirst)
      rw [hscan]
      simp only []
      obtain ⟨hl, hmem, hmax⟩ := scan_max _ _ _ _ _ _ hscan
      have hvmem : v ∈ (s.entry key).active_workers := by
        rw [hact]
        rcases hmem with hm | hm
        · exact hm ▸ List.mem_cons_self _ _
        · exact hm
      obtain ⟨other, hother, hne⟩ := exists_ne_of_nodup h_nodup hlen thief
      have hvne : v.worker_id ≠ thief.worker_id := by
        apply scan_not_thief _ _ _ _ _ _ hscan
        refine Or.inr ⟨other, by rw [← hact]; exact hother, ?_⟩
        exact fun hw => hne (h_ids other hother hw)
      have hvne' : ¬ (v = thief ∨ v.worker_id = thief.worker_id) := by
        rintro (hx | hx)
        · exact hvne (by rw [hx])
        · exact hvne hx
      rw [if_neg hvne']
      obtain ⟨lv, hlv⟩ := Option.isSome_iff_exists.mp (hsome v hvmem)
      have htouch : (s.touchEntry key).touchLease v = s.touchEntry key :=
        Submitter.touchLease_of_lookup hlv
      have hlease : (s.touchEntry key).lease v = s.lease v := rfl
      have hkey : (s.lease v).scheduling_key = key := by
        have := h_leased v hvmem
        have hlv' : Assoc.lookup v s.worker_to_lease_entry = some lv := hlv
        rw [hlv'] at this
        simp only [Option.map_some', Option.some.injEq] at this
        rw [Submitter.lease_of_lookup hlv']
        exact this
      have htotal : (s.lease v).tasks_in_flight ≤ (s.entry key).total_tasks_in_flight := by
        rw [h_sum]
        exact le_sum_map_of_mem (fun a => (s.lease a).tasks_in_flight) hvmem
      have htwo : 2 ≤ (s.lease v).tasks_in_flight := by
        by_contra hx
        have hall : ∀ a ∈ (s.entry key).active_workers, (s.lease a).tasks_in_flight ≤ 1 := by
          intro a ha
          by_cases hw : a.worker_id = thief.worker_id
          · rw [h_ids a ha hw, h_zero]
            omega
          · have := (hmax hvne).2 a (by rw [← hact]; exact ha) hw
            have h1 : ((s.touchEntry key).lease a).tasks_in_flight
                = (s.lease a).tasks_in_flight := rfl
            have h2 : ((s.touchEntry key).lease v).tasks_in_flight
                = (s.lease v).tasks_in_flight := rfl
            omega
        have hle := sum_map_le_length (fun a => (s.lease a).tasks_in_flight)
          (s.entry key).active_workers hall
        have hst' : (s.entry key).total_tasks_in_flight
            ≥ 2 * (s.entry key).active_workers.length := by
          have hst2 : 0 < (s.entry key).active_workers.length ∧
              2 * (s.entry key).active_workers.length
                ≤ (s.entry key).total_tasks_in_flight := by
            simpa [SchedulingKeyEntry.StealableTasks] using hst
          exact hst2.2
        rw [h_sum] at hst'
        have : s.inFlightOfWorkers (s.entry key)
            = ((s.entry key).active_workers.map
                (fun a => (s.lease a).tasks_in_flight)).sum := rfl
        omega
      simp only [htouch, hlease, Submitter.entry_touchEntry, hkey, ne_eq, not_true_eq_false,
        if_false]
      rw [if_neg (by omega), if_neg (by omega)]
      exact ⟨_, true, v, rfl, by simp [hlen, hst, ← hact]⟩

theorem victim_found_iff_stealable_witness :
    Scenario.worker 12 ∈ (Scenario.secondGranted.entry Scenario.key).active_workers ∧
      ∃ s' found victim,
        FindOptimalVictimForStealing Scenario.key (Scenario.worker 12) WorkerAddress.empty
          Scenario.secondGranted = some (s', found, victim) ∧
        (found = true ↔
          2 ≤ (Scenario.secondGranted.entry Scenario.key).active_workers.length ∧
            (Scenario.secondGranted.entry Scenario.key).StealableTasks = true) :=
  ⟨by decide,
    victim_found_iff_stealable Scenario.key (Scenario.worker 12) WorkerAddress.empty
      Scenario.secondGranted (by decide) (by decide) (by decide) (by decide) (by decide)⟩

end Ray
